import Mathlib

/-!
# read_table.h : a shallow embedding of the field reader

Modelling conventions.

* A byte (`char`) is a natural number; the line buffer `buf` is the list of the
  bytes `getline` stored, and a read at an index past the stored bytes yields
  `0` (the terminating NUL that `getline` writes at index `line_len`).
* A `FILE*` is `Option (List Nat)`: the null pointer, or the bytes that are
  still unread.  `getline` returns the bytes up to and including the next
  newline, and fails when no byte is left.
* `size_t` and `uint64_t` counters (`pos`, `col`, `line`, `line_len`) are natural
  numbers; `int` results are `0` (success) and `1` (failure) as in the source.
* `long` and `unsigned long` are 64 bits wide (LP64, the platforms that have
  POSIX `getline`), so the `LONG_MAX >= INT64_MAX` and `ULONG_MAX >= UINT64_MAX`
  branches are the ones taken.  The other branch of `read_table_uint64_limits`,
  compiled in where `unsigned long` is narrower, is `read_table_uint64_limits_ull`.
* `strtol` / `strtoul` are modelled after ISO C 7.22.1.4 on the C string that
  starts at `buf + pos`; `errno` is the value they leave after `errno = 0`.
* an output parameter `*i` is passed in (its value before the call) and
  returned (its value after the call).
-/

namespace ReadTable

/-- The error codes of `enum read_table_errors`. -/
inductive read_table_errors
  | T_OK | T_EOF | T_EOL | T_MISSING | T_FORMAT | T_OVERFLOW | T_NAN | T_TYPE
  | T_COPIED | T_ERROR_FOPEN | T_READ_ERROR
  deriving DecidableEq, Repr

open read_table_errors

/-- The value of `errno` after a conversion that was entered with `errno = 0`. -/
inductive Errno
  | E0 | EINVAL | ERANGE
  deriving DecidableEq, Repr

/-- The struct `read_table_s`. -/
structure read_table where
  f : Option (List Nat)
  buf : List Nat
  fn : Option String
  buf_size : Nat
  line_len : Nat
  line : Nat
  pos : Nat
  col : Nat
  base : Int
  last_error : read_table_errors
  delim : Nat
  comment : Nat
  flags : Nat
  deriving DecidableEq, Repr

def READ_TABLE_ALLOW_NAN_INF : Nat := 1
def READ_TABLE_CLOSE_FILE : Nat := 2

/-- The function `read_table_init`. -/
def read_table_init (f_ : Option (List Nat)) : read_table :=
  { f := f_, buf := [], buf_size := 0, line_len := 0, line := 0, pos := 0, col := 0,
    last_error := T_OK, delim := 0, comment := 0, fn := none, base := 10,
    flags := READ_TABLE_ALLOW_NAN_INF }

/-- The bytes of a string literal, for writing inputs. -/
def bytes (s : String) : List Nat := s.toList.map Char.toNat

/-- The byte `buf[i]`; index `line_len` holds the terminating NUL. -/
def bufAt (r : read_table) (i : Nat) : Nat := r.buf.getD i 0

/-- The test `c == ' ' || c == '\t'`. -/
def is_blank (c : Nat) : Bool := c == 32 || c == 9

/-- The test `r->comment && c == r->comment`. -/
def is_comment (r : read_table) (c : Nat) : Bool := r.comment != 0 && c == r.comment

/-- POSIX `getline` on the unread bytes: the next line with its newline, and the
bytes left; `none` is the return value `-1`. -/
def splitLine : List Nat → List Nat × List Nat
  | [] => ([], [])
  | c :: cs => if c = 10 then ([c], cs) else ((splitLine cs).1.cons c, (splitLine cs).2)

def getline (s : List Nat) : Option (List Nat × List Nat) :=
  match s with
  | [] => none
  | _ :: _ => some (splitLine s)

/-- The loop `for(; pos < line_len; pos++) if(stop(buf[pos])) break;` run for at
most `n` iterations; `scan` starts it with the `line_len - pos` iterations it can
make. -/
def scanLoop (stop : Nat → Bool) (buf : List Nat) : Nat → Nat → Nat
  | 0, pos => pos
  | n + 1, pos => if stop (buf.getD pos 0) then pos else scanLoop stop buf n (pos + 1)

def scan (stop : Nat → Bool) (r : read_table) (pos : Nat) : Nat :=
  scanLoop stop r.buf (r.line_len - pos) pos

/-- The loop of `read_table_line_skip`; `fuel` bounds the number of lines read
(every iteration consumes at least one byte of the stream). -/
def line_skip_loop (skip : Bool) : Nat → read_table → List Nat → Nat × read_table
  | 0, r, _ => (1, r)
  | fuel + 1, r, s =>
    match getline s with
    | none => (1, { r with f := some [], last_error := T_EOF, line_len := 0 })
    | some (l, rest) =>
      let r1 := { r with f := some rest, buf := l, buf_size := max r.buf_size (l.length + 1),
                         line_len := l.length, line := r.line + 1, pos := 0 }
      if skip then
        let r2 := { r1 with pos := scan (fun c => !is_blank c) r1 r1.pos }
        if r2.comment != 0 && bufAt r2 r2.pos == r2.comment then line_skip_loop skip fuel r2 rest
        else if r2.pos < r2.line_len then (0, { r2 with col := 0, last_error := T_OK })
        else line_skip_loop skip fuel r2 rest
      else (0, { r1 with col := 0, last_error := T_OK })

/-- The function `read_table_line_skip`. -/
def read_table_line_skip (r : read_table) (skip : Bool) : Nat × read_table :=
  if r.last_error = T_EOF ∨ r.last_error = T_COPIED ∨ r.last_error = T_ERROR_FOPEN then (1, r)
  else match r.f with
    | none => (1, { r with last_error := T_READ_ERROR })
    | some s => line_skip_loop skip (s.length + 1) r s

/-- The function `read_table_line`. -/
def read_table_line (r : read_table) : Nat × read_table := read_table_line_skip r true

/-- The function `read_table_pre_check`. -/
def read_table_pre_check (r : read_table) : Nat × read_table :=
  if r.last_error = T_EOF ∨ r.last_error = T_EOL ∨ r.last_error = T_READ_ERROR
      ∨ r.last_error = T_ERROR_FOPEN then (1, r)
  else
    let r1 := { r with pos := scan (fun c => !is_blank c) r r.pos }
    if r1.pos = r1.line_len ∨ bufAt r1 r1.pos = 10 ∨ is_comment r1 (bufAt r1 r1.pos) then
      (1, { r1 with last_error := T_EOL })
    else if r1.delim ≠ 0 ∧ bufAt r1 r1.pos = r1.delim then
      (1, { r1 with last_error := T_MISSING })
    else (0, r1)

/-- The blank-skipping loop of `read_table_post_check`, which also records in
`have_blank` whether it stepped over a blank. -/
def postLoop (buf : List Nat) : Nat → Nat → Bool → Nat × Bool
  | 0, pos, hb => (pos, hb)
  | n + 1, pos, hb => if !is_blank (buf.getD pos 0) then (pos, hb) else postLoop buf n (pos + 1) true

/-- The function `read_table_post_check`; `c2` is the index in `buf` at which
the conversion stopped and `errno` what the conversion left. -/
def read_table_post_check (r : read_table) (errno : Errno) (c2 : Nat) : Nat × read_table :=
  if errno = Errno.EINVAL ∨ c2 = r.pos then (1, { r with last_error := T_FORMAT })
  else if errno = Errno.ERANGE then (1, { r with last_error := T_OVERFLOW })
  else
    let lp := postLoop r.buf (r.line_len - c2) c2 false
    let r1 := { r with pos := lp.1, last_error := T_OK }
    if r1.pos = r1.line_len ∨ bufAt r1 r1.pos = 10 ∨ is_comment r1 (bufAt r1 r1.pos) then (0, r1)
    else if r1.delim = 0 ∧ lp.2 = false then (1, { r1 with last_error := T_FORMAT })
    else if r1.delim ≠ 0 then
      if bufAt r1 r1.pos ≠ r1.delim then (1, { r1 with last_error := T_FORMAT })
      else (0, { r1 with pos := r1.pos + 1, col := r1.col + 1 })
    else (0, { r1 with col := r1.col + 1 })

/-- The C-locale `isspace`. -/
def isspace (c : Nat) : Bool := c == 32 || (9 ≤ c && c ≤ 13)

/-- The C-locale `isalnum`. -/
def isalnum (c : Nat) : Bool :=
  (48 ≤ c && c ≤ 57) || (65 ≤ c && c ≤ 90) || (97 ≤ c && c ≤ 122)

/-- The value of a byte as a digit: `0-9`, then letters of either case from 10. -/
def digitVal (c : Nat) : Option Nat :=
  if 48 ≤ c ∧ c ≤ 57 then some (c - 48)
  else if 97 ≤ c ∧ c ≤ 122 then some (c - 97 + 10)
  else if 65 ≤ c ∧ c ≤ 90 then some (c - 65 + 10)
  else none

/-- The C string that starts at `buf + pos`: the bytes before the next NUL. -/
def cstr (r : read_table) : List Nat := (r.buf.drop r.pos).takeWhile (fun c => c != 0)

/-- The longest run of digits of `base`: the number it denotes and its length. -/
def digitsLoop (base : Nat) : List Nat → Nat → Nat → Nat × Nat
  | [], acc, k => (acc, k)
  | c :: cs, acc, k =>
    match digitVal c with
    | some d => if d < base then digitsLoop base cs (acc * base + d) (k + 1) else (acc, k)
    | none => (acc, k)

/-- What the `strto*` family recognises: the sign, the exact magnitude of the
digits, and the number of bytes up to the end of the subject sequence
(`0` when no conversion is performed). -/
structure Scanned where
  neg : Bool
  mag : Nat
  consumed : Nat
  deriving DecidableEq, Repr

/-- The subject sequence of ISO C 7.22.1.4: white space, an optional sign, an
optional `0x` when the base is 16 or 0, then digits of the base.  `none` is an
unsupported base (`EINVAL`). -/
def strto_scan (s : List Nat) (base : Int) : Option Scanned :=
  if base < 0 ∨ base = 1 ∨ 36 < base then none
  else
    let s1 := s.dropWhile isspace
    let ws := s.length - s1.length
    let neg := s1.head? == some 45
    let sg := if s1.head? = some 45 ∨ s1.head? = some 43 then 1 else 0
    let s2 := s1.drop sg
    let hasX := s2.head? == some 48 && (s2.tail.head? == some 120 || s2.tail.head? == some 88)
    let b : Nat :=
      if base = 0 then (if hasX then 16 else if s2.head? = some 48 then 8 else 10)
      else base.toNat
    if (base = 0 ∨ base = 16) ∧ hasX = true then
      let d := digitsLoop 16 (s2.drop 2) 0 0
      if d.2 = 0 then some ⟨neg, 0, ws + sg + 1⟩ else some ⟨neg, d.1, ws + sg + 2 + d.2⟩
    else
      let d := digitsLoop b s2 0 0
      if d.2 = 0 then some ⟨neg, 0, 0⟩ else some ⟨neg, d.1, ws + sg + d.2⟩

def LONG_MAX : Int := 2 ^ 63 - 1
def LONG_MIN : Int := -(2 ^ 63)
def ULONG_MAX : Nat := 2 ^ 64 - 1

/-- The library function `strtol` with a 64-bit `long`: the result, the number of
bytes consumed (`endptr - nptr`) and `errno`. -/
def strtol (s : List Nat) (base : Int) : Int × Nat × Errno :=
  match strto_scan s base with
  | none => (0, 0, Errno.EINVAL)
  | some sc =>
    if sc.neg then
      if (2 : Int) ^ 63 < sc.mag then (LONG_MIN, sc.consumed, Errno.ERANGE)
      else (-(sc.mag : Int), sc.consumed, Errno.E0)
    else
      if LONG_MAX < sc.mag then (LONG_MAX, sc.consumed, Errno.ERANGE)
      else ((sc.mag : Int), sc.consumed, Errno.E0)

/-- The library function `strtoul` with a 64-bit `unsigned long`; a negated
input is negated in the unsigned type. -/
def strtoul (s : List Nat) (base : Int) : Nat × Nat × Errno :=
  match strto_scan s base with
  | none => (0, 0, Errno.EINVAL)
  | some sc =>
    if ULONG_MAX < sc.mag then (ULONG_MAX, sc.consumed, Errno.ERANGE)
    else if sc.neg then ((2 ^ 64 - sc.mag) % 2 ^ 64, sc.consumed, Errno.E0)
    else (sc.mag, sc.consumed, Errno.E0)

/-- Conversion of an integer to the signed type of `w` bits. -/
def to_signed (w : Nat) (x : Int) : Int := (x + 2 ^ (w - 1)) % 2 ^ w - 2 ^ (w - 1)

/-- Conversion of a natural number to the unsigned type of `w` bits. -/
def to_unsigned (w : Nat) (x : Nat) : Nat := x % 2 ^ w

/-- The function `read_table_int32_limits`. -/
def read_table_int32_limits (r : read_table) (i : Int) (min max : Int) :
    Nat × read_table × Int :=
  let pc := read_table_pre_check r
  if pc.1 ≠ 0 then (1, pc.2, i)
  else
    let r1 := pc.2
    let cv := strtol (cstr r1) r1.base
    let res := cv.1
    if res > max ∨ res < min then
      let i1 := if res > max then max else i
      let i2 := if res < min then min else i1
      (1, { r1 with last_error := T_OVERFLOW }, i2)
    else
      let pk := read_table_post_check r1 cv.2.2 (r1.pos + cv.2.1)
      (pk.1, pk.2, to_signed 32 res)

def INT32_MIN : Int := -(2 ^ 31)
def INT32_MAX : Int := 2 ^ 31 - 1
def INT64_MIN : Int := -(2 ^ 63)
def INT64_MAX : Int := 2 ^ 63 - 1
def UINT32_MAX : Nat := 2 ^ 32 - 1
def UINT64_MAX : Nat := 2 ^ 64 - 1
def INT16_MIN : Int := -(2 ^ 15)
def INT16_MAX : Int := 2 ^ 15 - 1
def UINT16_MAX : Nat := 2 ^ 16 - 1

/-- The function `read_table_int32`. -/
def read_table_int32 (r : read_table) (i : Int) : Nat × read_table × Int :=
  read_table_int32_limits r i INT32_MIN INT32_MAX

/-- The function `read_table_int64_limits` (the `long` branch). -/
def read_table_int64_limits (r : read_table) (i : Int) (min max : Int) :
    Nat × read_table × Int :=
  let pc := read_table_pre_check r
  if pc.1 ≠ 0 then (1, pc.2, i)
  else
    let r1 := pc.2
    let cv := strtol (cstr r1) r1.base
    let res := cv.1
    if res > max ∨ res < min then
      let r2 := { r1 with last_error := T_OVERFLOW }
      let i1 := if res > max then max else i
      let i2 := if res < min then min else i1
      (1, r2, i2)
    else
      let pk := read_table_post_check r1 cv.2.2 (r1.pos + cv.2.1)
      (pk.1, pk.2, to_signed 64 res)

/-- The function `read_table_int64`. -/
def read_table_int64 (r : read_table) (i : Int) : Nat × read_table × Int :=
  read_table_int64_limits r i INT64_MIN INT64_MAX

/-- The function `read_table_uint32_limits`. -/
def read_table_uint32_limits (r : read_table) (i : Nat) (min max : Nat) :
    Nat × read_table × Nat :=
  let pc := read_table_pre_check r
  if pc.1 ≠ 0 then (1, pc.2, i)
  else
    let r1 := pc.2
    if !(isalnum (bufAt r1 r1.pos) || bufAt r1 r1.pos == 43) then
      if bufAt r1 r1.pos = 45 then (1, { r1 with last_error := T_OVERFLOW }, 0)
      else (1, { r1 with last_error := T_FORMAT }, 0)
    else
      let cv := strtoul (cstr r1) r1.base
      let res := cv.1
      if res > max ∨ res < min then
        let r2 := { r1 with last_error := T_OVERFLOW }
        let i1 := if res > max then max else i
        let i2 := if res < min then min else i1
        (1, r2, i2)
      else
        let pk := read_table_post_check r1 cv.2.2 (r1.pos + cv.2.1)
        (pk.1, pk.2, to_unsigned 32 res)

/-- The function `read_table_uint32`. -/
def read_table_uint32 (r : read_table) (i : Nat) : Nat × read_table × Nat :=
  read_table_uint32_limits r i 0 UINT32_MAX

/-- The function `read_table_uint64_limits` (the `unsigned long` branch). -/
def read_table_uint64_limits (r : read_table) (i : Nat) (min max : Nat) :
    Nat × read_table × Nat :=
  let pc := read_table_pre_check r
  if pc.1 ≠ 0 then (1, pc.2, i)
  else
    let r1 := pc.2
    if !(isalnum (bufAt r1 r1.pos) || bufAt r1 r1.pos == 43) then
      if bufAt r1 r1.pos = 45 then (1, { r1 with last_error := T_OVERFLOW }, 0)
      else (1, { r1 with last_error := T_FORMAT }, 0)
    else
      let cv := strtoul (cstr r1) r1.base
      let res := cv.1
      if res > max ∨ res < min then
        let r2 := { r1 with last_error := T_OVERFLOW }
        let i1 := if res > max then max else i
        let i2 := if res < min then min else i1
        (1, r2, i2)
      else
        let pk := read_table_post_check r1 cv.2.2 (r1.pos + cv.2.1)
        (pk.1, pk.2, to_unsigned 64 res)

/-- The function `read_table_uint64`. -/
def read_table_uint64 (r : read_table) (i : Nat) : Nat × read_table × Nat :=
  read_table_uint64_limits r i 0 UINT64_MAX

/-- The library function `strtoull`; `unsigned long long` is 64 bits wide, as
`unsigned long` is in `strtoul`. -/
def strtoull (s : List Nat) (base : Int) : Nat × Nat × Errno :=
  match strto_scan s base with
  | none => (0, 0, Errno.EINVAL)
  | some sc =>
    if UINT64_MAX < sc.mag then (UINT64_MAX, sc.consumed, Errno.ERANGE)
    else if sc.neg then ((2 ^ 64 - sc.mag) % 2 ^ 64, sc.consumed, Errno.E0)
    else (sc.mag, sc.consumed, Errno.E0)

/-- The function `read_table_uint64_limits` where `ULONG_MAX < UINT64_MAX` (the
`unsigned long long` branch); `res` is the indeterminate value of the local
`unsigned long res`, which this branch never assigns. -/
def read_table_uint64_limits_ull (res : Nat) (r : read_table) (i : Nat) (min max : Nat) :
    Nat × read_table × Nat :=
  let pc := read_table_pre_check r
  if pc.1 ≠ 0 then (1, pc.2, i)
  else
    let r1 := pc.2
    if !(isalnum (bufAt r1 r1.pos) || bufAt r1 r1.pos == 43) then
      if bufAt r1 r1.pos = 45 then (1, { r1 with last_error := T_OVERFLOW }, 0)
      else (1, { r1 with last_error := T_FORMAT }, 0)
    else
      let cv := strtoull (cstr r1) r1.base
      let res2 := cv.1
      if res2 > max ∨ res < min then
        let r2 := { r1 with last_error := T_OVERFLOW }
        let i1 := if res > max then max else i
        let i2 := if res < min then min else i1
        (1, r2, i2)
      else
        let pk := read_table_post_check r1 cv.2.2 (r1.pos + cv.2.1)
        (pk.1, pk.2, to_unsigned 64 res2)

/-- The function `read_table_int16_limits`; `i2` is the indeterminate value the
uninitialised local `i2` holds before the 32-bit read. -/
def read_table_int16_limits (r : read_table) (i2 : Int) (min max : Int) :
    Nat × read_table × Int :=
  let rd := read_table_int32_limits r i2 min max
  (rd.1, rd.2.1, to_signed 16 rd.2.2)

/-- The function `read_table_int16`. -/
def read_table_int16 (r : read_table) (i2 : Int) : Nat × read_table × Int :=
  read_table_int16_limits r i2 INT16_MIN INT16_MAX

/-- The function `read_table_uint16_limits`; `i2` as in `read_table_int16_limits`. -/
def read_table_uint16_limits (r : read_table) (i2 : Nat) (min max : Nat) :
    Nat × read_table × Nat :=
  let rd := read_table_uint32_limits r i2 min max
  (rd.1, rd.2.1, to_unsigned 16 rd.2.2)

/-- The function `read_table_uint16`. -/
def read_table_uint16 (r : read_table) (i2 : Nat) : Nat × read_table × Nat :=
  read_table_uint16_limits r i2 0 UINT16_MAX

/-- The function `read_table_skip`. -/
def read_table_skip (r : read_table) : Nat × read_table :=
  if r.delim ≠ 0 then
    if r.pos = r.line_len then (1, { r with last_error := T_EOL })
    else
      let r1 := { r with pos := scan (fun c => c == r.delim || c == 10 || is_comment r c) r r.pos }
      let r2 := if r1.pos < r1.line_len ∧ bufAt r1 r1.pos = r1.delim
                then { r1 with pos := r1.pos + 1 } else r1
      (0, { r2 with col := r2.col + 1, last_error := T_OK })
  else
    let r1 := { r with pos := scan (fun c => !is_blank c) r r.pos }
    if r1.pos = r1.line_len ∨ bufAt r1 r1.pos = 10 ∨ is_comment r1 (bufAt r1 r1.pos) then
      (1, { r1 with last_error := T_EOL })
    else
      let r2 := { r1 with pos := scan (fun c => is_blank c || c == 10 || is_comment r1 c) r1 r1.pos }
      (0, { r2 with col := r2.col + 1, last_error := T_OK })

/-- The function `read_table_string`.  The view `(*str, *len)` is the pair of
the offset of `*str` in `buf` and the length. -/
def read_table_string (r : read_table) (sl : Nat × Nat) : Nat × read_table × (Nat × Nat) :=
  if r.delim ≠ 0 then
    if r.last_error = T_EOF ∨ r.last_error = T_EOL ∨ r.last_error = T_READ_ERROR
        ∨ r.last_error = T_ERROR_FOPEN then (1, r, sl)
    else
      let p1 := r.pos
      let r1 := { r with pos := scan (fun c => c == r.delim || c == 10 || is_comment r c) r r.pos }
      let out := (p1, r1.pos - p1)
      if r1.pos < r1.line_len ∧ bufAt r1 r1.pos = r1.delim then (0, { r1 with pos := r1.pos + 1 }, out)
      else (0, { r1 with last_error := T_EOL }, out)
  else
    let pc := read_table_pre_check r
    if pc.1 ≠ 0 then (1, pc.2, sl)
    else
      let r1 := pc.2
      let p1 := r1.pos
      let r2 := { r1 with pos := scan (fun c => is_blank c || c == 10 || is_comment r1 c) r1 r1.pos }
      (0, r2, (p1, r2.pos - p1))

/-- The bytes a view `(offset, length)` of the line buffer denotes. -/
def view (r : read_table) (sl : Nat × Nat) : List Nat := (r.buf.drop sl.1).take sl.2

/-- A `double`: NaN, an infinity, or a finite value (a rational number). -/
inductive Dbl
  | nan
  | inf (neg : Bool)
  | fin (q : ℚ)
  deriving DecidableEq, Repr

def _isnan : Dbl → Bool
  | Dbl.nan => true
  | _ => false

def _isinf : Dbl → Bool
  | Dbl.inf _ => true
  | _ => false

/-- The comparison `a < b` of two doubles; false when either is NaN. -/
def Dbl.lt : Dbl → Dbl → Bool
  | Dbl.nan, _ => false
  | _, Dbl.nan => false
  | Dbl.inf true, Dbl.inf true => false
  | Dbl.inf true, _ => true
  | _, Dbl.inf true => false
  | Dbl.inf false, _ => false
  | Dbl.fin _, Dbl.inf false => true
  | Dbl.fin a, Dbl.fin b => decide (a < b)

/-- What the embedding leaves open: the library function `strtod` (result,
bytes consumed, `errno`), whose rounding is not modelled, and the indeterminate
values of the uninitialised locals `i2` of the 16-bit reads. -/
structure Env where
  strtod : List Nat → Dbl × Nat × Errno
  i2_int16 : Int
  i2_uint16 : Nat

/-- The function `read_table_double`. -/
def read_table_double (env : Env) (r : read_table) (d : Dbl) : Nat × read_table × Dbl :=
  let pc := read_table_pre_check r
  if pc.1 ≠ 0 then (1, pc.2, d)
  else
    let r1 := pc.2
    let cv := env.strtod (cstr r1)
    let pk := read_table_post_check r1 cv.2.2 (r1.pos + cv.2.1)
    if pk.1 ≠ 0 then (1, pk.2, cv.1)
    else if pk.2.flags &&& READ_TABLE_ALLOW_NAN_INF = 0 then
      if _isnan cv.1 || _isinf cv.1 then (1, { pk.2 with last_error := T_NAN }, cv.1)
      else (0, pk.2, cv.1)
    else (0, pk.2, cv.1)

/-- The function `read_table_double_limits`. -/
def read_table_double_limits (env : Env) (r : read_table) (d : Dbl) (min max : Dbl) :
    Nat × read_table × Dbl :=
  let pc := read_table_pre_check r
  if pc.1 ≠ 0 then (1, pc.2, d)
  else
    let r1 := pc.2
    let cv := env.strtod (cstr r1)
    let pk := read_table_post_check r1 cv.2.2 (r1.pos + cv.2.1)
    if pk.1 ≠ 0 then (1, pk.2, cv.1)
    else if _isnan cv.1 then (1, { pk.2 with last_error := T_NAN }, cv.1)
    else if Dbl.lt max cv.1 || Dbl.lt cv.1 min then (1, { pk.2 with last_error := T_OVERFLOW }, cv.1)
    else (0, pk.2, cv.1)

/-- The argument of one `read_table_next` call: the overload that is selected,
with the current value of the variable it writes to (and its bounds). -/
inductive Field
  | int32 (val : Int)
  | uint32 (val : Nat)
  | int64 (val : Int)
  | uint64 (val : Nat)
  | int16 (val : Int)
  | uint16 (val : Nat)
  | double (val : Dbl)
  | pair_double (val : Dbl × Dbl)
  | string_view (val : Nat × Nat)
  | string (val : List Nat)
  | string_view_custom (val : Nat × Nat)
  | skip
  | bounds_int32 (val min max : Int)
  | bounds_uint32 (val min max : Nat)
  | bounds_int64 (val min max : Int)
  | bounds_uint64 (val min max : Nat)
  | bounds_int16 (val min max : Int)
  | bounds_uint16 (val min max : Nat)
  | bounds_double (val min max : Dbl)
  | bounds_pair_double (val min max : Dbl × Dbl)
  | other
  | bounds_other
  deriving DecidableEq, Repr

/-- The overload set `read_table_next`. -/
def read_table_next (env : Env) (r : read_table) : Field → Nat × read_table × Field
  | Field.int32 v => let x := read_table_int32 r v; (x.1, x.2.1, Field.int32 x.2.2)
  | Field.uint32 v => let x := read_table_uint32 r v; (x.1, x.2.1, Field.uint32 x.2.2)
  | Field.int64 v => let x := read_table_int64 r v; (x.1, x.2.1, Field.int64 x.2.2)
  | Field.uint64 v => let x := read_table_uint64 r v; (x.1, x.2.1, Field.uint64 x.2.2)
  | Field.int16 _ =>
    let x := read_table_int16 r env.i2_int16; (x.1, x.2.1, Field.int16 x.2.2)
  | Field.uint16 _ =>
    let x := read_table_uint16 r env.i2_uint16; (x.1, x.2.1, Field.uint16 x.2.2)
  | Field.double v => let x := read_table_double env r v; (x.1, x.2.1, Field.double x.2.2)
  | Field.pair_double p =>
    let x := read_table_double env r p.1
    if x.1 ≠ 0 then (1, x.2.1, Field.pair_double p)
    else
      let y := read_table_double env x.2.1 p.2
      if y.1 ≠ 0 then (1, y.2.1, Field.pair_double p)
      else (0, y.2.1, Field.pair_double (x.2.2, y.2.2))
  | Field.string_view v =>
    let x := read_table_string r v
    if x.1 ≠ 0 then (1, x.2.1, Field.string_view v) else (0, x.2.1, Field.string_view x.2.2)
  | Field.string v =>
    let x := read_table_string r (0, 0)
    if x.1 ≠ 0 then (1, x.2.1, Field.string v) else (0, x.2.1, Field.string (view x.2.1 x.2.2))
  | Field.string_view_custom v =>
    let x := read_table_string r v
    if x.1 ≠ 0 then (1, x.2.1, Field.string_view_custom v)
    else (0, x.2.1, Field.string_view_custom x.2.2)
  | Field.skip => let x := read_table_skip r; (x.1, x.2, Field.skip)
  | Field.bounds_int32 v mn mx =>
    let x := read_table_int32_limits r v mn mx; (x.1, x.2.1, Field.bounds_int32 x.2.2 mn mx)
  | Field.bounds_uint32 v mn mx =>
    let x := read_table_uint32_limits r v mn mx; (x.1, x.2.1, Field.bounds_uint32 x.2.2 mn mx)
  | Field.bounds_int64 v mn mx =>
    let x := read_table_int64_limits r v mn mx; (x.1, x.2.1, Field.bounds_int64 x.2.2 mn mx)
  | Field.bounds_uint64 v mn mx =>
    let x := read_table_uint64_limits r v mn mx; (x.1, x.2.1, Field.bounds_uint64 x.2.2 mn mx)
  | Field.bounds_int16 _ mn mx =>
    let x := read_table_int16_limits r env.i2_int16 mn mx
    (x.1, x.2.1, Field.bounds_int16 x.2.2 mn mx)
  | Field.bounds_uint16 _ mn mx =>
    let x := read_table_uint16_limits r env.i2_uint16 mn mx
    (x.1, x.2.1, Field.bounds_uint16 x.2.2 mn mx)
  | Field.bounds_double v mn mx =>
    let x := read_table_double_limits env r v mn mx
    (x.1, x.2.1, Field.bounds_double x.2.2 mn mx)
  | Field.bounds_pair_double p mn mx =>
    let x := read_table_double_limits env r p.1 mn.1 mx.1
    if x.1 ≠ 0 then (1, x.2.1, Field.bounds_pair_double p mn mx)
    else
      let y := read_table_double_limits env x.2.1 p.2 mn.2 mx.2
      if y.1 ≠ 0 then (1, y.2.1, Field.bounds_pair_double p mn mx)
      else (0, y.2.1, Field.bounds_pair_double (x.2.2, y.2.2) mn mx)
  | Field.other => (1, { r with last_error := T_TYPE }, Field.other)
  | Field.bounds_other => (1, { r with last_error := T_TYPE }, Field.bounds_other)

/-- The variadic function `read_table_multiple`: the arguments are a list, and
the list returned holds their values after the call. -/
def read_table_multiple (env : Env) (r : read_table) : List Field → Nat × read_table × List Field
  | [] => (0, r, [])
  | val :: vals =>
    let x := read_table_next env r val
    if x.1 ≠ 0 then (1, x.2.1, x.2.2 :: vals)
    else
      let y := read_table_multiple env x.2.1 vals
      (y.1, y.2.1, x.2.2 :: y.2.2)

/-- The function `read_table_set_delim`. -/
def read_table_set_delim (r : read_table) (delim : Nat) : read_table := { r with delim := delim }

/-- The function `read_table_set_comment`. -/
def read_table_set_comment (r : read_table) (comment : Nat) : read_table :=
  { r with comment := comment }

/-- The function `read_table_get_last_error`. -/
def read_table_get_last_error (r : read_table) : read_table_errors := r.last_error

/-- The table `error_desc`. -/
def error_desc : List String :=
  ["No error", "End of file", "Unexpected end of line", "Missing value", "Invalid value",
   "Overflow or underflow", "NaN or infinity read", "Unknown conversion requested",
   "Invalidated instance", "Error opening file", "Error reading input"]

/-- The function `get_error_desc`. -/
def get_error_desc (err : read_table_errors) : String :=
  match err with
  | T_OK => error_desc.getD 0 ""
  | T_EOF => error_desc.getD 1 ""
  | T_EOL => error_desc.getD 2 ""
  | T_MISSING => error_desc.getD 3 ""
  | T_FORMAT => error_desc.getD 4 ""
  | T_OVERFLOW => error_desc.getD 5 ""
  | T_NAN => error_desc.getD 6 ""
  | T_TYPE => error_desc.getD 7 ""
  | T_COPIED => error_desc.getD 8 ""
  | T_ERROR_FOPEN => error_desc.getD 9 ""
  | T_READ_ERROR => error_desc.getD 10 ""

/-- The function `read_table_get_last_error_str`. -/
def read_table_get_last_error_str (r : read_table) : String := get_error_desc r.last_error

/-- The function `read_table_get_line`. -/
def read_table_get_line (r : read_table) : Nat := r.line

/-- The function `read_table_get_pos`. -/
def read_table_get_pos (r : read_table) : Nat := r.pos

/-- The function `read_table_get_col`. -/
def read_table_get_col (r : read_table) : Nat := r.col

namespace read_table2

/-- The constructor `read_table2(FILE* f_)`. -/
def mk (f_ : Option (List Nat)) : read_table := read_table_init f_

/-- The method `read_table2::read_line`. -/
def read_line (r : read_table) (skip : Bool) : Bool × read_table :=
  if skip then ((read_table_line_skip r true).1 == 0, (read_table_line_skip r true).2)
  else ((read_table_line_skip r false).1 == 0, (read_table_line_skip r false).2)

/-- The method `read_table2::read_next`. -/
def read_next (env : Env) (r : read_table) (val : Field) : Bool × read_table × Field :=
  ((read_table_next env r val).1 == 0, (read_table_next env r val).2)

/-- The method `read_table2::read`. -/
def read (env : Env) (r : read_table) (val : Field) (vals : List Field) :
    Bool × read_table × List Field :=
  ((read_table_multiple env r (val :: vals)).1 == 0, (read_table_multiple env r (val :: vals)).2)

/-- The constructor `read_table2(const char* fn_)`; `f_` is what `fopen`
returned. -/
def mk_fn (fn_ : String) (f_ : Option (List Nat)) : read_table :=
  let r := read_table_init f_
  let r1 := match f_ with
    | none => { r with last_error := T_ERROR_FOPEN }
    | some _ => { r with flags := r.flags ||| READ_TABLE_CLOSE_FILE }
  { r1 with fn := some fn_ }

/-- The copy constructor `read_table2(read_table2& rt_)`: the new instance, a
member-wise copy of `rt_`, and `rt_` as the constructor leaves it.  In the code
both instances hold the same `FILE*`; here each holds the unread bytes as a
value of its own, so a read through one does not take bytes from the other. -/
def copy (rt_ : read_table) : read_table × read_table :=
  (rt_, { rt_ with buf := [], buf_size := 0, pos := 0, line_len := 0, col := 0,
                   last_error := T_COPIED })

/-- The method `read_table2::read_skip`. -/
def read_skip (r : read_table) : Bool × read_table :=
  ((read_table_skip r).1 == 0, (read_table_skip r).2)

/-- The method `read_table2::get_last_error`. -/
def get_last_error (r : read_table) : read_table_errors := r.last_error

/-- The method `read_table2::get_last_error_str`. -/
def get_last_error_str (r : read_table) : String := get_error_desc r.last_error

/-- The method `read_table2::get_line`. -/
def get_line (r : read_table) : Nat := r.line

/-- The method `read_table2::get_pos`. -/
def get_pos (r : read_table) : Nat := r.pos

/-- The method `read_table2::get_col`. -/
def get_col (r : read_table) : Nat := r.col

/-- The method `read_table2::read_int32_limits`. -/
def read_int32_limits (r : read_table) (i min max : Int) : Bool × read_table × Int :=
  ((read_table_int32_limits r i min max).1 == 0, (read_table_int32_limits r i min max).2)

/-- The method `read_table2::read_uint32`. -/
def read_uint32 (r : read_table) (i : Nat) : Bool × read_table × Nat :=
  ((read_table_uint32 r i).1 == 0, (read_table_uint32 r i).2)

/-- The method `read_table2::read_int64`. -/
def read_int64 (r : read_table) (i : Int) : Bool × read_table × Int :=
  ((read_table_int64 r i).1 == 0, (read_table_int64 r i).2)

end read_table2

/-! ## txedge.cpp : the record iterator, the transaction reader, the edge iterator

Modelling conventions.

* `unsigned int` and `int` are 32 bits wide; a `std::vector` is a list and a
  vector iterator is an index into it (`cend()` is the length).
* `+=` on `int64_t` wraps around (two's complement), as the compilers in use
  do it; the C++ standard leaves signed overflow undefined.
* A call either returns, throws (`txr_it::handle_error`, which nothing in the
  program catches), or, in this model only, runs out of the fuel that bounds its
  loops: `Ended`.
* `std::sort` yields some permutation that is sorted by the comparison; it is
  modelled by an insertion sort, and what is proved of `vector_compress` is
  proved for whichever sorted permutation the library produces.
* The messages written to `stderr` are not modelled; the arithmetic on `double`
  is left open (`FloatOps`).
-/

/-- The struct `txrecord`. -/
structure txrecord where
  txid : Nat
  addr : Int
  value : Int
  deriving DecidableEq, Repr

/-- The struct `txedge`. -/
structure txedge where
  txid : Nat
  addr_in : Int
  addr_out : Int
  w : Dbl
  deriving DecidableEq, Repr

/-- How a call ends: it returns a value, it throws, or (in the model only) the
fuel that bounds its loops is used up. -/
inductive Ended (α : Type)
  | returned (a : α)
  | thrown
  | fuel_out
  deriving DecidableEq, Repr

/-- The class `txr_it`: its data members. -/
structure txr_it where
  members ::
  rt : read_table
  fn : Option String
  r : txrecord
  cskip : Int
  is_end_ : Bool
  lines_max : Nat
  header_skip : Nat
  deriving DecidableEq, Repr

namespace txr_it

/-- The loop `for(int i=0;i<cskip;i++) { int64_t tmp; if(!rt.read_int64(tmp)) return -1; }`
of `txr_it::read_next`, `n` iterations: whether every read returned success, and
the reader.  The local `tmp` is uninitialised and never read: it is passed as 0. -/
def skip_columns : Nat → read_table → Bool × read_table
  | 0, rt => (true, rt)
  | n + 1, rt =>
    if !(read_table2.read_int64 rt 0).1 then (false, (read_table2.read_int64 rt 0).2.1)
    else skip_columns n (read_table2.read_int64 rt 0).2.1

/-- The method `txr_it::read_next`: the return value (0 or -1) and the iterator
after the call. -/
def read_next (it : txr_it) : Int × txr_it :=
  let l := read_table2.read_line it.rt true
  if !l.1 then
    if read_table2.get_last_error l.2 ≠ T_EOF then (-1, { it with rt := l.2 })
    else (0, { it with rt := l.2, is_end_ := true })
  else
    let a := read_table2.read_uint32 l.2 it.r.txid
    if !a.1 then (-1, { it with rt := a.2.1, r := { it.r with txid := a.2.2 } })
    else
      let s := skip_columns it.cskip.toNat a.2.1
      if !s.1 then (-1, { it with rt := s.2, r := { it.r with txid := a.2.2 } })
      else
        let b := read_table2.read_int32_limits s.2 it.r.addr (-1) INT32_MAX
        if !b.1 then
          (-1, { it with rt := b.2.1, r := { it.r with txid := a.2.2, addr := b.2.2 } })
        else
          let c := read_table2.read_int64 b.2.1 it.r.value
          if !c.1 then
            (-1, { it with rt := c.2.1, r := { txid := a.2.2, addr := b.2.2, value := c.2.2 } })
          else (0, { it with rt := c.2.1, r := { txid := a.2.2, addr := b.2.2, value := c.2.2 } })

/-- The operator `txr_it::operator++`: `if(read_next()) handle_error();`, where
`handle_error` throws; `none` is the exception. -/
def incr (it : txr_it) : Option txr_it :=
  if (read_next it).1 ≠ 0 then none else some (read_next it).2

/-- The loop `for(uint64_t j=0;j<header_skip;j++) rt.read_line(false);` of the
constructor. -/
def header_lines : Nat → read_table → read_table
  | 0, rt => rt
  | n + 1, rt => header_lines n (read_table2.read_line rt false).2

/-- The constructor `txr_it(FILE* in_, int cskip_, const char* fn_, uint64_t
header_skip_, uint64_t lines_max_)`; `r0` is the indeterminate content of the
member `r`, which the constructor does not initialise; `none` is the exception
of `handle_error`. -/
def mk (in_ : Option (List Nat)) (cskip_ : Int) (fn_ : Option String)
    (header_skip_ lines_max_ : Nat) (r0 : txrecord) : Option txr_it :=
  incr { rt := header_lines header_skip_ (read_table2.mk in_), fn := fn_, r := r0,
         cskip := cskip_, is_end_ := false, lines_max := lines_max_,
         header_skip := header_skip_ }

/-- The method `txr_it::is_end`. -/
def is_end (it : txr_it) : Bool := it.is_end_

/-- The operators `txr_it::operator*` and `txr_it::operator->`: the record, or
`none` for the exception thrown at the end. -/
def deref (it : txr_it) : Option txrecord := if it.is_end_ then none else some it.r

end txr_it

/-- The class `tx`: its data members; the references `in` and `out` are the
iterators themselves. -/
structure tx where
  members ::
  inputs : List (Int × Int)
  outputs : List (Int × Int)
  txid : Nat
  in_ : txr_it
  out : txr_it
  deriving DecidableEq, Repr

namespace tx

/-- The call `std::sort(vec.begin(),vec.end(),cmp)` with `cmp(a,b)` the test
`a.first < b.first`: a permutation of `vec` in which no element comes before one
with a smaller address. -/
def sort (vec : List (Int × Int)) : List (Int × Int) :=
  vec.insertionSort (fun a b => a.1 ≤ b.1)

/-- The loop `for(size_t j=1;j<vec.size();j++)` of `vector_compress`, `n`
iterations from `j` on: the vector and `i` after it. -/
def compress_loop : Nat → List (Int × Int) → Nat → Nat → List (Int × Int) × Nat
  | 0, vec, i, _ => (vec, i)
  | n + 1, vec, i, j =>
    if (vec.getD i (0, 0)).1 = (vec.getD j (0, 0)).1 then
      compress_loop n
        (vec.set i ((vec.getD i (0, 0)).1,
          to_signed 64 ((vec.getD i (0, 0)).2 + (vec.getD j (0, 0)).2))) i (j + 1)
    else
      compress_loop n (if i + 1 ≠ j then vec.set (i + 1) (vec.getD j (0, 0)) else vec)
        (i + 1) (j + 1)

/-- The function `tx::vector_compress`.  (On an empty vector the `erase` of the
source is undefined; the callers pass non-empty vectors.) -/
def vector_compress (vec : List (Int × Int)) : List (Int × Int) :=
  let s := sort vec
  let lp := compress_loop (s.length - 1) s 0 1
  lp.1.take (lp.2 + 1)

/-- The loops `for(;!in.is_end();++in) { if(in->txid != txid) break;
inputs.push_back(std::make_pair(in->addr,in->value)); }` and its twin on `out`
and `outputs`: the iterator and the vector after the loop. -/
def collect : Nat → txr_it → Nat → List (Int × Int) → Ended (txr_it × List (Int × Int))
  | 0, _, _, _ => Ended.fuel_out
  | fuel + 1, it, txid, vec =>
    if it.is_end then Ended.returned (it, vec)
    else match it.deref with
      | none => Ended.thrown
      | some r =>
        if r.txid ≠ txid then Ended.returned (it, vec)
        else match it.incr with
          | none => Ended.thrown
          | some it1 => collect fuel it1 txid (vec ++ [(r.addr, r.value)])

/-- The loop `for(;!out.is_end();++out) if(out->txid >= txid) break;`. -/
def advance_out : Nat → txr_it → Nat → Ended txr_it
  | 0, _, _ => Ended.fuel_out
  | fuel + 1, out, txid =>
    if out.is_end then Ended.returned out
    else match out.deref with
      | none => Ended.thrown
      | some r =>
        if r.txid ≥ txid then Ended.returned out
        else match out.incr with
          | none => Ended.thrown
          | some out1 => advance_out fuel out1 txid

/-- The loop `for(;!in.is_end();++in) { if(in->txid >= out->txid) break;
if(in->txid > txid) { txid = in->txid; ... } }`: the iterator `in` and `txid`
after the loop. -/
def skip_inputs : Nat → txr_it → txr_it → Nat → Ended (txr_it × Nat)
  | 0, _, _, _ => Ended.fuel_out
  | fuel + 1, in_, out, txid =>
    if in_.is_end then Ended.returned (in_, txid)
    else match in_.deref, out.deref with
      | some r, some o =>
        if r.txid ≥ o.txid then Ended.returned (in_, txid)
        else match in_.incr with
          | none => Ended.thrown
          | some in1 => skip_inputs fuel in1 out (if r.txid > txid then r.txid else txid)
      | _, _ => Ended.thrown

/-- The method `tx::read_next`: the return value and the object after the call.
The fuel bounds the recursion and each of the loops. -/
def read_next : Nat → tx → Ended (Bool × tx)
  | 0, _ => Ended.fuel_out
  | fuel + 1, t =>
    if t.in_.is_end || t.out.is_end then Ended.returned (false, t)
    else match t.in_.deref with
      | none => Ended.thrown
      | some r0 =>
        match collect fuel t.in_ r0.txid [] with
        | Ended.thrown => Ended.thrown
        | Ended.fuel_out => Ended.fuel_out
        | Ended.returned (in1, inputs1) =>
          match advance_out fuel t.out r0.txid with
          | Ended.thrown => Ended.thrown
          | Ended.fuel_out => Ended.fuel_out
          | Ended.returned out1 =>
            if out1.is_end then
              Ended.returned (false, { inputs := inputs1, outputs := [], txid := r0.txid,
                                       in_ := in1, out := out1 })
            else match out1.deref with
              | none => Ended.thrown
              | some o =>
                if o.txid > r0.txid then
                  match skip_inputs fuel in1 out1 r0.txid with
                  | Ended.thrown => Ended.thrown
                  | Ended.fuel_out => Ended.fuel_out
                  | Ended.returned (in2, txid2) =>
                    read_next fuel { inputs := inputs1, outputs := [], txid := txid2,
                                     in_ := in2, out := out1 }
                else
                  match collect fuel out1 r0.txid [] with
                  | Ended.thrown => Ended.thrown
                  | Ended.fuel_out => Ended.fuel_out
                  | Ended.returned (out2, outputs2) =>
                    Ended.returned (true, { inputs := vector_compress inputs1,
                                            outputs := vector_compress outputs2,
                                            txid := r0.txid, in_ := in1, out := out2 })

/-- The constructor `tx(txr_it& txin_, txr_it& txout_)`; `txid0` is the
indeterminate content of the member `txid`. -/
def mk (txin_ txout_ : txr_it) (txid0 : Nat) : tx :=
  { inputs := [], outputs := [], txid := txid0, in_ := txin_, out := txout_ }

end tx

/-- The arithmetic on `double` that `tx::iterator` uses, left open: the
conversion of an `int64_t`, the product and the quotient. -/
structure FloatOps where
  of_int64 : Int → Dbl
  mul : Dbl → Dbl → Dbl
  div : Dbl → Dbl → Dbl

/-- The conversion of an integer to `unsigned int`. -/
def to_uint (x : Int) : Nat := (x % 2 ^ 32).toNat

namespace tx

/-- The struct `tx::iterator`: its data members; the two vector iterators are
indices. -/
structure iterator where
  members ::
  sum : Dbl
  txid : Int
  inputs : List (Int × Int)
  outputs : List (Int × Int)
  in_it : Nat
  out_it : Nat
  e : txedge
  deriving DecidableEq, Repr

namespace iterator

/-- The method `tx::iterator::update_edge`. -/
def update_edge (fo : FloatOps) (it : iterator) : iterator :=
  { it with
    e := { txid := to_uint it.txid,
           addr_in := (it.inputs.getD it.in_it (0, 0)).1,
           addr_out := (it.outputs.getD it.out_it (0, 0)).1,
           w := if Dbl.lt (Dbl.fin 0) it.sum then
                  fo.mul (fo.of_int64 (it.inputs.getD it.in_it (0, 0)).2)
                    (fo.div (fo.of_int64 (it.outputs.getD it.out_it (0, 0)).2) it.sum)
                else Dbl.fin 0 } }

/-- The method `tx::iterator::is_end`. -/
def is_end (it : iterator) : Bool := it.in_it == it.inputs.length

/-- The operator `tx::iterator::operator++`. -/
def incr (fo : FloatOps) (it : iterator) : iterator :=
  if it.in_it = it.inputs.length then it
  else if it.out_it + 1 = it.outputs.length then
    if it.in_it + 1 = it.inputs.length then
      { it with out_it := it.out_it + 1, in_it := it.in_it + 1 }
    else update_edge fo { it with out_it := 0, in_it := it.in_it + 1 }
  else update_edge fo { it with out_it := it.out_it + 1 }

/-- The operator `tx::iterator::operator*`. -/
def deref (it : iterator) : txedge := it.e

/-- The constructor `iterator(const tx* t)`; `e0` is the indeterminate content
of the member `e`. -/
def mk (fo : FloatOps) (t : tx) (e0 : txedge) : iterator :=
  let tmp := t.inputs.foldl (fun acc p => to_signed 64 (acc + p.2)) 0
  let it : iterator :=
    { sum := fo.of_int64 tmp, txid := to_signed 32 t.txid, inputs := t.inputs,
      outputs := t.outputs, in_it := 0, out_it := 0, e := e0 }
  if it.in_it = it.inputs.length then it
  else if it.out_it = it.outputs.length then { it with in_it := it.inputs.length }
  else update_edge fo it

end iterator

/-- The method `tx::get_iterator`. -/
def get_iterator (fo : FloatOps) (t : tx) (e0 : txedge) : iterator := iterator.mk fo t e0

end tx

/-! ## The library function `strtod` on the special spellings -/

/-- ASCII lower case. -/
def lower (c : Nat) : Nat := if 65 ≤ c ∧ c ≤ 90 then c + 32 else c

/-- The bytes `s` start with the lower-case word `w`, ignoring case. -/
abbrev startsCI (w s : List Nat) : Prop := (s.take w.length).map lower = w

/-- A byte of an n-char-sequence: a digit, a letter or an underscore. -/
def nchar (c : Nat) : Bool := isalnum c || c == 95

/-- The bytes `t` after the spelling `inf` continue it to `infinity`. -/
abbrev continuesInf (t : List Nat) : Prop := startsCI [105, 110, 105, 116, 121] t

/-- The bytes `t` after the spelling `nan` continue it with a parenthesised
n-char-sequence. -/
abbrev continuesNan (t : List Nat) : Prop :=
  t.head? = some 40 ∧ ((t.drop 1).dropWhile nchar).head? = some 41

/-- What ISO C 7.22.1.3 prescribes for `strtod` on the special spellings: after
white space and an optional sign, `INF` or `INFINITY`, or `NAN` or
`NAN(n-char-sequence)`, ignoring case, the longest spelling taken.  The result
is the value, the number of bytes consumed and `errno`; `none` when the text is
none of these spellings. -/
def strtod_special (s : List Nat) : Option (Dbl × Nat × Errno) :=
  let s1 := s.dropWhile isspace
  let ws := s.length - s1.length
  let neg := s1.head? == some 45
  let sg := if s1.head? = some 45 ∨ s1.head? = some 43 then 1 else 0
  let s2 := s1.drop sg
  if startsCI [105, 110, 102] s2 then
    if continuesInf (s2.drop 3) then some (Dbl.inf neg, ws + sg + 8, Errno.E0)
    else some (Dbl.inf neg, ws + sg + 3, Errno.E0)
  else if startsCI [110, 97, 110] s2 then
    if continuesNan (s2.drop 3) then
      some (Dbl.nan, ws + sg + 3 + 1 + (((s2.drop 3).drop 1).takeWhile nchar).length + 1,
        Errno.E0)
    else some (Dbl.nan, ws + sg + 3, Errno.E0)
  else none

/-! ## Notions used to state the properties -/

/-- The errors on which `read_table_pre_check` returns at once. -/
abbrev blocking (e : read_table_errors) : Prop :=
  e = T_EOF ∨ e = T_EOL ∨ e = T_READ_ERROR ∨ e = T_ERROR_FOPEN

/-- A decimal digit `'0'..'9'`. -/
abbrev isDigit (c : Nat) : Prop := 48 ≤ c ∧ c ≤ 57

/-- The decimal digits of `n`, most significant first; `fuel` bounds their number. -/
def natTextAux : Nat → Nat → List Nat
  | 0, n => [48 + n % 10]
  | fuel + 1, n => if n < 10 then [48 + n] else natTextAux fuel (n / 10) ++ [48 + n % 10]

/-- The decimal text of a natural number. -/
def natText (n : Nat) : List Nat := natTextAux n n

/-- The decimal text of an integer: a `-` for a negative one, then the digits. -/
def decimalText (n : Int) : List Nat :=
  if n < 0 then 45 :: natText n.natAbs else natText n.natAbs

/-- From the cursor on, the line holds the blanks `bl`, then `txt`, then `suf`,
and `line_len` is the number of bytes stored. -/
abbrev Layout (r : read_table) (bl txt suf : List Nat) : Prop :=
  r.line_len = r.buf.length ∧ r.pos ≤ r.buf.length ∧ r.buf.drop r.pos = bl ++ txt ++ suf
    ∧ ∀ c ∈ bl, is_blank c = true

/-- The byte `c` starts a field: it is neither the comment marker nor the
explicit delimiter. -/
abbrev StartsField (r : read_table) (c : Nat) : Prop :=
  (r.comment = 0 ∨ c ≠ r.comment) ∧ (r.delim = 0 ∨ c ≠ r.delim)

/-- What may follow a number: after optional blanks the end of the line, a
newline, or (whitespace-run mode) anything once a blank was seen, or (explicit
delimiter that is not a blank) the delimiter. -/
abbrev Separated (r : read_table) (suf : List Nat) : Prop :=
  suf.dropWhile is_blank = [] ∨ (suf.dropWhile is_blank).head? = some 10
    ∨ (r.delim = 0 ∧ suf.takeWhile is_blank ≠ [])
    ∨ (r.delim ≠ 0 ∧ is_blank r.delim = false ∧ (suf.dropWhile is_blank).head? = some r.delim)

/-- The separator ends the line: after the blanks comes the end of the line, a
newline or the comment marker. -/
abbrev EndsLine (r : read_table) (suf : List Nat) : Prop :=
  suf.dropWhile is_blank = [] ∨ (suf.dropWhile is_blank).head? = some 10
    ∨ (r.comment ≠ 0 ∧ (suf.dropWhile is_blank).head? = some r.comment)

/-- The reader after a successful numeric read of the field `txt`: the cursor is
past the field, the blanks after it and the delimiter when one follows; the
column is advanced unless the line ended. -/
def afterField (r : read_table) (bl txt suf : List Nat) : read_table :=
  { r with
    pos := r.pos + bl.length + txt.length + (suf.takeWhile is_blank).length
      + (if r.delim ≠ 0 ∧ (suf.dropWhile is_blank).head? = some r.delim then 1 else 0),
    col := if EndsLine r suf then r.col else r.col + 1,
    last_error := T_OK }

/-- Every read of the list succeeds, each one run on the reader the previous
one left. -/
def AllOk (env : Env) : read_table → List Field → Prop
  | _, [] => True
  | r, val :: vals => (read_table_next env r val).1 = 0 ∧ AllOk env (read_table_next env r val).2.1 vals

/-- The single-field reads run left to right, each on the reader the previous
one left: the final reader and the values read. -/
def run_reads (env : Env) : read_table → List Field → read_table × List Field
  | r, [] => (r, [])
  | r, val :: vals =>
    ((run_reads env (read_table_next env r val).2.1 vals).1,
     (read_table_next env r val).2.2 :: (run_reads env (read_table_next env r val).2.1 vals).2)

/-- Whether `AllOk` holds can be computed by running the reads. -/
instance AllOk.decidable (env : Env) : ∀ (r : read_table) (vals : List Field),
    Decidable (AllOk env r vals)
  | _, [] => isTrue trivial
  | r, val :: vals =>
    have := AllOk.decidable env (read_table_next env r val).2.1 vals
    (inferInstance : Decidable ((read_table_next env r val).1 = 0
      ∧ AllOk env (read_table_next env r val).2.1 vals))

/-- The overloads of `read_table_next` that use neither `strtod` nor an
uninitialised local. -/
def Field.envFree : Field → Bool
  | Field.int32 _ | Field.uint32 _ | Field.int64 _ | Field.uint64 _ => true
  | Field.string_view _ | Field.string _ | Field.string_view_custom _ | Field.skip => true
  | Field.bounds_int32 _ _ _ | Field.bounds_uint32 _ _ _ => true
  | Field.bounds_int64 _ _ _ | Field.bounds_uint64 _ _ _ => true
  | Field.other | Field.bounds_other => true
  | _ => false

/-- The value `strtol` gives for the number `n`: `n` saturated to `long`. -/
def clamp_long (n : Int) : Int :=
  if n < LONG_MIN then LONG_MIN else if LONG_MAX < n then LONG_MAX else n

/-- The `errno` that `strtol` leaves for the number `n`. -/
def errno_long (n : Int) : Errno :=
  if n < LONG_MIN ∨ LONG_MAX < n then Errno.ERANGE else Errno.E0

/-- The value `strtoul` gives for the number `n`: `n` saturated to `unsigned long`. -/
def clamp_ulong (n : Nat) : Nat := if ULONG_MAX < n then ULONG_MAX else n

/-- The `errno` that `strtoul` leaves for the number `n`. -/
def errno_ulong (n : Nat) : Errno := if ULONG_MAX < n then Errno.ERANGE else Errno.E0

/-- Texts joined by single delimiter bytes. -/
def joinWith (d : Nat) : List (List Nat) → List Nat
  | [] => []
  | [t] => t
  | t :: t2 :: ts => t ++ d :: joinWith d (t2 :: ts)

/-- The argument is one of the integer overloads of `read_table_next`, its bounds
lie inside its type, and they admit the number `n`. -/
def Field.admits : Field → Int → Bool
  | Field.int16 _, n => decide (INT16_MIN ≤ n ∧ n ≤ INT16_MAX)
  | Field.int32 _, n => decide (INT32_MIN ≤ n ∧ n ≤ INT32_MAX)
  | Field.int64 _, n => decide (INT64_MIN ≤ n ∧ n ≤ INT64_MAX)
  | Field.uint16 _, n => decide (0 ≤ n ∧ n ≤ UINT16_MAX)
  | Field.uint32 _, n => decide (0 ≤ n ∧ n ≤ UINT32_MAX)
  | Field.uint64 _, n => decide (0 ≤ n ∧ n ≤ UINT64_MAX)
  | Field.bounds_int16 _ mn mx, n => decide (INT16_MIN ≤ mn ∧ mx ≤ INT16_MAX ∧ mn ≤ n ∧ n ≤ mx)
  | Field.bounds_int32 _ mn mx, n => decide (INT32_MIN ≤ mn ∧ mx ≤ INT32_MAX ∧ mn ≤ n ∧ n ≤ mx)
  | Field.bounds_int64 _ mn mx, n => decide (INT64_MIN ≤ mn ∧ mx ≤ INT64_MAX ∧ mn ≤ n ∧ n ≤ mx)
  | Field.bounds_uint16 _ mn mx, n => decide (mx ≤ UINT16_MAX ∧ (mn : Int) ≤ n ∧ n ≤ mx)
  | Field.bounds_uint32 _ mn mx, n => decide (mx ≤ UINT32_MAX ∧ (mn : Int) ≤ n ∧ n ≤ mx)
  | Field.bounds_uint64 _ mn mx, n => decide (mx ≤ UINT64_MAX ∧ (mn : Int) ≤ n ∧ n ≤ mx)
  | _, _ => false

/-- The argument of an integer overload once the number `n` was stored in it. -/
def Field.store : Field → Int → Field
  | Field.int16 _, n => Field.int16 n
  | Field.int32 _, n => Field.int32 n
  | Field.int64 _, n => Field.int64 n
  | Field.uint16 _, n => Field.uint16 n.toNat
  | Field.uint32 _, n => Field.uint32 n.toNat
  | Field.uint64 _, n => Field.uint64 n.toNat
  | Field.bounds_int16 _ mn mx, n => Field.bounds_int16 n mn mx
  | Field.bounds_int32 _ mn mx, n => Field.bounds_int32 n mn mx
  | Field.bounds_int64 _ mn mx, n => Field.bounds_int64 n mn mx
  | Field.bounds_uint16 _ mn mx, n => Field.bounds_uint16 n.toNat mn mx
  | Field.bounds_uint32 _ mn mx, n => Field.bounds_uint32 n.toNat mn mx
  | Field.bounds_uint64 _ mn mx, n => Field.bounds_uint64 n.toNat mn mx
  | fld, _ => fld

/-- One call on a reader: `read_line(skip)` or `read_next(val)`. -/
inductive Op
  | line (skip : Bool)
  | next (val : Field)
  deriving DecidableEq, Repr

/-- The reader after one call. -/
def Op.run (env : Env) (r : read_table) : Op → read_table
  | Op.line skip => (read_table2.read_line r skip).2
  | Op.next val => (read_table2.read_next env r val).2.1

/-- The reader after a sequence of calls. -/
def run_ops (env : Env) (r : read_table) : List Op → read_table
  | [] => r
  | op :: ops => run_ops env (op.run env r) ops

/-- The `strtod` of the environment follows ISO C on the special spellings. -/
def IsoSpecials (env : Env) : Prop :=
  ∀ s x, strtod_special s = some x → env.strtod s = x

/-- The number of physical lines in a run of bytes: one for each newline, and
one more for a last line that lacks its newline. -/
def lineCount (bs : List Nat) : Nat :=
  bs.count 10 + (if bs = [] ∨ bs.getLast? = some 10 then 0 else 1)

/-- The cursor stands where a line ends: at the end of the stored bytes, on a
newline or on the comment marker. -/
abbrev atLineEnd (r : read_table) : Prop :=
  r.pos = r.line_len ∨ bufAt r r.pos = 10 ∨ is_comment r (bufAt r r.pos) = true

/-- The overloads of `read_table_next` that read an integer. -/
def Field.isInteger : Field → Bool
  | Field.int16 _ | Field.int32 _ | Field.int64 _ => true
  | Field.uint16 _ | Field.uint32 _ | Field.uint64 _ => true
  | Field.bounds_int16 _ _ _ | Field.bounds_int32 _ _ _ | Field.bounds_int64 _ _ _ => true
  | Field.bounds_uint16 _ _ _ | Field.bounds_uint32 _ _ _ | Field.bounds_uint64 _ _ _ => true
  | _ => false

/-- The overloads of `read_table_next` that read one floating-point number. -/
def Field.isDouble : Field → Bool
  | Field.double _ | Field.bounds_double _ _ _ => true
  | _ => false

/-- The overloads of `read_table_next` that read a pair of floating-point
numbers, two fields. -/
def Field.isPair : Field → Bool
  | Field.pair_double _ | Field.bounds_pair_double _ _ _ => true
  | _ => false

/-- How a typed numeric read ends, as the return value and the reader it
leaves: the pre-check fails; the pre-check passes and the read rejects the text
at once (the sign test of the unsigned reads, the range test of the integer
reads); the read ends in the post-check; or (`w`, the floating-point reads
only) the post-check passes and the value is rejected after it. -/
inductive Outcome (w : Bool) (r : read_table) : Nat → read_table → Prop
  | pre : (read_table_pre_check r).1 ≠ 0 → Outcome w r 1 (read_table_pre_check r).2
  | reject (e : read_table_errors) : (read_table_pre_check r).1 = 0 →
      e = T_OVERFLOW ∨ e = T_FORMAT →
      Outcome w r 1 { (read_table_pre_check r).2 with last_error := e }
  | post (errno : Errno) (c2 : Nat) : (read_table_pre_check r).1 = 0 →
      Outcome w r (read_table_post_check (read_table_pre_check r).2 errno c2).1
        (read_table_post_check (read_table_pre_check r).2 errno c2).2
  | value (errno : Errno) (c2 : Nat) (e : read_table_errors) : w = true →
      (read_table_pre_check r).1 = 0 →
      (read_table_post_check (read_table_pre_check r).2 errno c2).1 = 0 →
      e = T_NAN ∨ e = T_OVERFLOW →
      Outcome w r 1
        { (read_table_post_check (read_table_pre_check r).2 errno c2).2 with last_error := e }

/-- The reader `q` differs from `r` in the cursor, the column and the error
register at most. -/
abbrev Touched (r q : read_table) : Prop :=
  ∃ p c e, q = { r with pos := p, col := c, last_error := e }

/-- What a line read that returns success leaves: error `T_OK`, column 0, the
buffer a non-empty line, and the cursor at offset 0 or, with `skip`, on the
first byte of the line that is no space or tab. -/
abbrev LineLoaded (skip : Bool) (q : read_table) : Prop :=
  q.last_error = T_OK ∧ q.col = 0 ∧ q.line_len = q.buf.length ∧ q.buf ≠ []
  ∧ (skip = false → q.pos = 0)
  ∧ (skip = true → q.pos < q.buf.length ∧ is_blank (bufAt q q.pos) = false
      ∧ ∀ i, i < q.pos → is_blank (bufAt q i) = true)

/-- The reader `q` differs from `r` in at most what a line read writes: the
stream, the buffer and its sizes, the line counter, the cursor, the column and
the error. -/
abbrev SameSetup (r q : read_table) : Prop :=
  q.delim = r.delim ∧ q.comment = r.comment ∧ q.base = r.base ∧ q.flags = r.flags ∧ q.fn = r.fn

/-- One call of an accessor of `read_table2`. -/
inductive Getter
  | get_last_error
  | get_last_error_str
  | get_line
  | get_pos
  | get_col
  deriving DecidableEq, Repr

/-- What an accessor returns: an error code, a text or a counter. -/
inductive Answer
  | code (e : read_table_errors)
  | text (s : String)
  | count (n : Nat)
  deriving DecidableEq, Repr

/-- One accessor call: what it returns, and the reader after the call.  The
accessors are `const` methods (the C functions take a `const read_table*`) whose
bodies hold no assignment, so the reader after the call is the one before it. -/
def Getter.call (r : read_table) : Getter → Answer × read_table
  | Getter.get_last_error => (Answer.code (read_table2.get_last_error r), r)
  | Getter.get_last_error_str => (Answer.text (read_table2.get_last_error_str r), r)
  | Getter.get_line => (Answer.count (read_table2.get_line r), r)
  | Getter.get_pos => (Answer.count (read_table2.get_pos r), r)
  | Getter.get_col => (Answer.count (read_table2.get_col r), r)

/-- Accessor calls in a row, each on the reader the previous one left: what they
return, and the reader after the last. -/
def run_getters (r : read_table) : List Getter → List Answer × read_table
  | [] => ([], r)
  | g :: gs => ((g.call r).1 :: (run_getters (g.call r).2 gs).1, (run_getters (g.call r).2 gs).2)

/-- The bytes from the cursor on, once the spaces/tabs at the cursor are passed. -/
def afterBlanks (r : read_table) : List Nat := (r.buf.drop r.pos).dropWhile is_blank

/-- A byte that ends a field in whitespace-run mode: a space, a tab, a newline
or the comment marker. -/
def endsField (r : read_table) (c : Nat) : Bool := is_blank c || c == 10 || is_comment r c

/-- The iterator yields the records `recs`, one after the other, without an
exception, and is at its end after the last. -/
def Yields : txr_it → List txrecord → Prop
  | it, [] => it.is_end_ = true
  | it, x :: xs => it.is_end_ = false ∧ it.r = x
      ∧ match it.incr with
        | none => False
        | some it1 => Yields it1 xs

/-- Whether an iterator yields given records can be computed by running it. -/
instance Yields.decidable : ∀ (it : txr_it) (recs : List txrecord), Decidable (Yields it recs)
  | it, [] => (inferInstance : Decidable (it.is_end_ = true))
  | it, x :: xs =>
    match h : it.incr with
    | none => isFalse (fun hy => by
        have h3 := hy.2.2
        rw [h] at h3
        exact h3)
    | some it1 =>
      have := Yields.decidable it1 xs
      if h1 : it.is_end_ = false ∧ it.r = x ∧ Yields it1 xs then
        isTrue ⟨h1.1, h1.2.1, by rw [h]; exact h1.2.2⟩
      else
        isFalse (fun hy => h1 ⟨hy.1, hy.2.1, by
          have h3 := hy.2.2
          rw [h] at h3
          exact h3⟩)

/-- The (address, value) pairs of the records of `recs` that carry the
transaction id `id`, in their order. -/
def records_of (id : Nat) (recs : List txrecord) : List (Int × Int) :=
  (recs.filter (fun r => r.txid == id)).map (fun r => (r.addr, r.value))

/-- The sum of the values that `vec` holds for the address `a`. -/
def value_of (a : Int) (vec : List (Int × Int)) : Int :=
  ((vec.filter (fun p => p.1 == a)).map Prod.snd).sum

/-- What `n` successive calls of `tx::read_next` return, each on the object the
previous one left: `some (txid, inputs, outputs)` for a call that returned true,
`none` for one that returned false. -/
def tx.calls (fuel : Nat) : Nat → tx →
    Ended (List (Option (Nat × List (Int × Int) × List (Int × Int))))
  | 0, _ => Ended.returned []
  | n + 1, t =>
    match tx.read_next fuel t with
    | Ended.thrown => Ended.thrown
    | Ended.fuel_out => Ended.fuel_out
    | Ended.returned (b, t1) =>
      match tx.calls fuel n t1 with
      | Ended.thrown => Ended.thrown
      | Ended.fuel_out => Ended.fuel_out
      | Ended.returned l =>
        Ended.returned ((if b then some (t1.txid, t1.inputs, t1.outputs) else none) :: l)

/-- The loop `for(tx::iterator it = tx_it.get_iterator();!it.is_end();++it)` of
`main`, at most `fuel` iterations: the edges `*it` of the iterations, and the
iterator after the loop. -/
def tx.iterator.visit (fo : FloatOps) : Nat → tx.iterator → List txedge × tx.iterator
  | 0, it => ([], it)
  | fuel + 1, it =>
    if it.is_end then ([], it)
    else (it.deref :: (visit fo fuel (it.incr fo)).1, (visit fo fuel (it.incr fo)).2)

/-- The edge of the input `a` and the output `b` in the transaction `txid`, with
the weight `update_edge` computes from the sum `sum`. -/
def edge_of (fo : FloatOps) (txid : Nat) (sum : Dbl) (a b : Int × Int) : txedge :=
  { txid := txid, addr_in := a.1, addr_out := b.1,
    w := if Dbl.lt (Dbl.fin 0) sum then fo.mul (fo.of_int64 a.2) (fo.div (fo.of_int64 b.2) sum)
         else Dbl.fin 0 }

/-- What the loop of `vector_compress` computes: the run of pairs that starts
with `cur`, each run of equal addresses merged into its first pair. -/
def mergeRun (cur : Int × Int) : List (Int × Int) → List (Int × Int)
  | [] => [cur]
  | q :: rest =>
    if cur.1 = q.1 then mergeRun (cur.1, to_signed 64 (cur.2 + q.2)) rest
    else cur :: mergeRun q rest

/-- The state of the edge iterator of a transaction at the input `i` and the
output `o`. -/
def iterator_at (fo : FloatOps) (sum : Dbl) (txid : Nat) (ins outs : List (Int × Int))
    (i o : Nat) : tx.iterator :=
  { sum := sum, txid := to_signed 32 txid, inputs := ins, outputs := outs, in_it := i,
    out_it := o, e := edge_of fo txid sum (ins.getD i (0, 0)) (outs.getD o (0, 0)) }

/-- The transaction ids of the records of a stream, in their order. -/
def ids_of (recs : List txrecord) : List Nat := recs.map (fun r => r.txid)

/-- The records of a stream are sorted by non-decreasing transaction id. -/
def SortedById (recs : List txrecord) : Prop :=
  List.Pairwise (fun a b : txrecord => a.txid ≤ b.txid) recs

instance SortedById.decidable (recs : List txrecord) : Decidable (SortedById recs) :=
  (inferInstance : Decidable (List.Pairwise (fun a b : txrecord => a.txid ≤ b.txid) recs))

/-- What holds after a call of `tx::read_next` on the streams `ins` and `outs`
that returned false: one of the iterators is at its end and no transaction id
occurs in both streams. -/
def StepFalse (ins outs : List txrecord) (t1 : tx) : Prop :=
  (t1.in_.is_end_ = true ∨ t1.out.is_end_ = true)
  ∧ ∀ j, ¬ (j ∈ ids_of ins ∧ j ∈ ids_of outs)

/-- What holds after a call of `tx::read_next` on the streams `ins` and `outs`
that returned true and left the streams `ins1` and `outs1`: the object holds the
least transaction id of both streams with all its records, merged, and what is
left of the streams are the records of greater ids. -/
def StepTrue (ins outs : List txrecord) (t1 : tx) (ins1 outs1 : List txrecord) : Prop :=
  t1.inputs = tx.vector_compress (records_of t1.txid ins)
  ∧ t1.outputs = tx.vector_compress (records_of t1.txid outs)
  ∧ t1.txid ∈ ids_of ins ∧ t1.txid ∈ ids_of outs
  ∧ (∀ j, j < t1.txid → ¬ (j ∈ ids_of ins ∧ j ∈ ids_of outs))
  ∧ (∀ r ∈ ins1, t1.txid < r.txid) ∧ (∀ r ∈ outs1, t1.txid < r.txid)
  ∧ ∃ preI preO, ins = preI ++ ins1 ∧ outs = preO ++ outs1 ∧ preI ≠ []
      ∧ (∀ r ∈ preI, r.txid ≤ t1.txid) ∧ (∀ r ∈ preO, r.txid ≤ t1.txid)

/-- The reader is set up as `txr_it` sets it up (base 10, fields separated by
spaces or tabs, no comment marker), no error holds it up, its stream is `f` and
from the cursor on the line holds `txt`. -/
def AtField (r : read_table) (f : Option (List Nat)) (txt : List Nat) : Prop :=
  r.base = 10 ∧ r.delim = 0 ∧ r.comment = 0 ∧ ¬ blocking r.last_error
    ∧ r.line_len = r.buf.length ∧ r.f = f ∧ r.buf.drop r.pos = txt

/-- The line of a record in a file with `skipped.length` columns between the
transaction id and the address: decimal numbers separated by one tab. -/
def record_line (x : txrecord × List Int) : List Nat :=
  decimalText x.1.txid ++ 9 :: (x.2.flatMap (fun v => decimalText v ++ [9])
    ++ (decimalText x.1.addr ++ 9 :: (decimalText x.1.value ++ [10])))

/-- The record and the skipped columns fit the types `txr_it` reads them into. -/
def ValidRecord (cskip : Nat) (x : txrecord × List Int) : Prop :=
  x.1.txid ≤ UINT32_MAX ∧ -1 ≤ x.1.addr ∧ x.1.addr ≤ INT32_MAX
    ∧ INT64_MIN ≤ x.1.value ∧ x.1.value ≤ INT64_MAX
    ∧ x.2.length = cskip ∧ ∀ v ∈ x.2, INT64_MIN ≤ v ∧ v ≤ INT64_MAX

/-- The reader after `read_table_line_skip` loaded the line `l` and left `rest`
in the stream. -/
def line_loaded (r : read_table) (l rest : List Nat) : read_table :=
  { r with
    f := some rest, buf := l, buf_size := max r.buf_size (l.length + 1), line_len := l.length,
    line := r.line + 1, pos := 0, col := 0, last_error := T_OK }

/-- Between two records: the reader is set up as `txr_it` sets it up, no error
stops `read_line`, and `s` is what is left of the stream. -/
def Between (r : read_table) (s : List Nat) : Prop :=
  r.base = 10 ∧ r.delim = 0 ∧ r.comment = 0
    ∧ ¬ (r.last_error = T_EOF ∨ r.last_error = T_COPIED ∨ r.last_error = T_ERROR_FOPEN)
    ∧ r.f = some s

/-! ## Concrete readers used as examples -/

/-- A reader on the bytes of `s` with delimiter `d` and comment marker `c`. -/
def reader_on (s : String) (d c : Nat) : read_table :=
  read_table_set_comment (read_table_set_delim (read_table2.mk (some (bytes s))) d) c

/-- The reader `reader_on s d c` after its first `read_line(skip)`. -/
def first_line (s : String) (d c : Nat) (skip : Bool) : read_table :=
  (read_table_line_skip (reader_on s d c) skip).2

/-- An environment for running examples: a `strtod` that converts nothing. -/
def env0 : Env := ⟨fun _ => (Dbl.fin 0, 0, Errno.E0), 0, 0⟩

/-- The spec's scenario with `,` as delimiter: the reader on its first line. -/
def comma_line1 : read_table := first_line "10,-1,500\n20,3,7\n" 44 0 true

/-- The spec's scenario with `,` as delimiter: the reader on its second line,
after the record of the first line was read. -/
def comma_line2 : read_table :=
  (read_table_line_skip (read_table_multiple env0 comma_line1
    [Field.uint32 0, Field.int32 0, Field.int64 0]).2.1 true).2

/-- An environment whose `strtod` converts the special spellings and nothing
else. -/
def env_iso : Env := ⟨fun s => (strtod_special s).getD (Dbl.fin 0, 0, Errno.E0), 0, 0⟩

/-- A reader opened by name on a file that holds `"1,2\n3,4\n"`, delimiter `,`,
after its first line was loaded. -/
def owner : read_table :=
  (read_table_line_skip
    (read_table_set_delim (read_table2.mk_fn "in.csv" (some (bytes "1,2\n3,4\n"))) 44) true).2

/-- The source of a copy construction from `owner`, as the constructor leaves it. -/
def source_after_copy : read_table := (read_table2.copy owner).2

/-- A reader with delimiter `d` at the end of the one-line stream `s`: its line
was loaded, an `int32` was read from it, and the next `read_line` met the end of
the stream. -/
def reader_after_eof (s : String) (d : Nat) : read_table :=
  run_ops env0 (reader_on s d 0) [Op.line true, Op.next (Field.int32 0), Op.line true]

/-- An environment for examples whose `strtod` converts decimal integers, as
`strtol` does, and nothing else. -/
def env_dec : Env :=
  ⟨fun s => (Dbl.fin ((strtol s 10).1 : ℚ), (strtol s 10).2.1, (strtol s 10).2.2), 0, 0⟩

/-- An example of double arithmetic: exact on finite values, NaN otherwise. -/
def fo_exact : FloatOps where
  of_int64 := fun n => Dbl.fin n
  mul := fun a b => match a, b with
    | Dbl.fin x, Dbl.fin y => Dbl.fin (x * y)
    | _, _ => Dbl.nan
  div := fun a b => match a, b with
    | Dbl.fin x, Dbl.fin y => if y = 0 then Dbl.nan else Dbl.fin (x / y)
    | _, _ => Dbl.nan

/-- A record iterator at its end. -/
def txr_it_ended : txr_it :=
  { rt := read_table_init none, fn := none, r := { txid := 0, addr := 0, value := 0 },
    cskip := 0, is_end_ := true, lines_max := 0, header_skip := 0 }

/-- A transaction with two inputs and three outputs. -/
def tx_example : tx :=
  { inputs := [(1, 2), (3, 4)], outputs := [(5, 6), (7, 8), (9, 10)], txid := 4000000000,
    in_ := txr_it_ended, out := txr_it_ended }

/-- The input stream of an example: five records of the transactions 1, 3 and 4. -/
def in_example : txr_it :=
  (txr_it.mk (some (bytes "1\t0\t7\t100\n1\t0\t8\t50\n3\t0\t7\t5\n4\t0\t9\t1\n4\t0\t9\t2\n"))
    1 none 0 0 { txid := 0, addr := 0, value := 0 }).getD txr_it_ended

/-- The output stream of an example: records of the transactions 0, 1, 2, 4, 5. -/
def out_example : txr_it :=
  (txr_it.mk (some (bytes "0\t0\t1\t50\n1\t0\t2\t150\n2\t0\t2\t1\n4\t0\t3\t3\n5\t0\t3\t3\n"))
    1 none 0 0 { txid := 0, addr := 0, value := 0 }).getD txr_it_ended

/-! ## Auxiliary facts -/

theorem getD_of_drop {buf : List Nat} {pos c : Nat} {t : List Nat} (h : buf.drop pos = c :: t) :
    buf.getD pos 0 = c := by
  have h1 : (buf.drop pos).head? = some c := by rw [h]; rfl
  rw [List.head?_drop] at h1
  simp [List.getD_eq_getElem?_getD, h1]

theorem drop_succ_of_drop {buf : List Nat} {pos c : Nat} {t : List Nat}
    (h : buf.drop pos = c :: t) : buf.drop (pos + 1) = t := by
  have h1 : (buf.drop pos).drop 1 = t := by rw [h]; rfl
  rw [List.drop_drop] at h1
  rw [← h1, Nat.add_comm]

theorem length_sub_of_drop {buf l : List Nat} {pos : Nat} (h : buf.drop pos = l) :
    buf.length - pos = l.length := by
  rw [← h, List.length_drop]

/-- The scanning loop steps over a run of bytes on which `stop` is false and
halts at the first byte on which it is true, or at the end of the line. -/
theorem scanLoop_run (stop : Nat → Bool) (buf : List Nat) :
    ∀ (xs rest : List Nat) (pos n : Nat), buf.drop pos = xs ++ rest →
      (∀ c ∈ xs, stop c = false) → (∀ c, rest.head? = some c → stop c = true) →
      n = (xs ++ rest).length → scanLoop stop buf n pos = pos + xs.length := by
  intro xs
  induction xs with
  | nil =>
    intro rest pos n hd _ hr hn
    cases rest with
    | nil => subst hn; rfl
    | cons c t =>
      have hc := hr c rfl
      have hg := getD_of_drop (by simpa using hd : buf.drop pos = c :: t)
      subst hn
      show scanLoop stop buf (t.length + 1) pos = pos + 0
      rw [scanLoop, hg, hc]; rfl
  | cons b bs ih =>
    intro rest pos n hd hx hr hn
    have hb : stop b = false := hx b (List.mem_cons_self _ _)
    have hg := getD_of_drop (by simpa using hd : buf.drop pos = b :: (bs ++ rest))
    have hd2 := drop_succ_of_drop (by simpa using hd : buf.drop pos = b :: (bs ++ rest))
    subst hn
    have := ih rest (pos + 1) (bs ++ rest).length hd2
      (fun c hc => hx c (List.mem_cons_of_mem _ hc)) hr rfl
    show scanLoop stop buf ((bs ++ rest).length + 1) pos = pos + (bs.length + 1)
    rw [scanLoop, hg, hb]
    simp only [Bool.false_eq_true, if_false]
    rw [this]; omega

theorem le_scanLoop (stop : Nat → Bool) (buf : List Nat) :
    ∀ (n pos : Nat), pos ≤ scanLoop stop buf n pos := by
  intro n
  induction n with
  | zero => intro pos; exact Nat.le_refl _
  | succ m ih =>
    intro pos
    rw [scanLoop]
    split
    · exact Nat.le_refl _
    · exact Nat.le_trans (Nat.le_succ _) (ih (pos + 1))

/-- The loop of the post-check is the scanning loop that also notes whether it
moved. -/
theorem postLoop_eq (buf : List Nat) : ∀ (n pos : Nat) (hb : Bool),
    postLoop buf n pos hb =
      (scanLoop (fun c => !is_blank c) buf n pos,
       hb || decide (pos < scanLoop (fun c => !is_blank c) buf n pos)) := by
  intro n
  induction n with
  | zero => intro pos hb; simp [postLoop, scanLoop]
  | succ n ih =>
    intro pos hb
    rw [postLoop, scanLoop]
    cases h : is_blank (buf.getD pos 0)
    · simp
    · have hle := le_scanLoop (fun c => !is_blank c) buf n (pos + 1)
      have hlt : pos < scanLoop (fun c => !is_blank c) buf n (pos + 1) := by omega
      simp [ih, hlt]

/-- The blank-skipping scan of a reader whose cursor stands before the blanks
`bl` ends right after them. -/
theorem scan_blanks (r : read_table) (bl rest : List Nat) (hlen : r.line_len = r.buf.length)
    (hd : r.buf.drop r.pos = bl ++ rest) (hbl : ∀ c ∈ bl, is_blank c = true)
    (hrest : ∀ c, rest.head? = some c → is_blank c = false) :
    scan (fun c => !is_blank c) r r.pos = r.pos + bl.length := by
  unfold scan
  apply scanLoop_run _ _ bl rest _ _ hd
  · intro c hc; simp [hbl c hc]
  · intro c hc; simp [hrest c hc]
  · rw [hlen]; exact length_sub_of_drop hd

/-- The pre-check at the end of a line: after the blanks `bl` nothing, a newline
or the comment marker follows. -/
theorem pre_check_eol (r : read_table) (bl rest : List Nat) (hlen : r.line_len = r.buf.length)
    (hpos : r.pos ≤ r.buf.length)
    (hd : r.buf.drop r.pos = bl ++ rest) (hbl : ∀ c ∈ bl, is_blank c = true)
    (hrest : rest = [] ∨ rest.head? = some 10
      ∨ (r.comment ≠ 0 ∧ is_blank r.comment = false ∧ rest.head? = some r.comment))
    (herr : r.last_error ≠ T_EOF ∧ r.last_error ≠ T_READ_ERROR ∧ r.last_error ≠ T_ERROR_FOPEN) :
    (read_table_pre_check r).1 = 1 ∧ (read_table_pre_check r).2.last_error = T_EOL := by
  by_cases hb : blocking r.last_error
  · have he : r.last_error = T_EOL := by
      rcases hb with h | h | h | h
      · exact absurd h herr.1
      · exact h
      · exact absurd h herr.2.1
      · exact absurd h herr.2.2
    simp [read_table_pre_check, he]
  · have hnb : ∀ c, rest.head? = some c → is_blank c = false := by
      intro c hc
      rcases hrest with h | h | ⟨_, h2, h3⟩
      · simp [h] at hc
      · rw [h] at hc; cases hc; rfl
      · rw [h3] at hc; cases hc; exact h2
    have hs := scan_blanks r bl rest hlen hd hbl hnb
    have hd2 : r.buf.drop (r.pos + bl.length) = rest := by
      rw [← List.drop_drop, hd, List.drop_left]
    have hcond : r.pos + bl.length = r.line_len ∨ r.buf.getD (r.pos + bl.length) 0 = 10
        ∨ (r.comment != 0 && r.buf.getD (r.pos + bl.length) 0 == r.comment) = true := by
      cases hrl : rest with
      | nil =>
        left
        have := length_sub_of_drop hd
        rw [hrl] at this
        simp at this
        omega
      | cons c t =>
        rw [hrl] at hd2
        have hg := getD_of_drop hd2
        rcases hrest with h | h | ⟨h1, _, h3⟩
        · simp [hrl] at h
        · rw [hrl] at h; cases h; right; left; exact hg
        · rw [hrl] at h3; cases h3; right; right
          rw [hg]; simp [h1]
    unfold read_table_pre_check
    rw [if_neg hb]
    simp only [hs, bufAt, is_comment]
    rw [if_pos hcond]
    exact ⟨rfl, rfl⟩

/-- The pre-check before a field: after the blanks `bl` a byte `c` that starts a
field follows. -/
theorem pre_check_field (r : read_table) (bl : List Nat) (c : Nat) (rest : List Nat)
    (hlen : r.line_len = r.buf.length)
    (hd : r.buf.drop r.pos = bl ++ c :: rest) (hbl : ∀ c ∈ bl, is_blank c = true)
    (hc : is_blank c = false ∧ c ≠ 10) (hstart : StartsField r c)
    (herr : ¬ blocking r.last_error) :
    read_table_pre_check r = (0, { r with pos := r.pos + bl.length }) := by
  have hs := scan_blanks r bl (c :: rest) hlen hd hbl
    (by intro x hx; cases hx; exact hc.1)
  have hd2 : r.buf.drop (r.pos + bl.length) = c :: rest := by
    rw [← List.drop_drop, hd, List.drop_left]
  have hg := getD_of_drop hd2
  have hlt : r.pos + bl.length ≠ r.line_len := by
    have := length_sub_of_drop hd2
    simp at this
    omega
  have hcm : (r.comment != 0 && c == r.comment) = false := by
    rcases hstart.1 with h | h
    · simp [h]
    · simp only [Bool.and_eq_false_imp, bne_iff_ne, ne_eq, beq_eq_false_iff_ne]
      intro _; exact h
  have hdl : ¬ (r.delim ≠ 0 ∧ c = r.delim) := by
    rcases hstart.2 with h | h
    · simp [h]
    · simp [h]
  unfold read_table_pre_check
  rw [if_neg herr]
  simp only [hs, bufAt, hg, is_comment]
  rw [if_neg (by simp [hlt, hc.2, hcm]), if_neg hdl]

/-- A read whose pre-check fails returns failure with the reader the pre-check left. -/
theorem int32_of_pre_fail (r : read_table) (i mn mx : Int) (h : (read_table_pre_check r).1 = 1) :
    read_table_int32_limits r i mn mx = (1, (read_table_pre_check r).2, i) := by
  simp [read_table_int32_limits, h]

theorem int64_of_pre_fail (r : read_table) (i mn mx : Int) (h : (read_table_pre_check r).1 = 1) :
    read_table_int64_limits r i mn mx = (1, (read_table_pre_check r).2, i) := by
  simp [read_table_int64_limits, h]

theorem uint32_of_pre_fail (r : read_table) (i mn mx : Nat) (h : (read_table_pre_check r).1 = 1) :
    read_table_uint32_limits r i mn mx = (1, (read_table_pre_check r).2, i) := by
  simp [read_table_uint32_limits, h]

theorem uint64_of_pre_fail (r : read_table) (i mn mx : Nat) (h : (read_table_pre_check r).1 = 1) :
    read_table_uint64_limits r i mn mx = (1, (read_table_pre_check r).2, i) := by
  simp [read_table_uint64_limits, h]

theorem int16_of_pre_fail (r : read_table) (i mn mx : Int) (h : (read_table_pre_check r).1 = 1) :
    read_table_int16_limits r i mn mx = (1, (read_table_pre_check r).2, to_signed 16 i) := by
  simp [read_table_int16_limits, int32_of_pre_fail r i mn mx h]

theorem uint16_of_pre_fail (r : read_table) (i mn mx : Nat) (h : (read_table_pre_check r).1 = 1) :
    read_table_uint16_limits r i mn mx = (1, (read_table_pre_check r).2, to_unsigned 16 i) := by
  simp [read_table_uint16_limits, uint32_of_pre_fail r i mn mx h]

theorem double_of_pre_fail (env : Env) (r : read_table) (d : Dbl)
    (h : (read_table_pre_check r).1 = 1) :
    read_table_double env r d = (1, (read_table_pre_check r).2, d) := by
  simp [read_table_double, h]

theorem double_limits_of_pre_fail (env : Env) (r : read_table) (d mn mx : Dbl)
    (h : (read_table_pre_check r).1 = 1) :
    read_table_double_limits env r d mn mx = (1, (read_table_pre_check r).2, d) := by
  simp [read_table_double_limits, h]

/-- At the end of the stream `getline` fails, so `read_table_line_skip` reports
end-of-file. -/
theorem line_skip_eof (q : read_table) (skip : Bool) (hf : q.f = some [])
    (h1 : q.last_error ≠ T_COPIED) (h2 : q.last_error ≠ T_ERROR_FOPEN) :
    (read_table_line_skip q skip).1 = 1 ∧ (read_table_line_skip q skip).2.last_error = T_EOF := by
  unfold read_table_line_skip
  by_cases h : q.last_error = T_EOF
  · simp [h]
  · simp [h, h1, h2, hf, line_skip_loop, getline]

/-- When every read succeeds the variadic reader returns success with the
reader and the values the reads leave. -/
theorem multiple_of_allOk (env : Env) : ∀ (vals : List Field) (r : read_table),
    AllOk env r vals →
    read_table_multiple env r vals = (0, (run_reads env r vals).1, (run_reads env r vals).2) := by
  intro vals
  induction vals with
  | nil => intro r _; rfl
  | cons val vals ih =>
    intro r h
    obtain ⟨h1, h2⟩ := h
    simp only [read_table_multiple, run_reads, h1, ne_eq, not_true_eq_false, if_false, ih _ h2]

/-- When the reads of `done` succeed and the next one fails, the variadic reader
returns failure with the reader of the failing read; the later arguments are
not touched. -/
theorem multiple_of_fail (env : Env) (val : Field) (rest : List Field) :
    ∀ (done : List Field) (r : read_table), AllOk env r done →
    (read_table_next env (run_reads env r done).1 val).1 ≠ 0 →
    read_table_multiple env r (done ++ val :: rest)
      = (1, (read_table_next env (run_reads env r done).1 val).2.1,
          (run_reads env r done).2
            ++ (read_table_next env (run_reads env r done).1 val).2.2 :: rest) := by
  intro done
  induction done with
  | nil =>
    intro r _ hf
    simp only [List.nil_append, read_table_multiple, run_reads] at hf ⊢
    rw [if_pos hf]
  | cons d ds ih =>
    intro r h hf
    obtain ⟨h1, h2⟩ := h
    simp only [run_reads] at hf
    have hi := ih _ h2 hf
    show read_table_multiple env r (d :: (ds ++ val :: rest)) = _
    simp only [read_table_multiple, run_reads, h1, ne_eq, not_true_eq_false, if_false, hi,
      List.cons_append]

theorem multiple_zero_iff (env : Env) : ∀ (vals : List Field) (r : read_table),
    (read_table_multiple env r vals).1 = 0 ↔ AllOk env r vals := by
  intro vals
  induction vals with
  | nil => intro r; simp [read_table_multiple, AllOk]
  | cons val vals ih =>
    intro r
    by_cases h : (read_table_next env r val).1 = 0
    · simp only [read_table_multiple, AllOk, h, ne_eq, not_true_eq_false, if_false, true_and]
      exact ih _
    · simp only [read_table_multiple, AllOk, h, ne_eq, not_false_eq_true, if_true, false_and]
      decide

/-- An unsigned read of a field that starts with `-` stops at the sign test. -/
theorem uint32_minus (r : read_table) (bl rest : List Nat) (hlay : Layout r bl [45] rest)
    (hstart : StartsField r 45) (herr : ¬ blocking r.last_error) (i mn mx : Nat) :
    read_table_uint32_limits r i mn mx
      = (1, { r with pos := r.pos + bl.length, last_error := T_OVERFLOW }, 0) := by
  obtain ⟨hlen, _, hd, hbl⟩ := hlay
  have hd1 : r.buf.drop r.pos = bl ++ 45 :: rest := by simpa using hd
  have hpc := pre_check_field r bl 45 rest hlen hd1 hbl (by decide) hstart herr
  have hd2 : r.buf.drop (r.pos + bl.length) = 45 :: rest := by
    rw [← List.drop_drop, hd1, List.drop_left]
  have hg := getD_of_drop hd2
  simp only [read_table_uint32_limits, hpc, bufAt, hg]
  rfl

theorem uint64_minus (r : read_table) (bl rest : List Nat) (hlay : Layout r bl [45] rest)
    (hstart : StartsField r 45) (herr : ¬ blocking r.last_error) (i mn mx : Nat) :
    read_table_uint64_limits r i mn mx
      = (1, { r with pos := r.pos + bl.length, last_error := T_OVERFLOW }, 0) := by
  obtain ⟨hlen, _, hd, hbl⟩ := hlay
  have hd1 : r.buf.drop r.pos = bl ++ 45 :: rest := by simpa using hd
  have hpc := pre_check_field r bl 45 rest hlen hd1 hbl (by decide) hstart herr
  have hd2 : r.buf.drop (r.pos + bl.length) = 45 :: rest := by
    rw [← List.drop_drop, hd1, List.drop_left]
  have hg := getD_of_drop hd2
  simp only [read_table_uint64_limits, hpc, bufAt, hg]
  rfl

theorem next_env_free (env env' : Env) (r : read_table) (val : Field)
    (h : val.envFree = true) : read_table_next env r val = read_table_next env' r val := by
  cases val <;> first | rfl | exact absurd h (by simp [Field.envFree])

theorem multiple_env_free (env env' : Env) : ∀ (vals : List Field) (r : read_table),
    (∀ v ∈ vals, v.envFree = true) →
    read_table_multiple env r vals = read_table_multiple env' r vals := by
  intro vals
  induction vals with
  | nil => intro r _; rfl
  | cons val vals ih =>
    intro r h
    have h1 := next_env_free env env' r val (h val (List.mem_cons_self _ _))
    have h2 := fun q => ih q (fun v hv => h v (List.mem_cons_of_mem _ hv))
    simp only [read_table_multiple, h1, h2]

theorem read_env_free (env env' : Env) (r : read_table) (val : Field) (vals : List Field)
    (h : ∀ v ∈ val :: vals, v.envFree = true) :
    read_table2.read env r val vals = read_table2.read env' r val vals := by
  unfold read_table2.read
  rw [multiple_env_free env env' (val :: vals) r h]

/-! ### Decimal text and the conversions -/

/-- The number a list of decimal digits denotes, continuing from `acc`. -/
theorem digitVal_of_digit {c : Nat} (h : isDigit c) : digitVal c = some (c - 48) := by
  unfold digitVal
  rw [if_pos h]

theorem digitVal_not_digit {c : Nat} (h : ¬ isDigit c) :
    digitVal c = none ∨ ∃ d, digitVal c = some d ∧ 10 ≤ d := by
  unfold digitVal
  rw [if_neg h]
  by_cases h1 : 97 ≤ c ∧ c ≤ 122
  · rw [if_pos h1]; right; exact ⟨_, rfl, by omega⟩
  · rw [if_neg h1]
    by_cases h2 : 65 ≤ c ∧ c ≤ 90
    · rw [if_pos h2]; right; exact ⟨_, rfl, by omega⟩
    · rw [if_neg h2]; left; rfl

theorem digitsLoop_digits (tail : List Nat) : ∀ (ds : List Nat) (acc k : Nat),
    (∀ c ∈ ds, isDigit c) →
    digitsLoop 10 (ds ++ tail) acc k
      = digitsLoop 10 tail (ds.foldl (fun a c => a * 10 + (c - 48)) acc) (k + ds.length) := by
  intro ds
  induction ds with
  | nil => intro acc k _; rfl
  | cons d ds ih =>
    intro acc k h
    have hd : isDigit d := h d (List.mem_cons_self _ _)
    have hlt : d - 48 < 10 := by have := hd.1; have := hd.2; omega
    show digitsLoop 10 (d :: (ds ++ tail)) acc k = _
    rw [digitsLoop, digitVal_of_digit hd]
    simp only [hlt, if_true]
    rw [ih _ _ (fun c hc => h c (List.mem_cons_of_mem _ hc))]
    simp only [List.foldl_cons, List.length_cons]
    congr 1
    omega

theorem digitsLoop_stop (tail : List Nat) (acc k : Nat)
    (h : ∀ c, tail.head? = some c → ¬ isDigit c) : digitsLoop 10 tail acc k = (acc, k) := by
  cases tail with
  | nil => rfl
  | cons c t =>
    rw [digitsLoop]
    rcases digitVal_not_digit (h c rfl) with h1 | ⟨d, h1, h2⟩
    · rw [h1]
    · rw [h1]
      simp only []
      rw [if_neg (by omega)]

theorem natTextAux_spec : ∀ (fuel n : Nat), n ≤ fuel →
    (∀ c ∈ natTextAux fuel n, isDigit c) ∧ natTextAux fuel n ≠ []
      ∧ (natTextAux fuel n).foldl (fun a c => a * 10 + (c - 48)) 0 = n := by
  intro fuel
  induction fuel with
  | zero =>
    intro n hn
    have : n = 0 := by omega
    subst this
    decide
  | succ fuel ih =>
    intro n hn
    rw [natTextAux]
    by_cases h : n < 10
    · rw [if_pos h]
      refine ⟨?_, by simp, ?_⟩
      · intro c hc
        simp only [List.mem_singleton] at hc
        subst hc
        exact ⟨by omega, by omega⟩
      · simp
    · rw [if_neg h]
      obtain ⟨h1, _, h3⟩ := ih (n / 10) (by omega)
      refine ⟨?_, by simp, ?_⟩
      · intro c hc
        rcases List.mem_append.1 hc with hc | hc
        · exact h1 c hc
        · simp only [List.mem_singleton] at hc
          subst hc
          exact ⟨by omega, by omega⟩
      · rw [List.foldl_append, h3]
        simp only [List.foldl_cons, List.foldl_nil]
        omega

theorem natText_spec (n : Nat) :
    (∀ c ∈ natText n, isDigit c) ∧ natText n ≠ []
      ∧ (natText n).foldl (fun a c => a * 10 + (c - 48)) 0 = n :=
  natTextAux_spec n n (Nat.le_refl n)

/-- The digits of a decimal text, followed by a byte that is not a digit, are
read back by the digit loop. -/
theorem digitsLoop_natText (n : Nat) (tail : List Nat)
    (h : ∀ c, tail.head? = some c → ¬ isDigit c) :
    digitsLoop 10 (natText n ++ tail) 0 0 = (n, (natText n).length) := by
  obtain ⟨h1, _, h3⟩ := natText_spec n
  rw [digitsLoop_digits tail _ 0 0 h1, digitsLoop_stop tail _ _ h, h3, Nat.zero_add]

theorem dropWhile_isspace_of_head {s : List Nat} {c : Nat} (h : s.head? = some c)
    (hc : isspace c = false) : s.dropWhile isspace = s := by
  cases s with
  | nil => rfl
  | cons a t =>
    cases h
    rw [List.dropWhile_cons, hc]
    rfl

/-- The scan in base 10 of a string whose first byte is not white space. -/
theorem strto_scan_ten (s : List Nat) (c : Nat) (hs : s.head? = some c)
    (hsp : isspace c = false) :
    strto_scan s 10
      = if (digitsLoop 10 (s.drop (if c = 45 ∨ c = 43 then 1 else 0)) 0 0).2 = 0
        then some ⟨c == 45, 0, 0⟩
        else some ⟨c == 45, (digitsLoop 10 (s.drop (if c = 45 ∨ c = 43 then 1 else 0)) 0 0).1,
              (if c = 45 ∨ c = 43 then 1 else 0)
                + (digitsLoop 10 (s.drop (if c = 45 ∨ c = 43 then 1 else 0)) 0 0).2⟩ := by
  unfold strto_scan
  rw [dropWhile_isspace_of_head hs hsp]
  simp [hs]

theorem strto_scan_signed (neg : Bool) (m : Nat) (tail : List Nat)
    (h : ∀ c, tail.head? = some c → ¬ isDigit c) :
    strto_scan ((if neg then [45] else []) ++ natText m ++ tail) 10
      = some ⟨neg, m, (if neg then 1 else 0) + (natText m).length⟩ := by
  obtain ⟨h1, h2, _⟩ := natText_spec m
  have hloop := digitsLoop_natText m tail h
  have hlen : (natText m).length ≠ 0 := by
    intro h0; exact h2 (List.length_eq_zero.1 h0)
  cases neg
  · cases hnt : natText m with
    | nil => exact absurd hnt h2
    | cons d ds =>
      have hd : isDigit d := h1 d (by rw [hnt]; exact List.mem_cons_self _ _)
      rw [hnt] at hloop hlen
      have hsp : isspace d = false := by
        have := hd.1
        simp [isspace]; omega
      have h45 : ¬ (d = 45 ∨ d = 43) := by have := hd.1; omega
      have hne : (d == 45) = false := by simp; have := hd.1; omega
      have hs : ((if false = true then [45] else []) ++ (d :: ds) ++ tail).head? = some d := rfl
      rw [strto_scan_ten _ d hs hsp]
      simp only [h45, if_false, List.drop_zero, Bool.false_eq_true, List.nil_append, hloop, hne]
      rw [if_neg hlen]
  · have hs : ((if true = true then [45] else []) ++ natText m ++ tail).head? = some 45 := rfl
    rw [strto_scan_ten _ 45 hs (by decide)]
    simp only [true_or, if_true, List.cons_append, List.nil_append, List.drop_succ_cons,
      List.drop_zero, hloop, List.append_assoc]
    rw [if_neg hlen]
    simp

theorem decimalText_eq (n : Int) :
    decimalText n = (if decide (n < 0) = true then [45] else []) ++ natText n.natAbs := by
  unfold decimalText
  by_cases h : n < 0 <;> simp [h]

theorem decimalText_length (n : Int) :
    (decimalText n).length = (if decide (n < 0) = true then 1 else 0) + (natText n.natAbs).length := by
  rw [decimalText_eq]
  by_cases h : n < 0 <;> simp [h]
  omega

/-- The value `strtol` returns for a decimal text: the number, saturated to the
range of `long`. -/
theorem strtol_decimal (n : Int) (tail : List Nat)
    (h : ∀ c, tail.head? = some c → ¬ isDigit c) :
    strtol (decimalText n ++ tail) 10
      = (if n < LONG_MIN then LONG_MIN else if LONG_MAX < n then LONG_MAX else n,
         (decimalText n).length,
         if n < LONG_MIN ∨ LONG_MAX < n then Errno.ERANGE else Errno.E0) := by
  unfold strtol
  rw [decimalText_length, decimalText_eq, strto_scan_signed _ _ tail h]
  simp only [LONG_MIN, LONG_MAX]
  by_cases hn : n < 0
  · have h1 : ((n.natAbs : Nat) : Int) = -n := by omega
    simp only [hn, decide_True, if_true, h1, neg_neg]
    norm_num
    split_ifs <;> first | rfl | omega
  · have h1 : ((n.natAbs : Nat) : Int) = n := by omega
    simp only [hn, decide_False, Bool.false_eq_true, if_false, h1]
    norm_num
    split_ifs <;> first | rfl | omega

/-- The value `strtoul` returns for the decimal text of a natural number. -/
theorem strtoul_decimal (n : Nat) (tail : List Nat)
    (h : ∀ c, tail.head? = some c → ¬ isDigit c) :
    strtoul (decimalText n ++ tail) 10
      = (if ULONG_MAX < n then ULONG_MAX else n, (decimalText n).length,
         if ULONG_MAX < n then Errno.ERANGE else Errno.E0) := by
  unfold strtoul
  have hn : ¬ ((n : Int) < 0) := by omega
  rw [decimalText_length, decimalText_eq, strto_scan_signed _ _ tail h]
  simp only [hn, decide_False, Bool.false_eq_true, if_false, Int.natAbs_ofNat]
  by_cases h2 : ULONG_MAX < n
  · simp [h2]
  · simp [h2]

theorem head_dropWhile_not (p : Nat → Bool) : ∀ (l : List Nat) (c : Nat),
    (l.dropWhile p).head? = some c → p c = false := by
  intro l
  induction l with
  | nil => intro c h; simp at h
  | cons a t ih =>
    intro c h
    rw [List.dropWhile_cons] at h
    cases hp : p a
    · rw [hp] at h
      simp only [Bool.false_eq_true, if_false, List.head?_cons, Option.some.injEq] at h
      rw [← h]; exact hp
    · rw [hp] at h
      exact ih c (by simpa using h)

theorem mem_takeWhile_imp (p : Nat → Bool) : ∀ (l : List Nat) (c : Nat),
    c ∈ l.takeWhile p → p c = true := by
  intro l
  induction l with
  | nil => intro c h; simp at h
  | cons a t ih =>
    intro c h
    rw [List.takeWhile_cons] at h
    cases hp : p a
    · rw [hp] at h; simp at h
    · rw [hp] at h
      simp only [if_true, List.mem_cons] at h
      rcases h with h | h
      · rw [h]; exact hp
      · exact ih c h

/-- The post-check after a conversion without error that stopped at `c2`, when
the blanks `bl2` and then `rest` follow and make up a separator. -/
theorem post_check_core (r1 : read_table) (c2 : Nat) (bl2 rest : List Nat)
    (hlen : r1.line_len = r1.buf.length) (hc2 : r1.pos < c2) (hle : c2 ≤ r1.buf.length)
    (hd : r1.buf.drop c2 = bl2 ++ rest)
    (hblank : ∀ c ∈ bl2, is_blank c = true)
    (hnb : ∀ c, rest.head? = some c → is_blank c = false)
    (hsep : rest = [] ∨ rest.head? = some 10 ∨ (r1.delim = 0 ∧ bl2 ≠ [])
      ∨ (r1.delim ≠ 0 ∧ rest.head? = some r1.delim))
    (hnl : r1.delim ≠ 10)
    (hcd : r1.delim ≠ 0 → rest.head? = some r1.delim → r1.comment ≠ r1.delim) :
    read_table_post_check r1 Errno.E0 c2
      = (0, { r1 with
              pos := c2 + bl2.length
                + (if r1.delim ≠ 0 ∧ rest.head? = some r1.delim then 1 else 0),
              col := if rest = [] ∨ rest.head? = some 10
                        ∨ (r1.comment ≠ 0 ∧ rest.head? = some r1.comment)
                     then r1.col else r1.col + 1,
              last_error := T_OK }) := by
  have hscan : scanLoop (fun c => !is_blank c) r1.buf (r1.line_len - c2) c2 = c2 + bl2.length := by
    apply scanLoop_run _ _ bl2 rest _ _ hd
    · intro c hc; simp [hblank c hc]
    · intro c hc; simp [hnb c hc]
    · rw [hlen]; exact length_sub_of_drop hd
  have hd2 : r1.buf.drop (c2 + bl2.length) = rest := by
    rw [← List.drop_drop, hd, List.drop_left]
  have hlensuf := length_sub_of_drop hd
  have hne : ¬ (Errno.E0 = Errno.EINVAL ∨ c2 = r1.pos) := by
    intro h; rcases h with h | h
    · cases h
    · omega
  unfold read_table_post_check
  rw [if_neg hne, if_neg (by decide)]
  simp only [postLoop_eq, hscan, bufAt, is_comment, Bool.false_or]
  cases rest with
  | nil =>
    have hl : c2 + bl2.length = r1.line_len := by
      simp at hlensuf; omega
    simp [hl]
  | cons c t =>
    have hg := getD_of_drop hd2
    have hl : c2 + bl2.length ≠ r1.line_len := by
      simp at hlensuf; omega
    rw [hg]
    simp only [List.head?_cons, Option.some.injEq, hl, false_or, reduceCtorEq]
    by_cases h10 : c = 10
    · subst h10
      have : ¬ (r1.delim ≠ 0 ∧ 10 = r1.delim) := fun h => hnl h.2.symm
      simp [this]
    · by_cases hcm : r1.comment ≠ 0 ∧ c = r1.comment
      · obtain ⟨hc0, rfl⟩ := hcm
        have hdl : ¬ (r1.delim ≠ 0 ∧ r1.comment = r1.delim) := by
          intro h
          exact hcd h.1 (by rw [h.2]; rfl) h.2
        have hb : (r1.comment != 0 && r1.comment == r1.comment) = true := by
          simp [hc0]
        simp [hb, hdl, hc0]
      · have hb : (r1.comment != 0 && c == r1.comment) = false := by
          simp only [Bool.and_eq_false_imp, bne_iff_ne, ne_eq, beq_eq_false_iff_ne]
          intro h1 h2; exact hcm ⟨h1, h2⟩
        rcases hsep with h | h | ⟨h1, h2⟩ | ⟨h1, h2⟩
        · cases h
        · simp at h; exact absurd h h10
        · have hpos : 0 < bl2.length := List.length_pos.2 h2
          simp [hb, h10, hcm, h1, hpos]
        · simp at h2
          subst h2
          simp [hb, h10, hcm, h1]

/-- The post-check after a conversion without error that stopped at `c2`, when a
separator follows. -/
theorem post_check_separated (r1 : read_table) (c2 : Nat) (suf : List Nat)
    (hlen : r1.line_len = r1.buf.length) (hc2 : r1.pos < c2) (hle : c2 ≤ r1.buf.length)
    (hd : r1.buf.drop c2 = suf) (hsep : Separated r1 suf) (hnl : r1.delim ≠ 10)
    (hcd : r1.delim ≠ 0 → (suf.dropWhile is_blank).head? = some r1.delim →
      r1.comment ≠ r1.delim) :
    read_table_post_check r1 Errno.E0 c2
      = (0, { r1 with
              pos := c2 + (suf.takeWhile is_blank).length
                + (if r1.delim ≠ 0 ∧ (suf.dropWhile is_blank).head? = some r1.delim then 1 else 0),
              col := if EndsLine r1 suf then r1.col else r1.col + 1,
              last_error := T_OK }) := by
  apply post_check_core r1 c2 (suf.takeWhile is_blank) (suf.dropWhile is_blank) hlen hc2 hle
    (by rw [hd, List.takeWhile_append_dropWhile])
    (fun c hc => mem_takeWhile_imp _ _ _ hc) (fun c hc => head_dropWhile_not _ _ _ hc) _ hnl hcd
  rcases hsep with h | h | h | ⟨h1, _, h3⟩
  · exact Or.inl h
  · exact Or.inr (Or.inl h)
  · exact Or.inr (Or.inr (Or.inl h))
  · exact Or.inr (Or.inr (Or.inr ⟨h1, h3⟩))

/-- The post-check after a conversion without error that stopped at `c2`, when a
byte follows that is no blank, newline, comment marker or delimiter. -/
theorem post_check_junk (r1 : read_table) (c2 c : Nat) (t : List Nat)
    (hlen : r1.line_len = r1.buf.length) (hc2 : r1.pos < c2) (hd : r1.buf.drop c2 = c :: t)
    (hc : is_blank c = false ∧ c ≠ 10) (hstart : StartsField r1 c) :
    read_table_post_check r1 Errno.E0 c2 = (1, { r1 with pos := c2, last_error := T_FORMAT }) := by
  have hscan : scanLoop (fun c => !is_blank c) r1.buf (r1.line_len - c2) c2 = c2 + 0 := by
    apply scanLoop_run _ _ [] (c :: t) _ _ hd
    · intro x hx; cases hx
    · intro x hx; cases hx; simp [hc.1]
    · rw [hlen]; exact length_sub_of_drop hd
  have hlensuf := length_sub_of_drop hd
  have hg := getD_of_drop hd
  have hl : c2 ≠ r1.line_len := by simp at hlensuf; omega
  have hne : ¬ (Errno.E0 = Errno.EINVAL ∨ c2 = r1.pos) := by
    intro h; rcases h with h | h
    · cases h
    · omega
  have hb : (r1.comment != 0 && c == r1.comment) = false := by
    simp only [Bool.and_eq_false_imp, bne_iff_ne, ne_eq, beq_eq_false_iff_ne]
    intro h1
    rcases hstart.1 with h | h
    · exact absurd h h1
    · exact h
  unfold read_table_post_check
  rw [if_neg hne, if_neg (by decide)]
  simp only [postLoop_eq, hscan, bufAt, is_comment, Bool.false_or, Nat.add_zero, hg]
  by_cases hd0 : r1.delim = 0
  · simp [hl, hc.2, hb, hd0]
  · have hcd : c ≠ r1.delim := by
      rcases hstart.2 with h | h
      · exact absurd h hd0
      · exact h
    simp [hl, hc.2, hb, hd0, hcd]

/-- The post-check after a conversion that reported a range error. -/
theorem post_check_erange (r1 : read_table) (c2 : Nat) (hc2 : r1.pos < c2) :
    read_table_post_check r1 Errno.ERANGE c2 = (1, { r1 with last_error := T_OVERFLOW }) := by
  have hne : ¬ (Errno.ERANGE = Errno.EINVAL ∨ c2 = r1.pos) := by
    intro h; rcases h with h | h
    · cases h
    · omega
  unfold read_table_post_check
  rw [if_neg hne, if_pos rfl]

theorem head_takeWhile (p : Nat → Bool) (l : List Nat) (c : Nat)
    (h : (l.takeWhile p).head? = some c) : l.head? = some c := by
  cases l with
  | nil => simp at h
  | cons a t =>
    rw [List.takeWhile_cons] at h
    cases hp : p a
    · rw [hp] at h; simp at h
    · rw [hp] at h; simpa using h

theorem decimalText_head (n : Int) :
    ∃ c t, decimalText n = c :: t ∧ is_blank c = false ∧ c ≠ 10 := by
  obtain ⟨h1, h2, _⟩ := natText_spec n.natAbs
  unfold decimalText
  by_cases h : n < 0
  · rw [if_pos h]; exact ⟨45, _, rfl, by decide, by decide⟩
  · rw [if_neg h]
    cases hnt : natText n.natAbs with
    | nil => exact absurd hnt h2
    | cons d ds =>
      have hd : isDigit d := h1 d (by rw [hnt]; exact List.mem_cons_self _ _)
      refine ⟨d, ds, rfl, ?_, ?_⟩
      · have := hd.1; simp [is_blank]; omega
      · have := hd.1; omega

theorem decimalText_nonzero (n : Int) : ∀ c ∈ decimalText n, (c != 0) = true := by
  obtain ⟨h1, _, _⟩ := natText_spec n.natAbs
  intro c hc
  have : c = 45 ∨ isDigit c := by
    unfold decimalText at hc
    by_cases h : n < 0
    · rw [if_pos h] at hc
      rcases List.mem_cons.1 hc with hc | hc
      · exact Or.inl hc
      · exact Or.inr (h1 c hc)
    · rw [if_neg h] at hc; exact Or.inr (h1 c hc)
  rcases this with h | h
  · subst h; decide
  · have := h.1; simp; omega

/-- What the set-up of a numeric read gives on a field that holds a decimal
text: the pre-check succeeds with the cursor on the text, the C string at the
cursor is the text and what follows it, and `suf` starts where the text ends. -/
theorem field_facts (r : read_table) (bl suf : List Nat) (n : Int)
    (hlay : Layout r bl (decimalText n) suf)
    (hstart : ∀ c, (decimalText n).head? = some c → StartsField r c)
    (herr : ¬ blocking r.last_error) :
    read_table_pre_check r = (0, { r with pos := r.pos + bl.length })
    ∧ (∃ tail, cstr { r with pos := r.pos + bl.length } = decimalText n ++ tail
        ∧ ∀ c, tail.head? = some c → suf.head? = some c)
    ∧ r.buf.drop (r.pos + bl.length + (decimalText n).length) = suf
    ∧ r.pos + bl.length + (decimalText n).length ≤ r.buf.length
    ∧ 0 < (decimalText n).length := by
  obtain ⟨hlen, hpos, hd, hbl⟩ := hlay
  obtain ⟨c, t, hct, hc1, hc2⟩ := decimalText_head n
  have hd1 : r.buf.drop r.pos = bl ++ c :: (t ++ suf) := by
    rw [hd, hct]; simp
  have hpc := pre_check_field r bl c (t ++ suf) hlen hd1 hbl ⟨hc1, hc2⟩
    (hstart c (by rw [hct]; rfl)) herr
  have hd2 : r.buf.drop (r.pos + bl.length) = decimalText n ++ suf := by
    rw [← List.drop_drop, hd, List.append_assoc, List.drop_left]
  have hd3 : r.buf.drop (r.pos + bl.length + (decimalText n).length) = suf := by
    rw [← List.drop_drop, hd2, List.drop_left]
  have hl := length_sub_of_drop hd2
  have hlp : 0 < (decimalText n).length := by rw [hct]; simp
  refine ⟨hpc, ⟨suf.takeWhile (fun c => c != 0), ?_, ?_⟩, hd3, ?_, ?_⟩
  · show List.takeWhile (fun c => c != 0) (r.buf.drop (r.pos + bl.length)) = _
    rw [hd2, List.takeWhile_append_of_pos (decimalText_nonzero n)]
  · intro x hx; exact head_takeWhile _ _ _ hx
  · simp at hl; omega
  · exact hlp

/-- The 32-bit signed read on a field that holds the decimal text of `n`. -/
theorem int32_on_decimal (r : read_table) (bl suf : List Nat) (n : Int)
    (hlay : Layout r bl (decimalText n) suf)
    (hstart : ∀ c, (decimalText n).head? = some c → StartsField r c)
    (herr : ¬ blocking r.last_error) (hbase : r.base = 10)
    (hsuf : ∀ c, suf.head? = some c → ¬ isDigit c) (i mn mx : Int) :
    read_table_int32_limits r i mn mx =
      if clamp_long n > mx ∨ clamp_long n < mn then
        (1, { r with pos := r.pos + bl.length, last_error := T_OVERFLOW },
          if clamp_long n < mn then mn else if clamp_long n > mx then mx else i)
      else
        ((read_table_post_check { r with pos := r.pos + bl.length } (errno_long n)
            (r.pos + bl.length + (decimalText n).length)).1,
         (read_table_post_check { r with pos := r.pos + bl.length } (errno_long n)
            (r.pos + bl.length + (decimalText n).length)).2,
         to_signed 32 (clamp_long n)) := by
  obtain ⟨hpc, ⟨tail, hcs, htail⟩, _, _, _⟩ := field_facts r bl suf n hlay hstart herr
  have hconv := strtol_decimal n tail (fun c hc => hsuf c (htail c hc))
  simp only [read_table_int32_limits, hpc, hcs]
  simp only [hbase, hconv, clamp_long, errno_long, ne_eq, not_true_eq_false, if_false]

/-- The 64-bit signed read on a field that holds the decimal text of `n`. -/
theorem int64_on_decimal (r : read_table) (bl suf : List Nat) (n : Int)
    (hlay : Layout r bl (decimalText n) suf)
    (hstart : ∀ c, (decimalText n).head? = some c → StartsField r c)
    (herr : ¬ blocking r.last_error) (hbase : r.base = 10)
    (hsuf : ∀ c, suf.head? = some c → ¬ isDigit c) (i mn mx : Int) :
    read_table_int64_limits r i mn mx =
      if clamp_long n > mx ∨ clamp_long n < mn then
        (1, { r with pos := r.pos + bl.length, last_error := T_OVERFLOW },
          if clamp_long n < mn then mn else if clamp_long n > mx then mx else i)
      else
        ((read_table_post_check { r with pos := r.pos + bl.length } (errno_long n)
            (r.pos + bl.length + (decimalText n).length)).1,
         (read_table_post_check { r with pos := r.pos + bl.length } (errno_long n)
            (r.pos + bl.length + (decimalText n).length)).2,
         to_signed 64 (clamp_long n)) := by
  obtain ⟨hpc, ⟨tail, hcs, htail⟩, _, _, _⟩ := field_facts r bl suf n hlay hstart herr
  have hconv := strtol_decimal n tail (fun c hc => hsuf c (htail c hc))
  simp only [read_table_int64_limits, hpc, hcs]
  simp only [hbase, hconv, clamp_long, errno_long, ne_eq, not_true_eq_false, if_false]

/-- The 32-bit unsigned read on a field that holds the decimal text of `n`. -/
theorem uint32_on_decimal (r : read_table) (bl suf : List Nat) (n : Nat)
    (hlay : Layout r bl (decimalText n) suf)
    (hstart : ∀ c, (decimalText n).head? = some c → StartsField r c)
    (herr : ¬ blocking r.last_error) (hbase : r.base = 10)
    (hsuf : ∀ c, suf.head? = some c → ¬ isDigit c) (i mn mx : Nat) :
    read_table_uint32_limits r i mn mx =
      if clamp_ulong n > mx ∨ clamp_ulong n < mn then
        (1, { r with pos := r.pos + bl.length, last_error := T_OVERFLOW },
          if clamp_ulong n < mn then mn else if clamp_ulong n > mx then mx else i)
      else
        ((read_table_post_check { r with pos := r.pos + bl.length } (errno_ulong n)
            (r.pos + bl.length + (decimalText n).length)).1,
         (read_table_post_check { r with pos := r.pos + bl.length } (errno_ulong n)
            (r.pos + bl.length + (decimalText n).length)).2,
         to_unsigned 32 (clamp_ulong n)) := by
  obtain ⟨hpc, ⟨tail, hcs, htail⟩, hd3, _, _⟩ := field_facts r bl suf n hlay hstart herr
  have hconv := strtoul_decimal n tail (fun c hc => hsuf c (htail c hc))
  obtain ⟨hlen, _, hd, hbl⟩ := hlay
  obtain ⟨c, t, hct, _, _⟩ := decimalText_head n
  have hdig : isDigit c := by
    obtain ⟨h1, h2, _⟩ := natText_spec n
    have he : decimalText (n : Int) = natText n := by
      unfold decimalText
      rw [if_neg (by omega)]
      rfl
    rw [he] at hct
    exact h1 c (by rw [hct]; exact List.mem_cons_self _ _)
  have hg : r.buf.getD (r.pos + bl.length) 0 = c := by
    apply getD_of_drop (t := t ++ suf)
    rw [← List.drop_drop, hd, List.append_assoc, List.drop_left, hct]
    rfl
  have hal : (!(isalnum c || c == 43)) = false := by
    have := hdig.1; have := hdig.2
    simp [isalnum]
    omega
  simp only [read_table_uint32_limits, hpc, hcs, bufAt, hg, hal]
  simp only [hbase, hconv, clamp_ulong, errno_ulong, ne_eq, not_true_eq_false, if_false,
    Bool.false_eq_true]

/-- The 64-bit unsigned read on a field that holds the decimal text of `n`. -/
theorem uint64_on_decimal (r : read_table) (bl suf : List Nat) (n : Nat)
    (hlay : Layout r bl (decimalText n) suf)
    (hstart : ∀ c, (decimalText n).head? = some c → StartsField r c)
    (herr : ¬ blocking r.last_error) (hbase : r.base = 10)
    (hsuf : ∀ c, suf.head? = some c → ¬ isDigit c) (i mn mx : Nat) :
    read_table_uint64_limits r i mn mx =
      if clamp_ulong n > mx ∨ clamp_ulong n < mn then
        (1, { r with pos := r.pos + bl.length, last_error := T_OVERFLOW },
          if clamp_ulong n < mn then mn else if clamp_ulong n > mx then mx else i)
      else
        ((read_table_post_check { r with pos := r.pos + bl.length } (errno_ulong n)
            (r.pos + bl.length + (decimalText n).length)).1,
         (read_table_post_check { r with pos := r.pos + bl.length } (errno_ulong n)
            (r.pos + bl.length + (decimalText n).length)).2,
         to_unsigned 64 (clamp_ulong n)) := by
  obtain ⟨hpc, ⟨tail, hcs, htail⟩, hd3, _, _⟩ := field_facts r bl suf n hlay hstart herr
  have hconv := strtoul_decimal n tail (fun c hc => hsuf c (htail c hc))
  obtain ⟨hlen, _, hd, hbl⟩ := hlay
  obtain ⟨c, t, hct, _, _⟩ := decimalText_head n
  have hdig : isDigit c := by
    obtain ⟨h1, h2, _⟩ := natText_spec n
    have he : decimalText (n : Int) = natText n := by
      unfold decimalText
      rw [if_neg (by omega)]
      rfl
    rw [he] at hct
    exact h1 c (by rw [hct]; exact List.mem_cons_self _ _)
  have hg : r.buf.getD (r.pos + bl.length) 0 = c := by
    apply getD_of_drop (t := t ++ suf)
    rw [← List.drop_drop, hd, List.append_assoc, List.drop_left, hct]
    rfl
  have hal : (!(isalnum c || c == 43)) = false := by
    have := hdig.1; have := hdig.2
    simp [isalnum]
    omega
  simp only [read_table_uint64_limits, hpc, hcs, bufAt, hg, hal]
  simp only [hbase, hconv, clamp_ulong, errno_ulong, ne_eq, not_true_eq_false, if_false,
    Bool.false_eq_true]

theorem to_signed_16 (x : Int) (h1 : INT16_MIN ≤ x) (h2 : x ≤ INT16_MAX) : to_signed 16 x = x := by
  unfold INT16_MIN at h1; unfold INT16_MAX at h2
  unfold to_signed; norm_num; omega

theorem to_signed_32 (x : Int) (h1 : INT32_MIN ≤ x) (h2 : x ≤ INT32_MAX) : to_signed 32 x = x := by
  unfold INT32_MIN at h1; unfold INT32_MAX at h2
  unfold to_signed; norm_num; omega

theorem to_signed_64 (x : Int) (h1 : INT64_MIN ≤ x) (h2 : x ≤ INT64_MAX) : to_signed 64 x = x := by
  unfold INT64_MIN at h1; unfold INT64_MAX at h2
  unfold to_signed; norm_num; omega

theorem to_unsigned_16 (x : Nat) (h : x ≤ UINT16_MAX) : to_unsigned 16 x = x := by
  unfold UINT16_MAX at h
  unfold to_unsigned; norm_num; omega

theorem to_unsigned_32 (x : Nat) (h : x ≤ UINT32_MAX) : to_unsigned 32 x = x := by
  unfold UINT32_MAX at h
  unfold to_unsigned; norm_num; omega

theorem to_unsigned_64 (x : Nat) (h : x ≤ UINT64_MAX) : to_unsigned 64 x = x := by
  unfold UINT64_MAX at h
  unfold to_unsigned; norm_num; omega

/-- C1 for the 32-bit signed read. -/
theorem int32_in_range (r : read_table) (bl suf : List Nat) (n : Int)
    (hbase : r.base = 10) (herr : ¬ blocking r.last_error)
    (hlay : Layout r bl (decimalText n) suf) (hsep : Separated r suf)
    (hstart : ∀ c, (decimalText n).head? = some c → StartsField r c)
    (hsuf : ∀ c, suf.head? = some c → ¬ isDigit c) (hnl : r.delim ≠ 10)
    (hcd : r.delim ≠ 0 → (suf.dropWhile is_blank).head? = some r.delim → r.comment ≠ r.delim)
    (i mn mx : Int) (hmn : INT32_MIN ≤ mn) (hmx : mx ≤ INT32_MAX) (h1 : mn ≤ n) (h2 : n ≤ mx) :
    read_table_int32_limits r i mn mx = (0, afterField r bl (decimalText n) suf, n) := by
  obtain ⟨_, _, hd3, hle, hlp⟩ := field_facts r bl suf n hlay hstart herr
  rw [int32_on_decimal r bl suf n hlay hstart herr hbase hsuf]
  have hr1 : INT32_MIN ≤ n := le_trans hmn h1
  have hr2 : n ≤ INT32_MAX := le_trans h2 hmx
  have hc : clamp_long n = n := by
    unfold INT32_MIN at hr1; unfold INT32_MAX at hr2
    unfold clamp_long LONG_MIN LONG_MAX
    split_ifs <;> omega
  have he : errno_long n = Errno.E0 := by
    unfold INT32_MIN at hr1; unfold INT32_MAX at hr2
    unfold errno_long LONG_MIN LONG_MAX
    rw [if_neg (by omega)]
  rw [hc, he, if_neg (by omega)]
  rw [post_check_separated { r with pos := r.pos + bl.length } _ suf hlay.1
    (by show r.pos + bl.length < _; omega) hle hd3 hsep hnl hcd, to_signed_32 n hr1 hr2]
  rfl

/-- C2 for the 32-bit signed read. -/
theorem int32_out_of_range (r : read_table) (bl suf : List Nat) (n : Int)
    (hbase : r.base = 10) (herr : ¬ blocking r.last_error)
    (hlay : Layout r bl (decimalText n) suf)
    (hstart : ∀ c, (decimalText n).head? = some c → StartsField r c)
    (hsuf : ∀ c, suf.head? = some c → ¬ isDigit c)
    (i mn mx : Int) (hmn : INT32_MIN ≤ mn) (hmx : mx ≤ INT32_MAX) (hmm : mn ≤ mx) :
    (mx < n → read_table_int32_limits r i mn mx
        = (1, { r with pos := r.pos + bl.length, last_error := T_OVERFLOW }, mx))
    ∧ (n < mn → read_table_int32_limits r i mn mx
        = (1, { r with pos := r.pos + bl.length, last_error := T_OVERFLOW }, mn)) := by
  obtain ⟨_, _, _, _, hlp⟩ := field_facts r bl suf n hlay hstart herr
  have hpk := post_check_erange { r with pos := r.pos + bl.length }
    (r.pos + bl.length + (decimalText n).length) (by show r.pos + bl.length < _; omega)
  rw [int32_on_decimal r bl suf n hlay hstart herr hbase hsuf]
  unfold INT32_MIN at hmn; unfold INT32_MAX at hmx
  constructor
  · intro h
    by_cases hc : clamp_long n > mx
    · rw [if_pos (Or.inl hc), if_neg (by omega), if_pos hc]
    · have h3 : clamp_long n = mx ∧ errno_long n = Errno.ERANGE := by
        unfold clamp_long errno_long LONG_MIN LONG_MAX at *
        constructor
        · split_ifs at hc ⊢ <;> omega
        · rw [if_pos (by split_ifs at hc <;> omega)]
      rw [h3.1, h3.2, if_neg (by omega), hpk, to_signed_32 mx (by unfold INT32_MIN; omega)
        (by unfold INT32_MAX; omega)]
  · intro h
    by_cases hc : clamp_long n < mn
    · rw [if_pos (Or.inr hc), if_pos hc]
    · have h3 : clamp_long n = mn ∧ errno_long n = Errno.ERANGE := by
        unfold clamp_long errno_long LONG_MIN LONG_MAX at *
        constructor
        · split_ifs at hc ⊢ <;> omega
        · rw [if_pos (by split_ifs at hc <;> omega)]
      rw [h3.1, h3.2, if_neg (by omega), hpk, to_signed_32 mn (by unfold INT32_MIN; omega)
        (by unfold INT32_MAX; omega)]

/-- C4 for the 32-bit signed read. -/
theorem int32_junk (r : read_table) (bl : List Nat) (n : Int) (c : Nat) (rest : List Nat)
    (hbase : r.base = 10) (herr : ¬ blocking r.last_error)
    (hlay : Layout r bl (decimalText n) (c :: rest))
    (hstart : ∀ c, (decimalText n).head? = some c → StartsField r c)
    (hc : is_blank c = false ∧ c ≠ 10 ∧ ¬ isDigit c) (hcs : StartsField r c)
    (i mn mx : Int) (hmn : INT32_MIN ≤ mn) (hmx : mx ≤ INT32_MAX) (h1 : mn ≤ n) (h2 : n ≤ mx) :
    read_table_int32_limits r i mn mx
      = (1, { r with pos := r.pos + bl.length + (decimalText n).length, last_error := T_FORMAT },
          n) := by
  have hsuf : ∀ x, (c :: rest).head? = some x → ¬ isDigit x := by
    intro x hx; cases hx; exact hc.2.2
  obtain ⟨_, _, hd3, hle, hlp⟩ := field_facts r bl (c :: rest) n hlay hstart herr
  rw [int32_on_decimal r bl (c :: rest) n hlay hstart herr hbase hsuf]
  have hr1 : INT32_MIN ≤ n := le_trans hmn h1
  have hr2 : n ≤ INT32_MAX := le_trans h2 hmx
  have hcl : clamp_long n = n := by
    unfold INT32_MIN at hr1; unfold INT32_MAX at hr2
    unfold clamp_long LONG_MIN LONG_MAX
    split_ifs <;> omega
  have he : errno_long n = Errno.E0 := by
    unfold INT32_MIN at hr1; unfold INT32_MAX at hr2
    unfold errno_long LONG_MIN LONG_MAX
    rw [if_neg (by omega)]
  rw [hcl, he, if_neg (by omega)]
  rw [post_check_junk { r with pos := r.pos + bl.length } _ c rest hlay.1
    (by show r.pos + bl.length < _; omega) hd3 ⟨hc.1, hc.2.1⟩ hcs, to_signed_32 n hr1 hr2]

/-- C1 for the 64-bit signed read. -/
theorem int64_in_range (r : read_table) (bl suf : List Nat) (n : Int)
    (hbase : r.base = 10) (herr : ¬ blocking r.last_error)
    (hlay : Layout r bl (decimalText n) suf) (hsep : Separated r suf)
    (hstart : ∀ c, (decimalText n).head? = some c → StartsField r c)
    (hsuf : ∀ c, suf.head? = some c → ¬ isDigit c) (hnl : r.delim ≠ 10)
    (hcd : r.delim ≠ 0 → (suf.dropWhile is_blank).head? = some r.delim → r.comment ≠ r.delim)
    (i mn mx : Int) (hmn : INT64_MIN ≤ mn) (hmx : mx ≤ INT64_MAX) (h1 : mn ≤ n) (h2 : n ≤ mx) :
    read_table_int64_limits r i mn mx = (0, afterField r bl (decimalText n) suf, n) := by
  obtain ⟨_, _, hd3, hle, hlp⟩ := field_facts r bl suf n hlay hstart herr
  rw [int64_on_decimal r bl suf n hlay hstart herr hbase hsuf]
  have hr1 : INT64_MIN ≤ n := le_trans hmn h1
  have hr2 : n ≤ INT64_MAX := le_trans h2 hmx
  have hc : clamp_long n = n := by
    unfold INT64_MIN at hr1; unfold INT64_MAX at hr2
    unfold clamp_long LONG_MIN LONG_MAX
    split_ifs <;> omega
  have he : errno_long n = Errno.E0 := by
    unfold INT64_MIN at hr1; unfold INT64_MAX at hr2
    unfold errno_long LONG_MIN LONG_MAX
    rw [if_neg (by omega)]
  rw [hc, he, if_neg (by omega)]
  rw [post_check_separated { r with pos := r.pos + bl.length } _ suf hlay.1
    (by show r.pos + bl.length < _; omega) hle hd3 hsep hnl hcd, to_signed_64 n hr1 hr2]
  rfl

/-- C2 for the 64-bit signed read. -/
theorem int64_out_of_range (r : read_table) (bl suf : List Nat) (n : Int)
    (hbase : r.base = 10) (herr : ¬ blocking r.last_error)
    (hlay : Layout r bl (decimalText n) suf)
    (hstart : ∀ c, (decimalText n).head? = some c → StartsField r c)
    (hsuf : ∀ c, suf.head? = some c → ¬ isDigit c)
    (i mn mx : Int) (hmn : INT64_MIN ≤ mn) (hmx : mx ≤ INT64_MAX) (hmm : mn ≤ mx) :
    (mx < n → read_table_int64_limits r i mn mx
        = (1, { r with pos := r.pos + bl.length, last_error := T_OVERFLOW }, mx))
    ∧ (n < mn → read_table_int64_limits r i mn mx
        = (1, { r with pos := r.pos + bl.length, last_error := T_OVERFLOW }, mn)) := by
  obtain ⟨_, _, _, _, hlp⟩ := field_facts r bl suf n hlay hstart herr
  have hpk := post_check_erange { r with pos := r.pos + bl.length }
    (r.pos + bl.length + (decimalText n).length) (by show r.pos + bl.length < _; omega)
  rw [int64_on_decimal r bl suf n hlay hstart herr hbase hsuf]
  unfold INT64_MIN at hmn; unfold INT64_MAX at hmx
  constructor
  · intro h
    by_cases hc : clamp_long n > mx
    · rw [if_pos (Or.inl hc), if_neg (by omega), if_pos hc]
    · have h3 : clamp_long n = mx ∧ errno_long n = Errno.ERANGE := by
        unfold clamp_long errno_long LONG_MIN LONG_MAX at *
        constructor
        · split_ifs at hc ⊢ <;> omega
        · rw [if_pos (by split_ifs at hc <;> omega)]
      rw [h3.1, h3.2, if_neg (by omega), hpk, to_signed_64 mx (by unfold INT64_MIN; omega)
        (by unfold INT64_MAX; omega)]
  · intro h
    by_cases hc : clamp_long n < mn
    · rw [if_pos (Or.inr hc), if_pos hc]
    · have h3 : clamp_long n = mn ∧ errno_long n = Errno.ERANGE := by
        unfold clamp_long errno_long LONG_MIN LONG_MAX at *
        constructor
        · split_ifs at hc ⊢ <;> omega
        · rw [if_pos (by split_ifs at hc <;> omega)]
      rw [h3.1, h3.2, if_neg (by omega), hpk, to_signed_64 mn (by unfold INT64_MIN; omega)
        (by unfold INT64_MAX; omega)]

/-- C4 for the 64-bit signed read. -/
theorem int64_junk (r : read_table) (bl : List Nat) (n : Int) (c : Nat) (rest : List Nat)
    (hbase : r.base = 10) (herr : ¬ blocking r.last_error)
    (hlay : Layout r bl (decimalText n) (c :: rest))
    (hstart : ∀ c, (decimalText n).head? = some c → StartsField r c)
    (hc : is_blank c = false ∧ c ≠ 10 ∧ ¬ isDigit c) (hcs : StartsField r c)
    (i mn mx : Int) (hmn : INT64_MIN ≤ mn) (hmx : mx ≤ INT64_MAX) (h1 : mn ≤ n) (h2 : n ≤ mx) :
    read_table_int64_limits r i mn mx
      = (1, { r with pos := r.pos + bl.length + (decimalText n).length, last_error := T_FORMAT },
          n) := by
  have hsuf : ∀ x, (c :: rest).head? = some x → ¬ isDigit x := by
    intro x hx; cases hx; exact hc.2.2
  obtain ⟨_, _, hd3, hle, hlp⟩ := field_facts r bl (c :: rest) n hlay hstart herr
  rw [int64_on_decimal r bl (c :: rest) n hlay hstart herr hbase hsuf]
  have hr1 : INT64_MIN ≤ n := le_trans hmn h1
  have hr2 : n ≤ INT64_MAX := le_trans h2 hmx
  have hcl : clamp_long n = n := by
    unfold INT64_MIN at hr1; unfold INT64_MAX at hr2
    unfold clamp_long LONG_MIN LONG_MAX
    split_ifs <;> omega
  have he : errno_long n = Errno.E0 := by
    unfold INT64_MIN at hr1; unfold INT64_MAX at hr2
    unfold errno_long LONG_MIN LONG_MAX
    rw [if_neg (by omega)]
  rw [hcl, he, if_neg (by omega)]
  rw [post_check_junk { r with pos := r.pos + bl.length } _ c rest hlay.1
    (by show r.pos + bl.length < _; omega) hd3 ⟨hc.1, hc.2.1⟩ hcs, to_signed_64 n hr1 hr2]

/-- C1 for the 32-bit unsigned read. -/
theorem uint32_in_range (r : read_table) (bl suf : List Nat) (n : Nat)
    (hbase : r.base = 10) (herr : ¬ blocking r.last_error)
    (hlay : Layout r bl (decimalText n) suf) (hsep : Separated r suf)
    (hstart : ∀ c, (decimalText n).head? = some c → StartsField r c)
    (hsuf : ∀ c, suf.head? = some c → ¬ isDigit c) (hnl : r.delim ≠ 10)
    (hcd : r.delim ≠ 0 → (suf.dropWhile is_blank).head? = some r.delim → r.comment ≠ r.delim)
    (i mn mx : Nat) (hmx : mx ≤ UINT32_MAX) (h1 : mn ≤ n) (h2 : n ≤ mx) :
    read_table_uint32_limits r i mn mx = (0, afterField r bl (decimalText n) suf, n) := by
  obtain ⟨_, _, hd3, hle, hlp⟩ := field_facts r bl suf n hlay hstart herr
  rw [uint32_on_decimal r bl suf n hlay hstart herr hbase hsuf]
  have hr2 : n ≤ UINT32_MAX := le_trans h2 hmx
  have hc : clamp_ulong n = n := by
    unfold UINT32_MAX at hr2
    unfold clamp_ulong ULONG_MAX
    split_ifs <;> omega
  have he : errno_ulong n = Errno.E0 := by
    unfold UINT32_MAX at hr2
    unfold errno_ulong ULONG_MAX
    rw [if_neg (by omega)]
  rw [hc, he, if_neg (by omega)]
  rw [post_check_separated { r with pos := r.pos + bl.length } _ suf hlay.1
    (by show r.pos + bl.length < _; omega) hle hd3 hsep hnl hcd, to_unsigned_32 n hr2]
  rfl

/-- C2 for the 32-bit unsigned read. -/
theorem uint32_out_of_range (r : read_table) (bl suf : List Nat) (n : Nat)
    (hbase : r.base = 10) (herr : ¬ blocking r.last_error)
    (hlay : Layout r bl (decimalText n) suf)
    (hstart : ∀ c, (decimalText n).head? = some c → StartsField r c)
    (hsuf : ∀ c, suf.head? = some c → ¬ isDigit c)
    (i mn mx : Nat) (hmx : mx ≤ UINT32_MAX) (hmm : mn ≤ mx) :
    (mx < n → read_table_uint32_limits r i mn mx
        = (1, { r with pos := r.pos + bl.length, last_error := T_OVERFLOW }, mx))
    ∧ (n < mn → read_table_uint32_limits r i mn mx
        = (1, { r with pos := r.pos + bl.length, last_error := T_OVERFLOW }, mn)) := by
  obtain ⟨_, _, _, _, hlp⟩ := field_facts r bl suf n hlay hstart herr
  have hpk := post_check_erange { r with pos := r.pos + bl.length }
    (r.pos + bl.length + (decimalText n).length) (by show r.pos + bl.length < _; omega)
  rw [uint32_on_decimal r bl suf n hlay hstart herr hbase hsuf]
  unfold UINT32_MAX at hmx
  constructor
  · intro h
    by_cases hc : clamp_ulong n > mx
    · rw [if_pos (Or.inl hc), if_neg (by omega), if_pos hc]
    · have h3 : clamp_ulong n = mx ∧ errno_ulong n = Errno.ERANGE := by
        unfold clamp_ulong errno_ulong ULONG_MAX at *
        constructor
        · split_ifs at hc ⊢ <;> omega
        · rw [if_pos (by split_ifs at hc <;> omega)]
      rw [h3.1, h3.2, if_neg (by omega), hpk, to_unsigned_32 mx (by unfold UINT32_MAX; omega)]
  · intro h
    have hc : clamp_ulong n < mn := by
      unfold clamp_ulong ULONG_MAX
      split_ifs <;> omega
    rw [if_pos (Or.inr hc), if_pos hc]

/-- C4 for the 32-bit unsigned read. -/
theorem uint32_junk (r : read_table) (bl : List Nat) (n : Nat) (c : Nat) (rest : List Nat)
    (hbase : r.base = 10) (herr : ¬ blocking r.last_error)
    (hlay : Layout r bl (decimalText n) (c :: rest))
    (hstart : ∀ c, (decimalText n).head? = some c → StartsField r c)
    (hc : is_blank c = false ∧ c ≠ 10 ∧ ¬ isDigit c) (hcs : StartsField r c)
    (i mn mx : Nat) (hmx : mx ≤ UINT32_MAX) (h1 : mn ≤ n) (h2 : n ≤ mx) :
    read_table_uint32_limits r i mn mx
      = (1, { r with pos := r.pos + bl.length + (decimalText n).length, last_error := T_FORMAT },
          n) := by
  have hsuf : ∀ x, (c :: rest).head? = some x → ¬ isDigit x := by
    intro x hx; cases hx; exact hc.2.2
  obtain ⟨_, _, hd3, hle, hlp⟩ := field_facts r bl (c :: rest) n hlay hstart herr
  rw [uint32_on_decimal r bl (c :: rest) n hlay hstart herr hbase hsuf]
  have hr2 : n ≤ UINT32_MAX := le_trans h2 hmx
  have hcl : clamp_ulong n = n := by
    unfold UINT32_MAX at hr2
    unfold clamp_ulong ULONG_MAX
    split_ifs <;> omega
  have he : errno_ulong n = Errno.E0 := by
    unfold UINT32_MAX at hr2
    unfold errno_ulong ULONG_MAX
    rw [if_neg (by omega)]
  rw [hcl, he, if_neg (by omega)]
  rw [post_check_junk { r with pos := r.pos + bl.length } _ c rest hlay.1
    (by show r.pos + bl.length < _; omega) hd3 ⟨hc.1, hc.2.1⟩ hcs, to_unsigned_32 n hr2]

/-- C1 for the 64-bit unsigned read. -/
theorem uint64_in_range (r : read_table) (bl suf : List Nat) (n : Nat)
    (hbase : r.base = 10) (herr : ¬ blocking r.last_error)
    (hlay : Layout r bl (decimalText n) suf) (hsep : Separated r suf)
    (hstart : ∀ c, (decimalText n).head? = some c → StartsField r c)
    (hsuf : ∀ c, suf.head? = some c → ¬ isDigit c) (hnl : r.delim ≠ 10)
    (hcd : r.delim ≠ 0 → (suf.dropWhile is_blank).head? = some r.delim → r.comment ≠ r.delim)
    (i mn mx : Nat) (hmx : mx ≤ UINT64_MAX) (h1 : mn ≤ n) (h2 : n ≤ mx) :
    read_table_uint64_limits r i mn mx = (0, afterField r bl (decimalText n) suf, n) := by
  obtain ⟨_, _, hd3, hle, hlp⟩ := field_facts r bl suf n hlay hstart herr
  rw [uint64_on_decimal r bl suf n hlay hstart herr hbase hsuf]
  have hr2 : n ≤ UINT64_MAX := le_trans h2 hmx
  have hc : clamp_ulong n = n := by
    unfold UINT64_MAX at hr2
    unfold clamp_ulong ULONG_MAX
    split_ifs <;> omega
  have he : errno_ulong n = Errno.E0 := by
    unfold UINT64_MAX at hr2
    unfold errno_ulong ULONG_MAX
    rw [if_neg (by omega)]
  rw [hc, he, if_neg (by omega)]
  rw [post_check_separated { r with pos := r.pos + bl.length } _ suf hlay.1
    (by show r.pos + bl.length < _; omega) hle hd3 hsep hnl hcd, to_unsigned_64 n hr2]
  rfl

/-- C2 for the 64-bit unsigned read. -/
theorem uint64_out_of_range (r : read_table) (bl suf : List Nat) (n : Nat)
    (hbase : r.base = 10) (herr : ¬ blocking r.last_error)
    (hlay : Layout r bl (decimalText n) suf)
    (hstart : ∀ c, (decimalText n).head? = some c → StartsField r c)
    (hsuf : ∀ c, suf.head? = some c → ¬ isDigit c)
    (i mn mx : Nat) (hmx : mx ≤ UINT64_MAX) (hmm : mn ≤ mx) :
    (mx < n → read_table_uint64_limits r i mn mx
        = (1, { r with pos := r.pos + bl.length, last_error := T_OVERFLOW }, mx))
    ∧ (n < mn → read_table_uint64_limits r i mn mx
        = (1, { r with pos := r.pos + bl.length, last_error := T_OVERFLOW }, mn)) := by
  obtain ⟨_, _, _, _, hlp⟩ := field_facts r bl suf n hlay hstart herr
  have hpk := post_check_erange { r with pos := r.pos + bl.length }
    (r.pos + bl.length + (decimalText n).length) (by show r.pos + bl.length < _; omega)
  rw [uint64_on_decimal r bl suf n hlay hstart herr hbase hsuf]
  unfold UINT64_MAX at hmx
  constructor
  · intro h
    by_cases hc : clamp_ulong n > mx
    · rw [if_pos (Or.inl hc), if_neg (by omega), if_pos hc]
    · have h3 : clamp_ulong n = mx ∧ errno_ulong n = Errno.ERANGE := by
        unfold clamp_ulong errno_ulong ULONG_MAX at *
        constructor
        · split_ifs at hc ⊢ <;> omega
        · rw [if_pos (by split_ifs at hc <;> omega)]
      rw [h3.1, h3.2, if_neg (by omega), hpk, to_unsigned_64 mx (by unfold UINT64_MAX; omega)]
  · intro h
    have hc : clamp_ulong n < mn := by
      unfold clamp_ulong ULONG_MAX
      split_ifs <;> omega
    rw [if_pos (Or.inr hc), if_pos hc]

/-- C4 for the 64-bit unsigned read. -/
theorem uint64_junk (r : read_table) (bl : List Nat) (n : Nat) (c : Nat) (rest : List Nat)
    (hbase : r.base = 10) (herr : ¬ blocking r.last_error)
    (hlay : Layout r bl (decimalText n) (c :: rest))
    (hstart : ∀ c, (decimalText n).head? = some c → StartsField r c)
    (hc : is_blank c = false ∧ c ≠ 10 ∧ ¬ isDigit c) (hcs : StartsField r c)
    (i mn mx : Nat) (hmx : mx ≤ UINT64_MAX) (h1 : mn ≤ n) (h2 : n ≤ mx) :
    read_table_uint64_limits r i mn mx
      = (1, { r with pos := r.pos + bl.length + (decimalText n).length, last_error := T_FORMAT },
          n) := by
  have hsuf : ∀ x, (c :: rest).head? = some x → ¬ isDigit x := by
    intro x hx; cases hx; exact hc.2.2
  obtain ⟨_, _, hd3, hle, hlp⟩ := field_facts r bl (c :: rest) n hlay hstart herr
  rw [uint64_on_decimal r bl (c :: rest) n hlay hstart herr hbase hsuf]
  have hr2 : n ≤ UINT64_MAX := le_trans h2 hmx
  have hcl : clamp_ulong n = n := by
    unfold UINT64_MAX at hr2
    unfold clamp_ulong ULONG_MAX
    split_ifs <;> omega
  have he : errno_ulong n = Errno.E0 := by
    unfold UINT64_MAX at hr2
    unfold errno_ulong ULONG_MAX
    rw [if_neg (by omega)]
  rw [hcl, he, if_neg (by omega)]
  rw [post_check_junk { r with pos := r.pos + bl.length } _ c rest hlay.1
    (by show r.pos + bl.length < _; omega) hd3 ⟨hc.1, hc.2.1⟩ hcs, to_unsigned_64 n hr2]

/-- C1 for the 16-bit signed read. -/
theorem int16_in_range (r : read_table) (bl suf : List Nat) (n : Int)
    (hbase : r.base = 10) (herr : ¬ blocking r.last_error)
    (hlay : Layout r bl (decimalText n) suf) (hsep : Separated r suf)
    (hstart : ∀ c, (decimalText n).head? = some c → StartsField r c)
    (hsuf : ∀ c, suf.head? = some c → ¬ isDigit c) (hnl : r.delim ≠ 10)
    (hcd : r.delim ≠ 0 → (suf.dropWhile is_blank).head? = some r.delim → r.comment ≠ r.delim)
    (i mn mx : Int) (hmn : INT16_MIN ≤ mn) (hmx : mx ≤ INT16_MAX) (h1 : mn ≤ n) (h2 : n ≤ mx) :
    read_table_int16_limits r i mn mx = (0, afterField r bl (decimalText n) suf, n) := by
  have h32 := int32_in_range r bl suf n hbase herr hlay hsep hstart hsuf hnl hcd i mn mx
    (by unfold INT16_MIN at hmn; unfold INT32_MIN; omega)
    (by unfold INT16_MAX at hmx; unfold INT32_MAX; omega) h1 h2
  simp only [read_table_int16_limits, h32, to_signed_16 n (le_trans hmn h1) (le_trans h2 hmx)]

/-- C2 for the 16-bit signed read. -/
theorem int16_out_of_range (r : read_table) (bl suf : List Nat) (n : Int)
    (hbase : r.base = 10) (herr : ¬ blocking r.last_error)
    (hlay : Layout r bl (decimalText n) suf)
    (hstart : ∀ c, (decimalText n).head? = some c → StartsField r c)
    (hsuf : ∀ c, suf.head? = some c → ¬ isDigit c)
    (i mn mx : Int) (hmn : INT16_MIN ≤ mn) (hmx : mx ≤ INT16_MAX) (hmm : mn ≤ mx) :
    (mx < n → read_table_int16_limits r i mn mx
        = (1, { r with pos := r.pos + bl.length, last_error := T_OVERFLOW }, mx))
    ∧ (n < mn → read_table_int16_limits r i mn mx
        = (1, { r with pos := r.pos + bl.length, last_error := T_OVERFLOW }, mn)) := by
  have h32 := int32_out_of_range r bl suf n hbase herr hlay hstart hsuf i mn mx
    (by unfold INT16_MIN at hmn; unfold INT32_MIN; omega)
    (by unfold INT16_MAX at hmx; unfold INT32_MAX; omega) hmm
  constructor
  · intro h
    simp only [read_table_int16_limits, h32.1 h, to_signed_16 mx (le_trans hmn hmm) hmx]
  · intro h
    simp only [read_table_int16_limits, h32.2 h, to_signed_16 mn hmn (le_trans hmm hmx)]

/-- C4 for the 16-bit signed read. -/
theorem int16_junk (r : read_table) (bl : List Nat) (n : Int) (c : Nat) (rest : List Nat)
    (hbase : r.base = 10) (herr : ¬ blocking r.last_error)
    (hlay : Layout r bl (decimalText n) (c :: rest))
    (hstart : ∀ c, (decimalText n).head? = some c → StartsField r c)
    (hc : is_blank c = false ∧ c ≠ 10 ∧ ¬ isDigit c) (hcs : StartsField r c)
    (i mn mx : Int) (hmn : INT16_MIN ≤ mn) (hmx : mx ≤ INT16_MAX) (h1 : mn ≤ n) (h2 : n ≤ mx) :
    read_table_int16_limits r i mn mx
      = (1, { r with pos := r.pos + bl.length + (decimalText n).length, last_error := T_FORMAT },
          n) := by
  have h32 := int32_junk r bl n c rest hbase herr hlay hstart hc hcs i mn mx
    (by unfold INT16_MIN at hmn; unfold INT32_MIN; omega)
    (by unfold INT16_MAX at hmx; unfold INT32_MAX; omega) h1 h2
  simp only [read_table_int16_limits, h32, to_signed_16 n (le_trans hmn h1) (le_trans h2 hmx)]

/-- C1 for the 16-bit unsigned read. -/
theorem uint16_in_range (r : read_table) (bl suf : List Nat) (n : Nat)
    (hbase : r.base = 10) (herr : ¬ blocking r.last_error)
    (hlay : Layout r bl (decimalText n) suf) (hsep : Separated r suf)
    (hstart : ∀ c, (decimalText n).head? = some c → StartsField r c)
    (hsuf : ∀ c, suf.head? = some c → ¬ isDigit c) (hnl : r.delim ≠ 10)
    (hcd : r.delim ≠ 0 → (suf.dropWhile is_blank).head? = some r.delim → r.comment ≠ r.delim)
    (i mn mx : Nat) (hmx : mx ≤ UINT16_MAX) (h1 : mn ≤ n) (h2 : n ≤ mx) :
    read_table_uint16_limits r i mn mx = (0, afterField r bl (decimalText n) suf, n) := by
  have h32 := uint32_in_range r bl suf n hbase herr hlay hsep hstart hsuf hnl hcd i mn mx
    (by unfold UINT16_MAX at hmx; unfold UINT32_MAX; omega) h1 h2
  simp only [read_table_uint16_limits, h32, to_unsigned_16 n (le_trans h2 hmx)]

/-- C2 for the 16-bit unsigned read. -/
theorem uint16_out_of_range (r : read_table) (bl suf : List Nat) (n : Nat)
    (hbase : r.base = 10) (herr : ¬ blocking r.last_error)
    (hlay : Layout r bl (decimalText n) suf)
    (hstart : ∀ c, (decimalText n).head? = some c → StartsField r c)
    (hsuf : ∀ c, suf.head? = some c → ¬ isDigit c)
    (i mn mx : Nat) (hmx : mx ≤ UINT16_MAX) (hmm : mn ≤ mx) :
    (mx < n → read_table_uint16_limits r i mn mx
        = (1, { r with pos := r.pos + bl.length, last_error := T_OVERFLOW }, mx))
    ∧ (n < mn → read_table_uint16_limits r i mn mx
        = (1, { r with pos := r.pos + bl.length, last_error := T_OVERFLOW }, mn)) := by
  have h32 := uint32_out_of_range r bl suf n hbase herr hlay hstart hsuf i mn mx
    (by unfold UINT16_MAX at hmx; unfold UINT32_MAX; omega) hmm
  constructor
  · intro h
    simp only [read_table_uint16_limits, h32.1 h, to_unsigned_16 mx hmx]
  · intro h
    simp only [read_table_uint16_limits, h32.2 h, to_unsigned_16 mn (le_trans hmm hmx)]

/-- C4 for the 16-bit unsigned read. -/
theorem uint16_junk (r : read_table) (bl : List Nat) (n : Nat) (c : Nat) (rest : List Nat)
    (hbase : r.base = 10) (herr : ¬ blocking r.last_error)
    (hlay : Layout r bl (decimalText n) (c :: rest))
    (hstart : ∀ c, (decimalText n).head? = some c → StartsField r c)
    (hc : is_blank c = false ∧ c ≠ 10 ∧ ¬ isDigit c) (hcs : StartsField r c)
    (i mn mx : Nat) (hmx : mx ≤ UINT16_MAX) (h1 : mn ≤ n) (h2 : n ≤ mx) :
    read_table_uint16_limits r i mn mx
      = (1, { r with pos := r.pos + bl.length + (decimalText n).length, last_error := T_FORMAT },
          n) := by
  have h32 := uint32_junk r bl n c rest hbase herr hlay hstart hc hcs i mn mx
    (by unfold UINT16_MAX at hmx; unfold UINT32_MAX; omega) h1 h2
  simp only [read_table_uint16_limits, h32, to_unsigned_16 n (le_trans h2 hmx)]

/-- The pre-check on an empty slot: after the blanks `bl` the delimiter follows,
and the delimiter is no blank, newline or comment marker. -/
theorem pre_check_missing (r : read_table) (bl rest : List Nat)
    (hlay : Layout r bl [r.delim] rest) (hd0 : r.delim ≠ 0)
    (hdl : is_blank r.delim = false ∧ r.delim ≠ 10)
    (hcm : r.comment = 0 ∨ r.comment ≠ r.delim) (herr : ¬ blocking r.last_error) :
    read_table_pre_check r = (1, { r with pos := r.pos + bl.length, last_error := T_MISSING }) := by
  obtain ⟨hlen, _, hd, hbl⟩ := hlay
  have hd1 : r.buf.drop r.pos = bl ++ r.delim :: rest := by simpa using hd
  have hs := scan_blanks r bl (r.delim :: rest) hlen hd1 hbl
    (by intro x hx; cases hx; exact hdl.1)
  have hd2 : r.buf.drop (r.pos + bl.length) = r.delim :: rest := by
    rw [← List.drop_drop, hd1, List.drop_left]
  have hg := getD_of_drop hd2
  have hlt : r.pos + bl.length ≠ r.line_len := by
    have := length_sub_of_drop hd2
    simp at this
    omega
  have hcb : (r.comment != 0 && r.delim == r.comment) = false := by
    rcases hcm with h | h
    · simp [h]
    · simp only [Bool.and_eq_false_imp, bne_iff_ne, ne_eq, beq_eq_false_iff_ne]
      intro _ h2; exact h h2.symm
  unfold read_table_pre_check
  rw [if_neg herr]
  simp only [hs, bufAt, hg, is_comment]
  rw [if_neg (by simp [hlt, hdl.2, hcb]), if_pos ⟨hd0, trivial⟩]

/-- One integer argument of `read_table_next` on a field that holds the decimal
text of a number its bounds admit. -/
theorem next_integer (env : Env) (r : read_table) (bl suf : List Nat) (n : Int)
    (hbase : r.base = 10) (herr : ¬ blocking r.last_error)
    (hlay : Layout r bl (decimalText n) suf) (hsep : Separated r suf)
    (hstart : ∀ c, (decimalText n).head? = some c → StartsField r c)
    (hsuf : ∀ c, suf.head? = some c → ¬ isDigit c) (hnl : r.delim ≠ 10)
    (hcd : r.delim ≠ 0 → (suf.dropWhile is_blank).head? = some r.delim → r.comment ≠ r.delim)
    (fld : Field) (hadm : fld.admits n = true) :
    read_table_next env r fld = (0, afterField r bl (decimalText n) suf, fld.store n) := by
  cases fld with
  | int32 v =>
    simp only [Field.admits, decide_eq_true_eq] at hadm
    have h : read_table_int32 r v = (0, afterField r bl (decimalText n) suf, n) :=
      int32_in_range r bl suf n hbase herr hlay hsep hstart hsuf hnl hcd v _ _
        (le_refl _) (le_refl _) hadm.1 hadm.2
    show ((read_table_int32 r v).1, (read_table_int32 r v).2.1, Field.int32 (read_table_int32 r v).2.2) = _
    rw [h]
    rfl
  | int64 v =>
    simp only [Field.admits, decide_eq_true_eq] at hadm
    have h : read_table_int64 r v = (0, afterField r bl (decimalText n) suf, n) :=
      int64_in_range r bl suf n hbase herr hlay hsep hstart hsuf hnl hcd v _ _
        (le_refl _) (le_refl _) hadm.1 hadm.2
    show ((read_table_int64 r v).1, (read_table_int64 r v).2.1, Field.int64 (read_table_int64 r v).2.2) = _
    rw [h]
    rfl
  | uint32 v =>
    simp only [Field.admits, decide_eq_true_eq] at hadm
    obtain ⟨m, rfl⟩ := Int.eq_ofNat_of_zero_le hadm.1
    have h : read_table_uint32 r v = (0, afterField r bl (decimalText m) suf, m) :=
      uint32_in_range r bl suf m hbase herr hlay hsep hstart hsuf hnl hcd v _ _
        (le_refl _) (Nat.zero_le _) (by have := hadm.2; omega)
    show ((read_table_uint32 r v).1, (read_table_uint32 r v).2.1, Field.uint32 (read_table_uint32 r v).2.2) = _
    rw [h]
    rfl
  | uint64 v =>
    simp only [Field.admits, decide_eq_true_eq] at hadm
    obtain ⟨m, rfl⟩ := Int.eq_ofNat_of_zero_le hadm.1
    have h : read_table_uint64 r v = (0, afterField r bl (decimalText m) suf, m) :=
      uint64_in_range r bl suf m hbase herr hlay hsep hstart hsuf hnl hcd v _ _
        (le_refl _) (Nat.zero_le _) (by have := hadm.2; omega)
    show ((read_table_uint64 r v).1, (read_table_uint64 r v).2.1, Field.uint64 (read_table_uint64 r v).2.2) = _
    rw [h]
    rfl
  | int16 v =>
    simp only [Field.admits, decide_eq_true_eq] at hadm
    have h : read_table_int16 r env.i2_int16 = (0, afterField r bl (decimalText n) suf, n) :=
      int16_in_range r bl suf n hbase herr hlay hsep hstart hsuf hnl hcd _ _ _
        (le_refl _) (le_refl _) hadm.1 hadm.2
    show ((read_table_int16 r env.i2_int16).1, (read_table_int16 r env.i2_int16).2.1,
      Field.int16 (read_table_int16 r env.i2_int16).2.2) = _
    rw [h]
    rfl
  | uint16 v =>
    simp only [Field.admits, decide_eq_true_eq] at hadm
    obtain ⟨m, rfl⟩ := Int.eq_ofNat_of_zero_le hadm.1
    have h : read_table_uint16 r env.i2_uint16 = (0, afterField r bl (decimalText m) suf, m) :=
      uint16_in_range r bl suf m hbase herr hlay hsep hstart hsuf hnl hcd _ _ _
        (le_refl _) (Nat.zero_le _) (by have := hadm.2; omega)
    show ((read_table_uint16 r env.i2_uint16).1, (read_table_uint16 r env.i2_uint16).2.1,
      Field.uint16 (read_table_uint16 r env.i2_uint16).2.2) = _
    rw [h]
    rfl
  | bounds_int32 v mn mx =>
    simp only [Field.admits, decide_eq_true_eq] at hadm
    have h : read_table_int32_limits r v mn mx = (0, afterField r bl (decimalText n) suf, n) :=
      int32_in_range r bl suf n hbase herr hlay hsep hstart hsuf hnl hcd _ mn mx
        hadm.1 hadm.2.1 hadm.2.2.1 hadm.2.2.2
    show ((read_table_int32_limits r v mn mx).1, (read_table_int32_limits r v mn mx).2.1,
      Field.bounds_int32 (read_table_int32_limits r v mn mx).2.2 mn mx) = _
    rw [h]
    rfl
  | bounds_int64 v mn mx =>
    simp only [Field.admits, decide_eq_true_eq] at hadm
    have h : read_table_int64_limits r v mn mx = (0, afterField r bl (decimalText n) suf, n) :=
      int64_in_range r bl suf n hbase herr hlay hsep hstart hsuf hnl hcd _ mn mx
        hadm.1 hadm.2.1 hadm.2.2.1 hadm.2.2.2
    show ((read_table_int64_limits r v mn mx).1, (read_table_int64_limits r v mn mx).2.1,
      Field.bounds_int64 (read_table_int64_limits r v mn mx).2.2 mn mx) = _
    rw [h]
    rfl
  | bounds_uint32 v mn mx =>
    simp only [Field.admits, decide_eq_true_eq] at hadm
    obtain ⟨m, rfl⟩ := Int.eq_ofNat_of_zero_le (by have := hadm.2.1; omega : 0 ≤ n)
    have h : read_table_uint32_limits r v mn mx = (0, afterField r bl (decimalText m) suf, m) :=
      uint32_in_range r bl suf m hbase herr hlay hsep hstart hsuf hnl hcd _ mn mx
        hadm.1 (by have := hadm.2.1; omega) (by have := hadm.2.2; omega)
    show ((read_table_uint32_limits r v mn mx).1, (read_table_uint32_limits r v mn mx).2.1,
      Field.bounds_uint32 (read_table_uint32_limits r v mn mx).2.2 mn mx) = _
    rw [h]
    rfl
  | bounds_uint64 v mn mx =>
    simp only [Field.admits, decide_eq_true_eq] at hadm
    obtain ⟨m, rfl⟩ := Int.eq_ofNat_of_zero_le (by have := hadm.2.1; omega : 0 ≤ n)
    have h : read_table_uint64_limits r v mn mx = (0, afterField r bl (decimalText m) suf, m) :=
      uint64_in_range r bl suf m hbase herr hlay hsep hstart hsuf hnl hcd _ mn mx
        hadm.1 (by have := hadm.2.1; omega) (by have := hadm.2.2; omega)
    show ((read_table_uint64_limits r v mn mx).1, (read_table_uint64_limits r v mn mx).2.1,
      Field.bounds_uint64 (read_table_uint64_limits r v mn mx).2.2 mn mx) = _
    rw [h]
    rfl
  | bounds_int16 v mn mx =>
    simp only [Field.admits, decide_eq_true_eq] at hadm
    have h : read_table_int16_limits r env.i2_int16 mn mx = (0, afterField r bl (decimalText n) suf, n) :=
      int16_in_range r bl suf n hbase herr hlay hsep hstart hsuf hnl hcd _ mn mx
        hadm.1 hadm.2.1 hadm.2.2.1 hadm.2.2.2
    show ((read_table_int16_limits r env.i2_int16 mn mx).1, (read_table_int16_limits r env.i2_int16 mn mx).2.1,
      Field.bounds_int16 (read_table_int16_limits r env.i2_int16 mn mx).2.2 mn mx) = _
    rw [h]
    rfl
  | bounds_uint16 v mn mx =>
    simp only [Field.admits, decide_eq_true_eq] at hadm
    obtain ⟨m, rfl⟩ := Int.eq_ofNat_of_zero_le (by have := hadm.2.1; omega : 0 ≤ n)
    have h : read_table_uint16_limits r env.i2_uint16 mn mx = (0, afterField r bl (decimalText m) suf, m) :=
      uint16_in_range r bl suf m hbase herr hlay hsep hstart hsuf hnl hcd _ mn mx
        hadm.1 (by have := hadm.2.1; omega) (by have := hadm.2.2; omega)
    show ((read_table_uint16_limits r env.i2_uint16 mn mx).1, (read_table_uint16_limits r env.i2_uint16 mn mx).2.1,
      Field.bounds_uint16 (read_table_uint16_limits r env.i2_uint16 mn mx).2.2 mn mx) = _
    rw [h]
    rfl
  | _ => simp [Field.admits] at hadm

/-- The first byte of a decimal text is `-` or a digit. -/
theorem decimalText_head_cases (n : Int) (c : Nat) (h : (decimalText n).head? = some c) :
    c = 45 ∨ isDigit c := by
  obtain ⟨h1, _, _⟩ := natText_spec n.natAbs
  unfold decimalText at h
  by_cases hn : n < 0
  · rw [if_pos hn] at h; cases h; exact Or.inl rfl
  · rw [if_neg hn] at h
    exact Or.inr (h1 c (List.mem_of_mem_head? h))

/-- The reader after a number that is followed directly by the delimiter. -/
theorem afterField_delim (r : read_table) (txt rest : List Nat) (hd0 : r.delim ≠ 0)
    (hdl : is_blank r.delim = false ∧ r.delim ≠ 10) (hcm : r.comment = 0 ∨ r.comment ≠ r.delim) :
    afterField r [] txt (r.delim :: rest)
      = { r with pos := r.pos + txt.length + 1, col := r.col + 1, last_error := T_OK } := by
  have h1 : (r.delim :: rest).takeWhile is_blank = [] := by
    rw [List.takeWhile_cons, hdl.1]; rfl
  have h2 : (r.delim :: rest).dropWhile is_blank = r.delim :: rest := by
    rw [List.dropWhile_cons, hdl.1]; rfl
  have h3 : ¬ EndsLine r (r.delim :: rest) := by
    unfold EndsLine
    rw [h2]
    intro h
    rcases h with h | h | ⟨ha, hb⟩
    · cases h
    · exact hdl.2 (Option.some.inj h)
    · rcases hcm with hc | hc
      · exact ha hc
      · exact hc (Option.some.inj hb).symm
  unfold afterField
  rw [if_neg h3, h1, h2]
  simp [hd0]

/-- The reader after a number at the end of the line. -/
theorem afterField_end (r : read_table) (txt ending : List Nat)
    (he : ending = [] ∨ ending.head? = some 10) (hnl : r.delim ≠ 10) :
    afterField r [] txt ending
      = { r with pos := r.pos + txt.length, last_error := T_OK } := by
  have h1 : ending.takeWhile is_blank = [] := by
    rcases he with h | h
    · rw [h]; rfl
    · cases ending with
      | nil => rfl
      | cons a t => cases h; rfl
  have h2 : ending.dropWhile is_blank = ending := by
    rcases he with h | h
    · rw [h]; rfl
    · cases ending with
      | nil => rfl
      | cons a t => cases h; rfl
  have h3 : EndsLine r ending := by
    unfold EndsLine
    rw [h2]
    rcases he with h | h
    · exact Or.inl h
    · exact Or.inr (Or.inl h)
  have h4 : ¬ (r.delim ≠ 0 ∧ ending.head? = some r.delim) := by
    intro h
    rcases he with he | he
    · rw [he] at h; cases h.2
    · rw [he] at h; exact hnl (Option.some.inj h.2).symm
  unfold afterField
  rw [if_pos h3, h1, h2, if_neg h4]
  rfl

theorem ending_blankfree (ending : List Nat) (he : ending = [] ∨ ending.head? = some 10) :
    ending.takeWhile is_blank = [] ∧ ending.dropWhile is_blank = ending := by
  rcases he with h | h
  · rw [h]; exact ⟨rfl, rfl⟩
  · cases ending with
    | nil => exact ⟨rfl, rfl⟩
    | cons a t => cases h; exact ⟨rfl, rfl⟩

/-- A line of integers joined by single delimiter bytes, read by the variadic
reader with one integer argument per number. -/
theorem multiple_delimited (env : Env) :
    ∀ (items : List (Field × Int)) (r : read_table) (ending : List Nat),
    items ≠ [] → r.base = 10 → ¬ blocking r.last_error → r.line_len = r.buf.length →
    r.pos ≤ r.buf.length → r.delim ≠ 0 → (is_blank r.delim = false ∧ r.delim ≠ 10) →
    ¬ isDigit r.delim → r.delim ≠ 45 → (r.comment = 0 ∨ r.comment ≠ r.delim) →
    r.buf.drop r.pos = joinWith r.delim (items.map (fun x => decimalText x.2)) ++ ending →
    (ending = [] ∨ ending.head? = some 10) →
    (∀ x ∈ items, x.1.admits x.2 = true
      ∧ ∀ c, (decimalText x.2).head? = some c → (r.comment = 0 ∨ c ≠ r.comment)) →
    read_table_multiple env r (items.map Prod.fst)
      = (0, { r with
              pos := r.pos + (joinWith r.delim (items.map (fun x => decimalText x.2))).length,
              col := r.col + (items.length - 1), last_error := T_OK },
          items.map (fun x => x.1.store x.2)) := by
  intro items
  induction items with
  | nil => intro r ending h; exact absurd rfl h
  | cons x xs ih =>
    intro r ending _ hbase herr hlen hpos hd0 hdl hdig h45 hcm hdrop hend hall
    have hx := hall x (List.mem_cons_self _ _)
    have hstart : ∀ c, (decimalText x.2).head? = some c → StartsField r c := by
      intro c hc
      refine ⟨hx.2 c hc, Or.inr ?_⟩
      rcases decimalText_head_cases _ _ hc with h | h
      · rw [h]; exact fun e => h45 e.symm
      · intro e; rw [e] at h; exact hdig h
    cases xs with
    | nil =>
      have hd1 : r.buf.drop r.pos = [] ++ decimalText x.2 ++ ending := by
        simpa [joinWith] using hdrop
      have hlay : Layout r [] (decimalText x.2) ending :=
        ⟨hlen, hpos, hd1, by intro c hc; cases hc⟩
      obtain ⟨e1, e2⟩ := ending_blankfree ending hend
      have hsep : Separated r ending := by
        unfold Separated
        rw [e2]
        rcases hend with h | h
        · exact Or.inl h
        · exact Or.inr (Or.inl h)
      have hsuf : ∀ c, ending.head? = some c → ¬ isDigit c := by
        intro c hc
        rcases hend with h | h
        · rw [h] at hc; cases hc
        · rw [h] at hc; cases hc; intro hd; have := hd.1; omega
      have hcd : r.delim ≠ 0 → (ending.dropWhile is_blank).head? = some r.delim →
          r.comment ≠ r.delim := by
        intro _ h
        rw [e2] at h
        rcases hend with he | he
        · rw [he] at h; cases h
        · rw [he] at h; exact absurd (Option.some.inj h).symm hdl.2
      have hn := next_integer env r [] ending x.2 hbase herr hlay hsep hstart hsuf hdl.2 hcd
        x.1 hx.1
      show read_table_multiple env r [x.1] = _
      rw [read_table_multiple, hn, afterField_end r _ ending hend hdl.2]
      simp [joinWith, read_table_multiple]
    | cons y ys =>
      have hd1 : r.buf.drop r.pos = [] ++ decimalText x.2
          ++ r.delim :: (joinWith r.delim ((y :: ys).map (fun x => decimalText x.2)) ++ ending) := by
        simpa [joinWith] using hdrop
      have hlay : Layout r [] (decimalText x.2)
          (r.delim :: (joinWith r.delim ((y :: ys).map (fun x => decimalText x.2)) ++ ending)) :=
        ⟨hlen, hpos, hd1, by intro c hc; cases hc⟩
      have e1 : (r.delim :: (joinWith r.delim ((y :: ys).map (fun x => decimalText x.2))
          ++ ending)).dropWhile is_blank
          = r.delim :: (joinWith r.delim ((y :: ys).map (fun x => decimalText x.2)) ++ ending) := by
        rw [List.dropWhile_cons, hdl.1]; rfl
      have hsep : Separated r
          (r.delim :: (joinWith r.delim ((y :: ys).map (fun x => decimalText x.2)) ++ ending)) := by
        unfold Separated
        rw [e1]
        exact Or.inr (Or.inr (Or.inr ⟨hd0, hdl.1, rfl⟩))
      have hsuf : ∀ c, (r.delim :: (joinWith r.delim ((y :: ys).map (fun x => decimalText x.2))
          ++ ending)).head? = some c → ¬ isDigit c := by
        intro c hc; cases hc; exact hdig
      have hcd : r.delim ≠ 0 → ((r.delim :: (joinWith r.delim
          ((y :: ys).map (fun x => decimalText x.2)) ++ ending)).dropWhile is_blank).head?
            = some r.delim → r.comment ≠ r.delim := by
        intro h0 _
        rcases hcm with h | h
        · intro e; exact h0 (e ▸ h)
        · exact h
      have hn := next_integer env r [] _ x.2 hbase herr hlay hsep hstart hsuf hdl.2 hcd x.1 hx.1
      rw [afterField_delim r _ _ hd0 hdl hcm] at hn
      have hl := length_sub_of_drop hd1
      have hdrop2 : r.buf.drop (r.pos + (decimalText x.2).length + 1)
          = joinWith r.delim ((y :: ys).map (fun x => decimalText x.2)) ++ ending := by
        have : r.pos + (decimalText x.2).length + 1 = r.pos + ((decimalText x.2).length + 1) := by
          omega
        rw [this, ← List.drop_drop, hd1]
        simp
      have hi := ih
        { r with pos := r.pos + (decimalText x.2).length + 1, col := r.col + 1, last_error := T_OK }
        ending (by simp) hbase (by show ¬ blocking T_OK; decide) hlen
        (by show r.pos + (decimalText x.2).length + 1 ≤ r.buf.length
            simp at hl; omega)
        hd0 hdl hdig h45 hcm hdrop2 hend
        (fun z hz => hall z (List.mem_cons_of_mem _ hz))
      show read_table_multiple env r (x.1 :: (y :: ys).map Prod.fst) = _
      rw [read_table_multiple, hn]
      simp only [ne_eq, not_true_eq_false, if_false, hi]
      simp [joinWith]
      omega

/-! ### Frames and outcomes of the reads, the line loop, skip -/

theorem pre_check_ret (r : read_table) :
    (read_table_pre_check r).1 = 0 ∨ (read_table_pre_check r).1 = 1 := by
  unfold read_table_pre_check
  simp only []
  split_ifs <;> simp

theorem pre_check_touched (r : read_table) :
    ∃ p e, (read_table_pre_check r).2 = { r with pos := p, last_error := e } := by
  unfold read_table_pre_check
  simp only []
  split_ifs
  · exact ⟨r.pos, r.last_error, rfl⟩
  · exact ⟨_, _, rfl⟩
  · exact ⟨_, _, rfl⟩
  · exact ⟨_, _, rfl⟩

theorem pre_check_pass (r : read_table) (h : (read_table_pre_check r).1 = 0) :
    (read_table_pre_check r).2.last_error = r.last_error ∧ ¬ blocking r.last_error
    ∧ (read_table_pre_check r).2.col = r.col := by
  unfold read_table_pre_check at h ⊢
  simp only [] at h ⊢
  split_ifs at h ⊢ with h1 h2 h3
  exact ⟨rfl, h1, rfl⟩

theorem pre_check_fail (r : read_table) (h : (read_table_pre_check r).1 ≠ 0) :
    (blocking (read_table_pre_check r).2.last_error
      ∨ (read_table_pre_check r).2.last_error = T_MISSING)
    ∧ (read_table_pre_check r).2.col = r.col := by
  unfold read_table_pre_check at h ⊢
  simp only [] at h ⊢
  split_ifs at h ⊢ with h1 h2 h3
  all_goals first
    | exact absurd rfl h
    | exact ⟨Or.inl h1, rfl⟩
    | exact ⟨Or.inl (Or.inr (Or.inl rfl)), rfl⟩
    | exact ⟨Or.inr rfl, rfl⟩

theorem post_check_ret (r : read_table) (errno : Errno) (c2 : Nat) :
    (read_table_post_check r errno c2).1 = 0 ∨ (read_table_post_check r errno c2).1 = 1 := by
  unfold read_table_post_check
  simp only []
  split_ifs <;> simp

theorem post_check_touched (r : read_table) (errno : Errno) (c2 : Nat) :
    ∃ p c e, (read_table_post_check r errno c2).2
      = { r with pos := p, col := c, last_error := e } := by
  unfold read_table_post_check
  simp only []
  split_ifs <;> exact ⟨_, _, _, rfl⟩

theorem post_check_pass (r : read_table) (errno : Errno) (c2 : Nat)
    (h : (read_table_post_check r errno c2).1 = 0) :
    (read_table_post_check r errno c2).2.last_error = T_OK
    ∧ ((read_table_post_check r errno c2).2.col = r.col + 1
      ∨ ((read_table_post_check r errno c2).2.col = r.col
        ∧ atLineEnd (read_table_post_check r errno c2).2)) := by
  unfold read_table_post_check at h ⊢
  simp only [] at h ⊢
  split_ifs at h ⊢ with h1 h2 h3 h4 h5 h6
  all_goals first
    | exact ⟨rfl, Or.inr ⟨rfl, h3⟩⟩
    | exact ⟨rfl, Or.inl rfl⟩

theorem post_check_fail (r : read_table) (errno : Errno) (c2 : Nat)
    (h : (read_table_post_check r errno c2).1 ≠ 0) :
    (read_table_post_check r errno c2).2.col = r.col
    ∧ ((read_table_post_check r errno c2).2.last_error = T_FORMAT
      ∨ ((read_table_post_check r errno c2).2.last_error = T_OVERFLOW
        ∧ errno = Errno.ERANGE ∧ (read_table_post_check r errno c2).2.pos = r.pos)) := by
  unfold read_table_post_check at h ⊢
  simp only [] at h ⊢
  split_ifs at h ⊢ with h1 h2 h3 h4 h5 h6
  all_goals first
    | exact absurd rfl h
    | exact ⟨rfl, Or.inl rfl⟩
    | exact ⟨rfl, Or.inr ⟨rfl, h2, rfl⟩⟩

theorem int32_outcome (r : read_table) (i mn mx : Int) :
    Outcome false r (read_table_int32_limits r i mn mx).1
      (read_table_int32_limits r i mn mx).2.1 := by
  unfold read_table_int32_limits
  simp only []
  split_ifs with h1 <;> first
    | exact Outcome.pre h1
    | exact Outcome.reject T_OVERFLOW (not_not.mp h1) (Or.inl rfl)
    | exact Outcome.reject T_FORMAT (not_not.mp h1) (Or.inr rfl)
    | exact Outcome.post _ _ (not_not.mp h1)

theorem int64_outcome (r : read_table) (i mn mx : Int) :
    Outcome false r (read_table_int64_limits r i mn mx).1
      (read_table_int64_limits r i mn mx).2.1 := by
  unfold read_table_int64_limits
  simp only []
  split_ifs with h1 <;> first
    | exact Outcome.pre h1
    | exact Outcome.reject T_OVERFLOW (not_not.mp h1) (Or.inl rfl)
    | exact Outcome.reject T_FORMAT (not_not.mp h1) (Or.inr rfl)
    | exact Outcome.post _ _ (not_not.mp h1)

theorem uint32_outcome (r : read_table) (i mn mx : Nat) :
    Outcome false r (read_table_uint32_limits r i mn mx).1
      (read_table_uint32_limits r i mn mx).2.1 := by
  unfold read_table_uint32_limits
  simp only []
  split_ifs with h1 <;> first
    | exact Outcome.pre h1
    | exact Outcome.reject T_OVERFLOW (not_not.mp h1) (Or.inl rfl)
    | exact Outcome.reject T_FORMAT (not_not.mp h1) (Or.inr rfl)
    | exact Outcome.post _ _ (not_not.mp h1)

theorem uint64_outcome (r : read_table) (i mn mx : Nat) :
    Outcome false r (read_table_uint64_limits r i mn mx).1
      (read_table_uint64_limits r i mn mx).2.1 := by
  unfold read_table_uint64_limits
  simp only []
  split_ifs with h1 <;> first
    | exact Outcome.pre h1
    | exact Outcome.reject T_OVERFLOW (not_not.mp h1) (Or.inl rfl)
    | exact Outcome.reject T_FORMAT (not_not.mp h1) (Or.inr rfl)
    | exact Outcome.post _ _ (not_not.mp h1)

theorem int16_outcome (r : read_table) (i mn mx : Int) :
    Outcome false r (read_table_int16_limits r i mn mx).1
      (read_table_int16_limits r i mn mx).2.1 :=
  int32_outcome r i mn mx

theorem uint16_outcome (r : read_table) (i mn mx : Nat) :
    Outcome false r (read_table_uint16_limits r i mn mx).1
      (read_table_uint16_limits r i mn mx).2.1 :=
  uint32_outcome r i mn mx

theorem double_outcome (env : Env) (r : read_table) (d : Dbl) :
    Outcome true r (read_table_double env r d).1 (read_table_double env r d).2.1 := by
  unfold read_table_double
  simp only []
  split_ifs with h1 h2 h3 h4
  · exact Outcome.pre h1
  · have h := post_check_ret (read_table_pre_check r).2
      (env.strtod (cstr (read_table_pre_check r).2)).2.2
      ((read_table_pre_check r).2.pos + (env.strtod (cstr (read_table_pre_check r).2)).2.1)
    have h5 : (read_table_post_check (read_table_pre_check r).2
        (env.strtod (cstr (read_table_pre_check r).2)).2.2
        ((read_table_pre_check r).2.pos
          + (env.strtod (cstr (read_table_pre_check r).2)).2.1)).1 = 1 := by
      rcases h with h | h
      · exact absurd h h2
      · exact h
    have := Outcome.post (w := true) (env.strtod (cstr (read_table_pre_check r).2)).2.2
      ((read_table_pre_check r).2.pos + (env.strtod (cstr (read_table_pre_check r).2)).2.1)
      (by simpa using h1 : (read_table_pre_check r).1 = 0)
    rw [h5] at this
    exact this
  · exact Outcome.value _ _ T_NAN rfl (by simpa using h1) (by simpa using h2) (Or.inl rfl)
  · have := Outcome.post (w := true) (env.strtod (cstr (read_table_pre_check r).2)).2.2
      ((read_table_pre_check r).2.pos + (env.strtod (cstr (read_table_pre_check r).2)).2.1)
      (by simpa using h1 : (read_table_pre_check r).1 = 0)
    rw [(by simpa using h2 : (read_table_post_check (read_table_pre_check r).2
        (env.strtod (cstr (read_table_pre_check r).2)).2.2
        ((read_table_pre_check r).2.pos
          + (env.strtod (cstr (read_table_pre_check r).2)).2.1)).1 = 0)] at this
    exact this
  · have := Outcome.post (w := true) (env.strtod (cstr (read_table_pre_check r).2)).2.2
      ((read_table_pre_check r).2.pos + (env.strtod (cstr (read_table_pre_check r).2)).2.1)
      (by simpa using h1 : (read_table_pre_check r).1 = 0)
    rw [(by simpa using h2 : (read_table_post_check (read_table_pre_check r).2
        (env.strtod (cstr (read_table_pre_check r).2)).2.2
        ((read_table_pre_check r).2.pos
          + (env.strtod (cstr (read_table_pre_check r).2)).2.1)).1 = 0)] at this
    exact this

theorem double_limits_outcome (env : Env) (r : read_table) (d mn mx : Dbl) :
    Outcome true r (read_table_double_limits env r d mn mx).1
      (read_table_double_limits env r d mn mx).2.1 := by
  unfold read_table_double_limits
  simp only []
  by_cases h1 : (read_table_pre_check r).1 ≠ 0
  · rw [if_pos h1]; exact Outcome.pre h1
  · rw [if_neg h1]
    have h0 : (read_table_pre_check r).1 = 0 := not_not.mp h1
    have hp := Outcome.post (w := true) (r := r)
      (env.strtod (cstr (read_table_pre_check r).2)).2.2
      ((read_table_pre_check r).2.pos + (env.strtod (cstr (read_table_pre_check r).2)).2.1) h0
    by_cases h2 : (read_table_post_check (read_table_pre_check r).2
        (env.strtod (cstr (read_table_pre_check r).2)).2.2
        ((read_table_pre_check r).2.pos
          + (env.strtod (cstr (read_table_pre_check r).2)).2.1)).1 ≠ 0
    · rw [if_pos h2]
      have h5 := (post_check_ret _ _ _).resolve_left h2
      rw [h5] at hp
      exact hp
    · rw [if_neg h2]
      have h5 := not_not.mp h2
      split_ifs
      · exact Outcome.value _ _ T_NAN rfl h0 h5 (Or.inl rfl)
      · exact Outcome.value _ _ T_OVERFLOW rfl h0 h5 (Or.inr rfl)
      · rw [h5] at hp; exact hp

theorem outcome_ret {dbl : Bool} {r q : read_table} {ret : Nat} (h : Outcome dbl r ret q) :
    ret = 0 ∨ ret = 1 := by
  cases h with
  | pre _ => exact Or.inr rfl
  | reject _ _ _ => exact Or.inr rfl
  | post errno c2 _ => exact post_check_ret _ _ _
  | value _ _ _ _ _ _ _ => exact Or.inr rfl

theorem outcome_touched {dbl : Bool} {r q : read_table} {ret : Nat} (h : Outcome dbl r ret q) :
    Touched r q := by
  obtain ⟨p, e, hpc⟩ := pre_check_touched r
  cases h with
  | pre _ => exact ⟨p, r.col, e, hpc⟩
  | reject e2 _ _ => rw [hpc]; exact ⟨p, r.col, e2, rfl⟩
  | post errno c2 _ =>
    obtain ⟨p2, c, e2, hpk⟩ := post_check_touched (read_table_pre_check r).2 errno c2
    rw [hpk, hpc]; exact ⟨p2, c, e2, rfl⟩
  | value errno c2 e3 _ _ _ _ =>
    obtain ⟨p2, c, e2, hpk⟩ := post_check_touched (read_table_pre_check r).2 errno c2
    rw [hpk, hpc]; exact ⟨p2, c, e3, rfl⟩

/-- A numeric read that returns success leaves the error `T_OK`, and the column
one higher unless the cursor is left where the line ends. -/
theorem outcome_success {dbl : Bool} {r q : read_table} {ret : Nat} (h : Outcome dbl r ret q)
    (h0 : ret = 0) :
    q.last_error = T_OK ∧ (q.col = r.col + 1 ∨ (q.col = r.col ∧ atLineEnd q)) := by
  cases h with
  | pre _ => exact absurd h0 (by decide)
  | reject _ _ _ => exact absurd h0 (by decide)
  | post errno c2 hp =>
    have := post_check_pass _ errno c2 h0
    rw [(pre_check_pass r hp).2.2] at this
    exact this
  | value _ _ _ _ _ _ _ => exact absurd h0 (by decide)

/-- An integer read that returns failure leaves the column as it was. -/
theorem outcome_failure {r q : read_table} {ret : Nat} (h : Outcome false r ret q)
    (h1 : ret ≠ 0) : q.col = r.col := by
  cases h with
  | pre hp => exact (pre_check_fail r hp).2
  | reject _ hp _ => exact (pre_check_pass r hp).2.2
  | post errno c2 hp =>
    rw [(post_check_fail _ errno c2 h1).1]
    exact (pre_check_pass r hp).2.2
  | value _ _ _ hd _ _ _ => exact absurd hd (by decide)

/-- A floating-point read that returns failure leaves the column as it was,
unless it fails in the value check that follows the post-check. -/
theorem outcome_failure_dbl {dbl : Bool} {r q : read_table} {ret : Nat}
    (h : Outcome dbl r ret q) (h1 : ret ≠ 0) :
    q.col = r.col ∨ ((q.last_error = T_NAN ∨ q.last_error = T_OVERFLOW)
      ∧ q.col = r.col + 1) := by
  cases h with
  | pre hp => exact Or.inl (pre_check_fail r hp).2
  | reject _ hp _ => exact Or.inl (pre_check_pass r hp).2.2
  | post errno c2 hp =>
    left
    rw [(post_check_fail _ errno c2 h1).1]
    exact (pre_check_pass r hp).2.2
  | value errno c2 e _ hp hk he =>
    have := (post_check_pass _ errno c2 hk).2
    rw [(pre_check_pass r hp).2.2] at this
    rcases this with h | h
    · exact Or.inr ⟨he, h⟩
    · exact Or.inl h.1

/-- The error a numeric read leaves when it fails in the pre-check is not
`T_OVERFLOW`. -/
theorem outcome_overflow {r q : read_table} {ret : Nat} (h : Outcome false r ret q)
    (ho : q.last_error = T_OVERFLOW) :
    (read_table_pre_check r).1 = 0 := by
  cases h with
  | pre hp =>
    rcases (pre_check_fail r hp).1 with hb | hb
    · rw [ho] at hb; exact absurd hb (by decide)
    · rw [ho] at hb; exact absurd hb (by decide)
  | reject _ hp _ => exact hp
  | post errno c2 hp => exact hp
  | value _ _ _ hd _ _ _ => exact absurd hd (by decide)

theorem touched_refl (r : read_table) : Touched r r := ⟨r.pos, r.col, r.last_error, rfl⟩

theorem touched_trans {r q s : read_table} (h1 : Touched r q) (h2 : Touched q s) :
    Touched r s := by
  obtain ⟨p, c, e, rfl⟩ := h1
  obtain ⟨p2, c2, e2, rfl⟩ := h2
  exact ⟨p2, c2, e2, rfl⟩

/-- Every single-number overload of `read_table_next` ends in one of the ways of
`Outcome`. -/
theorem next_outcome (env : Env) (r : read_table) (val : Field)
    (h : val.isInteger = true ∨ val.isDouble = true) :
    Outcome val.isDouble r (read_table_next env r val).1 (read_table_next env r val).2.1 := by
  cases val <;> first
    | exact int32_outcome r _ _ _
    | exact int64_outcome r _ _ _
    | exact uint32_outcome r _ _ _
    | exact uint64_outcome r _ _ _
    | exact int16_outcome r _ _ _
    | exact uint16_outcome r _ _ _
    | exact double_outcome env r _
    | exact double_limits_outcome env r _ _ _
    | (simp [Field.isInteger, Field.isDouble] at h)

theorem string_ret (r : read_table) (sl : Nat × Nat) :
    (read_table_string r sl).1 = 0 ∨ (read_table_string r sl).1 = 1 := by
  unfold read_table_string
  simp only []
  split_ifs <;> simp

/-- The string read changes the cursor and the error only. -/
theorem string_touched (r : read_table) (sl : Nat × Nat) :
    ∃ p e, (read_table_string r sl).2.1 = { r with pos := p, last_error := e } := by
  obtain ⟨p, e, hpc⟩ := pre_check_touched r
  unfold read_table_string
  simp only []
  split_ifs
  · exact ⟨r.pos, r.last_error, rfl⟩
  · exact ⟨_, r.last_error, rfl⟩
  · exact ⟨_, _, rfl⟩
  · exact ⟨p, e, hpc⟩
  · rw [hpc]; exact ⟨_, e, rfl⟩

/-- The error a successful string read leaves: with an explicit delimiter,
`T_EOL` when the field was not ended by the delimiter (the cursor is left where
the view ends), and otherwise the error it found. -/
theorem string_error (r : read_table) (sl : Nat × Nat) (h : (read_table_string r sl).1 = 0) :
    (r.delim = 0 → (read_table_string r sl).2.1.last_error = r.last_error)
    ∧ (r.delim ≠ 0 →
        ((read_table_string r sl).2.1.pos
            = (read_table_string r sl).2.2.1 + (read_table_string r sl).2.2.2 + 1
          ∧ (read_table_string r sl).2.1.last_error = r.last_error)
        ∨ ((read_table_string r sl).2.1.pos
            = (read_table_string r sl).2.2.1 + (read_table_string r sl).2.2.2
          ∧ (read_table_string r sl).2.1.last_error = T_EOL)) := by
  unfold read_table_string at h ⊢
  simp only [] at h ⊢
  by_cases hd : r.delim ≠ 0
  · rw [if_pos hd] at h ⊢
    refine ⟨fun h0 => absurd h0 hd, fun _ => ?_⟩
    by_cases hb : blocking r.last_error
    · rw [if_pos hb] at h; exact absurd h Nat.one_ne_zero
    · rw [if_neg hb]
      have hle := le_scanLoop (fun c => c == r.delim || c == 10 || is_comment r c) r.buf
        (r.line_len - r.pos) r.pos
      simp only [scan, bufAt]
      by_cases hc : scanLoop (fun c => c == r.delim || c == 10 || is_comment r c) r.buf
            (r.line_len - r.pos) r.pos < r.line_len
          ∧ r.buf.getD (scanLoop (fun c => c == r.delim || c == 10 || is_comment r c) r.buf
            (r.line_len - r.pos) r.pos) 0 = r.delim
      · left
        rw [if_pos hc]
        dsimp only
        refine ⟨?_, rfl⟩
        omega
      · right
        rw [if_neg hc]
        dsimp only
        refine ⟨?_, rfl⟩
        omega
  · rw [if_neg hd] at h ⊢
    refine ⟨fun _ => ?_, fun h0 => absurd h0 hd⟩
    by_cases h1 : (read_table_pre_check r).1 ≠ 0
    · rw [if_pos h1] at h; exact absurd h Nat.one_ne_zero
    · rw [if_neg h1]
      exact (pre_check_pass r (not_not.mp h1)).1

theorem skip_ret (r : read_table) : (read_table_skip r).1 = 0 ∨ (read_table_skip r).1 = 1 := by
  unfold read_table_skip
  simp only []
  split_ifs <;> simp

theorem skip_touched (r : read_table) : Touched r (read_table_skip r).2 := by
  unfold read_table_skip
  simp only []
  split_ifs <;> exact ⟨_, _, _, rfl⟩

/-- A skip that returns success leaves the error `T_OK` and the column one
higher; one that returns failure leaves the error `T_EOL` and the column as it
was. -/
theorem skip_facts (r : read_table) :
    ((read_table_skip r).1 = 0 →
      (read_table_skip r).2.last_error = T_OK ∧ (read_table_skip r).2.col = r.col + 1)
    ∧ ((read_table_skip r).1 ≠ 0 →
      (read_table_skip r).2.last_error = T_EOL ∧ (read_table_skip r).2.col = r.col) := by
  unfold read_table_skip
  simp only []
  split_ifs <;> simp

/-- Every overload of `read_table_next` changes the cursor, the column and the
error register at most. -/
theorem next_touched (env : Env) (r : read_table) (val : Field) :
    Touched r (read_table_next env r val).2.1 := by
  have hs : ∀ sl, Touched r (read_table_string r sl).2.1 := by
    intro sl
    obtain ⟨p, e, h⟩ := string_touched r sl
    exact ⟨p, r.col, e, h⟩
  by_cases h : val.isInteger = true ∨ val.isDouble = true
  · exact outcome_touched (next_outcome env r val h)
  · cases val with
    | pair_double p =>
      have h1 := outcome_touched (double_outcome env r p.1)
      have h2 := outcome_touched (double_outcome env (read_table_double env r p.1).2.1 p.2)
      show Touched r (read_table_next env r (Field.pair_double p)).2.1
      unfold read_table_next
      simp only []
      split_ifs
      · exact h1
      · exact touched_trans h1 h2
      · exact touched_trans h1 h2
    | bounds_pair_double p mn mx =>
      have h1 := outcome_touched (double_limits_outcome env r p.1 mn.1 mx.1)
      have h2 := outcome_touched (double_limits_outcome env
        (read_table_double_limits env r p.1 mn.1 mx.1).2.1 p.2 mn.2 mx.2)
      show Touched r (read_table_next env r (Field.bounds_pair_double p mn mx)).2.1
      unfold read_table_next
      simp only []
      split_ifs
      · exact h1
      · exact touched_trans h1 h2
      · exact touched_trans h1 h2
    | string_view v =>
      show Touched r (read_table_next env r (Field.string_view v)).2.1
      unfold read_table_next
      simp only []
      split_ifs <;> exact hs _
    | string v =>
      show Touched r (read_table_next env r (Field.string v)).2.1
      unfold read_table_next
      simp only []
      split_ifs <;> exact hs _
    | string_view_custom v =>
      show Touched r (read_table_next env r (Field.string_view_custom v)).2.1
      unfold read_table_next
      simp only []
      split_ifs <;> exact hs _
    | skip => exact skip_touched r
    | other => exact ⟨r.pos, r.col, T_TYPE, rfl⟩
    | bounds_other => exact ⟨r.pos, r.col, T_TYPE, rfl⟩
    | _ => simp [Field.isInteger, Field.isDouble] at h

/-- Where the scanning loop halts: not before `pos`, not after its `n`
iterations, on the first byte on which `stop` is true if there is one. -/
theorem scanLoop_spec (stop : Nat → Bool) (buf : List Nat) : ∀ (n pos : Nat),
    pos ≤ scanLoop stop buf n pos ∧ scanLoop stop buf n pos ≤ pos + n
    ∧ (∀ i, pos ≤ i → i < scanLoop stop buf n pos → stop (buf.getD i 0) = false)
    ∧ (scanLoop stop buf n pos < pos + n → stop (buf.getD (scanLoop stop buf n pos) 0) = true) := by
  intro n
  induction n with
  | zero =>
    intro pos
    refine ⟨Nat.le_refl _, Nat.le_refl _, ?_, ?_⟩
    · intro i h1 h2
      have : scanLoop stop buf 0 pos = pos := rfl
      omega
    · intro h
      have : scanLoop stop buf 0 pos = pos := rfl
      omega
  | succ m ih =>
    intro pos
    cases hs : stop (buf.getD pos 0)
    · have he : scanLoop stop buf (m + 1) pos = scanLoop stop buf m (pos + 1) := by
        rw [scanLoop, hs]; rfl
      obtain ⟨h1, h2, h3, h4⟩ := ih (pos + 1)
      rw [he]
      refine ⟨by omega, by omega, ?_, ?_⟩
      · intro i hi1 hi2
        by_cases hip : i = pos
        · rw [hip]; exact hs
        · exact h3 i (by omega) hi2
      · intro h; exact h4 (by omega)
    · have he : scanLoop stop buf (m + 1) pos = pos := by
        rw [scanLoop, hs]; rfl
      rw [he]
      refine ⟨Nat.le_refl _, by omega, ?_, ?_⟩
      · intro i h1 h2; omega
      · intro _; exact hs

theorem splitLine_append : ∀ (s : List Nat), (splitLine s).1 ++ (splitLine s).2 = s := by
  intro s
  induction s with
  | nil => rfl
  | cons c cs ih =>
    rw [splitLine]
    split_ifs with h
    · rfl
    · show c :: ((splitLine cs).1 ++ (splitLine cs).2) = c :: cs
      rw [ih]

theorem getLast?_cons_ne (c : Nat) (l : List Nat) (h : l ≠ []) :
    (c :: l).getLast? = l.getLast? := by
  cases l with
  | nil => exact absurd rfl h
  | cons b t => exact List.getLast?_cons_cons

/-- The line `getline` takes off a non-empty stream is one physical line: it is
not empty, and it ends with a newline unless the stream ends with it. -/
theorem splitLine_first : ∀ (s : List Nat), s ≠ [] →
    (splitLine s).1 ≠ [] ∧ lineCount (splitLine s).1 = 1
    ∧ ((splitLine s).1.getLast? = some 10 ∨ (splitLine s).2 = []) := by
  intro s
  induction s with
  | nil => intro h; exact absurd rfl h
  | cons c cs ih =>
    intro _
    rw [splitLine]
    split_ifs with h
    · subst h
      refine ⟨by simp, ?_, Or.inl rfl⟩
      show lineCount [10] = 1
      decide
    · cases hcs : cs with
      | nil =>
        refine ⟨by simp, ?_, Or.inr rfl⟩
        show lineCount [c] = 1
        have hc : ¬ (10 = c) := fun hc => h hc.symm
        simp [lineCount, h, hc]
      | cons d ds =>
        obtain ⟨h1, h2, h3⟩ := ih (by rw [hcs]; simp)
        rw [hcs] at h1 h2 h3
        refine ⟨by simp, ?_, ?_⟩
        · show lineCount (c :: (splitLine (d :: ds)).1) = 1
          unfold lineCount at h2 ⊢
          rw [List.count_cons_of_ne (Ne.symm h), getLast?_cons_ne c _ h1]
          simpa [h1] using h2
        · rcases h3 with h3 | h3
          · left
            show (c :: (splitLine (d :: ds)).1).getLast? = some 10
            rw [getLast?_cons_ne c _ h1]; exact h3
          · right; exact h3

theorem lineCount_append (u l : List Nat) (h : u = [] ∨ u.getLast? = some 10 ∨ l = []) :
    lineCount (u ++ l) = lineCount u + lineCount l := by
  rcases h with h | h | h
  · subst h; simp [lineCount]
  · by_cases hl : l = []
    · subst hl; simp [lineCount]
    · have hu : u ≠ [] := by intro hu; subst hu; simp at h
      unfold lineCount
      rw [List.count_append, List.getLast?_append_of_ne_nil _ hl]
      simp [hl, hu, h]
      omega
  · subst h; simp [lineCount]

theorem line_skip_loop_nil (skip : Bool) (fuel : Nat) (r : read_table) :
    line_skip_loop skip (fuel + 1) r []
      = (1, { r with f := some [], last_error := T_EOF, line_len := 0 }) := rfl

/-- One iteration of the loop of `read_table_line_skip` without skipping. -/
theorem line_skip_loop_noskip (fuel : Nat) (r : read_table) (c : Nat) (cs : List Nat) :
    line_skip_loop false (fuel + 1) r (c :: cs)
      = (0, { r with f := some (splitLine (c :: cs)).2, buf := (splitLine (c :: cs)).1,
                     buf_size := max r.buf_size ((splitLine (c :: cs)).1.length + 1),
                     line_len := (splitLine (c :: cs)).1.length, line := r.line + 1,
                     pos := 0, col := 0, last_error := T_OK }) := rfl

/-- One iteration of the loop of `read_table_line_skip` with skipping: `p` is
where the scan over the leading blanks of the line halts. -/
theorem line_skip_loop_skip (fuel : Nat) (r : read_table) (c : Nat) (cs : List Nat) :
    line_skip_loop true (fuel + 1) r (c :: cs)
      = if r.comment != 0
            && (splitLine (c :: cs)).1.getD
                (scanLoop (fun c => !is_blank c) (splitLine (c :: cs)).1
                  (splitLine (c :: cs)).1.length 0) 0 == r.comment
        then line_skip_loop true fuel
          { r with f := some (splitLine (c :: cs)).2, buf := (splitLine (c :: cs)).1,
                   buf_size := max r.buf_size ((splitLine (c :: cs)).1.length + 1),
                   line_len := (splitLine (c :: cs)).1.length, line := r.line + 1,
                   pos := scanLoop (fun c => !is_blank c) (splitLine (c :: cs)).1
                     (splitLine (c :: cs)).1.length 0 }
          (splitLine (c :: cs)).2
        else if scanLoop (fun c => !is_blank c) (splitLine (c :: cs)).1
            (splitLine (c :: cs)).1.length 0 < (splitLine (c :: cs)).1.length
        then (0,
          { r with f := some (splitLine (c :: cs)).2, buf := (splitLine (c :: cs)).1,
                   buf_size := max r.buf_size ((splitLine (c :: cs)).1.length + 1),
                   line_len := (splitLine (c :: cs)).1.length, line := r.line + 1,
                   pos := scanLoop (fun c => !is_blank c) (splitLine (c :: cs)).1
                     (splitLine (c :: cs)).1.length 0,
                   col := 0, last_error := T_OK })
        else line_skip_loop true fuel
          { r with f := some (splitLine (c :: cs)).2, buf := (splitLine (c :: cs)).1,
                   buf_size := max r.buf_size ((splitLine (c :: cs)).1.length + 1),
                   line_len := (splitLine (c :: cs)).1.length, line := r.line + 1,
                   pos := scanLoop (fun c => !is_blank c) (splitLine (c :: cs)).1
                     (splitLine (c :: cs)).1.length 0 }
          (splitLine (c :: cs)).2 := rfl

theorem line_skip_loop_spec (skip : Bool) : ∀ (fuel : Nat) (r : read_table) (s : List Nat),
    ((line_skip_loop skip fuel r s).1 = 0 ∨ (line_skip_loop skip fuel r s).1 = 1)
    ∧ SameSetup r (line_skip_loop skip fuel r s).2
    ∧ ∃ used rest, s = used ++ rest
        ∧ ((line_skip_loop skip fuel r s).2.f = some rest ∨
            ((line_skip_loop skip fuel r s).2 = r ∧ used = []))
        ∧ (line_skip_loop skip fuel r s).2.line = r.line + lineCount used
        ∧ (rest = [] ∨ used = [] ∨ used.getLast? = some 10)
        ∧ ((line_skip_loop skip fuel r s).1 = 0 →
            (line_skip_loop skip fuel r s).2.f = some rest
            ∧ LineLoaded skip (line_skip_loop skip fuel r s).2
            ∧ ∃ pre, used = pre ++ (line_skip_loop skip fuel r s).2.buf) := by
  intro fuel
  induction fuel with
  | zero =>
    intro r s
    refine ⟨Or.inr rfl, ⟨rfl, rfl, rfl, rfl, rfl⟩, [], s, rfl, Or.inr ⟨rfl, rfl⟩, rfl,
      Or.inr (Or.inl rfl), ?_⟩
    intro h; exact absurd h Nat.one_ne_zero
  | succ n ih =>
    intro r s
    cases s with
    | nil =>
      rw [line_skip_loop_nil]
      refine ⟨Or.inr rfl, ⟨rfl, rfl, rfl, rfl, rfl⟩, [], [], rfl, Or.inl rfl, rfl,
        Or.inl rfl, ?_⟩
      intro h; exact absurd h Nat.one_ne_zero
    | cons c cs =>
      obtain ⟨hl1, hl2, hl3⟩ := splitLine_first (c :: cs) (by simp)
      have happ := splitLine_append (c :: cs)
      have hsc := scanLoop_spec (fun c => !is_blank c) (splitLine (c :: cs)).1
        (splitLine (c :: cs)).1.length 0
      -- the recursive call, on the rest of the stream
      have hrec : ∀ q : read_table, q.line = r.line + 1 → SameSetup r q →
          ((line_skip_loop skip n q (splitLine (c :: cs)).2).1 = 0
            ∨ (line_skip_loop skip n q (splitLine (c :: cs)).2).1 = 1)
          ∧ SameSetup r (line_skip_loop skip n q (splitLine (c :: cs)).2).2
          ∧ (q.f = some (splitLine (c :: cs)).2 →
            ∃ used rest, c :: cs = used ++ rest
            ∧ ((line_skip_loop skip n q (splitLine (c :: cs)).2).2.f = some rest ∨
                ((line_skip_loop skip n q (splitLine (c :: cs)).2).2 = r ∧ used = []))
            ∧ (line_skip_loop skip n q (splitLine (c :: cs)).2).2.line = r.line + lineCount used
            ∧ (rest = [] ∨ used = [] ∨ used.getLast? = some 10)
            ∧ ((line_skip_loop skip n q (splitLine (c :: cs)).2).1 = 0 →
                (line_skip_loop skip n q (splitLine (c :: cs)).2).2.f = some rest
                ∧ LineLoaded skip (line_skip_loop skip n q (splitLine (c :: cs)).2).2
                ∧ ∃ pre, used = pre ++ (line_skip_loop skip n q (splitLine (c :: cs)).2).2.buf)) := by
        intro q hq hset
        obtain ⟨h1, h2, used, rest, h3, h4, h5, h6, h7⟩ := ih q (splitLine (c :: cs)).2
        refine ⟨h1, ?_, ?_⟩
        · obtain ⟨a1, a2, a3, a4, a5⟩ := h2
          obtain ⟨b1, b2, b3, b4, b5⟩ := hset
          exact ⟨a1.trans b1, a2.trans b2, a3.trans b3, a4.trans b4, a5.trans b5⟩
        · intro hqf
          have hf : (line_skip_loop skip n q (splitLine (c :: cs)).2).2.f = some rest := by
            rcases h4 with h4 | ⟨h4, h4u⟩
            · exact h4
            · rw [h4, hqf, h3, h4u]; rfl
          refine ⟨(splitLine (c :: cs)).1 ++ used, rest, ?_, Or.inl hf, ?_, ?_, ?_⟩
          · rw [List.append_assoc, ← h3, happ]
          · rw [h5, hq, lineCount_append _ _ (by
              rcases hl3 with h | h
              · exact Or.inr (Or.inl h)
              · right; right
                rw [h] at h3
                exact (List.append_eq_nil.1 h3.symm).1), hl2]
            omega
          · rcases h6 with h | h | h
            · exact Or.inl h
            · subst h
              rcases hl3 with h | h
              · right; right; simpa using h
              · left
                rw [h] at h3
                simpa using h3.symm
            · right; right
              have hu : used ≠ [] := by intro hu; subst hu; simp at h
              rw [List.getLast?_append_of_ne_nil _ hu]; exact h
          · intro h0
            obtain ⟨_, h8, pre, h9⟩ := h7 h0
            exact ⟨hf, h8, (splitLine (c :: cs)).1 ++ pre, by rw [List.append_assoc, ← h9]⟩
      cases skip
      · rw [line_skip_loop_noskip]
        refine ⟨Or.inl rfl, ⟨rfl, rfl, rfl, rfl, rfl⟩, (splitLine (c :: cs)).1,
          (splitLine (c :: cs)).2, happ.symm, Or.inl rfl, ?_, ?_, ?_⟩
        · show r.line + 1 = _; rw [hl2]
        · rcases hl3 with h | h
          · exact Or.inr (Or.inr h)
          · exact Or.inl h
        · intro _
          refine ⟨rfl, ⟨rfl, rfl, rfl, hl1, fun _ => rfl, fun h => absurd h (by decide)⟩,
            [], rfl⟩
      · rw [line_skip_loop_skip]
        split_ifs with hc hp
        · obtain ⟨h1, h2, h3⟩ := hrec
            { r with f := some (splitLine (c :: cs)).2, buf := (splitLine (c :: cs)).1,
                     buf_size := max r.buf_size ((splitLine (c :: cs)).1.length + 1),
                     line_len := (splitLine (c :: cs)).1.length, line := r.line + 1,
                     pos := scanLoop (fun c => !is_blank c) (splitLine (c :: cs)).1
                       (splitLine (c :: cs)).1.length 0 }
            rfl ⟨rfl, rfl, rfl, rfl, rfl⟩
          exact ⟨h1, h2, h3 rfl⟩
        · refine ⟨Or.inl rfl, ⟨rfl, rfl, rfl, rfl, rfl⟩, (splitLine (c :: cs)).1,
            (splitLine (c :: cs)).2, happ.symm, Or.inl rfl, ?_, ?_, ?_⟩
          · show r.line + 1 = _; rw [hl2]
          · rcases hl3 with h | h
            · exact Or.inr (Or.inr h)
            · exact Or.inl h
          · intro _
            refine ⟨rfl, ⟨rfl, rfl, rfl, hl1, fun h => absurd h (by decide), fun _ => ?_⟩,
              [], rfl⟩
            refine ⟨hp, ?_, ?_⟩
            · have := hsc.2.2.2 (by simpa using hp)
              simpa [bufAt] using this
            · intro i hi
              have := hsc.2.2.1 i (Nat.zero_le _) hi
              simpa [bufAt] using this
        · obtain ⟨h1, h2, h3⟩ := hrec
            { r with f := some (splitLine (c :: cs)).2, buf := (splitLine (c :: cs)).1,
                     buf_size := max r.buf_size ((splitLine (c :: cs)).1.length + 1),
                     line_len := (splitLine (c :: cs)).1.length, line := r.line + 1,
                     pos := scanLoop (fun c => !is_blank c) (splitLine (c :: cs)).1
                       (splitLine (c :: cs)).1.length 0 }
            rfl ⟨rfl, rfl, rfl, rfl, rfl⟩
          exact ⟨h1, h2, h3 rfl⟩

/-- With more fuel than the stream has bytes, the loop of `read_table_line_skip`
fails only at the end of the stream: it reports `T_EOF` after it consumed, and
counted, every line that was left. -/
theorem line_skip_loop_fail (skip : Bool) : ∀ (fuel : Nat) (r : read_table) (s : List Nat),
    s.length < fuel → (line_skip_loop skip fuel r s).1 ≠ 0 →
    (line_skip_loop skip fuel r s).2.last_error = T_EOF
    ∧ (line_skip_loop skip fuel r s).2.f = some []
    ∧ (line_skip_loop skip fuel r s).2.line = r.line + lineCount s := by
  intro fuel
  induction fuel with
  | zero => intro r s h; exact absurd h (Nat.not_lt_zero _)
  | succ n ih =>
    intro r s hlen hf
    cases s with
    | nil => rw [line_skip_loop_nil]; exact ⟨rfl, rfl, rfl⟩
    | cons c cs =>
      obtain ⟨hl1, hl2, hl3⟩ := splitLine_first (c :: cs) (by simp)
      have happ := splitLine_append (c :: cs)
      have hlt : (splitLine (c :: cs)).2.length < n := by
        have h1 : ((splitLine (c :: cs)).1 ++ (splitLine (c :: cs)).2).length = (c :: cs).length := by
          rw [happ]
        have h2 : 0 < (splitLine (c :: cs)).1.length := List.length_pos.2 hl1
        rw [List.length_append] at h1
        omega
      have hcount : lineCount (c :: cs) = 1 + lineCount (splitLine (c :: cs)).2 := by
        have := lineCount_append (splitLine (c :: cs)).1 (splitLine (c :: cs)).2
          (by rcases hl3 with h | h
              · exact Or.inr (Or.inl h)
              · exact Or.inr (Or.inr h))
        rw [happ, hl2] at this
        exact this
      cases skip
      · rw [line_skip_loop_noskip] at hf; exact absurd rfl hf
      · rw [line_skip_loop_skip] at hf ⊢
        split_ifs at hf ⊢ with hc hp
        · obtain ⟨h1, h2, h3⟩ := ih _ _ hlt hf
          refine ⟨h1, h2, ?_⟩
          rw [h3, hcount]
          show r.line + 1 + _ = _
          omega
        · exact absurd rfl hf
        · obtain ⟨h1, h2, h3⟩ := ih _ _ hlt hf
          refine ⟨h1, h2, ?_⟩
          rw [h3, hcount]
          show r.line + 1 + _ = _
          omega

/-- What `read_table_line_skip` does to the reader and the stream. -/
theorem line_skip_spec (r : read_table) (skip : Bool) :
    ((read_table_line_skip r skip).1 = 0 ∨ (read_table_line_skip r skip).1 = 1)
    ∧ SameSetup r (read_table_line_skip r skip).2
    ∧ (r.f = none → (read_table_line_skip r skip).1 = 1
        ∧ (read_table_line_skip r skip).2.f = none
        ∧ (read_table_line_skip r skip).2.line = r.line)
    ∧ (∀ s, r.f = some s → ∃ used rest, s = used ++ rest
        ∧ (read_table_line_skip r skip).2.f = some rest
        ∧ (read_table_line_skip r skip).2.line = r.line + lineCount used
        ∧ (rest = [] ∨ used = [] ∨ used.getLast? = some 10)
        ∧ ((read_table_line_skip r skip).1 = 0 →
            ∃ pre, used = pre ++ (read_table_line_skip r skip).2.buf)
        ∧ ((read_table_line_skip r skip).1 ≠ 0 →
            (used = [] ∧ (read_table_line_skip r skip).2 = r)
            ∨ (rest = [] ∧ (read_table_line_skip r skip).2.last_error = T_EOF)))
    ∧ ((read_table_line_skip r skip).1 = 0 → LineLoaded skip (read_table_line_skip r skip).2) := by
  unfold read_table_line_skip
  by_cases hb : r.last_error = T_EOF ∨ r.last_error = T_COPIED ∨ r.last_error = T_ERROR_FOPEN
  · rw [if_pos hb]
    refine ⟨Or.inr rfl, ⟨rfl, rfl, rfl, rfl, rfl⟩, fun h => ⟨rfl, h, rfl⟩, ?_, ?_⟩
    · intro s hs
      exact ⟨[], s, rfl, hs, rfl, Or.inr (Or.inl rfl), fun h => absurd h Nat.one_ne_zero,
        fun _ => Or.inl ⟨rfl, rfl⟩⟩
    · intro h; exact absurd h Nat.one_ne_zero
  · rw [if_neg hb]
    cases hf : r.f with
    | none =>
      refine ⟨Or.inr rfl, ⟨rfl, rfl, rfl, rfl, rfl⟩, fun _ => ⟨rfl, rfl, rfl⟩, ?_, ?_⟩
      · intro s hs; exact absurd hs (by simp)
      · intro h; exact absurd h Nat.one_ne_zero
    | some s =>
      obtain ⟨h1, h2, used, rest, h3, h4, h5, h6, h7⟩ := line_skip_loop_spec skip (s.length + 1) r s
      have hfr : (line_skip_loop skip (s.length + 1) r s).2.f = some rest := by
        rcases h4 with h4 | ⟨h4, h4u⟩
        · exact h4
        · rw [h4, hf, h3, h4u]; rfl
      refine ⟨h1, h2, fun h => absurd h (by simp), ?_, fun h => (h7 h).2.1⟩
      intro s' hs'
      have hss : s' = s := (Option.some.inj hs').symm
      subst hss
      refine ⟨used, rest, h3, hfr, h5, h6, fun h => (h7 h).2.2, ?_⟩
      intro hne
      right
      obtain ⟨e1, e2, _⟩ := line_skip_loop_fail skip (s'.length + 1) r s' (Nat.lt_succ_self _) hne
      refine ⟨?_, e1⟩
      rw [e2] at hfr
      exact (Option.some.inj hfr).symm

theorem read_line_eq (r : read_table) (skip : Bool) :
    read_table2.read_line r skip
      = ((read_table_line_skip r skip).1 == 0, (read_table_line_skip r skip).2) := by
  cases skip <;> rfl

/-- A numeric overload of `read_table_next` that returns success leaves the
error `T_OK`. -/
theorem next_numeric_ok (env : Env) (r : read_table) (val : Field)
    (hv : val.isInteger = true ∨ val.isDouble = true ∨ val.isPair = true)
    (h0 : (read_table_next env r val).1 = 0) :
    (read_table_next env r val).2.1.last_error = T_OK := by
  by_cases h : val.isInteger = true ∨ val.isDouble = true
  · exact (outcome_success (next_outcome env r val h) h0).1
  · cases val with
    | pair_double p =>
      have h2 := fun hy => (outcome_success
        (double_outcome env (read_table_double env r p.1).2.1 p.2) hy).1
      change (read_table_next env r (Field.pair_double p)).1 = 0 at h0
      show (read_table_next env r (Field.pair_double p)).2.1.last_error = T_OK
      unfold read_table_next at h0 ⊢
      simp only [] at h0 ⊢
      split_ifs at h0 ⊢ with h3 h4
      · exact h2 (not_not.mp h4)
    | bounds_pair_double p mn mx =>
      have h2 := fun hy => (outcome_success
        (double_limits_outcome env (read_table_double_limits env r p.1 mn.1 mx.1).2.1 p.2
          mn.2 mx.2) hy).1
      change (read_table_next env r (Field.bounds_pair_double p mn mx)).1 = 0 at h0
      show (read_table_next env r (Field.bounds_pair_double p mn mx)).2.1.last_error = T_OK
      unfold read_table_next at h0 ⊢
      simp only [] at h0 ⊢
      split_ifs at h0 ⊢ with h3 h4
      · exact h2 (not_not.mp h4)
    | _ => simp [Field.isInteger, Field.isDouble, Field.isPair] at h hv

theorem pre_fail_not_overflow (r : read_table) (h : (read_table_pre_check r).1 ≠ 0) :
    (read_table_pre_check r).2.last_error ≠ T_OVERFLOW := by
  intro ho
  rcases (pre_check_fail r h).1 with hb | hb
  · rw [ho] at hb; exact absurd hb (by decide)
  · rw [ho] at hb; exact absurd hb (by decide)

/-- A bounded 32-bit signed read that ends with `T_OVERFLOW` leaves a value
within the bounds. -/
theorem int32_overflow_value (r : read_table) (i mn mx : Int) (hmn : INT32_MIN ≤ mn)
    (hmm : mn ≤ mx) (hmx : mx ≤ INT32_MAX)
    (ho : (read_table_int32_limits r i mn mx).2.1.last_error = T_OVERFLOW) :
    mn ≤ (read_table_int32_limits r i mn mx).2.2 ∧ (read_table_int32_limits r i mn mx).2.2 ≤ mx := by
  unfold read_table_int32_limits at ho ⊢
  simp only [] at ho ⊢
  by_cases h1 : (read_table_pre_check r).1 ≠ 0
  · rw [if_pos h1] at ho
    exact absurd ho (pre_fail_not_overflow r h1)
  · rw [if_neg h1]
    by_cases h2 : (strtol (cstr (read_table_pre_check r).2) (read_table_pre_check r).2.base).1 > mx
        ∨ (strtol (cstr (read_table_pre_check r).2) (read_table_pre_check r).2.base).1 < mn
    · rw [if_pos h2]
      dsimp only
      split_ifs <;> omega
    · rw [if_neg h2]
      dsimp only
      rw [to_signed_32 _ (by omega) (by omega)]
      omega

theorem int64_overflow_value (r : read_table) (i mn mx : Int) (hmn : INT64_MIN ≤ mn)
    (hmm : mn ≤ mx) (hmx : mx ≤ INT64_MAX)
    (ho : (read_table_int64_limits r i mn mx).2.1.last_error = T_OVERFLOW) :
    mn ≤ (read_table_int64_limits r i mn mx).2.2 ∧ (read_table_int64_limits r i mn mx).2.2 ≤ mx := by
  unfold read_table_int64_limits at ho ⊢
  simp only [] at ho ⊢
  by_cases h1 : (read_table_pre_check r).1 ≠ 0
  · rw [if_pos h1] at ho
    exact absurd ho (pre_fail_not_overflow r h1)
  · rw [if_neg h1]
    by_cases h2 : (strtol (cstr (read_table_pre_check r).2) (read_table_pre_check r).2.base).1 > mx
        ∨ (strtol (cstr (read_table_pre_check r).2) (read_table_pre_check r).2.base).1 < mn
    · rw [if_pos h2]
      dsimp only
      split_ifs <;> omega
    · rw [if_neg h2]
      dsimp only
      rw [to_signed_64 _ (by omega) (by omega)]
      omega

theorem int16_overflow_value (r : read_table) (i mn mx : Int) (hmn : INT16_MIN ≤ mn)
    (hmm : mn ≤ mx) (hmx : mx ≤ INT16_MAX)
    (ho : (read_table_int16_limits r i mn mx).2.1.last_error = T_OVERFLOW) :
    mn ≤ (read_table_int16_limits r i mn mx).2.2 ∧ (read_table_int16_limits r i mn mx).2.2 ≤ mx := by
  have h32 := int32_overflow_value r i mn mx
    (by unfold INT16_MIN at hmn; unfold INT32_MIN; omega) hmm
    (by unfold INT16_MAX at hmx; unfold INT32_MAX; omega) ho
  show mn ≤ to_signed 16 (read_table_int32_limits r i mn mx).2.2
    ∧ to_signed 16 (read_table_int32_limits r i mn mx).2.2 ≤ mx
  rw [to_signed_16 _ (by omega) (by omega)]
  exact h32

/-- A bounded 32-bit unsigned read that ends with `T_OVERFLOW` leaves a value
within the bounds, or it rejected a leading `-` and left `0`. -/
theorem uint32_overflow_value (r : read_table) (i mn mx : Nat) (hmm : mn ≤ mx)
    (hmx : mx ≤ UINT32_MAX)
    (ho : (read_table_uint32_limits r i mn mx).2.1.last_error = T_OVERFLOW) :
    (mn ≤ (read_table_uint32_limits r i mn mx).2.2
      ∧ (read_table_uint32_limits r i mn mx).2.2 ≤ mx)
    ∨ (bufAt (read_table_pre_check r).2 (read_table_pre_check r).2.pos = 45
      ∧ (read_table_uint32_limits r i mn mx).2.2 = 0) := by
  unfold read_table_uint32_limits at ho ⊢
  simp only [] at ho ⊢
  by_cases h1 : (read_table_pre_check r).1 ≠ 0
  · rw [if_pos h1] at ho
    exact absurd ho (pre_fail_not_overflow r h1)
  · rw [if_neg h1] at ho ⊢
    by_cases h3 : (!(isalnum (bufAt (read_table_pre_check r).2 (read_table_pre_check r).2.pos)
        || bufAt (read_table_pre_check r).2 (read_table_pre_check r).2.pos == 43)) = true
    · rw [if_pos h3] at ho ⊢
      by_cases h4 : bufAt (read_table_pre_check r).2 (read_table_pre_check r).2.pos = 45
      · rw [if_pos h4]; exact Or.inr ⟨h4, rfl⟩
      · rw [if_neg h4] at ho; exact ((show T_FORMAT ≠ T_OVERFLOW by decide) ho).elim
    · rw [if_neg h3]
      left
      by_cases h2 : (strtoul (cstr (read_table_pre_check r).2)
            (read_table_pre_check r).2.base).1 > mx
          ∨ (strtoul (cstr (read_table_pre_check r).2) (read_table_pre_check r).2.base).1 < mn
      · rw [if_pos h2]
        dsimp only
        split_ifs <;> omega
      · rw [if_neg h2]
        dsimp only
        rw [to_unsigned_32 _ (by omega)]
        omega

theorem uint64_overflow_value (r : read_table) (i mn mx : Nat) (hmm : mn ≤ mx)
    (hmx : mx ≤ UINT64_MAX)
    (ho : (read_table_uint64_limits r i mn mx).2.1.last_error = T_OVERFLOW) :
    (mn ≤ (read_table_uint64_limits r i mn mx).2.2
      ∧ (read_table_uint64_limits r i mn mx).2.2 ≤ mx)
    ∨ (bufAt (read_table_pre_check r).2 (read_table_pre_check r).2.pos = 45
      ∧ (read_table_uint64_limits r i mn mx).2.2 = 0) := by
  unfold read_table_uint64_limits at ho ⊢
  simp only [] at ho ⊢
  by_cases h1 : (read_table_pre_check r).1 ≠ 0
  · rw [if_pos h1] at ho
    exact absurd ho (pre_fail_not_overflow r h1)
  · rw [if_neg h1] at ho ⊢
    by_cases h3 : (!(isalnum (bufAt (read_table_pre_check r).2 (read_table_pre_check r).2.pos)
        || bufAt (read_table_pre_check r).2 (read_table_pre_check r).2.pos == 43)) = true
    · rw [if_pos h3] at ho ⊢
      by_cases h4 : bufAt (read_table_pre_check r).2 (read_table_pre_check r).2.pos = 45
      · rw [if_pos h4]; exact Or.inr ⟨h4, rfl⟩
      · rw [if_neg h4] at ho; exact ((show T_FORMAT ≠ T_OVERFLOW by decide) ho).elim
    · rw [if_neg h3]
      left
      by_cases h2 : (strtoul (cstr (read_table_pre_check r).2)
            (read_table_pre_check r).2.base).1 > mx
          ∨ (strtoul (cstr (read_table_pre_check r).2) (read_table_pre_check r).2.base).1 < mn
      · rw [if_pos h2]
        dsimp only
        split_ifs <;> omega
      · rw [if_neg h2]
        dsimp only
        rw [to_unsigned_64 _ (by omega)]
        omega

theorem uint16_overflow_value (r : read_table) (i mn mx : Nat) (hmm : mn ≤ mx)
    (hmx : mx ≤ UINT16_MAX)
    (ho : (read_table_uint16_limits r i mn mx).2.1.last_error = T_OVERFLOW) :
    (mn ≤ (read_table_uint16_limits r i mn mx).2.2
      ∧ (read_table_uint16_limits r i mn mx).2.2 ≤ mx)
    ∨ (bufAt (read_table_pre_check r).2 (read_table_pre_check r).2.pos = 45
      ∧ (read_table_uint16_limits r i mn mx).2.2 = 0) := by
  have h32 := uint32_overflow_value r i mn mx hmm
    (by unfold UINT16_MAX at hmx; unfold UINT32_MAX; omega) ho
  show (mn ≤ to_unsigned 16 (read_table_uint32_limits r i mn mx).2.2
      ∧ to_unsigned 16 (read_table_uint32_limits r i mn mx).2.2 ≤ mx)
    ∨ (bufAt (read_table_pre_check r).2 (read_table_pre_check r).2.pos = 45
      ∧ to_unsigned 16 (read_table_uint32_limits r i mn mx).2.2 = 0)
  rcases h32 with h | h
  · left
    rw [to_unsigned_16 _ (by omega)]
    exact h
  · right
    rw [h.2]
    exact ⟨h.1, rfl⟩

theorem lower_zero : lower 0 = 0 := by decide

theorem lower_ne_zero {c : Nat} (h : c ≠ 0) : lower c ≠ 0 := by
  unfold lower
  split_ifs <;> omega

/-- Cutting a text at its first NUL does not change whether it starts with a
word that has no NUL. -/
theorem startsCI_takeWhile : ∀ (w : List Nat), (∀ c ∈ w, c ≠ 0) → ∀ (s : List Nat),
    startsCI w (s.takeWhile (fun c => c != 0)) ↔ startsCI w s := by
  intro w
  induction w with
  | nil => intro _ s; simp [startsCI]
  | cons a w ih =>
    intro hw s
    have ha : a ≠ 0 := hw a (List.mem_cons_self _ _)
    have ih2 := ih (fun c hc => hw c (List.mem_cons_of_mem _ hc))
    cases s with
    | nil => simp [startsCI]
    | cons c t =>
      by_cases hc : c = 0
      · subst hc
        have : ¬ (0 = a) := fun h => ha h.symm
        simp [startsCI, lower_zero, this]
      · have h1 : List.takeWhile (fun c => c != 0) (c :: t)
            = c :: List.takeWhile (fun c => c != 0) t := by
          rw [List.takeWhile_cons]; simp [hc]
        rw [h1]
        have h2 := ih2 t
        simp only [startsCI, List.length_cons, List.take_succ_cons, List.map_cons,
          List.cons.injEq] at h2 ⊢
        rw [h2]

theorem head?_dropWhile_takeWhile (p : Nat → Bool) (hp : p 0 = false) (c : Nat) (hc : c ≠ 0) :
    ∀ (s : List Nat), ((s.takeWhile (fun c => c != 0)).dropWhile p).head? = some c
      ↔ (s.dropWhile p).head? = some c := by
  intro s
  induction s with
  | nil => simp
  | cons x xs ih =>
    by_cases hx : x = 0
    · subst hx
      have : ¬ (0 = c) := fun h => hc h.symm
      simp [List.dropWhile_cons, hp, this]
    · have h1 : List.takeWhile (fun c => c != 0) (x :: xs)
          = x :: List.takeWhile (fun c => c != 0) xs := by
        rw [List.takeWhile_cons]; simp [hx]
      rw [h1, List.dropWhile_cons, List.dropWhile_cons]
      cases hpx : p x
      · simp
      · simpa using ih

theorem continuesNan_takeWhile (s : List Nat) :
    continuesNan (s.takeWhile (fun c => c != 0)) ↔ continuesNan s := by
  cases s with
  | nil => simp [continuesNan]
  | cons x xs =>
    by_cases hx : x = 0
    · subst hx
      simp [continuesNan]
    · have h1 : List.takeWhile (fun c => c != 0) (x :: xs)
          = x :: List.takeWhile (fun c => c != 0) xs := by
        rw [List.takeWhile_cons]; simp [hx]
      rw [h1]
      have h2 := head?_dropWhile_takeWhile nchar (by decide) 41 (by decide) xs
      simp only [continuesNan, List.head?_cons, List.drop_succ_cons, List.drop_zero]
      rw [h2]

theorem lower_i : lower 105 = 105 ∧ lower 110 = 110 ∧ lower 102 = 102 ∧ lower 97 = 97 := by
  decide

/-- `strtod` on a text that starts with `inf` and does not go on to `infinity`. -/
theorem strtod_special_inf (tail : List Nat) (h : ¬ continuesInf tail) :
    strtod_special (105 :: 110 :: 102 :: tail) = some (Dbl.inf false, 3, Errno.E0) := by
  unfold strtod_special
  have hd : List.dropWhile isspace (105 :: 110 :: 102 :: tail) = 105 :: 110 :: 102 :: tail :=
    dropWhile_isspace_of_head rfl (by decide)
  have h1 : startsCI [105, 110, 102] (105 :: 110 :: 102 :: tail) := by
    simp [startsCI, lower_i]
  simp only [hd, List.head?_cons, Option.some.injEq, Nat.reduceEqDiff, or_self, if_false,
    List.drop_zero, List.length_cons, Nat.sub_self, Nat.zero_add, Nat.add_zero]
  rw [if_pos h1]
  rw [if_neg (by simpa using h)]
  rfl

/-- `strtod` on a text that starts with `nan` and has no parenthesised sequence
after it. -/
theorem strtod_special_nan (tail : List Nat) (h : ¬ continuesNan tail) :
    strtod_special (110 :: 97 :: 110 :: tail) = some (Dbl.nan, 3, Errno.E0) := by
  unfold strtod_special
  have hd : List.dropWhile isspace (110 :: 97 :: 110 :: tail) = 110 :: 97 :: 110 :: tail :=
    dropWhile_isspace_of_head rfl (by decide)
  have h1 : startsCI [110, 97, 110] (110 :: 97 :: 110 :: tail) := by
    simp [startsCI, lower_i]
  have h0 : ¬ startsCI [105, 110, 102] (110 :: 97 :: 110 :: tail) := by
    simp [startsCI, lower_i]
  simp only [hd, List.head?_cons, Option.some.injEq, Nat.reduceEqDiff, or_self, if_false,
    List.drop_zero, List.length_cons, Nat.sub_self, Nat.zero_add, Nat.add_zero]
  rw [if_neg h0, if_pos h1]
  rw [if_neg (by simpa using h)]

/-- The unbounded floating-point read of a field `txt` that `strtod` converts
whole, without error, to `v`, when a separator follows. -/
theorem double_on_text (env : Env) (r : read_table) (bl suf : List Nat) (c : Nat)
    (t : List Nat) (v : Dbl)
    (hcv : env.strtod ((c :: t) ++ suf.takeWhile (fun c => c != 0))
      = (v, (c :: t).length, Errno.E0))
    (hnz : ∀ x ∈ c :: t, (x != 0) = true) (hc : is_blank c = false ∧ c ≠ 10)
    (herr : ¬ blocking r.last_error) (hlay : Layout r bl (c :: t) suf) (hsep : Separated r suf)
    (hstart : StartsField r c) (hnl : r.delim ≠ 10)
    (hcd : r.delim ≠ 0 → (suf.dropWhile is_blank).head? = some r.delim → r.comment ≠ r.delim)
    (d : Dbl) :
    read_table_double env r d
      = if r.flags &&& READ_TABLE_ALLOW_NAN_INF = 0 ∧ (_isnan v || _isinf v) = true
        then (1, { afterField r bl (c :: t) suf with last_error := T_NAN }, v)
        else (0, afterField r bl (c :: t) suf, v) := by
  obtain ⟨hlen, hpos, hd, hbl⟩ := hlay
  have hd1 : r.buf.drop r.pos = bl ++ c :: (t ++ suf) := by rw [hd]; simp
  have hpc := pre_check_field r bl c (t ++ suf) hlen hd1 hbl hc hstart herr
  have hd2 : r.buf.drop (r.pos + bl.length) = (c :: t) ++ suf := by
    rw [← List.drop_drop, hd, List.append_assoc, List.drop_left]
  have hd3 : r.buf.drop (r.pos + bl.length + (c :: t).length) = suf := by
    rw [← List.drop_drop, hd2, List.drop_left]
  have hl := length_sub_of_drop hd2
  have hle : r.pos + bl.length + (c :: t).length ≤ r.buf.length := by
    simp at hl; simp; omega
  have hcs : cstr { r with pos := r.pos + bl.length }
      = (c :: t) ++ suf.takeWhile (fun c => c != 0) := by
    show List.takeWhile (fun c => c != 0) (r.buf.drop (r.pos + bl.length)) = _
    rw [hd2, List.takeWhile_append_of_pos hnz]
  have hpk := post_check_separated { r with pos := r.pos + bl.length }
    (r.pos + bl.length + (c :: t).length) suf hlen
    (by show r.pos + bl.length < _; simp) hle hd3 hsep hnl hcd
  unfold read_table_double
  simp only [hpc, hcs, hcv, hpk]
  by_cases hf : r.flags &&& READ_TABLE_ALLOW_NAN_INF = 0
  · by_cases hv : (_isnan v || _isinf v) = true
    · simp [hf, hv, afterField]
    · simp [hf, hv, afterField]
  · simp [hf, afterField]

/-- Whether the cursor stands where a line ends, from the bytes that follow it. -/
theorem line_end_cond (r : read_table) (p : Nat) (rest : List Nat)
    (hlen : r.line_len = r.buf.length) (hp : p ≤ r.buf.length) (hd : r.buf.drop p = rest) :
    (p = r.line_len ∨ r.buf.getD p 0 = 10 ∨ (r.comment != 0 && r.buf.getD p 0 == r.comment) = true)
      ↔ (rest = [] ∨ rest.head? = some 10 ∨ (r.comment ≠ 0 ∧ rest.head? = some r.comment)) := by
  have hl := length_sub_of_drop hd
  cases rest with
  | nil =>
    simp at hl
    constructor
    · intro _; exact Or.inl rfl
    · intro _; left; omega
  | cons c t =>
    have hg := getD_of_drop hd
    have hne : p ≠ r.line_len := by simp at hl; omega
    rw [hg]
    simp [hne]

/-- Skip in whitespace-run mode when, after the blanks, the line ends. -/
theorem skip_ws_eol (r : read_table) (bl rest : List Nat) (hd0 : r.delim = 0)
    (hlen : r.line_len = r.buf.length) (hpos : r.pos ≤ r.buf.length)
    (hd : r.buf.drop r.pos = bl ++ rest) (hbl : ∀ c ∈ bl, is_blank c = true)
    (hrest : rest = [] ∨ rest.head? = some 10
      ∨ (r.comment ≠ 0 ∧ is_blank r.comment = false ∧ rest.head? = some r.comment)) :
    read_table_skip r = (1, { r with pos := r.pos + bl.length, last_error := T_EOL }) := by
  have hnb : ∀ c, rest.head? = some c → is_blank c = false := by
    intro c hc
    rcases hrest with h | h | ⟨_, h2, h3⟩
    · simp [h] at hc
    · rw [h] at hc; cases hc; rfl
    · rw [h3] at hc; cases hc; exact h2
  have hs := scan_blanks r bl rest hlen hd hbl hnb
  have hd2 : r.buf.drop (r.pos + bl.length) = rest := by
    rw [← List.drop_drop, hd, List.drop_left]
  have hle : r.pos + bl.length ≤ r.buf.length := by
    have := length_sub_of_drop hd
    simp at this
    omega
  have hcond := (line_end_cond r (r.pos + bl.length) rest hlen hle hd2).2 (by
    rcases hrest with h | h | ⟨h1, _, h3⟩
    · exact Or.inl h
    · exact Or.inr (Or.inl h)
    · exact Or.inr (Or.inr ⟨h1, h3⟩))
  unfold read_table_skip
  rw [if_neg (by simp [hd0])]
  simp only [hs, bufAt, is_comment]
  rw [if_pos hcond]

/-- Skip in whitespace-run mode over the field `fld` that follows the blanks. -/
theorem skip_ws_field (r : read_table) (bl fld suf : List Nat) (hd0 : r.delim = 0)
    (hlen : r.line_len = r.buf.length) (hpos : r.pos ≤ r.buf.length)
    (hd : r.buf.drop r.pos = bl ++ fld ++ suf) (hbl : ∀ c ∈ bl, is_blank c = true)
    (hfld : fld ≠ [])
    (hf : ∀ c ∈ fld, is_blank c = false ∧ c ≠ 10 ∧ (r.comment = 0 ∨ c ≠ r.comment))
    (hsuf : ∀ c, suf.head? = some c →
      is_blank c = true ∨ c = 10 ∨ (r.comment ≠ 0 ∧ c = r.comment)) :
    read_table_skip r
      = (0, { r with pos := r.pos + bl.length + fld.length, col := r.col + 1,
                     last_error := T_OK }) := by
  obtain ⟨c, t, rfl⟩ := List.exists_cons_of_ne_nil hfld
  have hc := hf c (List.mem_cons_self _ _)
  have hd1 : r.buf.drop r.pos = bl ++ (c :: t ++ suf) := by rw [hd, List.append_assoc]
  have hs := scan_blanks r bl (c :: t ++ suf) hlen hd1 hbl
    (by intro x hx; cases hx; exact hc.1)
  have hd2 : r.buf.drop (r.pos + bl.length) = (c :: t) ++ suf := by
    rw [← List.drop_drop, hd1, List.drop_left]
  have hle : r.pos + bl.length ≤ r.buf.length := by
    have := length_sub_of_drop hd1
    simp at this
    omega
  have hcond := (line_end_cond r (r.pos + bl.length) ((c :: t) ++ suf) hlen hle hd2).not.2 (by
    intro h
    rcases h with h | h | ⟨h1, h2⟩
    · simp at h
    · simp at h; exact hc.2.1 h
    · simp at h2
      rcases hc.2.2 with h3 | h3
      · exact h1 h3
      · exact h3 h2)
  have hs2 : scanLoop (fun x => is_blank x || x == 10 || (r.comment != 0 && x == r.comment))
      r.buf (r.line_len - (r.pos + bl.length)) (r.pos + bl.length)
      = r.pos + bl.length + (c :: t).length := by
    apply scanLoop_run _ _ (c :: t) suf _ _ hd2
    · intro x hx
      obtain ⟨h1, h2, h3⟩ := hf x hx
      have h4 : (r.comment != 0 && x == r.comment) = false := by
        rcases h3 with h3 | h3
        · simp [h3]
        · simp [h3]
      simp [h1, h2, h4]
    · intro x hx
      rcases hsuf x hx with h | h | ⟨h1, h2⟩
      · simp [h]
      · simp [h]
      · simp [h1, h2]
    · rw [hlen]; exact length_sub_of_drop hd2
  unfold read_table_skip
  rw [if_neg (by simp [hd0])]
  simp only [hs, bufAt, is_comment]
  rw [if_neg hcond]
  simp only [scan]
  rw [hs2]

/-- Skip with an explicit delimiter at the end of the stored line. -/
theorem skip_delim_end (r : read_table) (hd0 : r.delim ≠ 0) (h : r.pos = r.line_len) :
    read_table_skip r = (1, { r with last_error := T_EOL }) := by
  unfold read_table_skip
  rw [if_pos hd0, if_pos h]

/-- Skip with an explicit delimiter over the field `fld` at the cursor. -/
theorem skip_delim_field (r : read_table) (fld suf : List Nat) (hd0 : r.delim ≠ 0)
    (hlen : r.line_len = r.buf.length) (hd : r.buf.drop r.pos = fld ++ suf)
    (hne : fld ++ suf ≠ [])
    (hf : ∀ c ∈ fld, c ≠ r.delim ∧ c ≠ 10 ∧ (r.comment = 0 ∨ c ≠ r.comment))
    (hsuf : ∀ c, suf.head? = some c →
      c = r.delim ∨ c = 10 ∨ (r.comment ≠ 0 ∧ c = r.comment)) :
    read_table_skip r
      = (0, { r with pos := r.pos + fld.length + (if suf.head? = some r.delim then 1 else 0),
                     col := r.col + 1, last_error := T_OK }) := by
  have hl := length_sub_of_drop hd
  have hpne : r.pos ≠ r.line_len := by
    intro h
    rw [h, hlen] at hl
    simp at hl
    have h1 : fld.length = 0 := by omega
    have h2 : suf.length = 0 := by omega
    rw [List.length_eq_zero.1 h1, List.length_eq_zero.1 h2] at hne
    exact hne rfl
  have hs : scanLoop (fun x => x == r.delim || x == 10 || (r.comment != 0 && x == r.comment))
      r.buf (r.line_len - r.pos) r.pos = r.pos + fld.length := by
    apply scanLoop_run _ _ fld suf _ _ hd
    · intro x hx
      obtain ⟨h1, h2, h3⟩ := hf x hx
      have h4 : (r.comment != 0 && x == r.comment) = false := by
        rcases h3 with h3 | h3
        · simp [h3]
        · simp [h3]
      simp [h1, h2, h4]
    · intro x hx
      rcases hsuf x hx with h | h | ⟨h1, h2⟩
      · simp [h]
      · simp [h]
      · simp [h1, h2]
    · rw [hlen]; exact hl
  have hd2 : r.buf.drop (r.pos + fld.length) = suf := by
    rw [← List.drop_drop, hd, List.drop_left]
  have hl2 := length_sub_of_drop hd2
  unfold read_table_skip
  rw [if_pos hd0, if_neg hpne]
  simp only [scan, is_comment, hs, bufAt]
  cases suf with
  | nil =>
    have : ¬ (r.pos + fld.length < r.line_len) := by simp at hl2; omega
    rw [if_neg (fun h => this h.1), if_neg (by simp)]
    rfl
  | cons x xs =>
    have hg := getD_of_drop hd2
    have hlt : r.pos + fld.length < r.line_len := by simp at hl2; omega
    rw [hg]
    by_cases hx : x = r.delim
    · rw [if_pos ⟨hlt, hx⟩, if_pos (by rw [hx]; rfl)]
    · rw [if_neg (fun h => hx h.2), if_neg (by simpa using hx)]
      rfl

theorem pre_check_flags (r : read_table) (fl : Nat) :
    read_table_pre_check { r with flags := fl }
      = ((read_table_pre_check r).1, { (read_table_pre_check r).2 with flags := fl }) := by
  unfold read_table_pre_check
  simp only [scan, bufAt, is_comment]
  split_ifs <;> rfl

theorem post_check_flags (r : read_table) (errno : Errno) (c2 fl : Nat) :
    read_table_post_check { r with flags := fl } errno c2
      = ((read_table_post_check r errno c2).1,
         { (read_table_post_check r errno c2).2 with flags := fl }) := by
  unfold read_table_post_check
  simp only [scan, bufAt, is_comment]
  split_ifs <;> rfl

/-- When the value `strtod` returns is finite, the unbounded floating-point
read does not depend on the flags. -/
theorem double_flags (env : Env) (r : read_table) (d : Dbl) (fl : Nat)
    (hfin : _isnan (env.strtod (cstr (read_table_pre_check r).2)).1 = false
      ∧ _isinf (env.strtod (cstr (read_table_pre_check r).2)).1 = false) :
    read_table_double env { r with flags := fl } d
      = ((read_table_double env r d).1, { (read_table_double env r d).2.1 with flags := fl },
         (read_table_double env r d).2.2) := by
  have hc : cstr { (read_table_pre_check r).2 with flags := fl }
      = cstr (read_table_pre_check r).2 := rfl
  have hp : ({ (read_table_pre_check r).2 with flags := fl } : read_table).pos
      = (read_table_pre_check r).2.pos := rfl
  unfold read_table_double
  simp only [pre_check_flags, post_check_flags, hc, hp, hfin.1, hfin.2]
  split_ifs <;> first | rfl | simp_all

theorem bytes_nan : bytes "nan" = [110, 97, 110] := by decide

theorem bytes_inf : bytes "inf" = [105, 110, 102] := by decide

theorem env_iso_follows : IsoSpecials env_iso := by
  intro s x h
  show (strtod_special s).getD (Dbl.fin 0, 0, Errno.E0) = x
  rw [h]
  rfl

/-- Over any sequence of calls the line counter grows by the number of physical
lines taken off the stream. -/
theorem run_ops_lines (env : Env) : ∀ (ops : List Op) (r : read_table) (s : List Nat),
    r.f = some s →
    ∃ used rest, s = used ++ rest ∧ (run_ops env r ops).f = some rest
      ∧ (run_ops env r ops).line = r.line + lineCount used
      ∧ (rest = [] ∨ used = [] ∨ used.getLast? = some 10) := by
  intro ops
  induction ops with
  | nil => intro r s hs; exact ⟨[], s, rfl, hs, rfl, Or.inr (Or.inl rfl)⟩
  | cons op ops ih =>
    intro r s hs
    cases op with
    | line skip =>
      obtain ⟨u1, r1, h1, h2, h3, h4, _, _⟩ := (line_skip_spec r skip).2.2.2.1 s hs
      have hrun : run_ops env r (Op.line skip :: ops)
          = run_ops env (read_table_line_skip r skip).2 ops := by
        show run_ops env (read_table2.read_line r skip).2 ops = _
        rw [read_line_eq]
      obtain ⟨u2, r2, g1, g2, g3, g4⟩ := ih (read_table_line_skip r skip).2 r1 h2
      refine ⟨u1 ++ u2, r2, ?_, ?_, ?_, ?_⟩
      · rw [h1, g1, List.append_assoc]
      · rw [hrun]; exact g2
      · rw [hrun, g3, h3, lineCount_append u1 u2 (by
          rcases h4 with h | h | h
          · right; right
            rw [h] at g1
            exact (List.append_eq_nil.1 g1.symm).1
          · exact Or.inl h
          · exact Or.inr (Or.inl h))]
        omega
      · rcases g4 with h | h | h
        · exact Or.inl h
        · subst h
          rcases h4 with h | h | h
          · left
            rw [h] at g1
            simpa using g1.symm
          · right; left; simp [h]
          · right; right; simpa using h
        · right; right
          have hu : u2 ≠ [] := by intro hu; subst hu; simp at h
          rw [List.getLast?_append_of_ne_nil _ hu]; exact h
    | next val =>
      obtain ⟨p, c, e, hq⟩ := next_touched env r val
      have hf : (read_table_next env r val).2.1.f = some s := by rw [hq]; exact hs
      have hl : (read_table_next env r val).2.1.line = r.line := by rw [hq]
      obtain ⟨u, rest, g1, g2, g3, g4⟩ := ih (read_table_next env r val).2.1 s hf
      refine ⟨u, rest, g1, g2, ?_, g4⟩
      show (run_ops env (read_table_next env r val).2.1 ops).line = _
      rw [g3, hl]

/-! ### The pre-check as a frame, conversions of nothing, views -/

/-- The pre-check moves the cursor over spaces/tabs only, and writes nothing but
the cursor and the error. -/
theorem pre_check_cursor (r : read_table) :
    ∃ k, (read_table_pre_check r).2
        = { r with pos := r.pos + k, last_error := (read_table_pre_check r).2.last_error }
      ∧ (∀ j, j < k → is_blank (bufAt r (r.pos + j)) = true)
      ∧ (blocking r.last_error → k = 0) := by
  have hs := scanLoop_spec (fun c => !is_blank c) r.buf (r.line_len - r.pos) r.pos
  have hk : ∀ j, j < scan (fun c => !is_blank c) r r.pos - r.pos →
      is_blank (bufAt r (r.pos + j)) = true := by
    intro j hj
    have := hs.2.2.1 (r.pos + j) (by omega) (by unfold scan at hj; omega)
    simpa [bufAt] using this
  have hp : r.pos + (scan (fun c => !is_blank c) r r.pos - r.pos)
      = scan (fun c => !is_blank c) r r.pos := by
    have := hs.1
    unfold scan
    omega
  unfold read_table_pre_check
  by_cases hb : blocking r.last_error
  · rw [if_pos hb]
    exact ⟨0, rfl, fun j hj => absurd hj (Nat.not_lt_zero j), fun _ => rfl⟩
  · rw [if_neg hb]
    refine ⟨scan (fun c => !is_blank c) r r.pos - r.pos, ?_, hk, fun h => absurd h hb⟩
    rw [hp]
    simp only []
    split_ifs <;> rfl

/-- When the pre-check passes, the error is left alone and the cursor stands on
a byte of the line that is no newline; it is no space or tab when the cursor
started inside the line. -/
theorem pre_check_pass_cursor (r : read_table) (h : (read_table_pre_check r).1 = 0) :
    (read_table_pre_check r).2.last_error = r.last_error
    ∧ (read_table_pre_check r).2.pos ≠ r.line_len
    ∧ bufAt r (read_table_pre_check r).2.pos ≠ 10
    ∧ (r.pos ≤ r.line_len → (read_table_pre_check r).2.pos < r.line_len
        ∧ is_blank (bufAt r (read_table_pre_check r).2.pos) = false) := by
  have hs := scanLoop_spec (fun c => !is_blank c) r.buf (r.line_len - r.pos) r.pos
  unfold read_table_pre_check at h ⊢
  by_cases hb : blocking r.last_error
  · rw [if_pos hb] at h
    exact absurd h Nat.one_ne_zero
  · rw [if_neg hb] at h ⊢
    simp only [] at h ⊢
    by_cases he : scan (fun c => !is_blank c) r r.pos = r.line_len
        ∨ bufAt { r with pos := scan (fun c => !is_blank c) r r.pos }
            (scan (fun c => !is_blank c) r r.pos) = 10
        ∨ is_comment { r with pos := scan (fun c => !is_blank c) r r.pos }
            (bufAt { r with pos := scan (fun c => !is_blank c) r r.pos }
              (scan (fun c => !is_blank c) r r.pos)) = true
    · rw [if_pos he] at h
      exact absurd h Nat.one_ne_zero
    · rw [if_neg he] at h ⊢
      have h1 : ¬ scan (fun c => !is_blank c) r r.pos = r.line_len := fun hc => he (Or.inl hc)
      have h2 : ¬ bufAt r (scan (fun c => !is_blank c) r r.pos) = 10 :=
        fun hc => he (Or.inr (Or.inl hc))
      have h3 : r.pos ≤ r.line_len → scan (fun c => !is_blank c) r r.pos < r.line_len
          ∧ is_blank (bufAt r (scan (fun c => !is_blank c) r r.pos)) = false := by
        intro hle
        have hlt : scan (fun c => !is_blank c) r r.pos < r.line_len := by
          have := hs.2.1
          unfold scan at h1 ⊢
          omega
        refine ⟨hlt, ?_⟩
        have := hs.2.2.2 (by unfold scan at hlt; omega)
        simpa [bufAt, scan] using this
      split_ifs at h ⊢
      all_goals first
        | exact absurd h Nat.one_ne_zero
        | exact ⟨rfl, h1, h2, h3⟩

/-- A post-check that leaves `T_OVERFLOW` has returned failure and left the
cursor and the column alone. -/
theorem post_check_overflow (r : read_table) (errno : Errno) (c2 : Nat)
    (h : (read_table_post_check r errno c2).2.last_error = T_OVERFLOW) :
    read_table_post_check r errno c2 = (1, { r with last_error := T_OVERFLOW }) := by
  unfold read_table_post_check at h ⊢
  simp only [] at h ⊢
  split_ifs at h ⊢
  all_goals rfl

/-- A conversion of the `strto*` family that consumes no byte has recognised no
digit. -/
theorem strto_scan_zero (s : List Nat) (base : Int) (sc : Scanned)
    (h : strto_scan s base = some sc) (h0 : sc.consumed = 0) : sc.mag = 0 := by
  unfold strto_scan at h
  simp only [] at h
  split_ifs at h
  all_goals
    have e := Option.some.inj h
    subst e
    first
      | rfl
      | (exfalso; dsimp only at h0; omega)

/-- The value and `errno` of a `strtol` that consumes no byte. -/
theorem strtol_zero (s : List Nat) (base : Int) (h : (strtol s base).2.1 = 0) :
    (strtol s base).1 = 0 := by
  unfold strtol at h ⊢
  cases hs : strto_scan s base with
  | none => rfl
  | some sc =>
    rw [hs] at h
    simp only [] at h ⊢
    have hc : sc.consumed = 0 := by
      split_ifs at h <;> exact h
    have hm := strto_scan_zero s base sc hs hc
    rw [hm]
    have h1 : ¬ ((2 : Int) ^ 63 < ((0 : Nat) : Int)) := by norm_num
    have h2 : ¬ (LONG_MAX < ((0 : Nat) : Int)) := by unfold LONG_MAX; norm_num
    simp only [if_neg h1, if_neg h2]
    split_ifs <;> simp

/-- The value of a `strtoul` that consumes no byte. -/
theorem strtoul_zero (s : List Nat) (base : Int) (h : (strtoul s base).2.1 = 0) :
    (strtoul s base).1 = 0 := by
  unfold strtoul at h ⊢
  cases hs : strto_scan s base with
  | none => rfl
  | some sc =>
    rw [hs] at h
    simp only [] at h ⊢
    have hc : sc.consumed = 0 := by
      split_ifs at h <;> exact h
    have hm := strto_scan_zero s base sc hs hc
    rw [hm]
    rw [if_neg (Nat.not_lt_zero _)]
    split_ifs <;> rfl

/-- The post-check after a conversion that consumed no byte. -/
theorem post_check_nothing (r : read_table) (errno : Errno) :
    read_table_post_check r errno (r.pos + 0) = (1, { r with last_error := T_FORMAT }) := by
  unfold read_table_post_check
  rw [if_pos (Or.inr (Nat.add_zero r.pos))]

/-- A signed read whose conversion consumes no byte, with bounds that admit 0. -/
theorem int32_nothing (r : read_table) (i mn mx : Int) (hp : (read_table_pre_check r).1 = 0)
    (h0 : (strtol (cstr (read_table_pre_check r).2) (read_table_pre_check r).2.base).2.1 = 0)
    (h1 : mn ≤ 0) (h2 : 0 ≤ mx) :
    read_table_int32_limits r i mn mx
      = (1, { (read_table_pre_check r).2 with last_error := T_FORMAT }, 0) := by
  have hv := strtol_zero _ _ h0
  unfold read_table_int32_limits
  simp only []
  rw [if_neg (by simpa using hp), hv, h0, if_neg (by omega), post_check_nothing]
  rfl

theorem int64_nothing (r : read_table) (i mn mx : Int) (hp : (read_table_pre_check r).1 = 0)
    (h0 : (strtol (cstr (read_table_pre_check r).2) (read_table_pre_check r).2.base).2.1 = 0)
    (h1 : mn ≤ 0) (h2 : 0 ≤ mx) :
    read_table_int64_limits r i mn mx
      = (1, { (read_table_pre_check r).2 with last_error := T_FORMAT }, 0) := by
  have hv := strtol_zero _ _ h0
  unfold read_table_int64_limits
  simp only []
  rw [if_neg (by simpa using hp), hv, h0, if_neg (by omega), post_check_nothing]
  rfl

/-- An unsigned read whose conversion would consume no byte, with the lower bound
0, of a field that does not start with `-`. -/
theorem uint32_nothing (r : read_table) (i mx : Nat) (hp : (read_table_pre_check r).1 = 0)
    (h0 : (strtoul (cstr (read_table_pre_check r).2) (read_table_pre_check r).2.base).2.1 = 0)
    (hm : bufAt (read_table_pre_check r).2 (read_table_pre_check r).2.pos ≠ 45) :
    read_table_uint32_limits r i 0 mx
      = (1, { (read_table_pre_check r).2 with last_error := T_FORMAT }, 0) := by
  have hv := strtoul_zero _ _ h0
  unfold read_table_uint32_limits
  simp only []
  rw [if_neg (by simpa using hp)]
  by_cases hg : (!(isalnum (bufAt (read_table_pre_check r).2 (read_table_pre_check r).2.pos)
      || bufAt (read_table_pre_check r).2 (read_table_pre_check r).2.pos == 43)) = true
  · rw [if_pos hg, if_neg hm]
  · rw [if_neg hg, hv, h0, if_neg (by omega), post_check_nothing]
    rfl

theorem uint64_nothing (r : read_table) (i mx : Nat) (hp : (read_table_pre_check r).1 = 0)
    (h0 : (strtoul (cstr (read_table_pre_check r).2) (read_table_pre_check r).2.base).2.1 = 0)
    (hm : bufAt (read_table_pre_check r).2 (read_table_pre_check r).2.pos ≠ 45) :
    read_table_uint64_limits r i 0 mx
      = (1, { (read_table_pre_check r).2 with last_error := T_FORMAT }, 0) := by
  have hv := strtoul_zero _ _ h0
  unfold read_table_uint64_limits
  simp only []
  rw [if_neg (by simpa using hp)]
  by_cases hg : (!(isalnum (bufAt (read_table_pre_check r).2 (read_table_pre_check r).2.pos)
      || bufAt (read_table_pre_check r).2 (read_table_pre_check r).2.pos == 43)) = true
  · rw [if_pos hg, if_neg hm]
  · rw [if_neg hg, hv, h0, if_neg (by omega), post_check_nothing]
    rfl

/-- An unsigned read of a field that starts with `-`. -/
theorem uint32_minus_guard (r : read_table) (i mn mx : Nat)
    (hp : (read_table_pre_check r).1 = 0)
    (hm : bufAt (read_table_pre_check r).2 (read_table_pre_check r).2.pos = 45) :
    read_table_uint32_limits r i mn mx
      = (1, { (read_table_pre_check r).2 with last_error := T_OVERFLOW }, 0)
    ∧ read_table_uint64_limits r i mn mx
      = (1, { (read_table_pre_check r).2 with last_error := T_OVERFLOW }, 0) := by
  constructor
  · unfold read_table_uint32_limits
    simp only []
    rw [if_neg (by simpa using hp), hm]
    rfl
  · unfold read_table_uint64_limits
    simp only []
    rw [if_neg (by simpa using hp), hm]
    rfl

/-- The error a failing pre-check sets when none of the errors that block it was
pending. -/
theorem pre_check_fail_error (r : read_table) (h : (read_table_pre_check r).1 ≠ 0) :
    (¬ blocking r.last_error → (read_table_pre_check r).2.last_error = T_EOL
        ∨ (read_table_pre_check r).2.last_error = T_MISSING)
    ∧ (blocking r.last_error → (read_table_pre_check r).2 = r) := by
  unfold read_table_pre_check at h ⊢
  by_cases hb : blocking r.last_error
  · rw [if_pos hb]
    exact ⟨fun hn => absurd hb hn, fun _ => rfl⟩
  · rw [if_neg hb] at h ⊢
    refine ⟨fun _ => ?_, fun hc => absurd hc hb⟩
    simp only [] at h ⊢
    split_ifs at h ⊢
    all_goals first
      | exact Or.inl rfl
      | exact Or.inr rfl
      | exact absurd rfl h

/-- A read of one number whose pre-check fails ends there. -/
theorem outcome_pre_fail {w : Bool} {r q : read_table} {ret : Nat} (h : Outcome w r ret q)
    (hp : (read_table_pre_check r).1 ≠ 0) : ret = 1 ∧ q = (read_table_pre_check r).2 := by
  cases h with
  | pre _ => exact ⟨rfl, rfl⟩
  | reject _ h0 _ => exact absurd h0 hp
  | post _ _ h0 => exact absurd h0 hp
  | value _ _ _ _ h0 _ _ => exact absurd h0 hp

/-- An integer read that leaves `T_OVERFLOW` has passed the pre-check and leaves
the reader as the pre-check left it, but for the error. -/
theorem outcome_overflow_reader {r q : read_table} {ret : Nat} (h : Outcome false r ret q)
    (ho : q.last_error = T_OVERFLOW) :
    ret = 1 ∧ q = { (read_table_pre_check r).2 with last_error := T_OVERFLOW } := by
  cases h with
  | pre hp => exact absurd ho (pre_fail_not_overflow r hp)
  | reject e hp he =>
    have : e = T_OVERFLOW := ho
    subst this
    exact ⟨rfl, rfl⟩
  | post errno c2 hp =>
    have := post_check_overflow _ errno c2 ho
    rw [this]
    exact ⟨rfl, rfl⟩
  | value _ _ _ hd _ _ _ => exact absurd hd (by decide)

/-- When the pre-check passes, the 32-bit signed read stores a value that is one
of the bounds or lies between them. -/
theorem int32_stored (r : read_table) (i mn mx lo hi : Int)
    (hp : (read_table_pre_check r).1 = 0)
    (h1 : lo ≤ mn) (h2 : mn ≤ hi) (h3 : lo ≤ mx) (h4 : mx ≤ hi)
    (hlo : INT32_MIN ≤ lo) (hhi : hi ≤ INT32_MAX) :
    lo ≤ (read_table_int32_limits r i mn mx).2.2
    ∧ (read_table_int32_limits r i mn mx).2.2 ≤ hi := by
  unfold read_table_int32_limits
  simp only []
  rw [if_neg (by simpa using hp)]
  by_cases hr : (strtol (cstr (read_table_pre_check r).2) (read_table_pre_check r).2.base).1 > mx
      ∨ (strtol (cstr (read_table_pre_check r).2) (read_table_pre_check r).2.base).1 < mn
  · rw [if_pos hr]
    simp only []
    split_ifs
    all_goals first
      | exact ⟨h1, h2⟩
      | exact ⟨h3, h4⟩
      | (exfalso; omega)
  · rw [if_neg hr]
    simp only []
    have hr1 : mn ≤ (strtol (cstr (read_table_pre_check r).2) (read_table_pre_check r).2.base).1
        ∧ (strtol (cstr (read_table_pre_check r).2) (read_table_pre_check r).2.base).1 ≤ mx := by
      constructor
      · by_contra hc; exact hr (Or.inr (by omega))
      · by_contra hc; exact hr (Or.inl (by omega))
    rw [to_signed_32 _ (by omega) (by omega)]
    omega

/-- When the pre-check passes, the 32-bit unsigned read stores 0, one of the
bounds or a value between them. -/
theorem uint32_stored (r : read_table) (i mn mx hi : Nat)
    (hp : (read_table_pre_check r).1 = 0)
    (h2 : mn ≤ hi) (h4 : mx ≤ hi) (hhi : hi ≤ UINT32_MAX) :
    (read_table_uint32_limits r i mn mx).2.2 ≤ hi := by
  unfold read_table_uint32_limits
  simp only []
  rw [if_neg (by simpa using hp)]
  by_cases hg : (!(isalnum (bufAt (read_table_pre_check r).2 (read_table_pre_check r).2.pos)
      || bufAt (read_table_pre_check r).2 (read_table_pre_check r).2.pos == 43)) = true
  · rw [if_pos hg]
    split_ifs <;> exact Nat.zero_le _
  · rw [if_neg hg]
    by_cases hr : (strtoul (cstr (read_table_pre_check r).2) (read_table_pre_check r).2.base).1
          > mx
        ∨ (strtoul (cstr (read_table_pre_check r).2) (read_table_pre_check r).2.base).1 < mn
    · rw [if_pos hr]
      simp only []
      split_ifs
      all_goals first
        | exact h2
        | exact h4
        | (exfalso; omega)
    · rw [if_neg hr]
      show to_unsigned 32 _ ≤ hi
      have hr1 : (strtoul (cstr (read_table_pre_check r).2) (read_table_pre_check r).2.base).1
          ≤ mx := by
        by_contra hc; exact hr (Or.inl (by omega))
      rw [to_unsigned_32 _ (by omega)]
      omega

/-- The bounded floating-point read of a field `c :: t` that `strtod` converts
whole, without error, to `v`, when a separator follows. -/
theorem double_limits_on_text (env : Env) (r : read_table) (bl suf : List Nat) (c : Nat)
    (t : List Nat) (v : Dbl)
    (hcv : env.strtod ((c :: t) ++ suf.takeWhile (fun c => c != 0))
      = (v, (c :: t).length, Errno.E0))
    (hnz : ∀ x ∈ c :: t, (x != 0) = true) (hc : is_blank c = false ∧ c ≠ 10)
    (herr : ¬ blocking r.last_error) (hlay : Layout r bl (c :: t) suf) (hsep : Separated r suf)
    (hstart : StartsField r c) (hnl : r.delim ≠ 10)
    (hcd : r.delim ≠ 0 → (suf.dropWhile is_blank).head? = some r.delim → r.comment ≠ r.delim)
    (d mn mx : Dbl) :
    read_table_double_limits env r d mn mx
      = if _isnan v = true
        then (1, { afterField r bl (c :: t) suf with last_error := T_NAN }, v)
        else if (Dbl.lt mx v || Dbl.lt v mn) = true
        then (1, { afterField r bl (c :: t) suf with last_error := T_OVERFLOW }, v)
        else (0, afterField r bl (c :: t) suf, v) := by
  obtain ⟨hlen, hpos, hd, hbl⟩ := hlay
  have hd1 : r.buf.drop r.pos = bl ++ c :: (t ++ suf) := by rw [hd]; simp
  have hpc := pre_check_field r bl c (t ++ suf) hlen hd1 hbl hc hstart herr
  have hd2 : r.buf.drop (r.pos + bl.length) = (c :: t) ++ suf := by
    rw [← List.drop_drop, hd, List.append_assoc, List.drop_left]
  have hd3 : r.buf.drop (r.pos + bl.length + (c :: t).length) = suf := by
    rw [← List.drop_drop, hd2, List.drop_left]
  have hl := length_sub_of_drop hd2
  have hle : r.pos + bl.length + (c :: t).length ≤ r.buf.length := by
    simp at hl; simp; omega
  have hcs : cstr { r with pos := r.pos + bl.length }
      = (c :: t) ++ suf.takeWhile (fun c => c != 0) := by
    show List.takeWhile (fun c => c != 0) (r.buf.drop (r.pos + bl.length)) = _
    rw [hd2, List.takeWhile_append_of_pos hnz]
  have hpk := post_check_separated { r with pos := r.pos + bl.length }
    (r.pos + bl.length + (c :: t).length) suf hlen
    (by show r.pos + bl.length < _; simp) hle hd3 hsep hnl hcd
  unfold read_table_double_limits
  simp only [hpc, hcs, hcv, hpk]
  by_cases hn : _isnan v = true
  · simp [hn, afterField]
  · by_cases hv : (Dbl.lt mx v || Dbl.lt v mn) = true
    · simp [hn, hv, afterField]
    · simp [hn, hv, afterField]

/-- The bounded floating-point read when `strtod` reports a range error. -/
theorem double_limits_erange (env : Env) (r : read_table) (d mn mx : Dbl)
    (hp : (read_table_pre_check r).1 = 0)
    (he : (env.strtod (cstr (read_table_pre_check r).2)).2.2 = Errno.ERANGE)
    (hc : 0 < (env.strtod (cstr (read_table_pre_check r).2)).2.1) :
    read_table_double_limits env r d mn mx
      = (1, { (read_table_pre_check r).2 with last_error := T_OVERFLOW },
          (env.strtod (cstr (read_table_pre_check r).2)).1) := by
  unfold read_table_double_limits
  simp only []
  rw [if_neg (by simpa using hp), he, post_check_erange _ _ (by omega)]
  rfl

/-- The string read in whitespace-run mode when, after the blanks, the line
ends. -/
theorem string_ws_eol (r : read_table) (sl : Nat × Nat) (bl rest : List Nat) (hd0 : r.delim = 0)
    (herr : ¬ blocking r.last_error)
    (hlen : r.line_len = r.buf.length) (hpos : r.pos ≤ r.buf.length)
    (hd : r.buf.drop r.pos = bl ++ rest) (hbl : ∀ c ∈ bl, is_blank c = true)
    (hnb : ∀ c, rest.head? = some c → is_blank c = false)
    (hrest : rest = [] ∨ rest.head? = some 10 ∨ (r.comment ≠ 0 ∧ rest.head? = some r.comment)) :
    read_table_string r sl
      = (1, { r with pos := r.pos + bl.length, last_error := T_EOL }, sl) := by
  have hs := scan_blanks r bl rest hlen hd hbl hnb
  have hd2 : r.buf.drop (r.pos + bl.length) = rest := by
    rw [← List.drop_drop, hd, List.drop_left]
  have hle : r.pos + bl.length ≤ r.buf.length := by
    have := length_sub_of_drop hd
    simp at this
    omega
  have hcond := (line_end_cond r (r.pos + bl.length) rest hlen hle hd2).2 hrest
  unfold read_table_string
  rw [if_neg (by simp [hd0])]
  unfold read_table_pre_check
  rw [if_neg herr]
  simp only [hs, bufAt, is_comment]
  rw [if_pos hcond]
  rfl

/-- The string read in whitespace-run mode of the field `fld` that follows the
blanks. -/
theorem string_ws_field (r : read_table) (sl : Nat × Nat) (bl fld suf : List Nat)
    (hd0 : r.delim = 0) (herr : ¬ blocking r.last_error)
    (hlen : r.line_len = r.buf.length)
    (hd : r.buf.drop r.pos = bl ++ fld ++ suf) (hbl : ∀ c ∈ bl, is_blank c = true)
    (hfld : fld ≠ [])
    (hf : ∀ c ∈ fld, is_blank c = false ∧ c ≠ 10 ∧ (r.comment = 0 ∨ c ≠ r.comment))
    (hsuf : ∀ c, suf.head? = some c →
      is_blank c = true ∨ c = 10 ∨ (r.comment ≠ 0 ∧ c = r.comment)) :
    read_table_string r sl
      = (0, { r with pos := r.pos + bl.length + fld.length },
          (r.pos + bl.length, fld.length)) := by
  obtain ⟨c, t, rfl⟩ := List.exists_cons_of_ne_nil hfld
  have hc := hf c (List.mem_cons_self _ _)
  have hd1 : r.buf.drop r.pos = bl ++ (c :: t ++ suf) := by rw [hd, List.append_assoc]
  have hs := scan_blanks r bl (c :: t ++ suf) hlen hd1 hbl
    (by intro x hx; cases hx; exact hc.1)
  have hd2 : r.buf.drop (r.pos + bl.length) = (c :: t) ++ suf := by
    rw [← List.drop_drop, hd1, List.drop_left]
  have hle : r.pos + bl.length ≤ r.buf.length := by
    have := length_sub_of_drop hd1
    simp at this
    omega
  have hcond := (line_end_cond r (r.pos + bl.length) ((c :: t) ++ suf) hlen hle hd2).not.2 (by
    intro h
    rcases h with h | h | ⟨h1, h2⟩
    · simp at h
    · simp at h; exact hc.2.1 h
    · simp at h2
      rcases hc.2.2 with h3 | h3
      · exact h1 h3
      · exact h3 h2)
  have hs2 : scanLoop (fun x => is_blank x || x == 10 || (r.comment != 0 && x == r.comment))
      r.buf (r.line_len - (r.pos + bl.length)) (r.pos + bl.length)
      = r.pos + bl.length + (c :: t).length := by
    apply scanLoop_run _ _ (c :: t) suf _ _ hd2
    · intro x hx
      obtain ⟨h1, h2, h3⟩ := hf x hx
      have h4 : (r.comment != 0 && x == r.comment) = false := by
        rcases h3 with h3 | h3
        · simp [h3]
        · simp [h3]
      simp [h1, h2, h4]
    · intro x hx
      rcases hsuf x hx with h | h | ⟨h1, h2⟩
      · simp [h]
      · simp [h]
      · simp [h1, h2]
    · rw [hlen]; exact length_sub_of_drop hd2
  unfold read_table_string
  rw [if_neg (by simp [hd0])]
  unfold read_table_pre_check
  rw [if_neg herr]
  simp only [hs, bufAt, is_comment]
  rw [if_neg hcond,
    if_neg (fun h : ¬ r.delim = 0 ∧ r.buf.getD (r.pos + bl.length) 0 = r.delim => h.1 hd0)]
  simp only [scan, ne_eq, not_true_eq_false, if_false]
  rw [hs2, Nat.add_sub_cancel_left]

/-- The view of a field `fld` that starts right after the blanks `bl`: it lies
inside the line, it denotes `fld`, and behind it the line ends or the first
byte of `suf` follows. -/
theorem view_of_field (r : read_table) (bl fld suf : List Nat)
    (hlen : r.line_len = r.buf.length) (hd : r.buf.drop r.pos = bl ++ fld ++ suf)
    (hfld : fld ≠ []) :
    r.pos + bl.length + fld.length ≤ r.line_len
    ∧ view r (r.pos + bl.length, fld.length) = fld
    ∧ (suf = [] → r.pos + bl.length + fld.length = r.line_len)
    ∧ (∀ c, suf.head? = some c → bufAt r (r.pos + bl.length + fld.length) = c) := by
  have hd2 : r.buf.drop (r.pos + bl.length) = fld ++ suf := by
    rw [← List.drop_drop, hd, List.append_assoc, List.drop_left]
  have hd3 : r.buf.drop (r.pos + bl.length + fld.length) = suf := by
    rw [← List.drop_drop, hd2, List.drop_left]
  have hl2 := length_sub_of_drop hd2
  have hl3 := length_sub_of_drop hd3
  have hpos1 : 0 < fld.length := List.length_pos.2 hfld
  rw [List.length_append] at hl2
  refine ⟨by rw [hlen]; omega, ?_, ?_, ?_⟩
  · show List.take fld.length (r.buf.drop (r.pos + bl.length)) = fld
    rw [hd2, List.take_left]
  · intro hs
    rw [hs] at hl2
    simp only [List.length_nil] at hl2
    rw [hlen]
    omega
  · intro c hc
    cases suf with
    | nil => simp at hc
    | cons x xs =>
      simp only [List.head?_cons, Option.some.injEq] at hc
      subst hc
      exact getD_of_drop hd3

/-- The two conversions are the same function when both types are 64 bits wide. -/
theorem strtoull_eq (s : List Nat) (base : Int) : strtoull s base = strtoul s base := rfl

/-- The value of `strtoul` fits in 64 bits. -/
theorem strtoul_le (s : List Nat) (base : Int) : (strtoul s base).1 ≤ UINT64_MAX := by
  unfold strtoul
  cases strto_scan s base with
  | none => exact Nat.zero_le _
  | some sc =>
    simp only []
    split_ifs with h1 h2
    · exact Nat.le_refl _
    · show (2 ^ 64 - sc.mag) % 2 ^ 64 ≤ 2 ^ 64 - 1
      omega
    · show sc.mag ≤ 2 ^ 64 - 1
      have : ¬ (2 ^ 64 - 1 < sc.mag) := h1
      omega

/-- On the `unsigned long long` path a value of `res` below the lower bound
makes the read end with `T_OVERFLOW`, whatever the text holds. -/
theorem ull_res_below_min (res : Nat) (r : read_table) (i mn mx : Nat)
    (hp : (read_table_pre_check r).1 = 0)
    (hg : (isalnum (bufAt (read_table_pre_check r).2 (read_table_pre_check r).2.pos)
      || bufAt (read_table_pre_check r).2 (read_table_pre_check r).2.pos == 43) = true)
    (h1 : res < mn) :
    read_table_uint64_limits_ull res r i mn mx
      = (1, { (read_table_pre_check r).2 with last_error := T_OVERFLOW }, mn) := by
  unfold read_table_uint64_limits_ull
  simp only []
  rw [if_neg (by simpa using hp), if_neg (by simp [hg]), if_pos (Or.inr h1)]
  simp only [if_pos h1]

/-- With the bounds of the unbounded read the two paths agree. -/
theorem ull_full_range (res : Nat) (r : read_table) (i : Nat) :
    read_table_uint64_limits_ull res r i 0 UINT64_MAX = read_table_uint64_limits r i 0 UINT64_MAX := by
  unfold read_table_uint64_limits_ull read_table_uint64_limits
  simp only [strtoull_eq]
  have hle := strtoul_le (cstr (read_table_pre_check r).2) (read_table_pre_check r).2.base
  have h1 : ¬ ((strtoul (cstr (read_table_pre_check r).2) (read_table_pre_check r).2.base).1
      > UINT64_MAX ∨ res < 0) := by
    intro h
    rcases h with h | h
    · exact absurd hle (Nat.not_le.2 h)
    · exact absurd h (Nat.not_lt_zero _)
  have h2 : ¬ ((strtoul (cstr (read_table_pre_check r).2) (read_table_pre_check r).2.base).1
      > UINT64_MAX
      ∨ (strtoul (cstr (read_table_pre_check r).2) (read_table_pre_check r).2.base).1 < 0) := by
    intro h
    rcases h with h | h
    · exact absurd hle (Nat.not_le.2 h)
    · exact absurd h (Nat.not_lt_zero _)
  rw [if_neg h1, if_neg h2]

/-! ### The merge of a vector, the edge iterator, the transaction reader -/

theorem getD_append_mid {α : Type} (a : List α) (x : α) (b : List α) (d : α) :
    (a ++ x :: b).getD a.length d = x := by
  induction a with
  | nil => rfl
  | cons y ys ih => simpa using ih

theorem set_append_mid {α : Type} (a : List α) (x y : α) (b : List α) :
    (a ++ x :: b).set a.length y = a ++ y :: b := by
  induction a with
  | nil => rfl
  | cons z zs ih => simp [ih]

theorem compress_loop_succ (n : Nat) (vec : List (Int × Int)) (i j : Nat) :
    tx.compress_loop (n + 1) vec i j
      = if (vec.getD i (0, 0)).1 = (vec.getD j (0, 0)).1 then
          tx.compress_loop n
            (vec.set i ((vec.getD i (0, 0)).1,
              to_signed 64 ((vec.getD i (0, 0)).2 + (vec.getD j (0, 0)).2))) i (j + 1)
        else
          tx.compress_loop n (if i + 1 ≠ j then vec.set (i + 1) (vec.getD j (0, 0)) else vec)
            (i + 1) (j + 1) := rfl

/-- The invariant of the loop of `vector_compress`: `done` holds the finished
pairs, `cur` is the pair at index `i`, `junk` the slots between `i` and `j`, and
`todo` the pairs from `j` on. -/
theorem compress_loop_inv : ∀ (todo done : List (Int × Int)) (cur : Int × Int)
    (junk : List (Int × Int)),
    ((tx.compress_loop todo.length (done ++ cur :: (junk ++ todo)) done.length
        (done.length + 1 + junk.length)).1.take
      ((tx.compress_loop todo.length (done ++ cur :: (junk ++ todo)) done.length
        (done.length + 1 + junk.length)).2 + 1))
      = done ++ mergeRun cur todo := by
  intro todo
  induction todo with
  | nil =>
    intro done cur junk
    show (done ++ cur :: (junk ++ [])).take (done.length + 1) = done ++ [cur]
    rw [show done ++ cur :: (junk ++ []) = (done ++ [cur]) ++ junk by simp]
    rw [show done.length + 1 = (done ++ [cur]).length by simp]
    exact List.take_left _ _
  | cons q rest ih =>
    intro done cur junk
    have hi : (done ++ cur :: (junk ++ q :: rest)).getD done.length (0, 0) = cur :=
      getD_append_mid done cur _ _
    have hj : (done ++ cur :: (junk ++ q :: rest)).getD (done.length + 1 + junk.length) (0, 0)
        = q := by
      rw [show done ++ cur :: (junk ++ q :: rest) = (done ++ cur :: junk) ++ q :: rest by simp,
        show done.length + 1 + junk.length = (done ++ cur :: junk).length by simp; omega]
      exact getD_append_mid _ _ _ _
    rw [show (q :: rest).length = rest.length + 1 from rfl, compress_loop_succ, hi, hj]
    show _ = done ++ (if cur.1 = q.1 then mergeRun (cur.1, to_signed 64 (cur.2 + q.2)) rest
      else cur :: mergeRun q rest)
    by_cases hq : cur.1 = q.1
    · rw [if_pos hq, if_pos hq, set_append_mid done cur _ _]
      have := ih done (cur.1, to_signed 64 (cur.2 + q.2)) (junk ++ [q])
      rw [show done ++ (cur.1, to_signed 64 (cur.2 + q.2)) :: (junk ++ [q] ++ rest)
          = done ++ (cur.1, to_signed 64 (cur.2 + q.2)) :: (junk ++ q :: rest) by simp,
        show done.length + 1 + (junk ++ [q]).length = done.length + 1 + junk.length + 1 by
          simp; omega] at this
      exact this
    · rw [if_neg hq, if_neg hq]
      cases junk with
      | nil =>
        have hne : ¬ (done.length + 1 ≠ done.length + 1 + ([] : List (Int × Int)).length) := by
          simp
        rw [if_neg hne]
        have := ih (done ++ [cur]) q []
        rw [show (done ++ [cur]) ++ q :: ([] ++ rest) = done ++ cur :: ([] ++ q :: rest) by simp,
          show (done ++ [cur]).length = done.length + 1 by simp,
          show done.length + 1 + 1 + ([] : List (Int × Int)).length
            = done.length + 1 + ([] : List (Int × Int)).length + 1 by simp,
          show (done ++ [cur]) ++ mergeRun q rest = done ++ cur :: mergeRun q rest by simp]
          at this
        exact this
      | cons x junk1 =>
        have hne : done.length + 1 ≠ done.length + 1 + (x :: junk1).length := by
          simp
        rw [if_pos hne]
        have hset : (done ++ cur :: (x :: junk1 ++ q :: rest)).set (done.length + 1) q
            = (done ++ [cur]) ++ q :: ((junk1 ++ [q]) ++ rest) := by
          have := set_append_mid (done ++ [cur]) x q (junk1 ++ q :: rest)
          simp
        rw [hset]
        have := ih (done ++ [cur]) q (junk1 ++ [q])
        rw [show (done ++ [cur]).length = done.length + 1 by simp,
          show done.length + 1 + 1 + (junk1 ++ [q]).length
            = done.length + 1 + (x :: junk1).length + 1 by simp; omega,
          show (done ++ [cur]) ++ mergeRun q rest = done ++ cur :: mergeRun q rest by simp]
          at this
        exact this

/-- The loop of `vector_compress` on the sorted vector `c :: t`. -/
theorem compress_sorted (c : Int × Int) (t : List (Int × Int)) :
    (tx.compress_loop ((c :: t).length - 1) (c :: t) 0 1).1.take
      ((tx.compress_loop ((c :: t).length - 1) (c :: t) 0 1).2 + 1) = mergeRun c t := by
  have := compress_loop_inv t [] c []
  simpa using this

theorem to_signed_64_range (x : Int) :
    INT64_MIN ≤ to_signed 64 x ∧ to_signed 64 x ≤ INT64_MAX := by
  unfold to_signed INT64_MIN INT64_MAX
  norm_num
  omega

theorem to_signed_64_modEq (x : Int) : to_signed 64 x ≡ x [ZMOD 2 ^ 64] := by
  unfold to_signed Int.ModEq
  norm_num
  omega

theorem to_signed_64_congr {x y : Int} (h : x ≡ y [ZMOD 2 ^ 64]) :
    to_signed 64 x = to_signed 64 y := by
  unfold to_signed
  unfold Int.ModEq at h
  norm_num at h ⊢
  omega

theorem modEq_of_to_signed_64 {x y : Int} (h : to_signed 64 x = to_signed 64 y) :
    x ≡ y [ZMOD 2 ^ 64] :=
  ((to_signed_64_modEq x).symm.trans (by rw [h])).trans (to_signed_64_modEq y)

theorem value_of_cons (a : Int) (p : Int × Int) (l : List (Int × Int)) :
    value_of a (p :: l) = (if p.1 = a then p.2 else 0) + value_of a l := by
  unfold value_of
  by_cases h : p.1 = a
  · simp [List.filter_cons, h]
  · simp [List.filter_cons, h]

/-- Merging keeps, for every address, the sum of its values modulo `2 ^ 64`. -/
theorem mergeRun_value (a : Int) : ∀ (todo : List (Int × Int)) (cur : Int × Int),
    value_of a (mergeRun cur todo) ≡ value_of a (cur :: todo) [ZMOD 2 ^ 64] := by
  intro todo
  induction todo with
  | nil => intro cur; exact Int.ModEq.refl _
  | cons q rest ih =>
    intro cur
    show value_of a (if cur.1 = q.1 then mergeRun (cur.1, to_signed 64 (cur.2 + q.2)) rest
      else cur :: mergeRun q rest) ≡ _ [ZMOD 2 ^ 64]
    by_cases hq : cur.1 = q.1
    · rw [if_pos hq]
      refine (ih _).trans ?_
      rw [value_of_cons, value_of_cons, value_of_cons]
      by_cases ha : cur.1 = a
      · have hqa : q.1 = a := by rw [← hq]; exact ha
        rw [if_pos ha, if_pos ha, if_pos hqa, ← Int.add_assoc]
        exact (to_signed_64_modEq _).add_right _
      · have hqa : ¬ q.1 = a := by rw [← hq]; exact ha
        rw [if_neg ha, if_neg ha, if_neg hqa]
        simp
    · rw [if_neg hq, value_of_cons, value_of_cons]
      exact (ih q).add_left _

/-- Merging keeps the total of the values modulo `2 ^ 64`. -/
theorem mergeRun_total : ∀ (todo : List (Int × Int)) (cur : Int × Int),
    ((mergeRun cur todo).map Prod.snd).sum ≡ ((cur :: todo).map Prod.snd).sum
      [ZMOD 2 ^ 64] := by
  intro todo
  induction todo with
  | nil => intro cur; exact Int.ModEq.refl _
  | cons q rest ih =>
    intro cur
    show ((if cur.1 = q.1 then mergeRun (cur.1, to_signed 64 (cur.2 + q.2)) rest
      else cur :: mergeRun q rest).map Prod.snd).sum ≡ _ [ZMOD 2 ^ 64]
    by_cases hq : cur.1 = q.1
    · rw [if_pos hq]
      refine (ih _).trans ?_
      simp only [List.map_cons, List.sum_cons]
      rw [← Int.add_assoc]
      exact (to_signed_64_modEq _).add_right _
    · rw [if_neg hq]
      simp only [List.map_cons, List.sum_cons]
      exact (ih q).add_left _

/-- Merging keeps the set of addresses. -/
theorem mergeRun_addresses (a : Int) : ∀ (todo : List (Int × Int)) (cur : Int × Int),
    a ∈ (mergeRun cur todo).map Prod.fst ↔ a ∈ (cur :: todo).map Prod.fst := by
  intro todo
  induction todo with
  | nil => intro cur; exact Iff.rfl
  | cons q rest ih =>
    intro cur
    show a ∈ (if cur.1 = q.1 then mergeRun (cur.1, to_signed 64 (cur.2 + q.2)) rest
      else cur :: mergeRun q rest).map Prod.fst ↔ _
    by_cases hq : cur.1 = q.1
    · rw [if_pos hq, ih]
      simp only [List.map_cons, List.mem_cons]
      rw [← hq]
      tauto
    · rw [if_neg hq]
      simp only [List.map_cons, List.mem_cons]
      rw [ih]
      simp only [List.map_cons, List.mem_cons]

/-- Merging a vector that is sorted by address gives strictly increasing
addresses, none below the first. -/
theorem mergeRun_sorted : ∀ (todo : List (Int × Int)) (cur : Int × Int),
    List.Pairwise (fun a b : Int × Int => a.1 ≤ b.1) (cur :: todo) →
    List.Pairwise (fun a b : Int × Int => a.1 < b.1) (mergeRun cur todo)
    ∧ ∀ p ∈ mergeRun cur todo, cur.1 ≤ p.1 := by
  intro todo
  induction todo with
  | nil =>
    intro cur _
    refine ⟨List.pairwise_singleton _ _, ?_⟩
    intro p hp
    have : p = cur := by simpa [mergeRun] using hp
    rw [this]
  | cons q rest ih =>
    intro cur hs
    rw [List.pairwise_cons] at hs
    obtain ⟨h1, h2⟩ := hs
    have hcq : cur.1 ≤ q.1 := h1 q (List.mem_cons_self _ _)
    show List.Pairwise _ (if cur.1 = q.1 then mergeRun (cur.1, to_signed 64 (cur.2 + q.2)) rest
      else cur :: mergeRun q rest)
      ∧ ∀ p ∈ (if cur.1 = q.1 then mergeRun (cur.1, to_signed 64 (cur.2 + q.2)) rest
      else cur :: mergeRun q rest), cur.1 ≤ p.1
    by_cases hq : cur.1 = q.1
    · rw [if_pos hq]
      have hs2 : List.Pairwise (fun a b : Int × Int => a.1 ≤ b.1)
          ((cur.1, to_signed 64 (cur.2 + q.2)) :: rest) := by
        rw [List.pairwise_cons]
        rw [List.pairwise_cons] at h2
        exact ⟨fun b hb => h1 b (List.mem_cons_of_mem _ hb), h2.2⟩
      exact ih _ hs2
    · rw [if_neg hq]
      obtain ⟨i1, i2⟩ := ih q h2
      have hlt : cur.1 < q.1 := lt_of_le_of_ne hcq hq
      refine ⟨?_, ?_⟩
      · rw [List.pairwise_cons]
        exact ⟨fun b hb => lt_of_lt_of_le hlt (i2 b hb), i1⟩
      · intro p hp
        rcases List.mem_cons.1 hp with h | h
        · rw [h]
        · exact le_trans hcq (i2 p h)

/-- Merging keeps the values inside `int64_t`. -/
theorem mergeRun_range : ∀ (todo : List (Int × Int)) (cur : Int × Int),
    (∀ p ∈ cur :: todo, INT64_MIN ≤ p.2 ∧ p.2 ≤ INT64_MAX) →
    ∀ p ∈ mergeRun cur todo, INT64_MIN ≤ p.2 ∧ p.2 ≤ INT64_MAX := by
  intro todo
  induction todo with
  | nil =>
    intro cur h p hp
    exact h p hp
  | cons q rest ih =>
    intro cur h
    show ∀ p ∈ (if cur.1 = q.1 then mergeRun (cur.1, to_signed 64 (cur.2 + q.2)) rest
      else cur :: mergeRun q rest), _
    by_cases hq : cur.1 = q.1
    · rw [if_pos hq]
      apply ih
      intro p hp
      rcases List.mem_cons.1 hp with hp | hp
      · rw [hp]; exact to_signed_64_range _
      · exact h p (List.mem_cons_of_mem _ (List.mem_cons_of_mem _ hp))
    · rw [if_neg hq]
      intro p hp
      rcases List.mem_cons.1 hp with hp | hp
      · rw [hp]; exact h cur (List.mem_cons_self _ _)
      · exact ih q (fun x hx => h x (List.mem_cons_of_mem _ hx)) p hp

/-- In a vector with strictly increasing addresses the sum of the values of an
address that occurs is the value of its pair. -/
theorem value_of_strict : ∀ (l : List (Int × Int)),
    List.Pairwise (fun a b : Int × Int => a.1 < b.1) l → ∀ p ∈ l, value_of p.1 l = p.2 := by
  intro l
  induction l with
  | nil => intro _ p hp; simp at hp
  | cons x xs ih =>
    intro hs p hp
    rw [List.pairwise_cons] at hs
    rw [value_of_cons]
    rcases List.mem_cons.1 hp with h | h
    · subst h
      have : value_of p.1 xs = 0 := by
        unfold value_of
        have : xs.filter (fun q => q.1 == p.1) = [] := by
          rw [List.filter_eq_nil_iff]
          intro q hq
          have := hs.1 q hq
          simp
          omega
        rw [this]
        rfl
      rw [this]
      simp
    · have hlt := hs.1 p h
      rw [if_neg (by omega), ih hs.2 p h]
      simp

/-- The sum of the values of an address does not depend on the order. -/
theorem value_of_perm (a : Int) {l1 l2 : List (Int × Int)} (h : l1.Perm l2) :
    value_of a l1 = value_of a l2 := by
  unfold value_of
  exact ((h.filter _).map _).sum_eq

theorem to_signed_64_id {x : Int} (h : INT64_MIN ≤ x ∧ x ≤ INT64_MAX) :
    to_signed 64 x = x := by
  unfold to_signed
  unfold INT64_MIN INT64_MAX at h
  norm_num at h ⊢
  omega

theorem tx_sort_sorted (vec : List (Int × Int)) :
    List.Pairwise (fun a b : Int × Int => a.1 ≤ b.1) (tx.sort vec) :=
  @List.sorted_insertionSort _ (fun a b : Int × Int => a.1 ≤ b.1) _
    ⟨fun a b => le_total a.1 b.1⟩ ⟨fun _ _ _ h1 h2 => le_trans h1 h2⟩ vec

theorem tx_sort_perm (vec : List (Int × Int)) : (tx.sort vec).Perm vec :=
  List.perm_insertionSort _ vec

/-- What the merge loop with the final `erase` gives on any arrangement of a
non-empty vector that is sorted by address. -/
theorem merge_loop_facts (vec s : List (Int × Int)) (hne : vec ≠ [])
    (hrange : ∀ p ∈ vec, INT64_MIN ≤ p.2 ∧ p.2 ≤ INT64_MAX)
    (hperm : s.Perm vec) (hs : List.Pairwise (fun a b : Int × Int => a.1 ≤ b.1) s) :
    List.Pairwise (fun a b : Int × Int => a.1 < b.1)
      ((tx.compress_loop (s.length - 1) s 0 1).1.take
        ((tx.compress_loop (s.length - 1) s 0 1).2 + 1))
    ∧ (∀ a, a ∈ ((tx.compress_loop (s.length - 1) s 0 1).1.take
        ((tx.compress_loop (s.length - 1) s 0 1).2 + 1)).map Prod.fst ↔ a ∈ vec.map Prod.fst)
    ∧ (∀ p ∈ (tx.compress_loop (s.length - 1) s 0 1).1.take
        ((tx.compress_loop (s.length - 1) s 0 1).2 + 1),
        p.2 = to_signed 64 (value_of p.1 vec))
    ∧ to_signed 64 (((tx.compress_loop (s.length - 1) s 0 1).1.take
        ((tx.compress_loop (s.length - 1) s 0 1).2 + 1)).map Prod.snd).sum
      = to_signed 64 (vec.map Prod.snd).sum := by
  cases s with
  | nil => exact absurd (List.Perm.nil_eq hperm).symm hne
  | cons c t =>
    rw [compress_sorted c t]
    have hstrict := (mergeRun_sorted t c hs).1
    have hr : ∀ p ∈ mergeRun c t, INT64_MIN ≤ p.2 ∧ p.2 ≤ INT64_MAX :=
      mergeRun_range t c (fun p hp => hrange p (hperm.subset hp))
    refine ⟨hstrict, ?_, ?_, ?_⟩
    · intro a
      rw [mergeRun_addresses a t c]
      exact (hperm.map Prod.fst).mem_iff
    · intro p hp
      have h1 := value_of_strict _ hstrict p hp
      have h2 := to_signed_64_congr (mergeRun_value p.1 t c)
      rw [h1, to_signed_64_id (hr p hp), value_of_perm p.1 hperm] at h2
      exact h2
    · rw [to_signed_64_congr (mergeRun_total t c)]
      rw [((hperm.map Prod.snd).sum_eq)]

/-- Two vectors with strictly increasing addresses, the same addresses and
values given by the same function of the address are equal. -/
theorem strict_vector_unique (f : Int → Int) : ∀ (l1 l2 : List (Int × Int)),
    List.Pairwise (fun a b : Int × Int => a.1 < b.1) l1 →
    List.Pairwise (fun a b : Int × Int => a.1 < b.1) l2 →
    (∀ a, a ∈ l1.map Prod.fst ↔ a ∈ l2.map Prod.fst) →
    (∀ p ∈ l1, p.2 = f p.1) → (∀ p ∈ l2, p.2 = f p.1) → l1 = l2 := by
  intro l1 l2 h1 h2 hm f1 f2
  have e1 : ∀ l : List (Int × Int), (∀ p ∈ l, p.2 = f p.1) →
      l = (l.map Prod.fst).map (fun a => (a, f a)) := by
    intro l
    induction l with
    | nil => intro _; rfl
    | cons x xs ih =>
      intro h
      rw [List.map_cons, List.map_cons, ← ih (fun p hp => h p (List.mem_cons_of_mem _ hp)),
        ← h x (List.mem_cons_self _ _)]
  have s1 : (l1.map Prod.fst).Sorted (· < ·) := (List.pairwise_map.2 h1)
  have s2 : (l2.map Prod.fst).Sorted (· < ·) := (List.pairwise_map.2 h2)
  have hp : (l1.map Prod.fst).Perm (l2.map Prod.fst) :=
    (List.perm_ext_iff_of_nodup s1.nodup s2.nodup).2 hm
  have : l1.map Prod.fst = l2.map Prod.fst := List.eq_of_perm_of_sorted hp s1 s2
  rw [e1 l1 f1, e1 l2 f2, this]

theorem to_uint_to_signed (n : Nat) (h : n < 2 ^ 32) : to_uint (to_signed 32 n) = n := by
  unfold to_uint to_signed
  norm_num at h ⊢
  omega

theorem update_edge_at (fo : FloatOps) (sum : Dbl) (txid : Nat) (h : txid < 2 ^ 32)
    (ins outs : List (Int × Int)) (i o : Nat) (e : txedge) :
    tx.iterator.update_edge fo
        (tx.iterator.members sum (to_signed 32 txid) ins outs i o e)
      = iterator_at fo sum txid ins outs i o := by
  unfold tx.iterator.update_edge iterator_at edge_of
  simp only [to_uint_to_signed txid h]

theorem iterator_visit_end (fo : FloatOps) (fuel : Nat) (it : tx.iterator) (h : it.is_end = true) :
    tx.iterator.visit fo fuel it = ([], it) := by
  cases fuel with
  | zero => rfl
  | succ f =>
    unfold tx.iterator.visit
    rw [if_pos h]

theorem iterator_visit_at (fo : FloatOps) (sum : Dbl) (txid : Nat) (h : txid < 2 ^ 32)
    (ins outs : List (Int × Int)) : ∀ (n i o : Nat), i < ins.length → o < outs.length →
    n = (ins.length - i - 1) * outs.length + (outs.length - o) → ∀ fuel, n ≤ fuel →
    (tx.iterator.visit fo fuel (iterator_at fo sum txid ins outs i o)).1
      = (outs.drop o).map (fun b => edge_of fo txid sum (ins.getD i (0, 0)) b)
        ++ (ins.drop (i + 1)).flatMap (fun a => outs.map (fun b => edge_of fo txid sum a b))
    ∧ (tx.iterator.visit fo fuel (iterator_at fo sum txid ins outs i o)).2.is_end = true := by
  intro n
  induction n using Nat.strong_induction_on with
  | _ n ih =>
    intro i o hi ho hn fuel hfuel
    cases fuel with
    | zero => omega
    | succ f =>
      have hne : (iterator_at fo sum txid ins outs i o).is_end = false := by
        unfold tx.iterator.is_end iterator_at
        simp
        omega
      have hv : tx.iterator.visit fo (f + 1) (iterator_at fo sum txid ins outs i o)
          = ((iterator_at fo sum txid ins outs i o).deref ::
              (tx.iterator.visit fo f ((iterator_at fo sum txid ins outs i o).incr fo)).1,
             (tx.iterator.visit fo f ((iterator_at fo sum txid ins outs i o).incr fo)).2) := by
        rw [tx.iterator.visit]
        rw [hne]
        rfl
      rw [hv]
      have hdrop : outs.drop o = outs.getD o (0, 0) :: outs.drop (o + 1) := by
        rw [List.getD_eq_getElem _ _ ho]
        exact List.drop_eq_getElem_cons ho
      have hderef : (iterator_at fo sum txid ins outs i o).deref
          = edge_of fo txid sum (ins.getD i (0, 0)) (outs.getD o (0, 0)) := rfl
      by_cases h1 : o + 1 = outs.length
      · by_cases h2 : i + 1 = ins.length
        · have hinc : (iterator_at fo sum txid ins outs i o).incr fo
              = { iterator_at fo sum txid ins outs i o with out_it := o + 1, in_it := i + 1 } := by
            unfold tx.iterator.incr
            rw [if_neg (by show ¬ i = ins.length; omega), if_pos (by exact h1),
              if_pos (by exact h2)]
            rfl
          have hend : tx.iterator.is_end
              { iterator_at fo sum txid ins outs i o with out_it := o + 1, in_it := i + 1 }
              = true := by
            unfold tx.iterator.is_end iterator_at
            simp
            exact h2
          rw [hinc, iterator_visit_end fo f _ hend]
          refine ⟨?_, hend⟩
          rw [hdrop, hderef, List.drop_of_length_le (by omega : outs.length ≤ o + 1),
            List.drop_of_length_le (by omega : ins.length ≤ i + 1)]
          rfl
        · have hinc : (iterator_at fo sum txid ins outs i o).incr fo
              = iterator_at fo sum txid ins outs (i + 1) 0 := by
            unfold tx.iterator.incr
            rw [if_neg (by show ¬ i = ins.length; omega), if_pos (by exact h1),
              if_neg (by exact h2)]
            exact update_edge_at fo sum txid h ins outs (i + 1) 0 _
          have hi1 : i + 1 < ins.length := by omega
          have ho0 : 0 < outs.length := by omega
          have := ih ((ins.length - (i + 1) - 1) * outs.length + (outs.length - 0))
            (by
              rw [hn]
              have e1 : ins.length - i - 1 = (ins.length - (i + 1) - 1) + 1 := by omega
              rw [e1, Nat.add_mul]
              omega)
            (i + 1) 0 hi1 ho0 rfl f
            (by
              have e1 : ins.length - i - 1 = (ins.length - (i + 1) - 1) + 1 := by omega
              rw [hn, e1, Nat.add_mul] at hfuel
              omega)
          rw [hinc]
          refine ⟨?_, this.2⟩
          rw [this.1, hdrop, hderef, List.drop_of_length_le (by omega : outs.length ≤ o + 1)]
          have hdi : ins.drop (i + 1) = ins.getD (i + 1) (0, 0) :: ins.drop (i + 1 + 1) := by
            rw [List.getD_eq_getElem _ _ hi1]
            exact List.drop_eq_getElem_cons hi1
          rw [hdi, List.flatMap_cons]
          simp
      · have hinc : (iterator_at fo sum txid ins outs i o).incr fo
            = iterator_at fo sum txid ins outs i (o + 1) := by
          unfold tx.iterator.incr
          rw [if_neg (by show ¬ i = ins.length; omega), if_neg (by exact h1)]
          exact update_edge_at fo sum txid h ins outs i (o + 1) _
        have ho1 : o + 1 < outs.length := by omega
        have := ih ((ins.length - i - 1) * outs.length + (outs.length - (o + 1)))
          (by omega) i (o + 1) hi ho1 rfl f (by omega)
        rw [hinc]
        refine ⟨?_, this.2⟩
        rw [this.1, hdrop, hderef]
        rfl

theorem iterator_mk_at (fo : FloatOps) (t : tx) (e0 : txedge) (h : t.txid < 2 ^ 32)
    (h1 : 0 < t.inputs.length) (h2 : 0 < t.outputs.length) :
    tx.iterator.mk fo t e0
      = iterator_at fo (tx.get_iterator fo t e0).sum t.txid t.inputs t.outputs 0 0 := by
  have hs : (tx.get_iterator fo t e0).sum
      = fo.of_int64 (t.inputs.foldl (fun acc p => to_signed 64 (acc + p.2)) 0) := by
    unfold tx.get_iterator tx.iterator.mk
    simp only
    split_ifs <;> rfl
  rw [hs]
  unfold tx.iterator.mk
  simp only
  rw [if_neg (by omega), if_neg (by omega)]
  exact update_edge_at fo _ t.txid h t.inputs t.outputs 0 0 e0

theorem length_flatMap_const {α β : Type} (l : List α) (f : α → List β) (n : Nat)
    (h : ∀ a, (f a).length = n) : (l.flatMap f).length = l.length * n := by
  induction l with
  | nil => simp
  | cons x xs ih =>
    rw [List.flatMap_cons, List.length_append, ih, h x, List.length_cons, Nat.add_mul]
    omega

theorem iterator_mk_sum (fo : FloatOps) (t : tx) (e0 : txedge) :
    (tx.get_iterator fo t e0).sum
      = fo.of_int64 (t.inputs.foldl (fun acc p => to_signed 64 (acc + p.2)) 0) := by
  unfold tx.get_iterator tx.iterator.mk
  simp only
  split_ifs <;> rfl

theorem iterator_mk_empty (fo : FloatOps) (t : tx) (e0 : txedge)
    (h : t.inputs = [] ∨ t.outputs = []) : (tx.get_iterator fo t e0).is_end = true := by
  unfold tx.get_iterator tx.iterator.mk tx.iterator.is_end
  simp only
  by_cases h1 : 0 = t.inputs.length
  · rw [if_pos h1]
    simpa using h1
  · rw [if_neg h1]
    have h2 : t.outputs = [] := by
      rcases h with h | h
      · rw [h] at h1; exact absurd rfl h1
      · exact h
    rw [if_pos (by rw [h2]; rfl)]
    simp

theorem yields_cons {it : txr_it} {x : txrecord} {xs : List txrecord}
    (h : Yields it (x :: xs)) :
    it.is_end_ = false ∧ it.r = x ∧ ∃ it1, it.incr = some it1 ∧ Yields it1 xs := by
  refine ⟨h.1, h.2.1, ?_⟩
  have h3 := h.2.2
  cases hi : it.incr with
  | none => rw [hi] at h3; exact absurd h3 id
  | some it1 => rw [hi] at h3; exact ⟨it1, rfl, h3⟩

theorem yields_nil {it : txr_it} (h : Yields it []) : it.is_end_ = true := h

/-- The loop that collects the records of one transaction: it returns, with the
leading records that carry the id appended, on an iterator that yields the
rest. -/
theorem collect_yields (id : Nat) : ∀ (recs : List txrecord) (it : txr_it)
    (vec : List (Int × Int)) (fuel : Nat), Yields it recs → recs.length < fuel →
    ∃ it1, tx.collect fuel it id vec
        = Ended.returned (it1, vec ++ (recs.takeWhile (fun r => r.txid == id)).map
            (fun r => (r.addr, r.value)))
      ∧ Yields it1 (recs.dropWhile (fun r => r.txid == id)) := by
  intro recs
  induction recs with
  | nil =>
    intro it vec fuel hy hf
    cases fuel with
    | zero => omega
    | succ f =>
      refine ⟨it, ?_, hy⟩
      have he : it.is_end = true := yields_nil hy
      rw [tx.collect, if_pos he]
      simp
  | cons x xs ih =>
    intro it vec fuel hy hf
    cases fuel with
    | zero => omega
    | succ f =>
      obtain ⟨h1, h2, it1, h3, h4⟩ := yields_cons hy
      have he : ¬ it.is_end = true := by
        unfold txr_it.is_end; rw [h1]; exact Bool.false_ne_true
      have hd : it.deref = some x := by
        unfold txr_it.deref; rw [h1, h2]; rfl
      rw [tx.collect, if_neg he, hd]
      by_cases hx : x.txid = id
      · obtain ⟨it2, e1, e2⟩ := ih it1 (vec ++ [(x.addr, x.value)]) f h4
          (by simp at hf; omega)
        refine ⟨it2, ?_, ?_⟩
        · simp only [h3]
          rw [if_neg (by simpa using hx), e1]
          simp [List.takeWhile_cons, hx]
        · simpa [List.dropWhile_cons, hx] using e2
      · refine ⟨it, ?_, ?_⟩
        · simp only
          rw [if_pos (by simpa using hx)]
          simp [List.takeWhile_cons, hx]
        · simpa [List.dropWhile_cons, hx] using hy

/-- The loop that advances the outputs to the id of the inputs. -/
theorem advance_out_yields (id : Nat) : ∀ (recs : List txrecord) (it : txr_it)
    (fuel : Nat), Yields it recs → recs.length < fuel →
    ∃ it1, tx.advance_out fuel it id = Ended.returned it1
      ∧ Yields it1 (recs.dropWhile (fun r => decide (r.txid < id))) := by
  intro recs
  induction recs with
  | nil =>
    intro it fuel hy hf
    cases fuel with
    | zero => omega
    | succ f =>
      refine ⟨it, ?_, hy⟩
      have he : it.is_end = true := yields_nil hy
      rw [tx.advance_out, if_pos he]
  | cons x xs ih =>
    intro it fuel hy hf
    cases fuel with
    | zero => omega
    | succ f =>
      obtain ⟨h1, h2, it1, h3, h4⟩ := yields_cons hy
      have he : ¬ it.is_end = true := by
        unfold txr_it.is_end; rw [h1]; exact Bool.false_ne_true
      have hd : it.deref = some x := by
        unfold txr_it.deref; rw [h1, h2]; rfl
      rw [tx.advance_out, if_neg he, hd]
      by_cases hx : x.txid < id
      · obtain ⟨it2, e1, e2⟩ := ih it1 f h4 (by simp at hf; omega)
        refine ⟨it2, ?_, ?_⟩
        · simp only [h3]
          rw [if_neg (by omega), e1]
        · simpa [List.dropWhile_cons, hx] using e2
      · refine ⟨it, ?_, ?_⟩
        · simp only
          rw [if_pos (by omega)]
        · simpa [List.dropWhile_cons, hx] using hy

/-- The loop that skips the inputs of transactions without outputs. -/
theorem skip_inputs_yields (out : txr_it) (o : txrecord) (ho : out.deref = some o) :
    ∀ (recs : List txrecord) (it : txr_it) (txid fuel : Nat), Yields it recs →
    recs.length < fuel →
    ∃ it1 txid1, tx.skip_inputs fuel it out txid = Ended.returned (it1, txid1)
      ∧ Yields it1 (recs.dropWhile (fun r => decide (r.txid < o.txid))) := by
  intro recs
  induction recs with
  | nil =>
    intro it txid fuel hy hf
    cases fuel with
    | zero => omega
    | succ f =>
      refine ⟨it, txid, ?_, hy⟩
      have he : it.is_end = true := yields_nil hy
      rw [tx.skip_inputs, if_pos he]
  | cons x xs ih =>
    intro it txid fuel hy hf
    cases fuel with
    | zero => omega
    | succ f =>
      obtain ⟨h1, h2, it1, h3, h4⟩ := yields_cons hy
      have he : ¬ it.is_end = true := by
        unfold txr_it.is_end; rw [h1]; exact Bool.false_ne_true
      have hd : it.deref = some x := by
        unfold txr_it.deref; rw [h1, h2]; rfl
      rw [tx.skip_inputs, if_neg he, hd, ho]
      by_cases hx : x.txid < o.txid
      · obtain ⟨it2, tx2, e1, e2⟩ := ih it1 (if x.txid > txid then x.txid else txid) f h4
          (by simp at hf; omega)
        refine ⟨it2, tx2, ?_, ?_⟩
        · simp only [h3]
          rw [if_neg (by omega), e1]
        · simpa [List.dropWhile_cons, hx] using e2
      · refine ⟨it, txid, ?_, ?_⟩
        · simp only
          rw [if_pos (by omega)]
        · simpa [List.dropWhile_cons, hx] using hy

theorem mem_ids_of {j : Nat} {l : List txrecord} : j ∈ ids_of l ↔ ∃ r ∈ l, r.txid = j := by
  unfold ids_of
  exact List.mem_map

theorem dropWhile_lt_ge (B : Nat) : ∀ (l : List txrecord), SortedById l →
    ∀ r ∈ l.dropWhile (fun r => decide (r.txid < B)), B ≤ r.txid := by
  intro l
  induction l with
  | nil => intro _ r hr; simp at hr
  | cons x xs ih =>
    intro hs r hr
    have hs2 := List.pairwise_cons.1 hs
    by_cases hx : x.txid < B
    · rw [List.dropWhile_cons, if_pos (by simpa using hx)] at hr
      exact ih hs2.2 r hr
    · rw [List.dropWhile_cons, if_neg (by simpa using hx)] at hr
      rcases List.mem_cons.1 hr with h | h
      · rw [h]; omega
      · have := hs2.1 r h
        omega

theorem dropWhile_eq_gt (X : Nat) : ∀ (l : List txrecord), SortedById l →
    (∀ r ∈ l, X ≤ r.txid) →
    ∀ r ∈ l.dropWhile (fun r => r.txid == X), X < r.txid := by
  intro l
  induction l with
  | nil => intro _ _ r hr; simp at hr
  | cons x xs ih =>
    intro hs hge r hr
    have hs2 := List.pairwise_cons.1 hs
    by_cases hx : x.txid = X
    · rw [List.dropWhile_cons, if_pos (by simpa using hx)] at hr
      exact ih hs2.2 (fun r hr => hge r (List.mem_cons_of_mem _ hr)) r hr
    · rw [List.dropWhile_cons, if_neg (by simpa using hx)] at hr
      have hx2 := hge x (List.mem_cons_self _ _)
      rcases List.mem_cons.1 hr with h | h
      · rw [h]; omega
      · have := hs2.1 r h
        omega

theorem records_of_append (id : Nat) (a b : List txrecord) :
    records_of id (a ++ b) = records_of id a ++ records_of id b := by
  unfold records_of
  rw [List.filter_append, List.map_append]

theorem records_of_none (id : Nat) (a : List txrecord) (h : ∀ r ∈ a, r.txid ≠ id) :
    records_of id a = [] := by
  unfold records_of
  rw [List.filter_eq_nil_iff.2 (fun r hr => by simpa using h r hr)]
  rfl

theorem records_of_all (id : Nat) (a : List txrecord) (h : ∀ r ∈ a, r.txid = id) :
    records_of id a = a.map (fun r => (r.addr, r.value)) := by
  unfold records_of
  rw [List.filter_eq_self.2 (fun r hr => by simpa using h r hr)]

theorem sorted_head_le {x : txrecord} {xs : List txrecord} (h : SortedById (x :: xs)) :
    ∀ r ∈ x :: xs, x.txid ≤ r.txid := by
  intro r hr
  rcases List.mem_cons.1 hr with h1 | h1
  · rw [h1]
  · exact (List.pairwise_cons.1 h).1 r h1

/-- A call of `tx::read_next` with an iterator at its end returns false and
leaves the object as it is. -/
theorem read_next_end (t : tx) (fuel : Nat) (hf : 0 < fuel)
    (h : t.in_.is_end_ = true ∨ t.out.is_end_ = true) :
    tx.read_next fuel t = Ended.returned (false, t) := by
  cases fuel with
  | zero => omega
  | succ f =>
    rw [tx.read_next, if_pos]
    unfold txr_it.is_end
    rcases h with h | h
    · rw [h]; rfl
    · rw [h]; simp

theorem ids_of_append (a b : List txrecord) : ids_of (a ++ b) = ids_of a ++ ids_of b := by
  unfold ids_of
  exact List.map_append _ _ _

/-- Dropping inputs below the id `B` of the first output left, and outputs below
the least id `X` of the inputs, loses no id that occurs in both streams. -/
theorem common_ids_drop (pI pO ins2 outs2 : List txrecord) (X B : Nat)
    (h1 : ∀ r ∈ pI, r.txid < B) (h2 : ∀ r ∈ pO, r.txid < X)
    (h3 : ∀ r ∈ pI ++ ins2, X ≤ r.txid) (h4 : ∀ r ∈ outs2, B ≤ r.txid) (j : Nat)
    (h : j ∈ ids_of (pI ++ ins2) ∧ j ∈ ids_of (pO ++ outs2)) :
    j ∈ ids_of ins2 ∧ j ∈ ids_of outs2 := by
  obtain ⟨ha, hb⟩ := h
  have hX : X ≤ j := by
    obtain ⟨r, hr, e⟩ := mem_ids_of.1 ha
    rw [← e]; exact h3 r hr
  rw [ids_of_append, List.mem_append] at ha hb
  have hb2 : j ∈ ids_of outs2 := by
    rcases hb with hb | hb
    · obtain ⟨r, hr, e⟩ := mem_ids_of.1 hb
      have := h2 r hr
      omega
    · exact hb
  have hB : B ≤ j := by
    obtain ⟨r, hr, e⟩ := mem_ids_of.1 hb2
    rw [← e]; exact h4 r hr
  refine ⟨?_, hb2⟩
  rcases ha with ha | ha
  · obtain ⟨r, hr, e⟩ := mem_ids_of.1 ha
    have := h1 r hr
    omega
  · exact ha

theorem step_lift_false (pI pO ins2 outs2 : List txrecord) (X B : Nat)
    (h1 : ∀ r ∈ pI, r.txid < B) (h2 : ∀ r ∈ pO, r.txid < X)
    (h3 : ∀ r ∈ pI ++ ins2, X ≤ r.txid) (h4 : ∀ r ∈ outs2, B ≤ r.txid) (t1 : tx)
    (h : StepFalse ins2 outs2 t1) : StepFalse (pI ++ ins2) (pO ++ outs2) t1 :=
  ⟨h.1, fun j hj => h.2 j (common_ids_drop pI pO ins2 outs2 X B h1 h2 h3 h4 j hj)⟩

theorem step_lift_true (pI pO ins2 outs2 : List txrecord) (X B : Nat) (hXB : X < B)
    (h1 : ∀ r ∈ pI, r.txid < B) (h2 : ∀ r ∈ pO, r.txid < X)
    (h3 : ∀ r ∈ pI ++ ins2, X ≤ r.txid) (h4 : ∀ r ∈ outs2, B ≤ r.txid) (hp : pI ≠ [])
    (t1 : tx) (ins1 outs1 : List txrecord) (h : StepTrue ins2 outs2 t1 ins1 outs1) :
    StepTrue (pI ++ ins2) (pO ++ outs2) t1 ins1 outs1 := by
  obtain ⟨a1, a2, a3, a4, a5, a6, a7, preI, preO, b1, b2, b3, b4, b5⟩ := h
  have hB : B ≤ t1.txid := by
    obtain ⟨r, hr, e⟩ := mem_ids_of.1 a4
    rw [← e]; exact h4 r hr
  refine ⟨?_, ?_, ?_, ?_, ?_, a6, a7, pI ++ preI, pO ++ preO, ?_, ?_, ?_, ?_, ?_⟩
  · rw [records_of_append, records_of_none _ pI (fun r hr => by have := h1 r hr; omega)]
    exact a1
  · rw [records_of_append, records_of_none _ pO (fun r hr => by have := h2 r hr; omega)]
    exact a2
  · rw [ids_of_append]; exact List.mem_append_right _ a3
  · rw [ids_of_append]; exact List.mem_append_right _ a4
  · intro j hj hc
    exact a5 j hj (common_ids_drop pI pO ins2 outs2 X B h1 h2 h3 h4 j hc)
  · rw [b1, List.append_assoc]
  · rw [b2, List.append_assoc]
  · intro hnil
    exact hp (List.append_eq_nil.1 hnil).1
  · intro r hr
    rcases List.mem_append.1 hr with hr | hr
    · have := h1 r hr; omega
    · exact b4 r hr
  · intro r hr
    rcases List.mem_append.1 hr with hr | hr
    · have := h2 r hr; omega
    · exact b5 r hr

/-- The streams after the inputs and the outputs of the least id of the inputs
were collected, when the outputs have that id. -/
theorem step_true_here (ins outs : List txrecord) (x o : txrecord) (os : List txrecord)
    (t1 : tx) (hx : x ∈ ins.takeWhile (fun r => r.txid == x.txid))
    (hsi : SortedById ins) (hso : SortedById outs) (hge : ∀ r ∈ ins, x.txid ≤ r.txid)
    (hO : outs.dropWhile (fun r => decide (r.txid < x.txid)) = o :: os)
    (ho : o.txid = x.txid) (ht : t1.txid = x.txid)
    (hti : t1.inputs = tx.vector_compress
      ((ins.takeWhile (fun r => r.txid == x.txid)).map (fun r => (r.addr, r.value))))
    (hto : t1.outputs = tx.vector_compress
      (((o :: os).takeWhile (fun r => r.txid == x.txid)).map (fun r => (r.addr, r.value)))) :
    StepTrue ins outs t1 (ins.dropWhile (fun r => r.txid == x.txid))
      ((o :: os).dropWhile (fun r => r.txid == x.txid)) := by
  have eI := (List.takeWhile_append_dropWhile (fun r : txrecord => r.txid == x.txid) ins).symm
  have eO := (List.takeWhile_append_dropWhile
    (fun r : txrecord => decide (r.txid < x.txid)) outs).symm
  have eO2 := (List.takeWhile_append_dropWhile
    (fun r : txrecord => r.txid == x.txid) (o :: os)).symm
  have hso2 : SortedById (o :: os) := by
    rw [← hO]
    exact List.Pairwise.sublist (List.dropWhile_sublist _) hso
  have hgeO : ∀ r ∈ o :: os, x.txid ≤ r.txid := by
    rw [← hO]
    exact dropWhile_lt_ge x.txid outs hso
  have gI := dropWhile_eq_gt x.txid ins hsi hge
  have gO := dropWhile_eq_gt x.txid (o :: os) hso2 hgeO
  have tI : ∀ r ∈ ins.takeWhile (fun r => r.txid == x.txid), r.txid = x.txid :=
    fun r hr => by simpa using List.mem_takeWhile_imp hr
  have tO : ∀ r ∈ (o :: os).takeWhile (fun r => r.txid == x.txid), r.txid = x.txid :=
    fun r hr => by simpa using List.mem_takeWhile_imp hr
  have tL : ∀ r ∈ outs.takeWhile (fun r => decide (r.txid < x.txid)), r.txid < x.txid :=
    fun r hr => by simpa using List.mem_takeWhile_imp hr
  have hxin : x ∈ ins := (List.takeWhile_sublist _).subset hx
  have hoin : o ∈ outs := by
    have : o ∈ outs.dropWhile (fun r => decide (r.txid < x.txid)) := by
      rw [hO]; exact List.mem_cons_self _ _
    exact (List.dropWhile_sublist _).subset this
  rw [hO] at eO
  refine ⟨?_, ?_, ?_, ?_, ?_, ?_, ?_, ins.takeWhile (fun r => r.txid == x.txid),
    outs.takeWhile (fun r => decide (r.txid < x.txid))
      ++ (o :: os).takeWhile (fun r => r.txid == x.txid), eI, ?_, ?_, ?_, ?_⟩
  · rw [hti, ht]
    congr 1
    conv_rhs => rw [eI]
    rw [records_of_append, records_of_all _ _ tI,
      records_of_none _ _ (fun r hr => by have := gI r hr; omega)]
    simp
  · rw [hto, ht]
    congr 1
    conv_rhs => rw [eO]
    conv_rhs => rw [eO2]
    rw [records_of_append, records_of_append, records_of_all _ _ tO,
      records_of_none _ _ (fun r hr => by have := tL r hr; omega),
      records_of_none _ _ (fun r hr => by have := gO r hr; omega)]
    simp
  · rw [ht]; exact mem_ids_of.2 ⟨x, hxin, rfl⟩
  · rw [ht]; exact mem_ids_of.2 ⟨o, hoin, ho⟩
  · intro j hj hc
    obtain ⟨r, hr, e⟩ := mem_ids_of.1 hc.1
    have := hge r hr
    omega
  · intro r hr; rw [ht]; exact gI r hr
  · intro r hr; rw [ht]; exact gO r hr
  · conv_lhs => rw [eO]
    conv_lhs => rw [eO2]
    rw [List.append_assoc]
  · intro hnil
    rw [hnil] at hx
    simp at hx
  · intro r hr; rw [ht]; exact le_of_eq (tI r hr)
  · intro r hr
    rw [ht]
    rcases List.mem_append.1 hr with hr | hr
    · exact le_of_lt (tL r hr)
    · exact le_of_eq (tO r hr)

/-- One call of `tx::read_next` on two sorted streams returns: false with an
iterator at its end when no id is in both streams, true with the least id of
both streams otherwise. -/
theorem read_next_step : ∀ (k : Nat) (ins outs : List txrecord) (t : tx) (fuel : Nat),
    ins.length ≤ k → Yields t.in_ ins → Yields t.out outs → SortedById ins →
    SortedById outs → ins.length + outs.length + 2 ≤ fuel →
    ∃ b t1, tx.read_next fuel t = Ended.returned (b, t1)
      ∧ ((b = false ∧ StepFalse ins outs t1)
        ∨ (b = true ∧ ∃ ins1 outs1, Yields t1.in_ ins1 ∧ Yields t1.out outs1
            ∧ StepTrue ins outs t1 ins1 outs1)) := by
  intro k
  induction k with
  | zero =>
    intro ins outs t fuel hk hin hout hsi hso hf
    have hnil : ins = [] := List.length_eq_zero.1 (by omega)
    rw [hnil] at hin
    refine ⟨false, t, read_next_end t fuel (by omega) (Or.inl (yields_nil hin)), Or.inl
      ⟨rfl, Or.inl (yields_nil hin), ?_⟩⟩
    intro j hj
    rw [hnil] at hj
    exact absurd hj.1 (List.not_mem_nil _)
  | succ k ih =>
    intro ins outs t fuel hk hin hout hsi hso hf
    by_cases hI : ins = []
    · rw [hI] at hin
      refine ⟨false, t, read_next_end t fuel (by omega) (Or.inl (yields_nil hin)), Or.inl
        ⟨rfl, Or.inl (yields_nil hin), ?_⟩⟩
      intro j hj
      rw [hI] at hj
      exact absurd hj.1 (List.not_mem_nil _)
    by_cases hO : outs = []
    · rw [hO] at hout
      refine ⟨false, t, read_next_end t fuel (by omega) (Or.inr (yields_nil hout)), Or.inl
        ⟨rfl, Or.inr (yields_nil hout), ?_⟩⟩
      intro j hj
      rw [hO] at hj
      exact absurd hj.2 (List.not_mem_nil _)
    obtain ⟨x, xs, hIx⟩ := List.exists_cons_of_ne_nil hI
    obtain ⟨y, ys, hOy⟩ := List.exists_cons_of_ne_nil hO
    have hin0 := hin
    have hout0 := hout
    rw [hIx] at hin0
    rw [hOy] at hout0
    obtain ⟨i1, i2, -⟩ := yields_cons hin0
    obtain ⟨o1, o2, -⟩ := yields_cons hout0
    have hlenI : ins.length = xs.length + 1 := by rw [hIx]; rfl
    cases fuel with
    | zero => omega
    | succ f =>
      have hne : ¬ ((t.in_.is_end || t.out.is_end) = true) := by
        unfold txr_it.is_end
        rw [i1, o1]
        decide
      have hd : t.in_.deref = some x := by
        unfold txr_it.deref; rw [i1, i2]; rfl
      have hge : ∀ r ∈ ins, x.txid ≤ r.txid := by
        rw [hIx]
        rw [hIx] at hsi
        exact sorted_head_le hsi
      have hxtw : x ∈ ins.takeWhile (fun r => r.txid == x.txid) := by
        rw [hIx, List.takeWhile_cons]
        simp
      have hdwlen : (ins.dropWhile (fun r => r.txid == x.txid)).length ≤ xs.length := by
        rw [hIx, List.dropWhile_cons]
        simp only [beq_self_eq_true, if_true]
        exact (List.dropWhile_sublist _).length_le
      obtain ⟨in1, e1, y1⟩ := collect_yields x.txid ins t.in_ [] f hin (by omega)
      obtain ⟨out1, e2, y2⟩ := advance_out_yields x.txid outs t.out f hout (by omega)
      have eO := (List.takeWhile_append_dropWhile
        (fun r : txrecord => decide (r.txid < x.txid)) outs).symm
      have eI := (List.takeWhile_append_dropWhile
        (fun r : txrecord => r.txid == x.txid) ins).symm
      have tL : ∀ r ∈ outs.takeWhile (fun r => decide (r.txid < x.txid)),
          r.txid < x.txid := fun r hr => by simpa using List.mem_takeWhile_imp hr
      have tI : ∀ r ∈ ins.takeWhile (fun r => r.txid == x.txid), r.txid = x.txid :=
        fun r hr => by simpa using List.mem_takeWhile_imp hr
      rw [tx.read_next, if_neg hne, hd]
      simp only [e1, e2]
      rcases hdO : outs.dropWhile (fun r => decide (r.txid < x.txid)) with _ | ⟨o, os⟩
      · -- the outputs are exhausted
        rw [hdO] at y2 eO
        have he : out1.is_end = true := yields_nil y2
        rw [if_pos he]
        refine ⟨false, _, rfl, Or.inl ⟨rfl, Or.inr he, ?_⟩⟩
        intro j hj
        obtain ⟨r, hr, e⟩ := mem_ids_of.1 hj.1
        obtain ⟨r2, hr2, e2⟩ := mem_ids_of.1 hj.2
        rw [eO, List.append_nil] at hr2
        have := hge r hr
        have := tL r2 hr2
        omega
      · rw [hdO] at y2
        obtain ⟨p1, p2, -⟩ := yields_cons y2
        have he : ¬ out1.is_end = true := by
          unfold txr_it.is_end; rw [p1]; exact Bool.false_ne_true
        have hdo : out1.deref = some o := by
          unfold txr_it.deref; rw [p1, p2]; rfl
        have hso2 : SortedById (o :: os) := by
          rw [← hdO]
          exact List.Pairwise.sublist (List.dropWhile_sublist _) hso
        have hoge : x.txid ≤ o.txid := by
          have := dropWhile_lt_ge x.txid outs hso o (by rw [hdO]; exact List.mem_cons_self _ _)
          exact this
        have hlenO : (o :: os).length ≤ outs.length := by
          rw [← hdO]
          exact (List.dropWhile_sublist _).length_le
        rw [if_neg he, hdo]
        simp only
        by_cases hgt : o.txid > x.txid
        · -- a transaction without outputs: skip inputs and try again
          rw [if_pos hgt]
          obtain ⟨in2, txid2, e3, y3⟩ := skip_inputs_yields out1 o hdo
            (ins.dropWhile (fun r => r.txid == x.txid)) in1 x.txid f y1 (by omega)
          simp only [e3]
          have hlen2 : ((ins.dropWhile (fun r => r.txid == x.txid)).dropWhile
              (fun r => decide (r.txid < o.txid))).length ≤ xs.length :=
            le_trans (List.dropWhile_sublist _).length_le hdwlen
          have hs2 : SortedById ((ins.dropWhile (fun r => r.txid == x.txid)).dropWhile
              (fun r => decide (r.txid < o.txid))) :=
            List.Pairwise.sublist
              ((List.dropWhile_sublist _).trans (List.dropWhile_sublist _)) hsi
          obtain ⟨b, t1, r1, r2⟩ := ih
            ((ins.dropWhile (fun r => r.txid == x.txid)).dropWhile
              (fun r => decide (r.txid < o.txid))) (o :: os)
            { inputs := [] ++ (ins.takeWhile (fun r => r.txid == x.txid)).map
                (fun r => (r.addr, r.value)), outputs := [], txid := txid2, in_ := in2,
              out := out1 } f (by omega) y3 y2 hs2 hso2 (by simp at hlenO ⊢; omega)
          refine ⟨b, t1, r1, ?_⟩
          have eI2 := (List.takeWhile_append_dropWhile
            (fun r : txrecord => decide (r.txid < o.txid))
            (ins.dropWhile (fun r => r.txid == x.txid))).symm
          have hsplitI : ins = (ins.takeWhile (fun r => r.txid == x.txid)
              ++ (ins.dropWhile (fun r => r.txid == x.txid)).takeWhile
                (fun r => decide (r.txid < o.txid)))
              ++ (ins.dropWhile (fun r => r.txid == x.txid)).dropWhile
                (fun r => decide (r.txid < o.txid)) := by
            rw [List.append_assoc, ← eI2, ← eI]
          have hsplitO : outs = outs.takeWhile (fun r => decide (r.txid < x.txid))
              ++ (o :: os) := by
            rw [← hdO, ← eO]
          have q1 : ∀ r ∈ ins.takeWhile (fun r => r.txid == x.txid)
              ++ (ins.dropWhile (fun r => r.txid == x.txid)).takeWhile
                (fun r => decide (r.txid < o.txid)), r.txid < o.txid := by
            intro r hr
            rcases List.mem_append.1 hr with hr | hr
            · have := tI r hr; omega
            · simpa using List.mem_takeWhile_imp hr
          have q3 : ∀ r ∈ (ins.takeWhile (fun r => r.txid == x.txid)
              ++ (ins.dropWhile (fun r => r.txid == x.txid)).takeWhile
                (fun r => decide (r.txid < o.txid)))
              ++ (ins.dropWhile (fun r => r.txid == x.txid)).dropWhile
                (fun r => decide (r.txid < o.txid)), x.txid ≤ r.txid := by
            rw [← hsplitI]; exact hge
          have q4 : ∀ r ∈ o :: os, o.txid ≤ r.txid := sorted_head_le hso2
          have qp : ins.takeWhile (fun r => r.txid == x.txid)
              ++ (ins.dropWhile (fun r => r.txid == x.txid)).takeWhile
                (fun r => decide (r.txid < o.txid)) ≠ [] := by
            intro hnil
            have := (List.append_eq_nil.1 hnil).1
            rw [this] at hxtw
            exact absurd hxtw (List.not_mem_nil _)
          rcases r2 with ⟨rb, rf⟩ | ⟨rb, ins1, outs1, z1, z2, z3⟩
          · refine Or.inl ⟨rb, ?_⟩
            have := step_lift_false _ _ _ _ x.txid o.txid q1 tL q3 q4 t1 rf
            rw [← hsplitI, ← hsplitO] at this
            exact this
          · refine Or.inr ⟨rb, ins1, outs1, z1, z2, ?_⟩
            have := step_lift_true _ _ _ _ x.txid o.txid hgt q1 tL q3 q4 qp t1 ins1 outs1 z3
            rw [← hsplitI, ← hsplitO] at this
            exact this
        · -- the outputs of the transaction are there
          rw [if_neg hgt]
          have hoeq : o.txid = x.txid := by omega
          obtain ⟨out2, e4, y4⟩ := collect_yields x.txid (o :: os) out1 [] f y2 (by omega)
          simp only [e4]
          refine ⟨true, _, rfl, Or.inr ⟨rfl, _, _, y1, y4, ?_⟩⟩
          exact step_true_here ins outs x o os _ hxtw hsi hso hge hdO hoeq rfl
            (by simp) (by simp)

theorem calls_false (t : tx) (fuel : Nat) (hf : 0 < fuel)
    (h : t.in_.is_end_ = true ∨ t.out.is_end_ = true) :
    ∀ n, tx.calls fuel n t = Ended.returned (List.replicate n none) := by
  intro n
  induction n with
  | zero => rfl
  | succ n ih =>
    rw [tx.calls, read_next_end t fuel hf h]
    simp only [ih]
    rfl

/-- Successive calls of `tx::read_next` on two sorted streams. -/
theorem calls_join : ∀ (k : Nat) (ins outs : List txrecord) (t : tx) (fuel : Nat),
    ins.length ≤ k → Yields t.in_ ins → Yields t.out outs → SortedById ins →
    SortedById outs → ins.length + outs.length + 2 ≤ fuel →
    ∃ ids : List Nat, List.Pairwise (fun a b : Nat => a < b) ids
      ∧ (∀ j, j ∈ ids ↔ j ∈ ids_of ins ∧ j ∈ ids_of outs)
      ∧ ∀ n, tx.calls fuel n t = Ended.returned
          ((ids.map (fun id => some (id, tx.vector_compress (records_of id ins),
              tx.vector_compress (records_of id outs)))).take n
            ++ List.replicate (n - ids.length) none) := by
  intro k
  induction k with
  | zero =>
    intro ins outs t fuel hk hin hout hsi hso hf
    have hnil : ins = [] := List.length_eq_zero.1 (by omega)
    rw [hnil] at hin
    refine ⟨[], List.Pairwise.nil, ?_, ?_⟩
    · intro j
      rw [hnil]
      simp [ids_of]
    · intro n
      rw [calls_false t fuel (by omega) (Or.inl (yields_nil hin)) n]
      simp
  | succ k ih =>
    intro ins outs t fuel hk hin hout hsi hso hf
    obtain ⟨b, t1, r1, r2⟩ := read_next_step ins.length ins outs t fuel (le_refl _) hin hout
      hsi hso hf
    rcases r2 with ⟨rb, rf⟩ | ⟨rb, ins1, outs1, z1, z2, z3⟩
    · refine ⟨[], List.Pairwise.nil, ?_, ?_⟩
      · intro j
        constructor
        · intro hj; exact absurd hj (List.not_mem_nil _)
        · intro hj; exact absurd hj (rf.2 j)
      · intro n
        cases n with
        | zero => rfl
        | succ n =>
          rw [tx.calls, r1]
          simp only [calls_false t1 fuel (by omega) rf.1 n, rb]
          simp [List.replicate_succ]
    · obtain ⟨a1, a2, a3, a4, a5, a6, a7, preI, preO, b1, b2, b3, b4, b5⟩ := z3
      have hlI : ins.length = preI.length + ins1.length := by rw [b1, List.length_append]
      have hlO : outs.length = preO.length + outs1.length := by rw [b2, List.length_append]
      have hp : 0 < preI.length := List.length_pos.2 b3
      have hs1 : SortedById ins1 := by
        unfold SortedById at hsi ⊢
        rw [b1] at hsi
        exact (List.pairwise_append.1 hsi).2.1
      have hs2 : SortedById outs1 := by
        unfold SortedById at hso ⊢
        rw [b2] at hso
        exact (List.pairwise_append.1 hso).2.1
      obtain ⟨ids1, c1, c2, c3⟩ := ih ins1 outs1 t1 fuel (by omega) z1 z2 hs1 hs2 (by omega)
      have hgt : ∀ j ∈ ids1, t1.txid < j := by
        intro j hj
        obtain ⟨r, hr, e⟩ := mem_ids_of.1 ((c2 j).1 hj).1
        rw [← e]; exact a6 r hr
      refine ⟨t1.txid :: ids1, List.pairwise_cons.2 ⟨hgt, c1⟩, ?_, ?_⟩
      · intro j
        rw [List.mem_cons, c2 j]
        constructor
        · rintro (h | ⟨h1, h2⟩)
          · rw [h]; exact ⟨a3, a4⟩
          · rw [b1, b2, ids_of_append, ids_of_append]
            exact ⟨List.mem_append_right _ h1, List.mem_append_right _ h2⟩
        · rintro ⟨h1, h2⟩
          by_cases hj : j = t1.txid
          · exact Or.inl hj
          · right
            have hjgt : t1.txid < j := by
              rcases Nat.lt_or_gt_of_ne hj with h | h
              · exact absurd ⟨h1, h2⟩ (a5 j h)
              · exact h
            rw [b1, ids_of_append, List.mem_append] at h1
            rw [b2, ids_of_append, List.mem_append] at h2
            constructor
            · rcases h1 with h1 | h1
              · obtain ⟨r, hr, e⟩ := mem_ids_of.1 h1
                have := b4 r hr
                omega
              · exact h1
            · rcases h2 with h2 | h2
              · obtain ⟨r, hr, e⟩ := mem_ids_of.1 h2
                have := b5 r hr
                omega
              · exact h2
      · intro n
        cases n with
        | zero => simp [tx.calls]
        | succ n =>
          rw [tx.calls, r1]
          simp only [c3 n, rb, if_true]
          have hmap : ids1.map (fun id => some (id, tx.vector_compress (records_of id ins1),
              tx.vector_compress (records_of id outs1)))
              = ids1.map (fun id => some (id, tx.vector_compress (records_of id ins),
              tx.vector_compress (records_of id outs))) := by
            apply List.map_congr_left
            intro j hj
            have hjgt := hgt j hj
            rw [b1, b2, records_of_append, records_of_append,
              records_of_none j preI (fun r hr => by have := b4 r hr; omega),
              records_of_none j preO (fun r hr => by have := b5 r hr; omega)]
            rfl
          rw [List.map_cons, ← a1, ← a2, hmap]
          simp

theorem atField_layout {r : read_table} {f : Option (List Nat)} {txt suf : List Nat}
    (ha : AtField r f (txt ++ suf)) (hne : txt ≠ []) : Layout r [] txt suf := by
  obtain ⟨_, _, _, _, hlen, _, hd⟩ := ha
  refine ⟨hlen, ?_, by simpa using hd, fun c hc => absurd hc (List.not_mem_nil _)⟩
  by_contra hlt
  rw [List.drop_of_length_le (by omega)] at hd
  have := congrArg List.length hd
  have : 0 < txt.length := List.length_pos.2 hne
  simp at *
  omega

theorem decimalText_ne_nil (n : Int) : decimalText n ≠ [] := by
  obtain ⟨c, t, h, _⟩ := decimalText_head n
  rw [h]; exact List.cons_ne_nil _ _

/-- The reader after a number that a tab and a further field follow. -/
theorem afterField_tab (r : read_table) (f : Option (List Nat)) (txt rest : List Nat)
    (hrest : ∃ c t, rest = c :: t ∧ is_blank c = false) (hne : txt ≠ [])
    (ha : AtField r f (txt ++ 9 :: rest)) :
    AtField (afterField r [] txt (9 :: rest)) f rest := by
  have hlay := atField_layout ha hne
  obtain ⟨h1, h2, h3, h4, h5, h6, h7⟩ := ha
  have ht : (9 :: rest).takeWhile is_blank = [9] := by
    obtain ⟨c, t, e, hc⟩ := hrest
    rw [e, List.takeWhile_cons, if_pos (by decide), List.takeWhile_cons, hc]; rfl
  refine ⟨h1, h2, h3, ?_, h5, h6, ?_⟩
  · show ¬ blocking T_OK
    unfold blocking; simp
  · show r.buf.drop (r.pos + ([] : List Nat).length + txt.length
        + ((9 :: rest).takeWhile is_blank).length
        + (if r.delim ≠ 0 ∧ ((9 :: rest).dropWhile is_blank).head? = some r.delim
            then 1 else 0)) = rest
    rw [ht, if_neg (fun h => h.1 h2)]
    have : r.pos + ([] : List Nat).length + txt.length + [9].length + 0
        = r.pos + (txt.length + 1) := by simp; omega
    rw [this, ← List.drop_drop, h7]
    have e : txt ++ 9 :: rest = (txt ++ [9]) ++ rest := by simp
    rw [e]
    have e2 : txt.length + 1 = (txt ++ [9]).length := by simp
    rw [e2, List.drop_left]

theorem atField_start (r : read_table) (f : Option (List Nat)) (txt : List Nat)
    (ha : AtField r f txt) (n : Int) :
    ∀ c, (decimalText n).head? = some c → StartsField r c :=
  fun _ _ => ⟨Or.inl ha.2.2.1, Or.inl ha.2.1⟩

theorem separated_tab (r : read_table) (rest : List Nat) (hd : r.delim = 0) :
    Separated r (9 :: rest) := by
  refine Or.inr (Or.inr (Or.inl ⟨hd, ?_⟩))
  rw [List.takeWhile_cons, if_pos (by decide)]
  exact List.cons_ne_nil _ _

theorem separated_newline (r : read_table) : Separated r [10] :=
  Or.inr (Or.inl (by decide))

/-- The three reads `txr_it` uses, on a decimal number that a tab or a newline
follows. -/
theorem reads_on_field (r : read_table) (f : Option (List Nat)) (n : Int) (suf : List Nat)
    (hsuf : (∃ rest, suf = 9 :: rest) ∨ suf = [10])
    (ha : AtField r f (decimalText n ++ suf)) :
    (INT64_MIN ≤ n → n ≤ INT64_MAX → ∀ i, read_table2.read_int64 r i
        = (true, afterField r [] (decimalText n) suf, n))
    ∧ (-1 ≤ n → n ≤ INT32_MAX → ∀ i, read_table2.read_int32_limits r i (-1) INT32_MAX
        = (true, afterField r [] (decimalText n) suf, n))
    ∧ (∀ m : Nat, n = m → m ≤ UINT32_MAX → ∀ i, read_table2.read_uint32 r i
        = (true, afterField r [] (decimalText n) suf, m)) := by
  have hlay := atField_layout ha (decimalText_ne_nil n)
  have hstart := atField_start r f _ ha n
  obtain ⟨h1, h2, h3, h4, h5, h6, h7⟩ := ha
  have hsep : Separated r suf := by
    rcases hsuf with ⟨rest, e⟩ | e
    · rw [e]; exact separated_tab r rest h2
    · rw [e]; exact separated_newline r
  have hnd : ∀ c, suf.head? = some c → ¬ isDigit c := by
    intro c hc
    rcases hsuf with ⟨rest, e⟩ | e
    · rw [e] at hc
      have : c = 9 := (Option.some.inj hc).symm
      rw [this]; unfold isDigit; omega
    · rw [e] at hc
      have : c = 10 := (Option.some.inj hc).symm
      rw [this]; unfold isDigit; omega
  have hnl : r.delim ≠ 10 := by rw [h2]; decide
  have hcd : r.delim ≠ 0 → (suf.dropWhile is_blank).head? = some r.delim →
      r.comment ≠ r.delim := fun h _ => absurd h2 h
  refine ⟨?_, ?_, ?_⟩
  · intro a b i
    unfold read_table2.read_int64 read_table_int64
    rw [int64_in_range r [] suf n h1 h4 hlay hsep hstart hnd hnl hcd i INT64_MIN INT64_MAX
      (le_refl _) (le_refl _) a b]
    rfl
  · intro a b i
    unfold read_table2.read_int32_limits
    rw [int32_in_range r [] suf n h1 h4 hlay hsep hstart hnd hnl hcd i (-1) INT32_MAX
      (by unfold INT32_MIN; norm_num) (le_refl _) a b]
    rfl
  · intro m hm b i
    unfold read_table2.read_uint32 read_table_uint32
    have hlay2 : Layout r [] (decimalText (m : Int)) suf := by rw [← hm]; exact hlay
    have hstart2 : ∀ c, (decimalText (m : Int)).head? = some c → StartsField r c := by
      rw [← hm]; exact hstart
    rw [uint32_in_range r [] suf m h1 h4 hlay2 hsep hstart2 hnd hnl hcd i 0 UINT32_MAX
      (le_refl _) (Nat.zero_le _) b, hm]
    rfl

theorem splitLine_line : ∀ (body rest : List Nat), (∀ b ∈ body, b ≠ 10) →
    splitLine (body ++ 10 :: rest) = (body ++ [10], rest) := by
  intro body
  induction body with
  | nil => intro rest _; rfl
  | cons b bs ih =>
    intro rest h
    have hb : b ≠ 10 := h b (List.mem_cons_self _ _)
    show splitLine (b :: (bs ++ 10 :: rest)) = _
    rw [splitLine, if_neg hb, ih rest (fun x hx => h x (List.mem_cons_of_mem _ hx))]
    rfl

/-- The call `read_line()` on a stream whose next line starts with a byte that
is no blank: the line is loaded and the cursor is at its start. -/
theorem read_line_record (r : read_table) (c : Nat) (t rest : List Nat)
    (hcb : is_blank c = false) (h10 : ∀ b ∈ c :: t, b ≠ 10)
    (h1 : r.base = 10) (h2 : r.delim = 0) (h3 : r.comment = 0)
    (herr : ¬ (r.last_error = T_EOF ∨ r.last_error = T_COPIED ∨ r.last_error = T_ERROR_FOPEN))
    (hf : r.f = some (c :: t ++ 10 :: rest)) :
    ∃ r1, read_table2.read_line r true = (true, r1)
      ∧ AtField r1 (some rest) (c :: t ++ [10]) := by
  have hsp : splitLine (c :: (t ++ 10 :: rest)) = (c :: t ++ [10], rest) :=
    splitLine_line (c :: t) rest h10
  have hloop : ∀ n, line_skip_loop true (n + 1) r (c :: t ++ 10 :: rest)
      = (0, line_loaded r (c :: t ++ [10]) rest) := by
    intro n
    have hsc : ∀ r1 : read_table, r1.buf = c :: t ++ [10] → r1.line_len = r1.buf.length →
        r1.pos = 0 → scan (fun c => !is_blank c) r1 r1.pos = 0 := by
      intro r1 hb hl hp
      have := scan_blanks r1 [] (c :: t ++ [10]) hl (by rw [hp, hb]; rfl)
        (fun x hx => absurd hx (List.not_mem_nil _))
        (fun x hx => by
          have : x = c := (Option.some.inj hx).symm
          rw [this]; exact hcb)
      rw [this, hp]; rfl
    show line_skip_loop true (n + 1) r (c :: (t ++ 10 :: rest)) = _
    rw [line_skip_loop]
    simp only [getline]
    rw [hsp]
    simp only [if_true]
    rw [hsc _ rfl rfl rfl]
    simp [line_loaded, h3]
  refine ⟨line_loaded r (c :: t ++ [10]) rest, ?_, ?_⟩
  · unfold read_table2.read_line
    rw [if_pos rfl]
    unfold read_table_line_skip
    rw [if_neg herr, hf]
    simp only [hloop]
    rfl
  · refine ⟨h1, h2, h3, ?_, rfl, rfl, rfl⟩
    show ¬ blocking T_OK
    unfold blocking; simp

theorem decimalText_bytes (n : Int) : ∀ c ∈ decimalText n, c = 45 ∨ isDigit c := by
  obtain ⟨h1, _, _⟩ := natText_spec n.natAbs
  intro c hc
  unfold decimalText at hc
  by_cases h : n < 0
  · rw [if_pos h] at hc
    rcases List.mem_cons.1 hc with hc | hc
    · exact Or.inl hc
    · exact Or.inr (h1 c hc)
  · rw [if_neg h] at hc
    exact Or.inr (h1 c hc)

theorem decimalText_no_newline (n : Int) : ∀ c ∈ decimalText n, c ≠ 10 := by
  intro c hc
  rcases decimalText_bytes n c hc with h | h
  · omega
  · unfold isDigit at h; omega

/-- A text that starts with a decimal number starts with a byte that is no
blank. -/
theorem decimalText_append_head (n : Int) (rest : List Nat) :
    ∃ c t, decimalText n ++ rest = c :: t ∧ is_blank c = false := by
  obtain ⟨c, t, h, hb, _⟩ := decimalText_head n
  exact ⟨c, t ++ rest, by rw [h]; rfl, hb⟩

theorem skipped_head (vs : List Int) (rest : List Nat)
    (hrest : ∃ c t, rest = c :: t ∧ is_blank c = false) :
    ∃ c1 t1, vs.flatMap (fun v => decimalText v ++ [9]) ++ rest = c1 :: t1
      ∧ is_blank c1 = false := by
  cases vs with
  | nil => exact hrest
  | cons v vs =>
    rw [List.flatMap_cons, List.append_assoc, List.append_assoc]
    exact decimalText_append_head v _

/-- The three reads `txr_it` uses on a decimal number that a tab and a further
field follow: each succeeds with the number, and leaves the cursor on the next
field. -/
theorem read_field_tab (r : read_table) (f : Option (List Nat)) (n : Int) (rest : List Nat)
    (hrest : ∃ c t, rest = c :: t ∧ is_blank c = false)
    (ha : AtField r f (decimalText n ++ 9 :: rest)) :
    ∃ r1, AtField r1 f rest
      ∧ (INT64_MIN ≤ n → n ≤ INT64_MAX → ∀ i, read_table2.read_int64 r i = (true, r1, n))
      ∧ (-1 ≤ n → n ≤ INT32_MAX → ∀ i,
          read_table2.read_int32_limits r i (-1) INT32_MAX = (true, r1, n))
      ∧ (∀ m : Nat, n = m → m ≤ UINT32_MAX → ∀ i,
          read_table2.read_uint32 r i = (true, r1, m)) :=
  ⟨afterField r [] (decimalText n) (9 :: rest),
    afterField_tab r f (decimalText n) rest hrest (decimalText_ne_nil n) ha,
    reads_on_field r f n (9 :: rest) (Or.inl ⟨_, rfl⟩) ha⟩

/-- The read of the last number of a line: it succeeds and leaves a reader on
which `read_line` can go on. -/
theorem read_field_last (r : read_table) (f : Option (List Nat)) (n : Int)
    (ha : AtField r f (decimalText n ++ [10])) (h1 : INT64_MIN ≤ n) (h2 : n ≤ INT64_MAX) :
    ∃ r1, (r1.base = 10 ∧ r1.delim = 0 ∧ r1.comment = 0 ∧ r1.last_error = T_OK ∧ r1.f = f)
      ∧ ∀ i, read_table2.read_int64 r i = (true, r1, n) :=
  ⟨afterField r [] (decimalText n) [10],
    ⟨ha.1, ha.2.1, ha.2.2.1, rfl, ha.2.2.2.2.2.1⟩,
    (reads_on_field r f n [10] (Or.inr rfl) ha).1 h1 h2⟩

/-- The loop of `txr_it::read_next` that skips columns, on decimal numbers each
followed by a tab. -/
theorem skip_columns_fields (f : Option (List Nat)) (rest : List Nat)
    (hrest : ∃ c t, rest = c :: t ∧ is_blank c = false) : ∀ (vs : List Int) (r : read_table),
    (∀ v ∈ vs, INT64_MIN ≤ v ∧ v ≤ INT64_MAX) →
    AtField r f (vs.flatMap (fun v => decimalText v ++ [9]) ++ rest) →
    ∃ r1, txr_it.skip_columns vs.length r = (true, r1) ∧ AtField r1 f rest := by
  intro vs
  induction vs with
  | nil =>
    intro r _ ha
    exact ⟨r, rfl, ha⟩
  | cons v vs ih =>
    intro r hv ha
    have etxt : (v :: vs).flatMap (fun v => decimalText v ++ [9]) ++ rest
        = decimalText v ++ 9 :: (vs.flatMap (fun v => decimalText v ++ [9]) ++ rest) := by
      rw [List.flatMap_cons, List.append_assoc, List.append_assoc]
      rfl
    rw [etxt] at ha
    obtain ⟨r1, a1, hr, -, -⟩ := read_field_tab r f v _ (skipped_head vs rest hrest) ha
    obtain ⟨r2, e2, a2⟩ := ih r1 (fun w hw => hv w (List.mem_cons_of_mem _ hw)) a1
    refine ⟨r2, ?_, a2⟩
    show txr_it.skip_columns (vs.length + 1) r = _
    rw [txr_it.skip_columns, hr (hv v (List.mem_cons_self _ _)).1
      (hv v (List.mem_cons_self _ _)).2 0]
    simp only [Bool.not_true, Bool.false_eq_true, if_false]
    exact e2

theorem record_line_body (x : txrecord × List Int) :
    ∃ c t, record_line x = c :: t ++ [10] ∧ is_blank c = false ∧ ∀ b ∈ c :: t, b ≠ 10 := by
  obtain ⟨c, t, h, hb, _⟩ := decimalText_head x.1.txid
  refine ⟨c, t ++ 9 :: (x.2.flatMap (fun v => decimalText v ++ [9])
    ++ (decimalText x.1.addr ++ 9 :: decimalText x.1.value)), ?_, hb, ?_⟩
  · unfold record_line
    rw [h]
    simp
  · intro b hb2
    have hmem : b ∈ decimalText x.1.txid ++ 9 :: (x.2.flatMap (fun v => decimalText v ++ [9])
        ++ (decimalText x.1.addr ++ 9 :: decimalText x.1.value)) := by
      rw [h]; exact hb2
    rcases List.mem_append.1 hmem with h1 | h1
    · exact decimalText_no_newline _ b h1
    · rcases List.mem_cons.1 h1 with h1 | h1
      · omega
      · rcases List.mem_append.1 h1 with h1 | h1
        · obtain ⟨v, _, hv⟩ := List.mem_flatMap.1 h1
          rcases List.mem_append.1 hv with hv | hv
          · exact decimalText_no_newline _ b hv
          · have : b = 9 := by simpa using hv
            omega
        · rcases List.mem_append.1 h1 with h1 | h1
          · exact decimalText_no_newline _ b h1
          · rcases List.mem_cons.1 h1 with h1 | h1
            · omega
            · exact decimalText_no_newline _ b h1

/-- One call of `txr_it::read_next` on a stream that starts with the line of a
valid record: it returns 0 and the record is stored. -/
theorem read_next_record (it : txr_it) (x : txrecord × List Int) (rest : List Nat)
    (hb : Between it.rt (record_line x ++ rest)) (hv : ValidRecord it.cskip.toNat x) :
    ∃ rt1, txr_it.read_next it = (0, { it with rt := rt1, r := x.1 }) ∧ Between rt1 rest := by
  obtain ⟨s1, s2, s3, s4, s5⟩ := hb
  obtain ⟨v1, v2, v3, v4, v5, v6, v7⟩ := hv
  obtain ⟨c, t, e, hcb, h10⟩ := record_line_body x
  have hf : it.rt.f = some (c :: t ++ 10 :: rest) := by
    rw [s5, e]; simp
  obtain ⟨rl, l1, l2⟩ := read_line_record it.rt c t rest hcb h10 s1 s2 s3 s4 hf
  rw [← e] at l2
  have hrv : ∃ c t, decimalText x.1.value ++ [10] = c :: t ∧ is_blank c = false :=
    decimalText_append_head _ _
  have hra : ∃ c t, decimalText x.1.addr ++ 9 :: (decimalText x.1.value ++ [10]) = c :: t
      ∧ is_blank c = false := decimalText_append_head _ _
  obtain ⟨ra, a1, -, -, r1⟩ := read_field_tab rl (some rest) (x.1.txid : Int) _
    (skipped_head x.2 _ hra) l2
  obtain ⟨rs, r2, a2⟩ := skip_columns_fields (some rest) _ hra x.2 ra v7 a1
  rw [v6] at r2
  obtain ⟨rb, a3, -, r3, -⟩ := read_field_tab rs (some rest) x.1.addr _ hrv a2
  obtain ⟨rc, a4, r4⟩ := read_field_last rb (some rest) x.1.value a3 v4 v5
  refine ⟨rc, ?_, ?_⟩
  · unfold txr_it.read_next
    simp only [l1, r1 x.1.txid rfl v1, r2, r3 v2 v3, r4, Bool.not_true, Bool.false_eq_true,
      if_false]
  · obtain ⟨b1, b2, b3, b4, b5⟩ := a4
    refine ⟨b1, b2, b3, ?_, b5⟩
    rw [b4]
    simp

/-- One call of `txr_it::read_next` on an exhausted stream: it returns 0 and the
iterator is at its end. -/
theorem read_next_eof (it : txr_it) (hb : Between it.rt []) :
    ∃ rt1, txr_it.read_next it = (0, { it with rt := rt1, is_end_ := true }) := by
  obtain ⟨s1, s2, s3, s4, s5⟩ := hb
  have hl : read_table_line_skip it.rt true
      = (1, { it.rt with f := some [], last_error := T_EOF, line_len := 0 }) := by
    unfold read_table_line_skip
    rw [if_neg s4, s5]
    rfl
  refine ⟨{ it.rt with f := some [], last_error := T_EOF, line_len := 0 }, ?_⟩
  unfold txr_it.read_next read_table2.read_line read_table2.get_last_error
  simp only [if_true, hl]
  simp

/-- A record iterator on a stream of lines of valid records, one call of
`operator++` away from the first: the increment succeeds and the iterator then
yields the records. -/
theorem incr_yields : ∀ (xs : List (txrecord × List Int)) (it : txr_it),
    Between it.rt (xs.flatMap record_line) → (∀ x ∈ xs, ValidRecord it.cskip.toNat x) →
    it.is_end_ = false →
    ∃ it1, it.incr = some it1 ∧ Yields it1 (xs.map Prod.fst) := by
  intro xs
  induction xs with
  | nil =>
    intro it hb _ _
    obtain ⟨rt1, e⟩ := read_next_eof it hb
    refine ⟨{ it with rt := rt1, is_end_ := true }, ?_, rfl⟩
    unfold txr_it.incr
    rw [e]
    rfl
  | cons x xs ih =>
    intro it hb hv he
    rw [List.flatMap_cons] at hb
    obtain ⟨rt1, e, hb1⟩ := read_next_record it x _ hb (hv x (List.mem_cons_self _ _))
    obtain ⟨it2, e2, y2⟩ := ih { it with rt := rt1, r := x.1 } hb1
      (fun y hy => hv y (List.mem_cons_of_mem _ hy)) he
    refine ⟨{ it with rt := rt1, r := x.1 }, ?_, he, rfl, ?_⟩
    · unfold txr_it.incr
      rw [e]
      rfl
    · rw [e2]
      exact y2

/-- The constructor of `txr_it` on a file that holds the lines of valid records
and no header: it returns, and the iterator yields the records. -/
theorem formatted_stream_yields (cskip : Nat) (xs : List (txrecord × List Int))
    (hv : ∀ x ∈ xs, ValidRecord cskip x) (fn : Option String) (lines_max : Nat)
    (r0 : txrecord) :
    ∃ it, txr_it.mk (some (xs.flatMap record_line)) cskip fn 0 lines_max r0 = some it
      ∧ Yields it (xs.map Prod.fst) := by
  unfold txr_it.mk
  apply incr_yields xs
  · refine ⟨rfl, rfl, rfl, ?_, rfl⟩
    show ¬ (T_OK = T_EOF ∨ T_OK = T_COPIED ∨ T_OK = T_ERROR_FOPEN)
    simp
  · exact hv
  · rfl

/-! ## The claims -/

/-- C1, counterexamples: three readers on which the text at the cursor is a
decimal number followed by a separator the claim allows, no error is pending,
and the 32-bit read does not do what the claim says.
(a) Comment marker `-`, line `"-5\n"`: the read fails with `T_EOL`.
(b) Delimiter `5`, line `"1257\n"` (the number 12, the delimiter, then 7): the
read succeeds and stores 1257.
(c) Delimiter and comment marker both `,`, line `"12,7\n"`: the read stores 12
but leaves the cursor on the delimiter, and the next read fails with `T_EOL`. -/
theorem C1_counterexample :
    (Layout (first_line "-5\n" 0 45 false) [] (decimalText (-5)) (bytes "\n")
      ∧ Separated (first_line "-5\n" 0 45 false) (bytes "\n")
      ∧ (first_line "-5\n" 0 45 false).last_error = T_OK
      ∧ (first_line "-5\n" 0 45 false).base = 10
      ∧ (read_table_int32 (first_line "-5\n" 0 45 false) 0).1 = 1
      ∧ (read_table_int32 (first_line "-5\n" 0 45 false) 0).2.1.last_error = T_EOL)
    ∧ (Layout (first_line "1257\n" 53 0 true) [] (decimalText 12) (bytes "57\n")
      ∧ Separated (first_line "1257\n" 53 0 true) (bytes "57\n")
      ∧ (first_line "1257\n" 53 0 true).last_error = T_OK
      ∧ (first_line "1257\n" 53 0 true).base = 10
      ∧ (read_table_int32 (first_line "1257\n" 53 0 true) 0).1 = 0
      ∧ (read_table_int32 (first_line "1257\n" 53 0 true) 0).2.2 = 1257)
    ∧ (Layout (first_line "12,7\n" 44 44 true) [] (decimalText 12) (bytes ",7\n")
      ∧ Separated (first_line "12,7\n" 44 44 true) (bytes ",7\n")
      ∧ (first_line "12,7\n" 44 44 true).last_error = T_OK
      ∧ (first_line "12,7\n" 44 44 true).base = 10
      ∧ (read_table_int32 (first_line "12,7\n" 44 44 true) 0).1 = 0
      ∧ (read_table_int32 (first_line "12,7\n" 44 44 true) 0).2.2 = 12
      ∧ (read_table_int32 (first_line "12,7\n" 44 44 true) 0).2.1.pos = 2
      ∧ bufAt (first_line "12,7\n" 44 44 true) 2 = (first_line "12,7\n" 44 44 true).delim
      ∧ (read_table_int32 (read_table_int32 (first_line "12,7\n" 44 44 true) 0).2.1 0).1 = 1
      ∧ (read_table_int32 (read_table_int32 (first_line "12,7\n" 44 44 true) 0).2.1
          0).2.1.last_error = T_EOL) := by
  decide

/-- C1 (amended): base 10, no error pending that blocks field reads, and from
the cursor on the line holds optional spaces/tabs, the decimal text of `n`, and
then a separator (`Separated`: optional blanks before the end of the line or a
newline; or at least one blank in whitespace-run mode; or optional blanks and
the delimiter, for an explicit delimiter that is not a blank).  If moreover the
first byte of the number is neither the comment marker nor the delimiter, the
byte right after the number is not a decimal digit, and the delimiter that ends
the field is not also the comment marker (a delimiter is never a newline), then
every integer read whose bounds `mn ≤ n ≤ mx` lie in its type returns success,
stores `n`, and leaves the reader `afterField`: error `T_OK`, cursor past the
number, the blanks after it and the delimiter if one follows (on the newline or
the comment marker when the line ends there). -/
theorem C1_integer_in_range (r : read_table) (bl suf : List Nat) (n : Int)
    (hbase : r.base = 10) (herr : ¬ blocking r.last_error)
    (hlay : Layout r bl (decimalText n) suf) (hsep : Separated r suf)
    (hstart : ∀ c ∈ (decimalText n).head?, StartsField r c)
    (hsuf : ∀ c ∈ suf.head?, ¬ isDigit c) (hnl : r.delim ≠ 10)
    (hcd : r.delim ≠ 0 → (suf.dropWhile is_blank).head? = some r.delim →
      r.comment ≠ r.delim) :
    (∀ i mn mx, INT16_MIN ≤ mn → mx ≤ INT16_MAX → mn ≤ n → n ≤ mx →
        read_table_int16_limits r i mn mx = (0, afterField r bl (decimalText n) suf, n))
    ∧ (∀ i mn mx, INT32_MIN ≤ mn → mx ≤ INT32_MAX → mn ≤ n → n ≤ mx →
        read_table_int32_limits r i mn mx = (0, afterField r bl (decimalText n) suf, n))
    ∧ (∀ i mn mx, INT64_MIN ≤ mn → mx ≤ INT64_MAX → mn ≤ n → n ≤ mx →
        read_table_int64_limits r i mn mx = (0, afterField r bl (decimalText n) suf, n))
    ∧ (∀ (i mn mx : Nat), mx ≤ UINT16_MAX → (mn : Int) ≤ n → n ≤ mx →
        read_table_uint16_limits r i mn mx
          = (0, afterField r bl (decimalText n) suf, n.toNat))
    ∧ (∀ (i mn mx : Nat), mx ≤ UINT32_MAX → (mn : Int) ≤ n → n ≤ mx →
        read_table_uint32_limits r i mn mx
          = (0, afterField r bl (decimalText n) suf, n.toNat))
    ∧ (∀ (i mn mx : Nat), mx ≤ UINT64_MAX → (mn : Int) ≤ n → n ≤ mx →
        read_table_uint64_limits r i mn mx
          = (0, afterField r bl (decimalText n) suf, n.toNat))
    ∧ (afterField r bl (decimalText n) suf).last_error = T_OK
    ∧ r.pos + bl.length + (decimalText n).length ≤ (afterField r bl (decimalText n) suf).pos := by
  refine ⟨?_, ?_, ?_, ?_, ?_, ?_, rfl, ?_⟩
  · intro i mn mx a b c d
    exact int16_in_range r bl suf n hbase herr hlay hsep hstart hsuf hnl hcd i mn mx a b c d
  · intro i mn mx a b c d
    exact int32_in_range r bl suf n hbase herr hlay hsep hstart hsuf hnl hcd i mn mx a b c d
  · intro i mn mx a b c d
    exact int64_in_range r bl suf n hbase herr hlay hsep hstart hsuf hnl hcd i mn mx a b c d
  · intro i mn mx a b c
    obtain ⟨m, rfl⟩ := Int.eq_ofNat_of_zero_le (by omega : 0 ≤ n)
    exact uint16_in_range r bl suf m hbase herr hlay hsep hstart hsuf hnl hcd i mn mx a
      (by omega) (by omega)
  · intro i mn mx a b c
    obtain ⟨m, rfl⟩ := Int.eq_ofNat_of_zero_le (by omega : 0 ≤ n)
    exact uint32_in_range r bl suf m hbase herr hlay hsep hstart hsuf hnl hcd i mn mx a
      (by omega) (by omega)
  · intro i mn mx a b c
    obtain ⟨m, rfl⟩ := Int.eq_ofNat_of_zero_le (by omega : 0 ≤ n)
    exact uint64_in_range r bl suf m hbase herr hlay hsep hstart hsuf hnl hcd i mn mx a
      (by omega) (by omega)
  · show _ ≤ r.pos + bl.length + (decimalText n).length + _ + _
    omega

/-- C1, witness: the field `42` of the line `" 42 ,7\n"`, delimiter `,`, comment
marker `#`, read as a full-range `int32`. -/
theorem C1_witness :
    read_table_int32_limits (first_line " 42 ,7\n" 44 35 false) 0 INT32_MIN INT32_MAX
      = (0, afterField (first_line " 42 ,7\n" 44 35 false) [32] (decimalText 42) (bytes " ,7\n"),
          42) :=
  (C1_integer_in_range (first_line " 42 ,7\n" 44 35 false) [32] (bytes " ,7\n") 42
    (by decide) (by decide) (by decide) (by decide) (by decide) (by decide) (by decide)
    (by decide)).2.1 0 INT32_MIN INT32_MAX (by decide) (by decide) (by decide) (by decide)

/-- C2, counterexample: delimiter `5`, line `"1250\n"`: the first field is the
decimal text of 12, below the lower bound 100, but the 32-bit unsigned read with
bounds [100, 5000] converts through the delimiter and succeeds with 1250. -/
theorem C2_counterexample :
    Layout (first_line "1250\n" 53 0 true) [] (decimalText 12) (bytes "50\n")
    ∧ (bytes "50\n").head? = some (first_line "1250\n" 53 0 true).delim
    ∧ (read_table_string (first_line "1250\n" 53 0 true) (0, 0)).2.2 = (0, 2)
    ∧ (first_line "1250\n" 53 0 true).last_error = T_OK
    ∧ (read_table_uint32_limits (first_line "1250\n" 53 0 true) 0 100 5000).1 = 0
    ∧ (read_table_uint32_limits (first_line "1250\n" 53 0 true) 0 100 5000).2.1.last_error = T_OK
    ∧ (read_table_uint32_limits (first_line "1250\n" 53 0 true) 0 100 5000).2.2 = 1250 := by
  decide

/-- C2 (amended): base 10; the field at the cursor (after optional spaces/tabs;
its first byte is neither the comment marker nor the delimiter, and no error
that blocks field reads is pending) is the decimal text of `n`, of any
magnitude, and the byte after it is not a decimal digit.  Then every bounded
integer read with `mn ≤ mx` in its type fails with `T_OVERFLOW` and stores `mx`
when `mx < n`, and stores `mn` when `n < mn` (`n ≥ 0` for the unsigned reads);
the cursor stays on the first byte of the field. -/
theorem C2_integer_out_of_range (r : read_table) (bl suf : List Nat) (n : Int)
    (hbase : r.base = 10) (herr : ¬ blocking r.last_error)
    (hlay : Layout r bl (decimalText n) suf)
    (hstart : ∀ c ∈ (decimalText n).head?, StartsField r c)
    (hsuf : ∀ c ∈ suf.head?, ¬ isDigit c) :
    (∀ i mn mx, INT16_MIN ≤ mn → mn ≤ mx → mx ≤ INT16_MAX →
        (mx < n → read_table_int16_limits r i mn mx
            = (1, { r with pos := r.pos + bl.length, last_error := T_OVERFLOW }, mx))
        ∧ (n < mn → read_table_int16_limits r i mn mx
            = (1, { r with pos := r.pos + bl.length, last_error := T_OVERFLOW }, mn)))
    ∧ (∀ i mn mx, INT32_MIN ≤ mn → mn ≤ mx → mx ≤ INT32_MAX →
        (mx < n → read_table_int32_limits r i mn mx
            = (1, { r with pos := r.pos + bl.length, last_error := T_OVERFLOW }, mx))
        ∧ (n < mn → read_table_int32_limits r i mn mx
            = (1, { r with pos := r.pos + bl.length, last_error := T_OVERFLOW }, mn)))
    ∧ (∀ i mn mx, INT64_MIN ≤ mn → mn ≤ mx → mx ≤ INT64_MAX →
        (mx < n → read_table_int64_limits r i mn mx
            = (1, { r with pos := r.pos + bl.length, last_error := T_OVERFLOW }, mx))
        ∧ (n < mn → read_table_int64_limits r i mn mx
            = (1, { r with pos := r.pos + bl.length, last_error := T_OVERFLOW }, mn)))
    ∧ (∀ (i mn mx : Nat), 0 ≤ n → mn ≤ mx → mx ≤ UINT16_MAX →
        ((mx : Int) < n → read_table_uint16_limits r i mn mx
            = (1, { r with pos := r.pos + bl.length, last_error := T_OVERFLOW }, mx))
        ∧ (n < (mn : Int) → read_table_uint16_limits r i mn mx
            = (1, { r with pos := r.pos + bl.length, last_error := T_OVERFLOW }, mn)))
    ∧ (∀ (i mn mx : Nat), 0 ≤ n → mn ≤ mx → mx ≤ UINT32_MAX →
        ((mx : Int) < n → read_table_uint32_limits r i mn mx
            = (1, { r with pos := r.pos + bl.length, last_error := T_OVERFLOW }, mx))
        ∧ (n < (mn : Int) → read_table_uint32_limits r i mn mx
            = (1, { r with pos := r.pos + bl.length, last_error := T_OVERFLOW }, mn)))
    ∧ (∀ (i mn mx : Nat), 0 ≤ n → mn ≤ mx → mx ≤ UINT64_MAX →
        ((mx : Int) < n → read_table_uint64_limits r i mn mx
            = (1, { r with pos := r.pos + bl.length, last_error := T_OVERFLOW }, mx))
        ∧ (n < (mn : Int) → read_table_uint64_limits r i mn mx
            = (1, { r with pos := r.pos + bl.length, last_error := T_OVERFLOW }, mn))) := by
  refine ⟨?_, ?_, ?_, ?_, ?_, ?_⟩
  · intro i mn mx a b c
    exact int16_out_of_range r bl suf n hbase herr hlay hstart hsuf i mn mx a c b
  · intro i mn mx a b c
    exact int32_out_of_range r bl suf n hbase herr hlay hstart hsuf i mn mx a c b
  · intro i mn mx a b c
    exact int64_out_of_range r bl suf n hbase herr hlay hstart hsuf i mn mx a c b
  · intro i mn mx h0 b c
    obtain ⟨m, rfl⟩ := Int.eq_ofNat_of_zero_le h0
    have h := uint16_out_of_range r bl suf m hbase herr hlay hstart hsuf i mn mx c b
    exact ⟨fun hx => h.1 (by omega), fun hx => h.2 (by omega)⟩
  · intro i mn mx h0 b c
    obtain ⟨m, rfl⟩ := Int.eq_ofNat_of_zero_le h0
    have h := uint32_out_of_range r bl suf m hbase herr hlay hstart hsuf i mn mx c b
    exact ⟨fun hx => h.1 (by omega), fun hx => h.2 (by omega)⟩
  · intro i mn mx h0 b c
    obtain ⟨m, rfl⟩ := Int.eq_ofNat_of_zero_le h0
    have h := uint64_out_of_range r bl suf m hbase herr hlay hstart hsuf i mn mx c b
    exact ⟨fun hx => h.1 (by omega), fun hx => h.2 (by omega)⟩

/-- C2, witness: the field `99999999999999999999` (beyond 64 bits) read as an
`int64` with the full range as bounds, and as an `int16` with bounds [-5, 100]. -/
theorem C2_witness :
    read_table_int64_limits (first_line "99999999999999999999 1\n" 0 0 true) 0
        INT64_MIN INT64_MAX
      = (1, { first_line "99999999999999999999 1\n" 0 0 true with
              pos := 0, last_error := T_OVERFLOW }, INT64_MAX)
    ∧ read_table_int16_limits (first_line "99999999999999999999 1\n" 0 0 true) 0 (-5) 100
      = (1, { first_line "99999999999999999999 1\n" 0 0 true with
              pos := 0, last_error := T_OVERFLOW }, 100) :=
  ⟨((C2_integer_out_of_range (first_line "99999999999999999999 1\n" 0 0 true) []
      (bytes " 1\n") 99999999999999999999 (by decide) (by decide) (by decide) (by decide)
      (by decide)).2.2.1 0 INT64_MIN INT64_MAX (by decide) (by decide) (by decide)).1 (by decide),
   ((C2_integer_out_of_range (first_line "99999999999999999999 1\n" 0 0 true) []
      (bytes " 1\n") 99999999999999999999 (by decide) (by decide) (by decide) (by decide)
      (by decide)).1 0 (-5) 100 (by decide) (by decide) (by decide)).1 (by decide)⟩

/-- C3, counterexample: for the field `"-0"` the 32-bit unsigned read fails with
overflow and stores `0`, which is the wrapped (negated modulo `2^32`) value of
the text, the value `strtoul` returns for it. -/
theorem C3_counterexample :
    (read_table_uint32 (first_line "-0\n" 0 0 true) 7).1 = 1
    ∧ (read_table_uint32 (first_line "-0\n" 0 0 true) 7).2.1.last_error = T_OVERFLOW
    ∧ (read_table_uint32 (first_line "-0\n" 0 0 true) 7).2.2
        = to_unsigned 32 (strtoul (cstr (first_line "-0\n" 0 0 true))
            (first_line "-0\n" 0 0 true).base).1 := by
  decide

/-- C3 (amended): an unsigned read (16, 32 or 64 bits, any bounds) of a field
that starts, after the leading spaces/tabs, with `-` fails with `T_OVERFLOW`
whatever follows the `-`, leaves the cursor on the `-` and stores `0`; so the
output is never a wrapped non-zero value `2^w - m`, `0 < m < 2^w`. -/
theorem C3_unsigned_leading_minus (r : read_table) (bl rest : List Nat)
    (hlay : Layout r bl [45] rest) (hstart : StartsField r 45)
    (herr : ¬ blocking r.last_error) :
    (∀ i mn mx, read_table_uint16_limits r i mn mx
        = (1, { r with pos := r.pos + bl.length, last_error := T_OVERFLOW }, 0)
      ∧ ∀ m, 0 < m → m < 2 ^ 16 → (read_table_uint16_limits r i mn mx).2.2 ≠ 2 ^ 16 - m)
    ∧ (∀ i mn mx, read_table_uint32_limits r i mn mx
        = (1, { r with pos := r.pos + bl.length, last_error := T_OVERFLOW }, 0)
      ∧ ∀ m, 0 < m → m < 2 ^ 32 → (read_table_uint32_limits r i mn mx).2.2 ≠ 2 ^ 32 - m)
    ∧ (∀ i mn mx, read_table_uint64_limits r i mn mx
        = (1, { r with pos := r.pos + bl.length, last_error := T_OVERFLOW }, 0)
      ∧ ∀ m, 0 < m → m < 2 ^ 64 → (read_table_uint64_limits r i mn mx).2.2 ≠ 2 ^ 64 - m) := by
  refine ⟨?_, ?_, ?_⟩
  · intro i mn mx
    have h : read_table_uint16_limits r i mn mx
        = (1, { r with pos := r.pos + bl.length, last_error := T_OVERFLOW }, 0) := by
      simp only [read_table_uint16_limits, uint32_minus r bl rest hlay hstart herr]
      rfl
    refine ⟨h, ?_⟩
    intro m h1 h2; rw [h]; show (0 : Nat) ≠ _; omega
  · intro i mn mx
    have h := uint32_minus r bl rest hlay hstart herr i mn mx
    refine ⟨h, ?_⟩
    intro m h1 h2; rw [h]; show (0 : Nat) ≠ _; omega
  · intro i mn mx
    have h := uint64_minus r bl rest hlay hstart herr i mn mx
    refine ⟨h, ?_⟩
    intro m h1 h2; rw [h]; show (0 : Nat) ≠ _; omega

/-- C3, witness: the field `"-5"` of the line `" -5 7\n"` read as `uint32`. -/
theorem C3_witness :
    read_table_uint32_limits (first_line " -5 7\n" 0 0 false) 9 0 UINT32_MAX
      = (1, { first_line " -5 7\n" 0 0 false with pos := 1, last_error := T_OVERFLOW }, 0) :=
  ((C3_unsigned_leading_minus (first_line " -5 7\n" 0 0 false) [32] (bytes "5 7\n")
    (by decide) (by decide) (by decide)).2.1 9 0 UINT32_MAX).1

/-- C4: base 10, either delimiter mode; the field at the cursor (after optional
spaces/tabs; its first byte is neither the comment marker nor the delimiter, no
error that blocks field reads is pending) is the decimal text of a number `n`
within the bounds, immediately followed by a byte `c` that is no space, tab,
newline, comment marker, delimiter or further digit.  Then every integer read
returns failure with `T_FORMAT`, the cursor on `c`. -/
theorem C4_number_then_junk (r : read_table) (bl : List Nat) (n : Int) (c : Nat)
    (rest : List Nat) (hbase : r.base = 10) (herr : ¬ blocking r.last_error)
    (hlay : Layout r bl (decimalText n) (c :: rest))
    (hstart : ∀ c ∈ (decimalText n).head?, StartsField r c)
    (hc : is_blank c = false ∧ c ≠ 10 ∧ ¬ isDigit c) (hcs : StartsField r c) :
    (∀ i mn mx, INT16_MIN ≤ mn → mx ≤ INT16_MAX → mn ≤ n → n ≤ mx →
        read_table_int16_limits r i mn mx
          = (1, { r with pos := r.pos + bl.length + (decimalText n).length,
                         last_error := T_FORMAT }, n))
    ∧ (∀ i mn mx, INT32_MIN ≤ mn → mx ≤ INT32_MAX → mn ≤ n → n ≤ mx →
        read_table_int32_limits r i mn mx
          = (1, { r with pos := r.pos + bl.length + (decimalText n).length,
                         last_error := T_FORMAT }, n))
    ∧ (∀ i mn mx, INT64_MIN ≤ mn → mx ≤ INT64_MAX → mn ≤ n → n ≤ mx →
        read_table_int64_limits r i mn mx
          = (1, { r with pos := r.pos + bl.length + (decimalText n).length,
                         last_error := T_FORMAT }, n))
    ∧ (∀ (i mn mx : Nat), mx ≤ UINT16_MAX → (mn : Int) ≤ n → n ≤ mx →
        read_table_uint16_limits r i mn mx
          = (1, { r with pos := r.pos + bl.length + (decimalText n).length,
                         last_error := T_FORMAT }, n.toNat))
    ∧ (∀ (i mn mx : Nat), mx ≤ UINT32_MAX → (mn : Int) ≤ n → n ≤ mx →
        read_table_uint32_limits r i mn mx
          = (1, { r with pos := r.pos + bl.length + (decimalText n).length,
                         last_error := T_FORMAT }, n.toNat))
    ∧ (∀ (i mn mx : Nat), mx ≤ UINT64_MAX → (mn : Int) ≤ n → n ≤ mx →
        read_table_uint64_limits r i mn mx
          = (1, { r with pos := r.pos + bl.length + (decimalText n).length,
                         last_error := T_FORMAT }, n.toNat)) := by
  refine ⟨?_, ?_, ?_, ?_, ?_, ?_⟩
  · intro i mn mx a b d e
    exact int16_junk r bl n c rest hbase herr hlay hstart hc hcs i mn mx a b d e
  · intro i mn mx a b d e
    exact int32_junk r bl n c rest hbase herr hlay hstart hc hcs i mn mx a b d e
  · intro i mn mx a b d e
    exact int64_junk r bl n c rest hbase herr hlay hstart hc hcs i mn mx a b d e
  · intro i mn mx a b d
    obtain ⟨m, rfl⟩ := Int.eq_ofNat_of_zero_le (by omega : 0 ≤ n)
    exact uint16_junk r bl m c rest hbase herr hlay hstart hc hcs i mn mx a (by omega) (by omega)
  · intro i mn mx a b d
    obtain ⟨m, rfl⟩ := Int.eq_ofNat_of_zero_le (by omega : 0 ≤ n)
    exact uint32_junk r bl m c rest hbase herr hlay hstart hc hcs i mn mx a (by omega) (by omega)
  · intro i mn mx a b d
    obtain ⟨m, rfl⟩ := Int.eq_ofNat_of_zero_le (by omega : 0 ≤ n)
    exact uint64_junk r bl m c rest hbase herr hlay hstart hc hcs i mn mx a (by omega) (by omega)

/-- C4, witness: `"123abc"` followed by the delimiter `,`, and `"12abc"` in
whitespace-run mode. -/
theorem C4_witness :
    read_table_uint32_limits (first_line "123abc,5\n" 44 0 true) 0 0 UINT32_MAX
      = (1, { first_line "123abc,5\n" 44 0 true with pos := 3, last_error := T_FORMAT }, 123)
    ∧ read_table_int32_limits (first_line "12abc\n" 0 0 true) 0 INT32_MIN INT32_MAX
      = (1, { first_line "12abc\n" 0 0 true with pos := 2, last_error := T_FORMAT }, 12) :=
  ⟨(C4_number_then_junk (first_line "123abc,5\n" 44 0 true) [] 123 97 (bytes "bc,5\n")
      (by decide) (by decide) (by decide) (by decide) (by decide) (by decide)).2.2.2.2.1
      0 0 UINT32_MAX (by decide) (by decide) (by decide),
   (C4_number_then_junk (first_line "12abc\n" 0 0 true) [] 12 97 (bytes "bc\n")
      (by decide) (by decide) (by decide) (by decide) (by decide) (by decide)).2.1
      0 INT32_MIN INT32_MAX (by decide) (by decide) (by decide) (by decide)⟩

set_option maxRecDepth 100000 in
/-- C5: the spec's scenario, delimiter tab, stream `"10\t-1\t500\n20\t3\t7\n"`,
record (uint32, int32, int64).  The first line is loaded as the three decimal
texts joined by single tabs, the cursor at its start.  The sequence reader
returns failure with `T_FORMAT`: the post-check of the first field steps over
the tab as a blank, stops on `-` (offset 3) and finds no delimiter there; 10 is
stored and the other two arguments are untouched.  On the same line the string
read and the skip do end a field at the tab: three string reads return the views
`10`, `-1`, `500`, and a skip leaves the cursor at offset 3.  With `,` in the
place of the tab the record decodes to (10, -1, 500). -/
theorem C5_tab_scenario_fails :
    (first_line "10\t-1\t500\n20\t3\t7\n" 9 0 true).buf
        = joinWith 9 [decimalText 10, decimalText (-1), decimalText 500] ++ [10]
    ∧ (first_line "10\t-1\t500\n20\t3\t7\n" 9 0 true).pos = 0
    ∧ (read_table2.read env0 (first_line "10\t-1\t500\n20\t3\t7\n" 9 0 true)
        (Field.uint32 0) [Field.int32 0, Field.int64 0]).1 = false
    ∧ (read_table2.read env0 (first_line "10\t-1\t500\n20\t3\t7\n" 9 0 true)
        (Field.uint32 0) [Field.int32 0, Field.int64 0]).2.1.last_error = T_FORMAT
    ∧ (read_table2.read env0 (first_line "10\t-1\t500\n20\t3\t7\n" 9 0 true)
        (Field.uint32 0) [Field.int32 0, Field.int64 0]).2.1.pos = 3
    ∧ (read_table2.read env0 (first_line "10\t-1\t500\n20\t3\t7\n" 9 0 true)
        (Field.uint32 0) [Field.int32 0, Field.int64 0]).2.2
        = [Field.uint32 10, Field.int32 0, Field.int64 0]
    ∧ (read_table_uint32 (first_line "10\t-1\t500\n20\t3\t7\n" 9 0 true) 0).1 = 1
    ∧ (read_table_string (first_line "10\t-1\t500\n20\t3\t7\n" 9 0 true) (7, 7)).1 = 0
    ∧ (read_table_string (first_line "10\t-1\t500\n20\t3\t7\n" 9 0 true) (7, 7)).2.2 = (0, 2)
    ∧ (read_table_string (read_table_string
        (first_line "10\t-1\t500\n20\t3\t7\n" 9 0 true) (7, 7)).2.1 (7, 7)).1 = 0
    ∧ (read_table_string (read_table_string
        (first_line "10\t-1\t500\n20\t3\t7\n" 9 0 true) (7, 7)).2.1 (7, 7)).2.2 = (3, 2)
    ∧ (read_table_string (read_table_string (read_table_string
        (first_line "10\t-1\t500\n20\t3\t7\n" 9 0 true) (7, 7)).2.1 (7, 7)).2.1 (7, 7)).1 = 0
    ∧ (read_table_string (read_table_string (read_table_string
        (first_line "10\t-1\t500\n20\t3\t7\n" 9 0 true) (7, 7)).2.1 (7, 7)).2.1 (7, 7)).2.2
        = (6, 3)
    ∧ (read_table_skip (first_line "10\t-1\t500\n20\t3\t7\n" 9 0 true)).1 = 0
    ∧ (read_table_skip (first_line "10\t-1\t500\n20\t3\t7\n" 9 0 true)).2.pos = 3
    ∧ (read_table2.read env0 (first_line "10,-1,500\n20,3,7\n" 44 0 true)
        (Field.uint32 0) [Field.int32 0, Field.int64 0]).1 = true
    ∧ (read_table2.read env0 (first_line "10,-1,500\n20,3,7\n" 44 0 true)
        (Field.uint32 0) [Field.int32 0, Field.int64 0]).2.2
        = [Field.uint32 10, Field.int32 (-1), Field.int64 500] := by
  decide

/-- Delimited integers: base 10; an explicit delimiter that is not a space, a tab
or a newline and cannot occur in a decimal integer (no digit, no `-`); a comment
marker that is not the delimiter and not the first byte of one of the numbers.
When, from the cursor on, the line is made of the decimal texts of the numbers
of `items` joined by single delimiter bytes and then ends (end of line or
newline), and each argument is an integer overload whose bounds admit its
number, the sequence reader returns success and the arguments hold exactly those
numbers; the cursor is at the end of the last number and the error is `T_OK`. -/
theorem delimited_integers_decode (env : Env) (r : read_table) (items : List (Field × Int))
    (ending : List Nat) (hitems : items ≠ []) (hbase : r.base = 10)
    (herr : ¬ blocking r.last_error)
    (hlen : r.line_len = r.buf.length) (hpos : r.pos ≤ r.buf.length)
    (hd0 : r.delim ≠ 0) (hdl : is_blank r.delim = false ∧ r.delim ≠ 10)
    (hdig : ¬ isDigit r.delim ∧ r.delim ≠ 45) (hcm : r.comment = 0 ∨ r.comment ≠ r.delim)
    (hline : r.buf.drop r.pos
      = joinWith r.delim (items.map (fun x => decimalText x.2)) ++ ending)
    (hend : ending = [] ∨ ending.head? = some 10)
    (hall : ∀ x ∈ items, x.1.admits x.2 = true
      ∧ ∀ c ∈ (decimalText x.2).head?, (r.comment = 0 ∨ c ≠ r.comment)) :
    read_table_multiple env r (items.map Prod.fst)
      = (0, { r with
              pos := r.pos + (joinWith r.delim (items.map (fun x => decimalText x.2))).length,
              col := r.col + (items.length - 1), last_error := T_OK },
          items.map (fun x => x.1.store x.2))
    ∧ ∀ val vals, items.map Prod.fst = val :: vals →
        (read_table2.read env r val vals).1 = true
        ∧ (read_table2.read env r val vals).2.2 = items.map (fun x => x.1.store x.2) := by
  have h := multiple_delimited env items r ending hitems hbase herr hlen hpos hd0 hdl hdig.1
    hdig.2 hcm hline hend hall
  refine ⟨h, ?_⟩
  intro val vals hv
  unfold read_table2.read
  rw [← hv, h]
  exact ⟨rfl, rfl⟩

/-- The spec's scenario with `,` as delimiter: line 1 decodes to (10, -1, 500),
line 2 to (20, 3, 7), and the third `read_line` fails with `T_EOF`. -/
theorem delimited_integers_decode_comma :
    (read_table_multiple env0 comma_line1 [Field.uint32 0, Field.int32 0, Field.int64 0]).1 = 0
    ∧ (read_table_multiple env0 comma_line1 [Field.uint32 0, Field.int32 0, Field.int64 0]).2.2
        = [Field.uint32 10, Field.int32 (-1), Field.int64 500]
    ∧ (read_table_multiple env0 comma_line2 [Field.uint32 0, Field.int32 0, Field.int64 0]).1 = 0
    ∧ (read_table_multiple env0 comma_line2 [Field.uint32 0, Field.int32 0, Field.int64 0]).2.2
        = [Field.uint32 20, Field.int32 3, Field.int64 7]
    ∧ (read_table_line_skip (read_table_multiple env0 comma_line2
        [Field.uint32 0, Field.int32 0, Field.int64 0]).2.1 true).1 = 1
    ∧ (read_table_line_skip (read_table_multiple env0 comma_line2
        [Field.uint32 0, Field.int32 0, Field.int64 0]).2.1 true).2.last_error = T_EOF :=
  have h1 := (delimited_integers_decode env0 comma_line1
    [(Field.uint32 0, 10), (Field.int32 0, -1), (Field.int64 0, 500)] [10]
    (by decide) (by decide) (by decide) (by decide) (by decide) (by decide) (by decide)
    (by decide) (by decide) (by decide) (by decide) (by decide)).1
  have h2 := (delimited_integers_decode env0 comma_line2
    [(Field.uint32 0, 20), (Field.int32 0, 3), (Field.int64 0, 7)] [10]
    (by decide) (by decide) (by decide) (by decide) (by decide) (by decide) (by decide)
    (by decide) (by decide) (by decide) (by decide) (by decide)).1
  ⟨congrArg (fun t => t.1) h1, congrArg (fun t => t.2.2) h1,
   congrArg (fun t => t.1) h2, congrArg (fun t => t.2.2) h2, by decide, by decide⟩

/-- C6: with the delimiter set to a tab and `skip` on, `read_line` loads the line
`"\t\t\n"` with the cursor already past both tabs; the first string read returns
an empty string and sets `T_EOL`, and the second string read fails.  With `skip`
off the three string reads succeed with three empty strings. -/
theorem C6_tab_line_with_skip :
    (read_table_line_skip (reader_on "\t\t\n" 9 0) true).1 = 0
    ∧ (first_line "\t\t\n" 9 0 true).pos = 2
    ∧ (read_table_string (first_line "\t\t\n" 9 0 true) (7, 7)).1 = 0
    ∧ (read_table_string (first_line "\t\t\n" 9 0 true) (7, 7)).2.2 = (2, 0)
    ∧ (read_table_string (first_line "\t\t\n" 9 0 true) (7, 7)).2.1.last_error = T_EOL
    ∧ (read_table_string (read_table_string (first_line "\t\t\n" 9 0 true) (7, 7)).2.1 (7, 7)).1
        = 1
    ∧ (read_table_string (first_line "\t\t\n" 9 0 false) (7, 7)).1 = 0
    ∧ (read_table_string (first_line "\t\t\n" 9 0 false) (7, 7)).2.2 = (0, 0)
    ∧ (read_table_string (read_table_string (first_line "\t\t\n" 9 0 false) (7, 7)).2.1
        (7, 7)).1 = 0
    ∧ (read_table_string (read_table_string (first_line "\t\t\n" 9 0 false) (7, 7)).2.1
        (7, 7)).2.2 = (1, 0)
    ∧ (read_table_string (read_table_string (read_table_string
        (first_line "\t\t\n" 9 0 false) (7, 7)).2.1 (7, 7)).2.1 (7, 7)).1 = 0
    ∧ (read_table_string (read_table_string (read_table_string
        (first_line "\t\t\n" 9 0 false) (7, 7)).2.1 (7, 7)).2.1 (7, 7)).2.2 = (2, 0) := by
  decide

/-- C7: delimiter tab, line `"\t\t"`.  With the line loaded and the cursor on
its first byte, the delimiter (an empty first slot), the integer read fails with
`T_EOL`, not `T_MISSING`: the pre-check steps over the tabs as blanks before it
tests for the delimiter.  The same holds for the line without a newline and for
the line as `read_line` with `skip` on loads it.  On `"\t\t5\n"` the read even
succeeds: 5, the third field, is returned as the first.  The string read on
`"\t\t\n"` does take the tab for the delimiter (an empty string, the cursor
behind the first tab), and with `,` in the place of the tab the integer read
fails with `T_MISSING`. -/
theorem C7_tab_empty_slot :
    bufAt (first_line "\t\t\n" 9 0 false) (first_line "\t\t\n" 9 0 false).pos
        = (first_line "\t\t\n" 9 0 false).delim
    ∧ (read_table_int32 (first_line "\t\t\n" 9 0 false) 0).1 = 1
    ∧ (read_table_int32 (first_line "\t\t\n" 9 0 false) 0).2.1.last_error = T_EOL
    ∧ (read_table_int32 (first_line "\t\t" 9 0 false) 0).1 = 1
    ∧ (read_table_int32 (first_line "\t\t" 9 0 false) 0).2.1.last_error = T_EOL
    ∧ (read_table_int32 (first_line "\t\t\n" 9 0 true) 0).1 = 1
    ∧ (read_table_int32 (first_line "\t\t\n" 9 0 true) 0).2.1.last_error = T_EOL
    ∧ (read_table_int32 (first_line "\t\t5\n" 9 0 false) 0).1 = 0
    ∧ (read_table_int32 (first_line "\t\t5\n" 9 0 false) 0).2.2 = 5
    ∧ (read_table_int32 (first_line "\t\t5\n" 9 0 false) 0).2.1.col = 0
    ∧ (read_table_string (first_line "\t\t\n" 9 0 false) (7, 7)).1 = 0
    ∧ (read_table_string (first_line "\t\t\n" 9 0 false) (7, 7)).2.2 = (0, 0)
    ∧ (read_table_string (first_line "\t\t\n" 9 0 false) (7, 7)).2.1.pos = 1
    ∧ (read_table_int32 (first_line ",,\n" 44 0 false) 0).1 = 1
    ∧ (read_table_int32 (first_line ",,\n" 44 0 false) 0).2.1.last_error = T_MISSING := by
  decide

/-- Empty slots: for every explicit delimiter that is not a space, a tab, a
newline or the comment marker, when the next field is an empty slot (after
optional spaces/tabs the next byte is the delimiter) and no error that blocks
field reads is pending, every numeric read fails with `T_MISSING`, the cursor on
the delimiter; the 32-bit, 64-bit and floating-point reads leave the output
unchanged, the 16-bit reads store the indeterminate value of their local `i2`. -/
theorem empty_slot_missing (env : Env) (r : read_table) (bl rest : List Nat)
    (hlay : Layout r bl [r.delim] rest) (hd0 : r.delim ≠ 0)
    (hdl : is_blank r.delim = false ∧ r.delim ≠ 10)
    (hcm : r.comment = 0 ∨ r.comment ≠ r.delim) (herr : ¬ blocking r.last_error) :
    (∀ i2 mn mx, read_table_int16_limits r i2 mn mx
        = (1, { r with pos := r.pos + bl.length, last_error := T_MISSING }, to_signed 16 i2))
    ∧ (∀ i2 mn mx, read_table_uint16_limits r i2 mn mx
        = (1, { r with pos := r.pos + bl.length, last_error := T_MISSING },
            to_unsigned 16 i2))
    ∧ (∀ i mn mx, read_table_int32_limits r i mn mx
        = (1, { r with pos := r.pos + bl.length, last_error := T_MISSING }, i))
    ∧ (∀ i mn mx, read_table_uint32_limits r i mn mx
        = (1, { r with pos := r.pos + bl.length, last_error := T_MISSING }, i))
    ∧ (∀ i mn mx, read_table_int64_limits r i mn mx
        = (1, { r with pos := r.pos + bl.length, last_error := T_MISSING }, i))
    ∧ (∀ i mn mx, read_table_uint64_limits r i mn mx
        = (1, { r with pos := r.pos + bl.length, last_error := T_MISSING }, i))
    ∧ (∀ d, read_table_double env r d
        = (1, { r with pos := r.pos + bl.length, last_error := T_MISSING }, d))
    ∧ (∀ d mn mx, read_table_double_limits env r d mn mx
        = (1, { r with pos := r.pos + bl.length, last_error := T_MISSING }, d)) := by
  have hpc := pre_check_missing r bl rest hlay hd0 hdl hcm herr
  have h1 : (read_table_pre_check r).1 = 1 := by rw [hpc]
  have h2 : (read_table_pre_check r).2
      = { r with pos := r.pos + bl.length, last_error := T_MISSING } := by rw [hpc]
  refine ⟨?_, ?_, ?_, ?_, ?_, ?_, ?_, ?_⟩
  · intro i mn mx; rw [int16_of_pre_fail r i mn mx h1, h2]
  · intro i mn mx; rw [uint16_of_pre_fail r i mn mx h1, h2]
  · intro i mn mx; rw [int32_of_pre_fail r i mn mx h1, h2]
  · intro i mn mx; rw [uint32_of_pre_fail r i mn mx h1, h2]
  · intro i mn mx; rw [int64_of_pre_fail r i mn mx h1, h2]
  · intro i mn mx; rw [uint64_of_pre_fail r i mn mx h1, h2]
  · intro d; rw [double_of_pre_fail env r d h1, h2]
  · intro d mn mx; rw [double_limits_of_pre_fail env r d mn mx h1, h2]

/-- Delimiter `,`, line `",,\n"` read as an integer field. -/
theorem empty_slot_missing_comma :
    read_table_int32_limits (first_line ",,\n" 44 0 true) 0 INT32_MIN INT32_MAX
      = (1, { first_line ",,\n" 44 0 true with pos := 0, last_error := T_MISSING }, 0) :=
  (empty_slot_missing env0 (first_line ",,\n" 44 0 true) [] (bytes ",\n")
    (by decide) (by decide) (by decide) (by decide) (by decide)).2.2.1 0 INT32_MIN INT32_MAX

/-- C8, counterexample: with the comment marker set to a space, the cursor of
the line `" 5\n"` stands on a comment marker, yet the 32-bit read succeeds with
`5` instead of failing with end-of-line. -/
theorem C8_counterexample :
    (first_line " 5\n" 0 32 false).comment ≠ 0
    ∧ bufAt (first_line " 5\n" 0 32 false) (first_line " 5\n" 0 32 false).pos
        = (first_line " 5\n" 0 32 false).comment
    ∧ (first_line " 5\n" 0 32 false).last_error = T_OK
    ∧ (read_table_int32 (first_line " 5\n" 0 32 false) 0).1 = 0
    ∧ (read_table_int32 (first_line " 5\n" 0 32 false) 0).2.2 = 5
    ∧ (read_table_int32 (first_line " 5\n" 0 32 false) 0).2.1.last_error = T_OK := by
  decide

/-- C8 (amended): on a loaded line (no end-of-file, read or open error pending)
whose cursor has only spaces/tabs before the end of the line, a newline or a
comment marker that is not itself a space or tab, every numeric read fails with
`T_EOL`; on an exhausted stream `read_table_line_skip` fails with `T_EOF`
(unless the reader is invalidated or was never opened); `T_EOL`, `T_EOF` and
`T_FORMAT` are three different codes. -/
theorem C8_end_of_line_and_end_of_file (env : Env) (r : read_table) (bl rest : List Nat)
    (hlay : Layout r bl [] rest)
    (hend : rest = [] ∨ rest.head? = some 10
      ∨ (r.comment ≠ 0 ∧ is_blank r.comment = false ∧ rest.head? = some r.comment))
    (herr : r.last_error ≠ T_EOF ∧ r.last_error ≠ T_READ_ERROR ∧ r.last_error ≠ T_ERROR_FOPEN) :
    (∀ i mn mx, (read_table_int16_limits r i mn mx).1 = 1
        ∧ (read_table_int16_limits r i mn mx).2.1.last_error = T_EOL)
    ∧ (∀ i mn mx, (read_table_uint16_limits r i mn mx).1 = 1
        ∧ (read_table_uint16_limits r i mn mx).2.1.last_error = T_EOL)
    ∧ (∀ i mn mx, (read_table_int32_limits r i mn mx).1 = 1
        ∧ (read_table_int32_limits r i mn mx).2.1.last_error = T_EOL)
    ∧ (∀ i mn mx, (read_table_uint32_limits r i mn mx).1 = 1
        ∧ (read_table_uint32_limits r i mn mx).2.1.last_error = T_EOL)
    ∧ (∀ i mn mx, (read_table_int64_limits r i mn mx).1 = 1
        ∧ (read_table_int64_limits r i mn mx).2.1.last_error = T_EOL)
    ∧ (∀ i mn mx, (read_table_uint64_limits r i mn mx).1 = 1
        ∧ (read_table_uint64_limits r i mn mx).2.1.last_error = T_EOL)
    ∧ (∀ d, (read_table_double env r d).1 = 1
        ∧ (read_table_double env r d).2.1.last_error = T_EOL)
    ∧ (∀ d mn mx, (read_table_double_limits env r d mn mx).1 = 1
        ∧ (read_table_double_limits env r d mn mx).2.1.last_error = T_EOL)
    ∧ (∀ (q : read_table) (skip : Bool), q.f = some [] → q.last_error ≠ T_COPIED →
        q.last_error ≠ T_ERROR_FOPEN →
        (read_table_line_skip q skip).1 = 1 ∧ (read_table_line_skip q skip).2.last_error = T_EOF)
    ∧ T_EOL ≠ T_FORMAT ∧ T_EOF ≠ T_FORMAT ∧ T_EOL ≠ T_EOF := by
  obtain ⟨hlen, hpos, hd, hbl⟩ := hlay
  have hpc := pre_check_eol r bl rest hlen hpos (by simpa using hd) hbl hend herr
  refine ⟨?_, ?_, ?_, ?_, ?_, ?_, ?_, ?_, ?_, by decide, by decide, by decide⟩
  · intro i mn mx; rw [int16_of_pre_fail r i mn mx hpc.1]; exact ⟨rfl, hpc.2⟩
  · intro i mn mx; rw [uint16_of_pre_fail r i mn mx hpc.1]; exact ⟨rfl, hpc.2⟩
  · intro i mn mx; rw [int32_of_pre_fail r i mn mx hpc.1]; exact ⟨rfl, hpc.2⟩
  · intro i mn mx; rw [uint32_of_pre_fail r i mn mx hpc.1]; exact ⟨rfl, hpc.2⟩
  · intro i mn mx; rw [int64_of_pre_fail r i mn mx hpc.1]; exact ⟨rfl, hpc.2⟩
  · intro i mn mx; rw [uint64_of_pre_fail r i mn mx hpc.1]; exact ⟨rfl, hpc.2⟩
  · intro d; rw [double_of_pre_fail env r d hpc.1]; exact ⟨rfl, hpc.2⟩
  · intro d mn mx; rw [double_limits_of_pre_fail env r d mn mx hpc.1]; exact ⟨rfl, hpc.2⟩
  · intro q skip hf h1 h2; exact line_skip_eof q skip hf h1 h2

/-- C8, witness: the line `"7 \n"` after its only field was read, and the
exhausted stream behind it. -/
theorem C8_witness :
    (read_table_int32 (read_table_int32 (first_line "7 \n" 0 0 true) 0).2.1 0).1 = 1
    ∧ (read_table_int32 (read_table_int32 (first_line "7 \n" 0 0 true) 0).2.1 0).2.1.last_error
        = T_EOL
    ∧ (read_table_line_skip (read_table_int32 (first_line "7 \n" 0 0 true) 0).2.1 true).1 = 1
    ∧ (read_table_line_skip (read_table_int32 (first_line "7 \n" 0 0 true) 0).2.1
        true).2.last_error = T_EOF :=
  have h := C8_end_of_line_and_end_of_file env0
    (read_table_int32 (first_line "7 \n" 0 0 true) 0).2.1 [] [10]
    (by decide) (by decide) (by decide)
  ⟨(h.2.2.1 0 INT32_MIN INT32_MAX).1, (h.2.2.1 0 INT32_MIN INT32_MAX).2,
   (h.2.2.2.2.2.2.2.2.1 _ true (by decide) (by decide) (by decide)).1,
   (h.2.2.2.2.2.2.2.2.1 _ true (by decide) (by decide) (by decide)).2⟩

/-- C9: `read_table_multiple` (and `read_table2::read`) is the left-to-right
run of the single reads that stops at the first failure: it returns success
exactly when every read succeeds, then with the reader and values the reads
leave; when the reads of `done` succeed and the read of `val` fails, it returns
failure with the reader that read left, the values of `done` as decoded, and the
arguments after `val` unchanged. -/
theorem C9_multiple_is_sequence (env : Env) (r : read_table) (vals : List Field) :
    ((read_table_multiple env r vals).1 = 0 ↔ AllOk env r vals)
    ∧ (AllOk env r vals →
        read_table_multiple env r vals
          = (0, (run_reads env r vals).1, (run_reads env r vals).2))
    ∧ (∀ done val rest, vals = done ++ val :: rest → AllOk env r done →
        (read_table_next env (run_reads env r done).1 val).1 ≠ 0 →
        read_table_multiple env r vals
          = (1, (read_table_next env (run_reads env r done).1 val).2.1,
              (run_reads env r done).2
                ++ (read_table_next env (run_reads env r done).1 val).2.2 :: rest))
    ∧ (∀ val rest, vals = val :: rest →
        ((read_table2.read env r val rest).1 = true ↔ AllOk env r vals)
        ∧ (read_table2.read env r val rest).2 = (read_table_multiple env r vals).2) := by
  refine ⟨multiple_zero_iff env vals r, multiple_of_allOk env vals r, ?_, ?_⟩
  · intro done val rest hv hd hf
    rw [hv]; exact multiple_of_fail env val rest done r hd hf
  · intro val rest hv
    subst hv
    refine ⟨?_, rfl⟩
    rw [← multiple_zero_iff]
    simp [read_table2.read]

/-- C9, witness: on the line `"10 x 500\n"` the reads (uint32, int32, int64)
stop at the second field: the first value is decoded, the third is untouched. -/
theorem C9_witness :
    read_table_multiple env0 (first_line "10 x 500\n" 0 0 true)
        [Field.uint32 0, Field.int32 1, Field.int64 2]
      = (1, (read_table_next env0
              (run_reads env0 (first_line "10 x 500\n" 0 0 true) [Field.uint32 0]).1
              (Field.int32 1)).2.1,
          [Field.uint32 10, Field.int32 0, Field.int64 2]) :=
  (C9_multiple_is_sequence env0 (first_line "10 x 500\n" 0 0 true)
      [Field.uint32 0, Field.int32 1, Field.int64 2]).2.2.1
    [Field.uint32 0] (Field.int32 1) [Field.int64 2] rfl (by decide) (by decide)

/-- C10: with `skip` on, `read_table_line_skip` loads the blank line `" \n"`
instead of skipping to the data line `"5\n"`: the scan for data stops at the
newline, which it takes for data. -/
theorem C10_blank_line_is_loaded :
    (read_table_line_skip (reader_on " \n5\n" 0 0) true).1 = 0
    ∧ (read_table_line_skip (reader_on " \n5\n" 0 0) true).2.buf = bytes " \n"
    ∧ (read_table_line_skip (reader_on " \n5\n" 0 0) true).2.line = 1
    ∧ (read_table_line_skip (reader_on " \n5\n" 0 0) true).2.f = some (bytes "5\n")
    ∧ (read_table_line_skip (reader_on "\n5\n" 0 0) true).1 = 0
    ∧ (read_table_line_skip (reader_on "\n5\n" 0 0) true).2.buf = bytes "\n" := by
  decide

/-- C11: two readers whose error register holds a sticky error and on which a
field operation does not leave the reader as it was.  (a) Delimiter `,`, stream
`"5\n"`: after the line was read and the next `read_line` met the end of the
stream, the error is `T_EOF`, yet skip returns success, sets the error to `T_OK`
and increments the column; the integer read and the string read do fail there
and leave the reader untouched.  (b) The source of a copy construction holds
`T_COPIED`: an integer read returns failure but overwrites the error with
`T_EOL`, the string read returns success, and skip overwrites the error with
`T_EOL`. -/
theorem C11_skip_and_invalidated_source :
    ((reader_after_eof "5\n" 44).last_error = T_EOF
      ∧ (read_table_skip (reader_after_eof "5\n" 44)).1 = 0
      ∧ (read_table_skip (reader_after_eof "5\n" 44)).2.last_error = T_OK
      ∧ (read_table_skip (reader_after_eof "5\n" 44)).2.col
          = (reader_after_eof "5\n" 44).col + 1
      ∧ read_table_int32 (reader_after_eof "5\n" 44) 0 = (1, reader_after_eof "5\n" 44, 0)
      ∧ read_table_string (reader_after_eof "5\n" 44) (0, 0)
          = (1, reader_after_eof "5\n" 44, (0, 0)))
    ∧ (source_after_copy.last_error = T_COPIED
      ∧ (read_table_int32 source_after_copy 0).1 = 1
      ∧ (read_table_int32 source_after_copy 0).2.1.last_error = T_EOL
      ∧ (read_table_string source_after_copy (0, 0)).1 = 0
      ∧ (read_table_skip source_after_copy).2.last_error = T_EOL) := by
  decide

/-- C12: a reader that owns its stream (opened by name on `"1,2\n3,4\n"`,
delimiter `,`, first line loaded) is copy-constructed.  The source then holds
`T_COPIED` and no buffer, but it keeps the stream handle and the
`READ_TABLE_CLOSE_FILE` flag, and it does not stay invalidated: `read_line` is
refused at first, a string read returns success, an integer read fails and
overwrites `T_COPIED` with `T_EOL`, and after it `read_line` on the source
succeeds and takes the line `"3,4\n"` off the stream the copy reads from. -/
theorem C12_source_reads_again :
    source_after_copy.last_error = T_COPIED
    ∧ source_after_copy.buf = []
    ∧ source_after_copy.flags &&& READ_TABLE_CLOSE_FILE = READ_TABLE_CLOSE_FILE
    ∧ (read_table2.copy owner).1.flags &&& READ_TABLE_CLOSE_FILE = READ_TABLE_CLOSE_FILE
    ∧ source_after_copy.f = (read_table2.copy owner).1.f
    ∧ source_after_copy.f = some (bytes "3,4\n")
    ∧ (read_table2.read_line source_after_copy true).1 = false
    ∧ (read_table2.read_next env0 source_after_copy (Field.string [])).1 = true
    ∧ (read_table2.read_next env0 source_after_copy (Field.int32 0)).1 = false
    ∧ (read_table2.read_next env0 source_after_copy (Field.int32 0)).2.1.last_error = T_EOL
    ∧ (read_table2.read_line
        (read_table2.read_next env0 source_after_copy (Field.int32 0)).2.1 true).1 = true
    ∧ (read_table2.read_line
        (read_table2.read_next env0 source_after_copy (Field.int32 0)).2.1 true).2.buf
        = bytes "3,4\n"
    ∧ (read_table2.read_line
        (read_table2.read_next env0 source_after_copy (Field.int32 0)).2.1 true).2.f
        = some [] := by
  decide

/-- C13, counterexamples, with a `strtod` that follows ISO C on the special
spellings and the admit flag set.  (a) Delimiter `(`, line `"nan(1)x\n"`: the
field `nan` is followed by the delimiter, but `strtod` takes `nan(1)` and the
read fails with `T_FORMAT` on the `x`.  (b) Delimiter `I`, line
`"infInityabc\n"`: the field `inf` is followed by the delimiter, but `strtod`
takes `infInity` and the read fails with `T_FORMAT` on the `a`. -/
theorem C13_counterexample :
    IsoSpecials env_iso
    ∧ (Layout (first_line "nan(1)x\n" 40 0 true) [] (bytes "nan") (bytes "(1)x\n")
      ∧ Separated (first_line "nan(1)x\n" 40 0 true) (bytes "(1)x\n")
      ∧ (first_line "nan(1)x\n" 40 0 true).flags &&& READ_TABLE_ALLOW_NAN_INF ≠ 0
      ∧ (first_line "nan(1)x\n" 40 0 true).last_error = T_OK
      ∧ (read_table_double env_iso (first_line "nan(1)x\n" 40 0 true) (Dbl.fin 0)).1 = 1
      ∧ (read_table_double env_iso (first_line "nan(1)x\n" 40 0 true)
          (Dbl.fin 0)).2.1.last_error = T_FORMAT)
    ∧ (Layout (first_line "infInityabc\n" 73 0 true) [] (bytes "inf") (bytes "Inityabc\n")
      ∧ Separated (first_line "infInityabc\n" 73 0 true) (bytes "Inityabc\n")
      ∧ (first_line "infInityabc\n" 73 0 true).flags &&& READ_TABLE_ALLOW_NAN_INF ≠ 0
      ∧ (first_line "infInityabc\n" 73 0 true).last_error = T_OK
      ∧ (read_table_double env_iso (first_line "infInityabc\n" 73 0 true) (Dbl.fin 0)).1 = 1
      ∧ (read_table_double env_iso (first_line "infInityabc\n" 73 0 true)
          (Dbl.fin 0)).2.1.last_error = T_FORMAT) :=
  ⟨env_iso_follows, by decide, by decide⟩

/-- C13 (amended): with a `strtod` that follows ISO C on the special spellings,
a field (after optional spaces/tabs; its first byte is neither the comment
marker nor the delimiter, no error that blocks field reads is pending) whose
text is `nan`, respectively `inf`, followed by a separator that does not
continue the spelling (no parenthesised sequence after `nan`, no `inity` after
`inf`, which a delimiter or comment marker `(`, `i` or `I` can begin): when the
admit flag is set, as it is after initialisation, the unbounded read returns
success with the NaN, respectively the positive infinity; when the flag is
cleared it returns failure with `T_NAN` (value stored, cursor past the field).
Whenever the value `strtod` returns is finite, the read does the same whatever
the flags are. -/
theorem C13_nan_inf_and_the_flag (env : Env) (hiso : IsoSpecials env) (r : read_table)
    (bl suf txt : List Nat) (v : Dbl)
    (htxt : (txt = bytes "nan" ∧ v = Dbl.nan ∧ ¬ continuesNan suf)
      ∨ (txt = bytes "inf" ∧ v = Dbl.inf false ∧ ¬ continuesInf suf))
    (herr : ¬ blocking r.last_error) (hlay : Layout r bl txt suf) (hsep : Separated r suf)
    (hstart : ∀ c ∈ txt.head?, StartsField r c) (hnl : r.delim ≠ 10)
    (hcd : r.delim ≠ 0 → (suf.dropWhile is_blank).head? = some r.delim →
      r.comment ≠ r.delim) :
    (∀ d, r.flags &&& READ_TABLE_ALLOW_NAN_INF ≠ 0 →
        read_table_double env r d = (0, afterField r bl txt suf, v))
    ∧ (∀ d, r.flags &&& READ_TABLE_ALLOW_NAN_INF = 0 →
        read_table_double env r d
          = (1, { afterField r bl txt suf with last_error := T_NAN }, v))
    ∧ (∀ f_, (read_table_init f_).flags &&& READ_TABLE_ALLOW_NAN_INF ≠ 0)
    ∧ (∀ (q : read_table) (d : Dbl) (fl : Nat),
        _isnan (env.strtod (cstr (read_table_pre_check q).2)).1 = false →
        _isinf (env.strtod (cstr (read_table_pre_check q).2)).1 = false →
        read_table_double env { q with flags := fl } d
          = ((read_table_double env q d).1,
             { (read_table_double env q d).2.1 with flags := fl },
             (read_table_double env q d).2.2)) := by
  have hmain : ∀ d, read_table_double env r d
      = if r.flags &&& READ_TABLE_ALLOW_NAN_INF = 0 ∧ (_isnan v || _isinf v) = true
        then (1, { afterField r bl txt suf with last_error := T_NAN }, v)
        else (0, afterField r bl txt suf, v) := by
    intro d
    rcases htxt with ⟨h1, h2, h3⟩ | ⟨h1, h2, h3⟩
    · rw [bytes_nan] at h1
      subst h1
      have hcv : env.strtod ((110 :: [97, 110]) ++ suf.takeWhile (fun c => c != 0))
          = (v, (110 :: [97, 110]).length, Errno.E0) := by
        rw [h2]
        exact hiso _ _ (strtod_special_nan _ (fun h => h3 ((continuesNan_takeWhile suf).1 h)))
      exact double_on_text env r bl suf 110 [97, 110] v hcv (by decide) (by decide) herr hlay
        hsep (hstart 110 rfl) hnl hcd d
    · rw [bytes_inf] at h1
      subst h1
      have hcv : env.strtod ((105 :: [110, 102]) ++ suf.takeWhile (fun c => c != 0))
          = (v, (105 :: [110, 102]).length, Errno.E0) := by
        rw [h2]
        exact hiso _ _ (strtod_special_inf _
          (fun h => h3 ((startsCI_takeWhile _ (by decide) suf).1 h)))
      exact double_on_text env r bl suf 105 [110, 102] v hcv (by decide) (by decide) herr hlay
        hsep (hstart 105 rfl) hnl hcd d
  have hv : (_isnan v || _isinf v) = true := by
    rcases htxt with ⟨_, h2, _⟩ | ⟨_, h2, _⟩ <;> rw [h2] <;> rfl
  refine ⟨?_, ?_, ?_, ?_⟩
  · intro d hf
    rw [hmain d, if_neg (fun h => hf h.1)]
  · intro d hf
    rw [hmain d, if_pos ⟨hf, hv⟩]
  · intro f_
    show READ_TABLE_ALLOW_NAN_INF &&& READ_TABLE_ALLOW_NAN_INF ≠ 0
    decide
  · intro q d fl h1 h2
    exact double_flags env q d fl ⟨h1, h2⟩

/-- C13, witness: the field `nan` of `"nan 5\n"` (whitespace-run mode) with the
flag as initialised, and the field `inf` of `"inf,5\n"` (delimiter `,`) with the
flag cleared. -/
theorem C13_witness :
    read_table_double env_iso (first_line "nan 5\n" 0 0 true) (Dbl.fin 0)
      = (0, afterField (first_line "nan 5\n" 0 0 true) [] (bytes "nan") (bytes " 5\n"), Dbl.nan)
    ∧ read_table_double env_iso { first_line "inf,5\n" 44 0 true with flags := 0 } (Dbl.fin 0)
      = (1, { afterField { first_line "inf,5\n" 44 0 true with flags := 0 } [] (bytes "inf")
                (bytes ",5\n") with last_error := T_NAN }, Dbl.inf false) :=
  ⟨(C13_nan_inf_and_the_flag env_iso env_iso_follows (first_line "nan 5\n" 0 0 true) []
      (bytes " 5\n") (bytes "nan") Dbl.nan (Or.inl ⟨rfl, rfl, by decide⟩) (by decide)
      (by decide) (by decide) (by decide) (by decide) (by decide)).1 (Dbl.fin 0) (by decide),
   (C13_nan_inf_and_the_flag env_iso env_iso_follows
      { first_line "inf,5\n" 44 0 true with flags := 0 } []
      (bytes ",5\n") (bytes "inf") (Dbl.inf false) (Or.inr ⟨rfl, rfl, by decide⟩) (by decide)
      (by decide) (by decide) (by decide) (by decide) (by decide)).2.1 (Dbl.fin 0) (by decide)⟩

/-- C14, counterexample: delimiter `,`, line `"a,b\n"`: the string read of the
last field `b` returns success with the view `b` and sets the error to `T_EOL`,
and the string read after it fails. -/
theorem C14_counterexample :
    (read_table_string (read_table_string (first_line "a,b\n" 44 0 true) (0, 0)).2.1
        (0, 0)).1 = 0
    ∧ (read_table_string (read_table_string (first_line "a,b\n" 44 0 true) (0, 0)).2.1
        (0, 0)).2.2 = (2, 1)
    ∧ (read_table_string (read_table_string (first_line "a,b\n" 44 0 true) (0, 0)).2.1
        (0, 0)).2.1.last_error = T_EOL
    ∧ (read_table_string (read_table_string (read_table_string
        (first_line "a,b\n" 44 0 true) (0, 0)).2.1 (0, 0)).2.1 (0, 0)).1 = 1 := by
  decide

/-- Whitespace-run mode, line `"x1 y\n"`: an integer read fails with `T_FORMAT`,
the string read that follows returns success with `x1`, and the error still is
`T_FORMAT`. -/
theorem string_read_after_failed_read :
    (read_table_int32 (first_line "x1 y\n" 0 0 true) 0).2.1.last_error = T_FORMAT
    ∧ (read_table_string (read_table_int32 (first_line "x1 y\n" 0 0 true) 0).2.1
        (0, 0)).1 = 0
    ∧ (read_table_string (read_table_int32 (first_line "x1 y\n" 0 0 true) 0).2.1
        (0, 0)).2.2 = (0, 2)
    ∧ (read_table_string (read_table_int32 (first_line "x1 y\n" 0 0 true) 0).2.1
        (0, 0)).2.1.last_error = T_FORMAT := by
  decide

/-- C14 (amended): after every `read_line`, typed numeric read and skip that
returns success the error register holds `T_OK`.  A string read with an explicit
delimiter whose field ended the line (it returns success with the cursor where
the view ends, not behind a delimiter) sets the register to `T_EOL`.  After any
other string read that returns success on a reader whose register held `T_OK`,
the register holds `T_OK`. -/
theorem C14_error_after_success (env : Env) (r : read_table) :
    (∀ skip, (read_table2.read_line r skip).1 = true →
        (read_table2.read_line r skip).2.last_error = T_OK)
    ∧ (∀ val, val.isInteger = true ∨ val.isDouble = true ∨ val.isPair = true →
        (read_table_next env r val).1 = 0 → (read_table_next env r val).2.1.last_error = T_OK)
    ∧ ((read_table_skip r).1 = 0 → (read_table_skip r).2.last_error = T_OK)
    ∧ (∀ sl, (read_table_string r sl).1 = 0 →
        ((r.delim ≠ 0 ∧ (read_table_string r sl).2.1.pos
              = (read_table_string r sl).2.2.1 + (read_table_string r sl).2.2.2) →
            (read_table_string r sl).2.1.last_error = T_EOL)
        ∧ (r.last_error = T_OK →
            ¬ (r.delim ≠ 0 ∧ (read_table_string r sl).2.1.pos
              = (read_table_string r sl).2.2.1 + (read_table_string r sl).2.2.2) →
            (read_table_string r sl).2.1.last_error = T_OK)) := by
  refine ⟨?_, ?_, ?_, ?_⟩
  · intro skip h
    rw [read_line_eq] at h ⊢
    exact ((line_skip_spec r skip).2.2.2.2 (by simpa using h)).1
  · intro val hv h0
    exact next_numeric_ok env r val hv h0
  · intro h; exact ((skip_facts r).1 h).1
  · intro sl h
    obtain ⟨h1, h2⟩ := string_error r sl h
    refine ⟨?_, ?_⟩
    · rintro ⟨hd, hp⟩
      rcases h2 hd with ⟨hq, _⟩ | ⟨_, he⟩
      · omega
      · exact he
    · intro hok hn
      by_cases hd : r.delim = 0
      · rw [h1 hd, hok]
      · rcases h2 hd with ⟨_, he⟩ | ⟨hq, _⟩
        · rw [he, hok]
        · exact absurd ⟨hd, hq⟩ hn

/-- C14, witness: on the line `"7 8\n"` a successful `read_line`, integer read
and skip leave `T_OK`; on `"a,b\n"` the string read of `a` leaves `T_OK` and the
string read of `b`, the last field, sets `T_EOL`. -/
theorem C14_witness :
    (read_table2.read_line (reader_on "7 8\n" 0 0) true).2.last_error = T_OK
    ∧ (read_table_next env0 (first_line "7 8\n" 0 0 true) (Field.int32 0)).2.1.last_error = T_OK
    ∧ (read_table_skip (first_line "7 8\n" 0 0 true)).2.last_error = T_OK
    ∧ (read_table_string (first_line "a,b\n" 44 0 true) (0, 0)).2.1.last_error = T_OK
    ∧ (read_table_string (read_table_string (first_line "a,b\n" 44 0 true) (0, 0)).2.1
        (0, 0)).2.1.last_error = T_EOL :=
  ⟨(C14_error_after_success env0 (reader_on "7 8\n" 0 0)).1 true (by decide),
   (C14_error_after_success env0 (first_line "7 8\n" 0 0 true)).2.1 (Field.int32 0)
      (by decide) (by decide),
   (C14_error_after_success env0 (first_line "7 8\n" 0 0 true)).2.2.1 (by decide),
   ((C14_error_after_success env0 (first_line "a,b\n" 44 0 true)).2.2.2 (0, 0)
      (by decide)).2 (by decide) (by decide),
   ((C14_error_after_success env0
      (read_table_string (first_line "a,b\n" 44 0 true) (0, 0)).2.1).2.2.2 (0, 0)
      (by decide)).1 (by decide)⟩

/-- C15, counterexamples.  (a) Line `"5\n"`: the integer read of its only, last
field returns success and the column stays 0.  (b) Line `"ab cd\n"`: the string
read of `ab` returns success and the column stays 0.  (c) Line `"nan 5\n"`, admit
flag cleared, a `strtod` that follows ISO C on `nan`: the unbounded
floating-point read returns failure with `T_NAN` and the column is 1; so does
the bounded read with the flag set. -/
theorem C15_counterexample :
    ((first_line "5\n" 0 0 true).col = 0
      ∧ (read_table_int32 (first_line "5\n" 0 0 true) 0).1 = 0
      ∧ (read_table_int32 (first_line "5\n" 0 0 true) 0).2.2 = 5
      ∧ (read_table_int32 (first_line "5\n" 0 0 true) 0).2.1.col = 0)
    ∧ ((first_line "ab cd\n" 0 0 true).col = 0
      ∧ (read_table_string (first_line "ab cd\n" 0 0 true) (0, 0)).1 = 0
      ∧ (read_table_string (first_line "ab cd\n" 0 0 true) (0, 0)).2.2 = (0, 2)
      ∧ (read_table_string (first_line "ab cd\n" 0 0 true) (0, 0)).2.1.col = 0)
    ∧ ((first_line "nan 5\n" 0 0 true).col = 0
      ∧ (read_table_double env_iso { first_line "nan 5\n" 0 0 true with flags := 0 }
          (Dbl.fin 0)).1 = 1
      ∧ (read_table_double env_iso { first_line "nan 5\n" 0 0 true with flags := 0 }
          (Dbl.fin 0)).2.1.last_error = T_NAN
      ∧ (read_table_double env_iso { first_line "nan 5\n" 0 0 true with flags := 0 }
          (Dbl.fin 0)).2.1.col = 1
      ∧ (read_table_double_limits env_iso (first_line "nan 5\n" 0 0 true)
          (Dbl.fin 0) (Dbl.fin 0) (Dbl.fin 1)).1 = 1
      ∧ (read_table_double_limits env_iso (first_line "nan 5\n" 0 0 true)
          (Dbl.fin 0) (Dbl.fin 0) (Dbl.fin 1)).2.1.col = 1) := by
  decide

/-- C15 (amended): a skip that returns success increases the column by exactly
one and a skip that returns failure leaves it unchanged.  A read of one number
(integer or floating point) that returns success and leaves the cursor before
further content of the line (not at its end, on a newline or on the comment
marker) increases the column by exactly one; an integer read that returns
failure leaves it unchanged, and so does a floating-point read that fails with
an error other than `T_NAN` and `T_OVERFLOW`.  No read of one number changes the
column by more than one: a floating-point read whose value is rejected after the
separator was checked has already counted the field. -/
theorem C15_column_counter (env : Env) (r : read_table) :
    ((read_table_skip r).1 = 0 → (read_table_skip r).2.col = r.col + 1)
    ∧ ((read_table_skip r).1 ≠ 0 → (read_table_skip r).2.col = r.col)
    ∧ (∀ val, val.isInteger = true ∨ val.isDouble = true →
        (read_table_next env r val).1 = 0 → ¬ atLineEnd (read_table_next env r val).2.1 →
        (read_table_next env r val).2.1.col = r.col + 1)
    ∧ (∀ val, val.isInteger = true → (read_table_next env r val).1 ≠ 0 →
        (read_table_next env r val).2.1.col = r.col)
    ∧ (∀ val, val.isDouble = true → (read_table_next env r val).1 ≠ 0 →
        (read_table_next env r val).2.1.last_error ≠ T_NAN →
        (read_table_next env r val).2.1.last_error ≠ T_OVERFLOW →
        (read_table_next env r val).2.1.col = r.col)
    ∧ (∀ val, val.isInteger = true ∨ val.isDouble = true →
        (read_table_next env r val).2.1.col = r.col
        ∨ (read_table_next env r val).2.1.col = r.col + 1) := by
  refine ⟨fun h => ((skip_facts r).1 h).2, fun h => ((skip_facts r).2 h).2, ?_, ?_, ?_, ?_⟩
  · intro val hv h0 hne
    rcases (outcome_success (next_outcome env r val hv) h0).2 with h | h
    · exact h
    · exact absurd h.2 hne
  · intro val hv h1
    have ho := next_outcome env r val (Or.inl hv)
    have hd : val.isDouble = false := by
      cases val <;> first | rfl | (simp [Field.isInteger] at hv)
    rw [hd] at ho
    exact outcome_failure ho h1
  · intro val hv h1 hn ho
    rcases outcome_failure_dbl (next_outcome env r val (Or.inr hv)) h1 with h | ⟨h, _⟩
    · exact h
    · rcases h with h | h
      · exact absurd h hn
      · exact absurd h ho
  · intro val hv
    have ho := next_outcome env r val hv
    rcases outcome_ret ho with h0 | h1
    · rcases (outcome_success ho h0).2 with h | h
      · exact Or.inr h
      · exact Or.inl h.1
    · rcases outcome_failure_dbl ho (by rw [h1]; exact Nat.one_ne_zero) with h | ⟨_, h⟩
      · exact Or.inl h
      · exact Or.inr h

/-- C15, witness: on the line `"7 8\n"` the read of `7` and a skip each take the
column from 0 to 1; the integer read of `x` in `"x 8\n"` fails and leaves it 0. -/
theorem C15_witness :
    (read_table_skip (first_line "7 8\n" 0 0 true)).2.col = (first_line "7 8\n" 0 0 true).col + 1
    ∧ (read_table_next env0 (first_line "7 8\n" 0 0 true) (Field.int32 0)).2.1.col
        = (first_line "7 8\n" 0 0 true).col + 1
    ∧ (read_table_next env0 (first_line "x 8\n" 0 0 true) (Field.int32 0)).2.1.col
        = (first_line "x 8\n" 0 0 true).col :=
  ⟨(C15_column_counter env0 (first_line "7 8\n" 0 0 true)).1 (by decide),
   (C15_column_counter env0 (first_line "7 8\n" 0 0 true)).2.2.1 (Field.int32 0)
      (by decide) (by decide) (by decide),
   (C15_column_counter env0 (first_line "x 8\n" 0 0 true)).2.2.2.1 (Field.int32 0)
      (by decide) (by decide)⟩

/-- C16: two runs from a freshly initialised reader in which, at the end, the
error is `T_OK` and the cursor lies beyond `line_len`.  In both the line is
read, an integer is read from it, the next `read_line` meets the end of the
stream (which sets `line_len` to 0 and leaves the cursor), and a skip follows:
with delimiter `,` on `"5\n"` the skip returns success with the cursor at 1; in
whitespace-run mode on `"5 x\n"` it reads `buf[2]`, beyond `line_len = 0`, and
returns success with the cursor at 2. -/
theorem C16_cursor_beyond_line_len :
    ((run_ops env0 (reader_on "5\n" 44 0)
        [Op.line true, Op.next (Field.int32 0), Op.line true]).last_error = T_EOF
      ∧ (run_ops env0 (reader_on "5\n" 44 0)
        [Op.line true, Op.next (Field.int32 0), Op.line true, Op.next Field.skip]).last_error
          = T_OK
      ∧ (run_ops env0 (reader_on "5\n" 44 0)
        [Op.line true, Op.next (Field.int32 0), Op.line true, Op.next Field.skip]).pos = 1
      ∧ (run_ops env0 (reader_on "5\n" 44 0)
        [Op.line true, Op.next (Field.int32 0), Op.line true, Op.next Field.skip]).line_len = 0)
    ∧ ((run_ops env0 (read_table2.mk (some (bytes "5 x\n")))
        [Op.line true, Op.next (Field.int32 0), Op.line true, Op.next Field.skip]).last_error
          = T_OK
      ∧ (run_ops env0 (read_table2.mk (some (bytes "5 x\n")))
        [Op.line true, Op.next (Field.int32 0), Op.line true, Op.next Field.skip]).pos = 2
      ∧ (run_ops env0 (read_table2.mk (some (bytes "5 x\n")))
        [Op.line true, Op.next (Field.int32 0), Op.line true, Op.next Field.skip]).line_len = 0
      ∧ (read_table2.read_skip (run_ops env0 (read_table2.mk (some (bytes "5 x\n")))
        [Op.line true, Op.next (Field.int32 0), Op.line true])).1 = true) := by
  decide

/-- C17: the line counter is 0 after initialisation.  A `read_line` call on a
reader with the stream `s` takes the bytes `used` off the stream, whole physical
lines (they end with a newline unless the stream ends with them), leaves the
rest, and increases the counter by exactly the number of physical lines in
`used`, whether it returns success (then `used` ends with the line it loaded)
or failure (then it consumed nothing, or everything up to the end of the
stream and reports `T_EOF`); without a stream it leaves the counter alone.  No
overload of `read_table_next` changes the counter or the stream.  So after any
sequence of calls the counter has grown by the number of physical lines consumed
so far: from a fresh reader, it is `k` once the `k`-th physical line is loaded. -/
theorem C17_line_counter (env : Env) (r : read_table) :
    (∀ f_, (read_table_init f_).line = 0)
    ∧ (∀ skip s, r.f = some s → ∃ used rest, s = used ++ rest
        ∧ (read_table2.read_line r skip).2.f = some rest
        ∧ (read_table2.read_line r skip).2.line = r.line + lineCount used
        ∧ (rest = [] ∨ used = [] ∨ used.getLast? = some 10)
        ∧ ((read_table2.read_line r skip).1 = true →
            ∃ pre, used = pre ++ (read_table2.read_line r skip).2.buf)
        ∧ ((read_table2.read_line r skip).1 = false →
            (used = [] ∧ (read_table2.read_line r skip).2 = r)
            ∨ (rest = [] ∧ (read_table2.read_line r skip).2.last_error = T_EOF)))
    ∧ (∀ skip, r.f = none → (read_table2.read_line r skip).2.line = r.line)
    ∧ (∀ val, (read_table_next env r val).2.1.line = r.line
        ∧ (read_table_next env r val).2.1.f = r.f)
    ∧ (∀ ops s, r.f = some s → ∃ used rest, s = used ++ rest
        ∧ (run_ops env r ops).f = some rest
        ∧ (run_ops env r ops).line = r.line + lineCount used
        ∧ (rest = [] ∨ used = [] ∨ used.getLast? = some 10)) := by
  refine ⟨fun _ => rfl, ?_, ?_, ?_, ?_⟩
  · intro skip s hs
    obtain ⟨u, rest, h1, h2, h3, h4, h5, h6⟩ := (line_skip_spec r skip).2.2.2.1 s hs
    rw [read_line_eq]
    refine ⟨u, rest, h1, h2, h3, h4, ?_, ?_⟩
    · intro h; exact h5 (by simpa using h)
    · intro h; exact h6 (by simpa using h)
  · intro skip hf
    rw [read_line_eq]
    exact ((line_skip_spec r skip).2.2.1 hf).2.2
  · intro val
    obtain ⟨p, c, e, hq⟩ := next_touched env r val
    rw [hq]
    exact ⟨rfl, rfl⟩
  · intro ops s hs
    exact run_ops_lines env ops r s hs

/-- C17, witness: the stream `" \t\n# c\n7 8\n9\n"` with comment marker `#`.  A
`read_line` without skipping loads the blank first line, one with skipping skips
the comment line and loads `7 8`, an integer is read, and a third `read_line`
loads `9`: the whole stream, four physical lines, is consumed and the counter
is 4. -/
theorem C17_witness :
    (∃ used rest, bytes " \t\n# c\n7 8\n9\n" = used ++ rest
      ∧ (run_ops env0 (reader_on " \t\n# c\n7 8\n9\n" 0 35)
          [Op.line false, Op.line true, Op.next (Field.int32 0), Op.line true]).f = some rest
      ∧ (run_ops env0 (reader_on " \t\n# c\n7 8\n9\n" 0 35)
          [Op.line false, Op.line true, Op.next (Field.int32 0), Op.line true]).line
          = (reader_on " \t\n# c\n7 8\n9\n" 0 35).line + lineCount used
      ∧ (rest = [] ∨ used = [] ∨ used.getLast? = some 10))
    ∧ (run_ops env0 (reader_on " \t\n# c\n7 8\n9\n" 0 35)
        [Op.line false, Op.line true, Op.next (Field.int32 0), Op.line true]).f = some []
    ∧ (run_ops env0 (reader_on " \t\n# c\n7 8\n9\n" 0 35)
        [Op.line false, Op.line true, Op.next (Field.int32 0), Op.line true]).buf = bytes "9\n"
    ∧ (run_ops env0 (reader_on " \t\n# c\n7 8\n9\n" 0 35)
        [Op.line false, Op.line true, Op.next (Field.int32 0), Op.line true]).line = 4
    ∧ lineCount (bytes " \t\n# c\n7 8\n9\n") = 4 :=
  ⟨(C17_line_counter env0 (reader_on " \t\n# c\n7 8\n9\n" 0 35)).2.2.2.2
      [Op.line false, Op.line true, Op.next (Field.int32 0), Op.line true]
      (bytes " \t\n# c\n7 8\n9\n") (by decide),
   by decide, by decide, by decide, by decide⟩

/-- C18: when `read_line` returns success, the error is `T_OK`, the column is 0,
the buffer holds a newly loaded, non-empty line of the stream (the stream was
`pre ++ line ++ rest` and `rest` is what is left), `line_len` is its length, and
the cursor is at offset 0 when `skip` is off, and when `skip` is on at the offset
of the first byte of the line that is not a space or tab: that byte exists, and
every byte before it is a space or tab, whatever the delimiter is. -/
theorem C18_read_line_success (r : read_table) (skip : Bool)
    (h : (read_table2.read_line r skip).1 = true) :
    (read_table2.read_line r skip).2.last_error = T_OK
    ∧ (read_table2.read_line r skip).2.col = 0
    ∧ (∃ s pre rest, r.f = some s ∧ s = pre ++ (read_table2.read_line r skip).2.buf ++ rest
        ∧ (read_table2.read_line r skip).2.f = some rest)
    ∧ (read_table2.read_line r skip).2.buf ≠ []
    ∧ (read_table2.read_line r skip).2.line_len = (read_table2.read_line r skip).2.buf.length
    ∧ (skip = false → (read_table2.read_line r skip).2.pos = 0)
    ∧ (skip = true →
        (read_table2.read_line r skip).2.pos < (read_table2.read_line r skip).2.line_len
        ∧ is_blank (bufAt (read_table2.read_line r skip).2
            (read_table2.read_line r skip).2.pos) = false
        ∧ ∀ i, i < (read_table2.read_line r skip).2.pos →
            is_blank (bufAt (read_table2.read_line r skip).2 i) = true) := by
  rw [read_line_eq] at h ⊢
  have h0 : (read_table_line_skip r skip).1 = 0 := by simpa using h
  obtain ⟨_, _, hnone, hsome, hload⟩ := line_skip_spec r skip
  obtain ⟨e1, e2, e3, e4, e5, e6⟩ := hload h0
  refine ⟨e1, e2, ?_, e4, e3, e5, ?_⟩
  · cases hf : r.f with
    | none =>
      have := (hnone hf).1
      rw [h0] at this
      exact absurd this (by decide)
    | some s =>
      obtain ⟨u, rest, h1, h2, _, _, h5, _⟩ := hsome s hf
      obtain ⟨pre, hp⟩ := h5 h0
      exact ⟨s, pre, rest, rfl, by rw [h1, hp], h2⟩
  · intro hs
    obtain ⟨g1, g2, g3⟩ := e6 hs
    exact ⟨by show _ < (read_table_line_skip r skip).2.line_len; rw [e3]; exact g1, g2, g3⟩

/-- C18, witness: delimiter tab, line `"\t 7\t8\n"`: with `skip` on the cursor is
at offset 2, past the leading tab and space; with `skip` off it is at 0. -/
theorem C18_witness :
    ((read_table2.read_line (reader_on "\t 7\t8\n" 9 0) true).2.last_error = T_OK
      ∧ (read_table2.read_line (reader_on "\t 7\t8\n" 9 0) true).2.col = 0
      ∧ (read_table2.read_line (reader_on "\t 7\t8\n" 9 0) true).2.pos
          < (read_table2.read_line (reader_on "\t 7\t8\n" 9 0) true).2.line_len
      ∧ (read_table2.read_line (reader_on "\t 7\t8\n" 9 0) true).2.pos = 2)
    ∧ (read_table2.read_line (reader_on "\t 7\t8\n" 9 0) false).2.pos = 0 :=
  ⟨⟨(C18_read_line_success (reader_on "\t 7\t8\n" 9 0) true (by decide)).1,
    (C18_read_line_success (reader_on "\t 7\t8\n" 9 0) true (by decide)).2.1,
    ((C18_read_line_success (reader_on "\t 7\t8\n" 9 0) true (by decide)).2.2.2.2.2.2 rfl).1,
    by decide⟩,
   (C18_read_line_success (reader_on "\t 7\t8\n" 9 0) false (by decide)).2.2.2.2.2.1 rfl⟩

/-- C19, counterexamples.  (a) Delimiter `,`, line `"5\n"` after its field was
read: the cursor is on the terminating newline, yet skip returns success,
leaves the cursor where it is and increments the column; it does so again when
repeated.  (b) Delimiter `,`, comment marker `#`, line `"5#c\n"` after its field
was read: the cursor is on the comment marker and skip returns success.  (c)
Whitespace-run mode, line `"ab cd\n"`: skip passes the field `ab` and stops on
the blank after it, which it does not pass. -/
theorem C19_counterexample :
    (bufAt (read_table_int32 (first_line "5\n" 44 0 true) 0).2.1
        (read_table_int32 (first_line "5\n" 44 0 true) 0).2.1.pos = 10
      ∧ (read_table_skip (read_table_int32 (first_line "5\n" 44 0 true) 0).2.1).1 = 0
      ∧ (read_table_skip (read_table_int32 (first_line "5\n" 44 0 true) 0).2.1).2.pos
          = (read_table_int32 (first_line "5\n" 44 0 true) 0).2.1.pos
      ∧ (read_table_skip (read_table_int32 (first_line "5\n" 44 0 true) 0).2.1).2.col
          = (read_table_int32 (first_line "5\n" 44 0 true) 0).2.1.col + 1
      ∧ (read_table_skip (read_table_skip
          (read_table_int32 (first_line "5\n" 44 0 true) 0).2.1).2).1 = 0)
    ∧ (bufAt (read_table_int32 (first_line "5#c\n" 44 35 true) 0).2.1
        (read_table_int32 (first_line "5#c\n" 44 35 true) 0).2.1.pos
          = (first_line "5#c\n" 44 35 true).comment
      ∧ (read_table_skip (read_table_int32 (first_line "5#c\n" 44 35 true) 0).2.1).1 = 0)
    ∧ ((read_table_skip (first_line "ab cd\n" 0 0 true)).1 = 0
      ∧ (read_table_skip (first_line "ab cd\n" 0 0 true)).2.pos = 2
      ∧ bufAt (first_line "ab cd\n" 0 0 true) 2 = 32) := by
  decide

/-- C19 (amended), on a loaded line (`line_len` bytes stored, the cursor within
them).  Whitespace-run mode: skip first passes the spaces/tabs at the cursor; if
then the line ends (end of the line, a newline, or a comment marker that is not
itself a space or tab) it fails with `T_EOL` and leaves the column unchanged;
otherwise it passes the field, the bytes up to the next space, tab, newline or
comment marker, stops there without passing the separator, sets `T_OK` and
increments the column.  Explicit delimiter: with the cursor at the end of the
stored line skip fails with `T_EOL` and leaves the column unchanged; with the
cursor on a field (possibly empty) that the delimiter ends, it passes the field
and the delimiter, and with the cursor on a non-empty field that ends the line
it passes the field; both times it sets `T_OK` and increments the column. -/
theorem C19_skip_field (r : read_table) (hlen : r.line_len = r.buf.length)
    (hpos : r.pos ≤ r.buf.length) :
    (r.delim = 0 → ∀ bl rest, r.buf.drop r.pos = bl ++ rest → (∀ c ∈ bl, is_blank c = true) →
        (rest = [] ∨ rest.head? = some 10
          ∨ (r.comment ≠ 0 ∧ is_blank r.comment = false ∧ rest.head? = some r.comment)) →
        read_table_skip r = (1, { r with pos := r.pos + bl.length, last_error := T_EOL }))
    ∧ (r.delim = 0 → ∀ bl fld suf, r.buf.drop r.pos = bl ++ fld ++ suf →
        (∀ c ∈ bl, is_blank c = true) → fld ≠ [] →
        (∀ c ∈ fld, is_blank c = false ∧ c ≠ 10 ∧ (r.comment = 0 ∨ c ≠ r.comment)) →
        (∀ c ∈ suf.head?, is_blank c = true ∨ c = 10 ∨ (r.comment ≠ 0 ∧ c = r.comment)) →
        read_table_skip r
          = (0, { r with pos := r.pos + bl.length + fld.length, col := r.col + 1,
                         last_error := T_OK }))
    ∧ (r.delim ≠ 0 → r.pos = r.line_len →
        read_table_skip r = (1, { r with last_error := T_EOL }))
    ∧ (r.delim ≠ 0 → ∀ fld suf, r.buf.drop r.pos = fld ++ suf →
        (fld ≠ [] ∨ suf.head? = some r.delim) →
        (∀ c ∈ fld, c ≠ r.delim ∧ c ≠ 10 ∧ (r.comment = 0 ∨ c ≠ r.comment)) →
        (∀ c ∈ suf.head?, c = r.delim ∨ c = 10 ∨ (r.comment ≠ 0 ∧ c = r.comment)) →
        read_table_skip r
          = (0, { r with
                  pos := r.pos + fld.length + (if suf.head? = some r.delim then 1 else 0),
                  col := r.col + 1, last_error := T_OK })) := by
  refine ⟨?_, ?_, ?_, ?_⟩
  · intro hd0 bl rest hd hbl hrest
    exact skip_ws_eol r bl rest hd0 hlen hpos hd hbl hrest
  · intro hd0 bl fld suf hd hbl hfld hf hsuf
    exact skip_ws_field r bl fld suf hd0 hlen hpos hd hbl hfld hf hsuf
  · intro hd0 h
    exact skip_delim_end r hd0 h
  · intro hd0 fld suf hd hne hf hsuf
    refine skip_delim_field r fld suf hd0 hlen hd ?_ hf hsuf
    rcases hne with h | h
    · intro hc; exact h (List.append_eq_nil.1 hc).1
    · intro hc
      rw [(List.append_eq_nil.1 hc).2] at h
      simp at h

/-- C19, witness: on `"ab cd\n"` in whitespace-run mode, skip passes `ab`, then
` cd`, then fails with `T_EOL`; on `"ab,,cd\n"` with delimiter `,` it passes `ab,`
and then the empty field and its delimiter. -/
theorem C19_witness :
    read_table_skip (first_line "ab cd\n" 0 0 true)
      = (0, { first_line "ab cd\n" 0 0 true with
              pos := 0 + 0 + 2, col := 0 + 1, last_error := T_OK })
    ∧ read_table_skip (read_table_skip (read_table_skip (first_line "ab cd\n" 0 0 true)).2).2
      = (1, { Prod.snd (read_table_skip (read_table_skip (first_line "ab cd\n" 0 0 true)).2) with
              pos := 5 + 0, last_error := T_EOL })
    ∧ read_table_skip (read_table_skip (first_line "ab,,cd\n" 44 0 true)).2
      = (0, { Prod.snd (read_table_skip (first_line "ab,,cd\n" 44 0 true)) with
              pos := 3 + 0 + 1, col := 1 + 1, last_error := T_OK }) :=
  ⟨(C19_skip_field (first_line "ab cd\n" 0 0 true) (by decide) (by decide)).2.1 (by decide)
      [] (bytes "ab") (bytes " cd\n") (by decide) (by decide) (by decide) (by decide)
      (by decide),
   (C19_skip_field (read_table_skip (read_table_skip (first_line "ab cd\n" 0 0 true)).2).2
      (by decide) (by decide)).1 (by decide) [] (bytes "\n") (by decide) (by decide)
      (by decide),
   (C19_skip_field (read_table_skip (first_line "ab,,cd\n" 44 0 true)).2 (by decide)
      (by decide)).2.2.2 (by decide) [] (bytes ",cd\n") (by decide) (by decide) (by decide)
      (by decide)⟩

/-- C20, counterexample: the field `-5` read as a 32-bit unsigned integer with
the bounds [100, 5000] ends with `T_OVERFLOW` and leaves 0, below the lower
bound. -/
theorem C20_counterexample :
    (100 : Nat) ≤ 5000
    ∧ (read_table_uint32_limits (first_line "-5\n" 0 0 true) 7 100 5000).1 = 1
    ∧ (read_table_uint32_limits (first_line "-5\n" 0 0 true) 7 100 5000).2.1.last_error
        = T_OVERFLOW
    ∧ (read_table_uint32_limits (first_line "-5\n" 0 0 true) 7 100 5000).2.2 = 0
    ∧ ¬ (100 ≤ (read_table_uint32_limits (first_line "-5\n" 0 0 true) 7 100 5000).2.2) := by
  decide

/-- C20 (amended): whenever a bounded integer read with `mn ≤ mx` inside its
type leaves the error `T_OVERFLOW`, the value in the output lies within
`[mn, mx]`, except when an unsigned read rejected a leading `-` (the byte at the
cursor after the leading spaces/tabs is `-`): then the output is 0, whatever the
bounds. -/
theorem C20_overflow_value (r : read_table) :
    (∀ i mn mx, INT16_MIN ≤ mn → mn ≤ mx → mx ≤ INT16_MAX →
        (read_table_int16_limits r i mn mx).2.1.last_error = T_OVERFLOW →
        mn ≤ (read_table_int16_limits r i mn mx).2.2
        ∧ (read_table_int16_limits r i mn mx).2.2 ≤ mx)
    ∧ (∀ i mn mx, INT32_MIN ≤ mn → mn ≤ mx → mx ≤ INT32_MAX →
        (read_table_int32_limits r i mn mx).2.1.last_error = T_OVERFLOW →
        mn ≤ (read_table_int32_limits r i mn mx).2.2
        ∧ (read_table_int32_limits r i mn mx).2.2 ≤ mx)
    ∧ (∀ i mn mx, INT64_MIN ≤ mn → mn ≤ mx → mx ≤ INT64_MAX →
        (read_table_int64_limits r i mn mx).2.1.last_error = T_OVERFLOW →
        mn ≤ (read_table_int64_limits r i mn mx).2.2
        ∧ (read_table_int64_limits r i mn mx).2.2 ≤ mx)
    ∧ (∀ i mn mx, mn ≤ mx → mx ≤ UINT16_MAX →
        (read_table_uint16_limits r i mn mx).2.1.last_error = T_OVERFLOW →
        (mn ≤ (read_table_uint16_limits r i mn mx).2.2
          ∧ (read_table_uint16_limits r i mn mx).2.2 ≤ mx)
        ∨ (bufAt (read_table_pre_check r).2 (read_table_pre_check r).2.pos = 45
          ∧ (read_table_uint16_limits r i mn mx).2.2 = 0))
    ∧ (∀ i mn mx, mn ≤ mx → mx ≤ UINT32_MAX →
        (read_table_uint32_limits r i mn mx).2.1.last_error = T_OVERFLOW →
        (mn ≤ (read_table_uint32_limits r i mn mx).2.2
          ∧ (read_table_uint32_limits r i mn mx).2.2 ≤ mx)
        ∨ (bufAt (read_table_pre_check r).2 (read_table_pre_check r).2.pos = 45
          ∧ (read_table_uint32_limits r i mn mx).2.2 = 0))
    ∧ (∀ i mn mx, mn ≤ mx → mx ≤ UINT64_MAX →
        (read_table_uint64_limits r i mn mx).2.1.last_error = T_OVERFLOW →
        (mn ≤ (read_table_uint64_limits r i mn mx).2.2
          ∧ (read_table_uint64_limits r i mn mx).2.2 ≤ mx)
        ∨ (bufAt (read_table_pre_check r).2 (read_table_pre_check r).2.pos = 45
          ∧ (read_table_uint64_limits r i mn mx).2.2 = 0)) := by
  refine ⟨?_, ?_, ?_, ?_, ?_, ?_⟩
  · intro i mn mx a b c d; exact int16_overflow_value r i mn mx a b c d
  · intro i mn mx a b c d; exact int32_overflow_value r i mn mx a b c d
  · intro i mn mx a b c d; exact int64_overflow_value r i mn mx a b c d
  · intro i mn mx a b c; exact uint16_overflow_value r i mn mx a b c
  · intro i mn mx a b c; exact uint32_overflow_value r i mn mx a b c
  · intro i mn mx a b c; exact uint64_overflow_value r i mn mx a b c

/-- C20, witness: the field `70000` read as `int16` with the bounds [-5, 100]
ends with `T_OVERFLOW` and leaves a value within the bounds; the field
`99999999999999999999` read as `uint64` with the full range does too. -/
theorem C20_witness :
    ((-5 : Int) ≤ (read_table_int16_limits (first_line "70000 1\n" 0 0 true) 0 (-5) 100).2.2
      ∧ (read_table_int16_limits (first_line "70000 1\n" 0 0 true) 0 (-5) 100).2.2 ≤ 100)
    ∧ ((0 ≤ (read_table_uint64_limits (first_line "99999999999999999999 1\n" 0 0 true) 0 0
          UINT64_MAX).2.2
        ∧ (read_table_uint64_limits (first_line "99999999999999999999 1\n" 0 0 true) 0 0
          UINT64_MAX).2.2 ≤ UINT64_MAX)
      ∨ (bufAt (read_table_pre_check (first_line "99999999999999999999 1\n" 0 0 true)).2
          (read_table_pre_check (first_line "99999999999999999999 1\n" 0 0 true)).2.pos = 45
        ∧ (read_table_uint64_limits (first_line "99999999999999999999 1\n" 0 0 true) 0 0
          UINT64_MAX).2.2 = 0)) :=
  ⟨(C20_overflow_value (first_line "70000 1\n" 0 0 true)).1 0 (-5) 100 (by decide)
      (by decide) (by decide) (by decide),
   (C20_overflow_value (first_line "99999999999999999999 1\n" 0 0 true)).2.2.2.2.2 0 0
      UINT64_MAX (by decide) (by decide) (by decide)⟩

/-- C21, counterexamples, base 10.  (a) On the field `abc` the conversion
consumes no byte, yet with the bounds [1, 10] the 32-bit signed read and the
32-bit unsigned read end with `T_OVERFLOW` and store the bound 1; with the
bounds [-10, -1] the 64-bit signed read ends with `T_OVERFLOW` and stores -1.
(b) On the field `-abc` a conversion consumes no byte either, and the 32-bit
unsigned read with the full range ends with `T_OVERFLOW`. -/
theorem C21_counterexample :
    ((read_table_pre_check (first_line "abc\n" 0 0 true)).1 = 0
      ∧ (first_line "abc\n" 0 0 true).base = 10
      ∧ (strtol (cstr (read_table_pre_check (first_line "abc\n" 0 0 true)).2) 10).2.1 = 0
      ∧ (strtoul (cstr (read_table_pre_check (first_line "abc\n" 0 0 true)).2) 10).2.1 = 0
      ∧ read_table_int32_limits (first_line "abc\n" 0 0 true) 7 1 10
          = (1, { first_line "abc\n" 0 0 true with last_error := T_OVERFLOW }, 1)
      ∧ read_table_uint32_limits (first_line "abc\n" 0 0 true) 7 1 10
          = (1, { first_line "abc\n" 0 0 true with last_error := T_OVERFLOW }, 1)
      ∧ read_table_int64_limits (first_line "abc\n" 0 0 true) 7 (-10) (-1)
          = (1, { first_line "abc\n" 0 0 true with last_error := T_OVERFLOW }, -1))
    ∧ ((read_table_pre_check (first_line "-abc\n" 0 0 true)).1 = 0
      ∧ (strtoul (cstr (read_table_pre_check (first_line "-abc\n" 0 0 true)).2) 10).2.1 = 0
      ∧ read_table_uint32_limits (first_line "-abc\n" 0 0 true) 7 0 UINT32_MAX
          = (1, { first_line "-abc\n" 0 0 true with last_error := T_OVERFLOW }, 0)) := by
  decide

/-- C21 (amended): on a field (the pre-check passes) of which the conversion
consumes no byte, every signed read whose bounds admit 0 (`mn ≤ 0 ≤ mx`) and
every unsigned read whose lower bound is 0, unless the field starts with `-`,
returns failure with `T_FORMAT`, the cursor on the first byte of the field, and
stores 0; an unsigned read of a field that starts with `-` ends with
`T_OVERFLOW` before any conversion, whatever the bounds. -/
theorem C21_nothing_converted (r : read_table) (hp : (read_table_pre_check r).1 = 0) :
    (∀ i mn mx,
        (strtol (cstr (read_table_pre_check r).2) (read_table_pre_check r).2.base).2.1 = 0 →
        mn ≤ 0 → 0 ≤ mx →
        read_table_int16_limits r i mn mx
          = (1, { (read_table_pre_check r).2 with last_error := T_FORMAT }, 0)
        ∧ read_table_int32_limits r i mn mx
          = (1, { (read_table_pre_check r).2 with last_error := T_FORMAT }, 0)
        ∧ read_table_int64_limits r i mn mx
          = (1, { (read_table_pre_check r).2 with last_error := T_FORMAT }, 0))
    ∧ (∀ i mx,
        (strtoul (cstr (read_table_pre_check r).2) (read_table_pre_check r).2.base).2.1 = 0 →
        bufAt (read_table_pre_check r).2 (read_table_pre_check r).2.pos ≠ 45 →
        read_table_uint16_limits r i 0 mx
          = (1, { (read_table_pre_check r).2 with last_error := T_FORMAT }, 0)
        ∧ read_table_uint32_limits r i 0 mx
          = (1, { (read_table_pre_check r).2 with last_error := T_FORMAT }, 0)
        ∧ read_table_uint64_limits r i 0 mx
          = (1, { (read_table_pre_check r).2 with last_error := T_FORMAT }, 0))
    ∧ (∀ i mn mx, bufAt (read_table_pre_check r).2 (read_table_pre_check r).2.pos = 45 →
        read_table_uint16_limits r i mn mx
          = (1, { (read_table_pre_check r).2 with last_error := T_OVERFLOW }, 0)
        ∧ read_table_uint32_limits r i mn mx
          = (1, { (read_table_pre_check r).2 with last_error := T_OVERFLOW }, 0)
        ∧ read_table_uint64_limits r i mn mx
          = (1, { (read_table_pre_check r).2 with last_error := T_OVERFLOW }, 0)) := by
  refine ⟨?_, ?_, ?_⟩
  · intro i mn mx h0 h1 h2
    refine ⟨?_, int32_nothing r i mn mx hp h0 h1 h2, int64_nothing r i mn mx hp h0 h1 h2⟩
    unfold read_table_int16_limits
    rw [int32_nothing r i mn mx hp h0 h1 h2]
    rfl
  · intro i mx h0 hm
    refine ⟨?_, uint32_nothing r i mx hp h0 hm, uint64_nothing r i mx hp h0 hm⟩
    unfold read_table_uint16_limits
    rw [uint32_nothing r i mx hp h0 hm]
    rfl
  · intro i mn mx hm
    refine ⟨?_, (uint32_minus_guard r i mn mx hp hm).1, (uint32_minus_guard r i mn mx hp hm).2⟩
    unfold read_table_uint16_limits
    rw [(uint32_minus_guard r i mn mx hp hm).1]
    rfl

/-- C21, witness: the field `abc` of `" abc 1\n"` read as `int32` with the
bounds [-5, 5] and as `uint64` with the bounds [0, 9]; the field `-abc` read as
`uint16`. -/
theorem C21_witness :
    read_table_int32_limits (first_line " abc 1\n" 0 0 false) 7 (-5) 5
      = (1, { first_line " abc 1\n" 0 0 false with pos := 1, last_error := T_FORMAT }, 0)
    ∧ read_table_uint64_limits (first_line " abc 1\n" 0 0 false) 7 0 9
      = (1, { first_line " abc 1\n" 0 0 false with pos := 1, last_error := T_FORMAT }, 0)
    ∧ read_table_uint16_limits (first_line "-abc\n" 0 0 true) 7 0 9
      = (1, { first_line "-abc\n" 0 0 true with last_error := T_OVERFLOW }, 0) :=
  ⟨((C21_nothing_converted (first_line " abc 1\n" 0 0 false) (by decide)).1 7 (-5) 5
      (by decide) (by decide) (by decide)).2.1,
   ((C21_nothing_converted (first_line " abc 1\n" 0 0 false) (by decide)).2.1 7 9
      (by decide) (by decide)).2.2,
   ((C21_nothing_converted (first_line "-abc\n" 0 0 true) (by decide)).2.2 7 0 9
      (by decide)).1⟩

/-- C22: the bounded floating-point read of a field `c :: t` that is well formed
(`strtod` converts the whole of it, without error, to the value `v`) and
properly separated, on a reader with no blocking error pending: whatever the
flags are, if `v` is NaN the read returns failure with `T_NAN`; otherwise if
`mx < v` or `v < mn` it returns failure with `T_OVERFLOW`; otherwise it returns
success; in each case `v` is stored and the reader is left behind the field. -/
theorem C22_bounded_double (env : Env) (r : read_table) (bl suf : List Nat) (c : Nat)
    (t : List Nat) (v : Dbl)
    (hcv : env.strtod ((c :: t) ++ suf.takeWhile (fun c => c != 0))
      = (v, (c :: t).length, Errno.E0))
    (hnz : ∀ x ∈ c :: t, (x != 0) = true) (hc : is_blank c = false ∧ c ≠ 10)
    (herr : ¬ blocking r.last_error) (hlay : Layout r bl (c :: t) suf) (hsep : Separated r suf)
    (hstart : StartsField r c) (hnl : r.delim ≠ 10)
    (hcd : r.delim ≠ 0 → (suf.dropWhile is_blank).head? = some r.delim → r.comment ≠ r.delim)
    (d mn mx : Dbl) (fl : Nat) :
    read_table_double_limits env { r with flags := fl } d mn mx
      = if _isnan v = true
        then (1, { afterField { r with flags := fl } bl (c :: t) suf with last_error := T_NAN }, v)
        else if (Dbl.lt mx v || Dbl.lt v mn) = true
        then (1, { afterField { r with flags := fl } bl (c :: t) suf with
                   last_error := T_OVERFLOW }, v)
        else (0, afterField { r with flags := fl } bl (c :: t) suf, v) :=
  double_limits_on_text env { r with flags := fl } bl suf c t v hcv hnz hc herr hlay hsep hstart
    hnl hcd d mn mx

/-- C22, witness.  The field `nan` of `"nan 5\n"` read with the bounds [0, 1]
ends with `T_NAN`, with the admit flag set and with it cleared; the field `12`
of `"12,5\n"` (delimiter `,`) read with the bounds [20, 100] ends with
`T_OVERFLOW`, and read with the bounds [0, 100] it is stored with success. -/
theorem C22_witness :
    (read_table_double_limits env_iso { first_line "nan 5\n" 0 0 true with flags := 1 }
        (Dbl.fin 0) (Dbl.fin 0) (Dbl.fin 1)
      = (1, { afterField { first_line "nan 5\n" 0 0 true with flags := 1 } [] (bytes "nan")
                (bytes " 5\n") with last_error := T_NAN }, Dbl.nan)
      ∧ read_table_double_limits env_iso { first_line "nan 5\n" 0 0 true with flags := 0 }
        (Dbl.fin 0) (Dbl.fin 0) (Dbl.fin 1)
      = (1, { afterField { first_line "nan 5\n" 0 0 true with flags := 0 } [] (bytes "nan")
                (bytes " 5\n") with last_error := T_NAN }, Dbl.nan))
    ∧ read_table_double_limits env_dec { first_line "12,5\n" 44 0 true with flags := 1 }
        (Dbl.fin 0) (Dbl.fin 20) (Dbl.fin 100)
      = (1, { afterField { first_line "12,5\n" 44 0 true with flags := 1 } [] (bytes "12")
                (bytes ",5\n") with last_error := T_OVERFLOW }, Dbl.fin 12)
    ∧ read_table_double_limits env_dec { first_line "12,5\n" 44 0 true with flags := 1 }
        (Dbl.fin 0) (Dbl.fin 0) (Dbl.fin 100)
      = (0, afterField { first_line "12,5\n" 44 0 true with flags := 1 } [] (bytes "12")
              (bytes ",5\n"), Dbl.fin 12) :=
  ⟨⟨C22_bounded_double env_iso (first_line "nan 5\n" 0 0 true) [] (bytes " 5\n") 110 [97, 110]
      Dbl.nan (by decide) (by decide) (by decide) (by decide) (by decide) (by decide)
      (by decide) (by decide) (by decide) (Dbl.fin 0) (Dbl.fin 0) (Dbl.fin 1) 1,
    C22_bounded_double env_iso (first_line "nan 5\n" 0 0 true) [] (bytes " 5\n") 110 [97, 110]
      Dbl.nan (by decide) (by decide) (by decide) (by decide) (by decide) (by decide)
      (by decide) (by decide) (by decide) (Dbl.fin 0) (Dbl.fin 0) (Dbl.fin 1) 0⟩,
   C22_bounded_double env_dec (first_line "12,5\n" 44 0 true) [] (bytes ",5\n") 49 [50]
      (Dbl.fin 12) (by decide) (by decide) (by decide) (by decide) (by decide) (by decide)
      (by decide) (by decide) (by decide) (Dbl.fin 0) (Dbl.fin 20) (Dbl.fin 100) 1,
   C22_bounded_double env_dec (first_line "12,5\n" 44 0 true) [] (bytes ",5\n") 49 [50]
      (Dbl.fin 12) (by decide) (by decide) (by decide) (by decide) (by decide) (by decide)
      (by decide) (by decide) (by decide) (Dbl.fin 0) (Dbl.fin 0) (Dbl.fin 100) 1⟩

/-- C23, counterexample: whitespace-run mode with the comment marker set to a
space, line `" x\n"` loaded without skipping: the cursor stands on a comment
marker, yet the string read returns success with the view of `x`. -/
theorem C23_counterexample :
    (first_line " x\n" 0 32 false).delim = 0
    ∧ (first_line " x\n" 0 32 false).last_error = T_OK
    ∧ (first_line " x\n" 0 32 false).comment ≠ 0
    ∧ bufAt (first_line " x\n" 0 32 false) (first_line " x\n" 0 32 false).pos
        = (first_line " x\n" 0 32 false).comment
    ∧ (read_table_string (first_line " x\n" 0 32 false) (0, 0)).1 = 0
    ∧ (read_table_string (first_line " x\n" 0 32 false) (0, 0)).2.2 = (1, 1)
    ∧ view (first_line " x\n" 0 32 false) (1, 1) = bytes "x" := by
  decide

/-- C23 (amended): without an explicit delimiter, on a loaded line with none of
the errors pending that block field reads, the string read passes the
spaces/tabs at the cursor.  If then the line ends (no byte is left, or a newline
or the comment marker follows) it returns failure with `T_EOL` and leaves the
view untouched.  Otherwise it returns success with a view that starts at the
first byte that is no space or tab, has length at least 1, lies inside the
line, holds no space, tab, newline or comment marker and is maximal (it ends
where the line ends or a space, tab, newline or comment marker follows); the
cursor is left behind the view and nothing else is changed. -/
theorem C23_string_whitespace_mode (r : read_table) (sl : Nat × Nat)
    (hd0 : r.delim = 0) (herr : ¬ blocking r.last_error)
    (hlen : r.line_len = r.buf.length) (hpos : r.pos ≤ r.buf.length) :
    ((afterBlanks r = [] ∨ (afterBlanks r).head? = some 10
        ∨ (r.comment ≠ 0 ∧ (afterBlanks r).head? = some r.comment)) →
      (read_table_string r sl).1 = 1
      ∧ (read_table_string r sl).2.1.last_error = T_EOL
      ∧ (read_table_string r sl).2.2 = sl)
    ∧ (¬ (afterBlanks r = [] ∨ (afterBlanks r).head? = some 10
        ∨ (r.comment ≠ 0 ∧ (afterBlanks r).head? = some r.comment)) →
      (read_table_string r sl).1 = 0
      ∧ (read_table_string r sl).2.2.1
          = r.pos + ((r.buf.drop r.pos).takeWhile is_blank).length
      ∧ 1 ≤ (read_table_string r sl).2.2.2
      ∧ (read_table_string r sl).2.2.1 + (read_table_string r sl).2.2.2 ≤ r.line_len
      ∧ view r (read_table_string r sl).2.2
          = (afterBlanks r).takeWhile (fun c => !endsField r c)
      ∧ (∀ c ∈ view r (read_table_string r sl).2.2,
          is_blank c = false ∧ c ≠ 10 ∧ (r.comment = 0 ∨ c ≠ r.comment))
      ∧ ((read_table_string r sl).2.2.1 + (read_table_string r sl).2.2.2 = r.line_len
          ∨ endsField r (bufAt r ((read_table_string r sl).2.2.1
              + (read_table_string r sl).2.2.2)) = true)
      ∧ (read_table_string r sl).2.1
          = { r with pos := (read_table_string r sl).2.2.1 + (read_table_string r sl).2.2.2 }) := by
  have hd : r.buf.drop r.pos = (r.buf.drop r.pos).takeWhile is_blank ++ afterBlanks r :=
    (List.takeWhile_append_dropWhile is_blank (r.buf.drop r.pos)).symm
  have hbl : ∀ c ∈ (r.buf.drop r.pos).takeWhile is_blank, is_blank c = true :=
    fun c hc => mem_takeWhile_imp is_blank _ c hc
  have hnb : ∀ c, (afterBlanks r).head? = some c → is_blank c = false :=
    fun c hc => head_dropWhile_not is_blank _ c hc
  constructor
  · intro hend
    rw [string_ws_eol r sl _ _ hd0 herr hlen hpos hd hbl hnb hend]
    exact ⟨rfl, rfl, rfl⟩
  · intro hend
    have hsplit : afterBlanks r = (afterBlanks r).takeWhile (fun c => !endsField r c)
        ++ (afterBlanks r).dropWhile (fun c => !endsField r c) :=
      (List.takeWhile_append_dropWhile _ _).symm
    have hf0 : ∀ c ∈ (afterBlanks r).takeWhile (fun c => !endsField r c),
        endsField r c = false := by
      intro c hc
      have := mem_takeWhile_imp (fun c => !endsField r c) _ c hc
      simpa using this
    have hf : ∀ c ∈ (afterBlanks r).takeWhile (fun c => !endsField r c),
        is_blank c = false ∧ c ≠ 10 ∧ (r.comment = 0 ∨ c ≠ r.comment) := by
      intro c hc
      have h := hf0 c hc
      simp only [endsField, is_comment, Bool.or_eq_false_iff, Bool.and_eq_false_iff,
        beq_eq_false_iff_ne, bne_eq_false_iff_eq, ne_eq] at h
      exact ⟨h.1.1, h.1.2, h.2⟩
    have hs0 : ∀ c, ((afterBlanks r).dropWhile (fun c => !endsField r c)).head? = some c →
        endsField r c = true := by
      intro c hc
      have := head_dropWhile_not (fun c => !endsField r c) _ c hc
      simpa using this
    have hsuf : ∀ c, ((afterBlanks r).dropWhile (fun c => !endsField r c)).head? = some c →
        is_blank c = true ∨ c = 10 ∨ (r.comment ≠ 0 ∧ c = r.comment) := by
      intro c hc
      have h := hs0 c hc
      simp only [endsField, is_comment, Bool.or_eq_true, Bool.and_eq_true, beq_iff_eq,
        bne_iff_ne, ne_eq] at h
      rcases h with (h | h) | h
      · exact Or.inl h
      · exact Or.inr (Or.inl h)
      · exact Or.inr (Or.inr h)
    have hfld : (afterBlanks r).takeWhile (fun c => !endsField r c) ≠ [] := by
      cases hab : afterBlanks r with
      | nil => exact absurd (Or.inl hab) hend
      | cons c t =>
        have h1 : is_blank c = false := hnb c (by rw [hab]; rfl)
        have h2 : c ≠ 10 := fun h => hend (Or.inr (Or.inl (by rw [hab, h]; rfl)))
        have h3 : is_comment r c = false := by
          by_contra h
          have h' : is_comment r c = true := by simpa using h
          simp only [is_comment, Bool.and_eq_true, beq_iff_eq, bne_iff_ne, ne_eq] at h'
          exact hend (Or.inr (Or.inr ⟨h'.1, by rw [hab, h'.2]; rfl⟩))
        have h4 : (!endsField r c) = true := by
          simp [endsField, h1, h2, h3]
        rw [List.takeWhile_cons, if_pos h4]
        exact List.cons_ne_nil _ _
    have hd' : r.buf.drop r.pos = (r.buf.drop r.pos).takeWhile is_blank
        ++ (afterBlanks r).takeWhile (fun c => !endsField r c)
        ++ (afterBlanks r).dropWhile (fun c => !endsField r c) := by
      rw [List.append_assoc, ← hsplit]
      exact hd
    obtain ⟨v1, v2, v3, v4⟩ := view_of_field r _ _ _ hlen hd' hfld
    rw [string_ws_field r sl _ _ _ hd0 herr hlen hd' hbl hfld hf hsuf]
    refine ⟨rfl, rfl, List.length_pos.2 hfld, v1, v2, ?_, ?_, rfl⟩
    · intro c hc
      have hc' : c ∈ view r (r.pos + ((r.buf.drop r.pos).takeWhile is_blank).length,
          ((afterBlanks r).takeWhile (fun c => !endsField r c)).length) := hc
      rw [v2] at hc'
      exact hf c hc'
    · cases hsf : (afterBlanks r).dropWhile (fun c => !endsField r c) with
      | nil => exact Or.inl (v3 hsf)
      | cons c t =>
        right
        have hh : ((afterBlanks r).dropWhile (fun c => !endsField r c)).head? = some c := by
          rw [hsf]; rfl
        have hg := v4 c hh
        show endsField r (bufAt r (r.pos + ((r.buf.drop r.pos).takeWhile is_blank).length
          + ((afterBlanks r).takeWhile (fun c => !endsField r c)).length)) = true
        rw [hg]
        exact hs0 c hh

/-- C23, witness: on `"  ab cd # x\n"` with the comment marker `#`, the string
read gives the views of `ab` and then of `cd`, and the third read fails with
`T_EOL` at the comment. -/
theorem C23_witness :
    ((read_table_string (first_line "  ab cd # x\n" 0 35 false) (0, 0)).1 = 0
      ∧ (read_table_string (first_line "  ab cd # x\n" 0 35 false) (0, 0)).2.2 = (2, 2)
      ∧ view (first_line "  ab cd # x\n" 0 35 false)
          (read_table_string (first_line "  ab cd # x\n" 0 35 false) (0, 0)).2.2
        = (afterBlanks (first_line "  ab cd # x\n" 0 35 false)).takeWhile
            (fun c => !endsField (first_line "  ab cd # x\n" 0 35 false) c)
      ∧ view (first_line "  ab cd # x\n" 0 35 false) (2, 2) = bytes "ab")
    ∧ ((read_table_string (read_table_string (read_table_string
          (first_line "  ab cd # x\n" 0 35 false) (0, 0)).2.1 (0, 0)).2.1 (7, 7)).1 = 1
      ∧ (read_table_string (read_table_string (read_table_string
          (first_line "  ab cd # x\n" 0 35 false) (0, 0)).2.1 (0, 0)).2.1 (7, 7)).2.1.last_error
        = T_EOL
      ∧ (read_table_string (read_table_string (read_table_string
          (first_line "  ab cd # x\n" 0 35 false) (0, 0)).2.1 (0, 0)).2.1 (7, 7)).2.2 = (7, 7)) :=
  ⟨⟨((C23_string_whitespace_mode (first_line "  ab cd # x\n" 0 35 false) (0, 0) (by decide)
        (by decide) (by decide) (by decide)).2 (by decide)).1,
    by decide,
    ((C23_string_whitespace_mode (first_line "  ab cd # x\n" 0 35 false) (0, 0) (by decide)
        (by decide) (by decide) (by decide)).2 (by decide)).2.2.2.2.1,
    by decide⟩,
   (C23_string_whitespace_mode (read_table_string (read_table_string
      (first_line "  ab cd # x\n" 0 35 false) (0, 0)).2.1 (0, 0)).2.1 (7, 7) (by decide)
      (by decide) (by decide) (by decide)).1 (by decide)⟩

/-- C24: the accessors (last error, error text, current line, position, column)
do not modify the reader.  Every accessor call leaves the reader as it was;
after any sequence of accessor calls the reader is unchanged, and each call has
returned what it returns on the reader as it was at the start; in particular
`get_last_error` called `n` times in a row returns the same code `n` times.
The C functions return what the methods return. -/
theorem C24_accessors_are_pure (r : read_table) :
    (∀ g : Getter, (g.call r).2 = r)
    ∧ (∀ gs : List Getter, (run_getters r gs).2 = r
        ∧ (run_getters r gs).1 = gs.map (fun g => (g.call r).1))
    ∧ (∀ n : Nat,
        (run_getters r (List.replicate n Getter.get_last_error)).1
          = List.replicate n (Answer.code r.last_error)
        ∧ (run_getters r (List.replicate n Getter.get_last_error)).2 = r)
    ∧ (read_table_get_last_error r = read_table2.get_last_error r
      ∧ read_table_get_last_error_str r = read_table2.get_last_error_str r
      ∧ read_table_get_line r = read_table2.get_line r
      ∧ read_table_get_pos r = read_table2.get_pos r
      ∧ read_table_get_col r = read_table2.get_col r) := by
  have h1 : ∀ g : Getter, (g.call r).2 = r := by
    intro g; cases g <;> rfl
  have h2 : ∀ gs : List Getter, (run_getters r gs).2 = r
      ∧ (run_getters r gs).1 = gs.map (fun g => (g.call r).1) := by
    intro gs
    induction gs with
    | nil => exact ⟨rfl, rfl⟩
    | cons g gs ih =>
      have e1 : (run_getters r (g :: gs)).2 = (run_getters (g.call r).2 gs).2 := rfl
      have e2 : (run_getters r (g :: gs)).1 = (g.call r).1 :: (run_getters (g.call r).2 gs).1 := rfl
      rw [e1, e2, h1 g]
      exact ⟨ih.1, by rw [ih.2]; rfl⟩
  refine ⟨h1, h2, ?_, rfl, rfl, rfl, rfl, rfl⟩
  intro n
  refine ⟨?_, (h2 _).1⟩
  rw [(h2 _).2, List.map_replicate]
  rfl

/-- C25: every typed numeric read (the six integer widths, bounded or not, and
both floating-point reads) begins with the pre-check, and when the pre-check
fails the read returns failure with the reader exactly as the pre-check left
it and the output untouched (the 16-bit reads copy their uninitialised local).
The pre-check leaves the column alone and moves the cursor over spaces/tabs
only; the error it leaves is `T_EOL` or `T_MISSING`, unless one of the errors
that block field reads was pending, which then stays with the reader
unchanged. -/
theorem C25_pre_check_first (env : Env) (r : read_table)
    (h : (read_table_pre_check r).1 ≠ 0) :
    (∀ i mn mx, read_table_int16_limits r i mn mx
        = (1, (read_table_pre_check r).2, to_signed 16 i))
    ∧ (∀ i mn mx, read_table_uint16_limits r i mn mx
        = (1, (read_table_pre_check r).2, to_unsigned 16 i))
    ∧ (∀ i mn mx, read_table_int32_limits r i mn mx = (1, (read_table_pre_check r).2, i))
    ∧ (∀ i mn mx, read_table_uint32_limits r i mn mx = (1, (read_table_pre_check r).2, i))
    ∧ (∀ i mn mx, read_table_int64_limits r i mn mx = (1, (read_table_pre_check r).2, i))
    ∧ (∀ i mn mx, read_table_uint64_limits r i mn mx = (1, (read_table_pre_check r).2, i))
    ∧ (∀ d, read_table_double env r d = (1, (read_table_pre_check r).2, d))
    ∧ (∀ d mn mx, read_table_double_limits env r d mn mx = (1, (read_table_pre_check r).2, d))
    ∧ (∀ val, val.isInteger = true ∨ val.isDouble = true →
        (read_table_next env r val).1 = 1
        ∧ (read_table_next env r val).2.1 = (read_table_pre_check r).2)
    ∧ (¬ blocking r.last_error → (read_table_pre_check r).2.last_error = T_EOL
        ∨ (read_table_pre_check r).2.last_error = T_MISSING)
    ∧ (blocking r.last_error → (read_table_pre_check r).2 = r)
    ∧ (read_table_pre_check r).2.col = r.col
    ∧ ∃ k, (read_table_pre_check r).2.pos = r.pos + k
        ∧ (∀ j, j < k → is_blank (bufAt r (r.pos + j)) = true)
        ∧ (read_table_pre_check r).2
            = { r with pos := r.pos + k, last_error := (read_table_pre_check r).2.last_error } := by
  have h1 : (read_table_pre_check r).1 = 1 := by
    rcases pre_check_ret r with h0 | h0
    · exact absurd h0 h
    · exact h0
  obtain ⟨k, hk1, hk2, _⟩ := pre_check_cursor r
  refine ⟨fun i mn mx => int16_of_pre_fail r i mn mx h1,
    fun i mn mx => uint16_of_pre_fail r i mn mx h1,
    fun i mn mx => int32_of_pre_fail r i mn mx h1,
    fun i mn mx => uint32_of_pre_fail r i mn mx h1,
    fun i mn mx => int64_of_pre_fail r i mn mx h1,
    fun i mn mx => uint64_of_pre_fail r i mn mx h1,
    fun d => double_of_pre_fail env r d h1,
    fun d mn mx => double_limits_of_pre_fail env r d mn mx h1,
    fun val hv => outcome_pre_fail (next_outcome env r val hv) h,
    (pre_check_fail_error r h).1, (pre_check_fail_error r h).2,
    (pre_check_fail r h).2, k, ?_, hk2, hk1⟩
  rw [hk1]

/-- C25, witness: on `" \n"` (loaded without skipping) every read ends with
`T_EOL` and the cursor past the space; on `",5\n"` with the delimiter `,` with
`T_MISSING` and the cursor on the delimiter. -/
theorem C25_witness :
    read_table_int32_limits (first_line " \n" 0 0 false) 7 0 9
      = (1, { first_line " \n" 0 0 false with pos := 1, last_error := T_EOL }, 7)
    ∧ read_table_double_limits env0 (first_line ",5\n" 44 0 true) (Dbl.fin 1) (Dbl.fin 0)
        (Dbl.fin 9)
      = (1, { first_line ",5\n" 44 0 true with pos := 0, last_error := T_MISSING }, Dbl.fin 1) :=
  ⟨(C25_pre_check_first env0 (first_line " \n" 0 0 false) (by decide)).2.2.1 7 0 9,
   (C25_pre_check_first env0 (first_line ",5\n" 44 0 true) (by decide)).2.2.2.2.2.2.2.1
     (Dbl.fin 1) (Dbl.fin 0) (Dbl.fin 9)⟩

/-- C26: `read_table_int16_limits` and `read_table_uint16_limits` return the
status and leave the reader (error, cursor and column among the rest) of the
32-bit bounded read called with the same bounds; and whenever the 32-bit read
stores a value, which it does exactly when the pre-check passes, that value lies
in the 16-bit range, so that the narrowed output equals it. -/
theorem C26_sixteen_bit_reads (r : read_table) :
    (∀ i2 mn mx, INT16_MIN ≤ mn → mn ≤ INT16_MAX → INT16_MIN ≤ mx → mx ≤ INT16_MAX →
        (read_table_int16_limits r i2 mn mx).1 = (read_table_int32_limits r i2 mn mx).1
        ∧ (read_table_int16_limits r i2 mn mx).2.1 = (read_table_int32_limits r i2 mn mx).2.1
        ∧ ((read_table_pre_check r).1 = 0 →
            INT16_MIN ≤ (read_table_int32_limits r i2 mn mx).2.2
            ∧ (read_table_int32_limits r i2 mn mx).2.2 ≤ INT16_MAX
            ∧ (read_table_int16_limits r i2 mn mx).2.2
                = (read_table_int32_limits r i2 mn mx).2.2)
        ∧ ((read_table_pre_check r).1 ≠ 0 → (read_table_int32_limits r i2 mn mx).2.2 = i2))
    ∧ (∀ i2 mn mx, mn ≤ UINT16_MAX → mx ≤ UINT16_MAX →
        (read_table_uint16_limits r i2 mn mx).1 = (read_table_uint32_limits r i2 mn mx).1
        ∧ (read_table_uint16_limits r i2 mn mx).2.1 = (read_table_uint32_limits r i2 mn mx).2.1
        ∧ ((read_table_pre_check r).1 = 0 →
            (read_table_uint32_limits r i2 mn mx).2.2 ≤ UINT16_MAX
            ∧ (read_table_uint16_limits r i2 mn mx).2.2
                = (read_table_uint32_limits r i2 mn mx).2.2)
        ∧ ((read_table_pre_check r).1 ≠ 0 → (read_table_uint32_limits r i2 mn mx).2.2 = i2)) := by
  constructor
  · intro i2 mn mx h1 h2 h3 h4
    refine ⟨rfl, rfl, ?_, ?_⟩
    · intro hp
      obtain ⟨ha, hb⟩ := int32_stored r i2 mn mx INT16_MIN INT16_MAX hp h1 h2 h3 h4
        (by decide) (by decide)
      exact ⟨ha, hb, to_signed_16 _ ha hb⟩
    · intro hp
      have h1 : (read_table_pre_check r).1 = 1 := by
        rcases pre_check_ret r with h0 | h0
        · exact absurd h0 hp
        · exact h0
      rw [int32_of_pre_fail r i2 mn mx h1]
  · intro i2 mn mx h2 h4
    refine ⟨rfl, rfl, ?_, ?_⟩
    · intro hp
      have ha := uint32_stored r i2 mn mx UINT16_MAX hp h2 h4 (by decide)
      exact ⟨ha, to_unsigned_16 _ ha⟩
    · intro hp
      have h1 : (read_table_pre_check r).1 = 1 := by
        rcases pre_check_ret r with h0 | h0
        · exact absurd h0 hp
        · exact h0
      rw [uint32_of_pre_fail r i2 mn mx h1]

/-- C26, witness: the field `70000` read with the 16-bit bounds [-5, 100] and
the field `123` read with the bounds [0, 65535]. -/
theorem C26_witness :
    ((read_table_int32_limits (first_line "70000 1\n" 0 0 true) 0 (-5) 100).2.2 = 100
      ∧ (read_table_int16_limits (first_line "70000 1\n" 0 0 true) 0 (-5) 100).2.2
        = (read_table_int32_limits (first_line "70000 1\n" 0 0 true) 0 (-5) 100).2.2)
    ∧ ((read_table_uint32_limits (first_line "123 1\n" 0 0 true) 0 0 65535).2.2 = 123
      ∧ (read_table_uint16_limits (first_line "123 1\n" 0 0 true) 0 0 65535).2.2
        = (read_table_uint32_limits (first_line "123 1\n" 0 0 true) 0 0 65535).2.2) :=
  ⟨⟨by decide,
    ((C26_sixteen_bit_reads (first_line "70000 1\n" 0 0 true)).1 0 (-5) 100 (by decide)
      (by decide) (by decide) (by decide)).2.2.1 (by decide) |>.2.2⟩,
   ⟨by decide,
    ((C26_sixteen_bit_reads (first_line "123 1\n" 0 0 true)).2 0 0 65535 (by decide)
      (by decide)).2.2.1 (by decide) |>.2⟩⟩

/-- C27: the `unsigned long long` path of `read_table_uint64_limits` (taken where
`ULONG_MAX < UINT64_MAX`) compares the uninitialised local `res`, not the parse
result `res2`, with the lower bound, and clamps by `res`.  (a) With `res`
holding 0, the field `5` read with the bounds [1, 10] ends with `T_OVERFLOW` and
the output 1, where the `unsigned long` path returns success with 5.  (b)
Whatever `res` holds (it is below `2 ^ 32`), the field `18446744073709551615`
read with both bounds `UINT64_MAX` ends with `T_OVERFLOW`, where the `unsigned
long` path returns success.  (c) With `res` holding 7, the field `20` read with
the bounds [5, 10] ends with `T_OVERFLOW` on both paths, but the output is left
as the caller passed it (3), where the `unsigned long` path stores the bound 10.
(d) With the bounds of the unbounded read, [0, `UINT64_MAX`], the two paths
agree. -/
theorem C27_long_long_path :
    (read_table_uint64_limits (first_line "5\n" 0 0 true) 3 1 10
        = (0, { first_line "5\n" 0 0 true with pos := 1 }, 5)
      ∧ read_table_uint64_limits_ull 0 (first_line "5\n" 0 0 true) 3 1 10
        = (1, { first_line "5\n" 0 0 true with last_error := T_OVERFLOW }, 1))
    ∧ (∀ res : Nat,
        read_table_uint64_limits_ull (res % 2 ^ 32)
            (first_line "18446744073709551615\n" 0 0 true) 3 UINT64_MAX UINT64_MAX
          = (1, { first_line "18446744073709551615\n" 0 0 true with last_error := T_OVERFLOW },
              UINT64_MAX)
        ∧ read_table_uint64_limits
            (first_line "18446744073709551615\n" 0 0 true) 3 UINT64_MAX UINT64_MAX
          = (0, { first_line "18446744073709551615\n" 0 0 true with pos := 20 }, UINT64_MAX))
    ∧ (read_table_uint64_limits (first_line "20\n" 0 0 true) 3 5 10
        = (1, { first_line "20\n" 0 0 true with last_error := T_OVERFLOW }, 10)
      ∧ read_table_uint64_limits_ull 7 (first_line "20\n" 0 0 true) 3 5 10
        = (1, { first_line "20\n" 0 0 true with last_error := T_OVERFLOW }, 3))
    ∧ (∀ (res : Nat) (r : read_table) (i : Nat),
        read_table_uint64_limits_ull res r i 0 UINT64_MAX
          = read_table_uint64_limits r i 0 UINT64_MAX) := by
  refine ⟨by decide, ?_, by decide, ull_full_range⟩
  intro res
  refine ⟨?_, by decide⟩
  have h := ull_res_below_min (res % 2 ^ 32) (first_line "18446744073709551615\n" 0 0 true) 3
    UINT64_MAX UINT64_MAX (by decide) (by decide)
    (by unfold UINT64_MAX; omega)
  rw [h]
  decide

/-- C29: when an integer read of any width, bounded or not, ends with
`T_OVERFLOW`, it has returned failure, the pre-check had passed, and the reader
is the one the pre-check left with only the error set: the column is unchanged
and the cursor has moved over spaces/tabs only, onto a byte of the line that is
no newline (and no space or tab, when the cursor started inside the line): the
first byte of the field the read rejected. -/
theorem C29_overflow_position (env : Env) (r : read_table) (val : Field)
    (hv : val.isInteger = true)
    (ho : (read_table_next env r val).2.1.last_error = T_OVERFLOW) :
    (read_table_next env r val).1 = 1
    ∧ (read_table_pre_check r).1 = 0
    ∧ (read_table_next env r val).2.1
        = { (read_table_pre_check r).2 with last_error := T_OVERFLOW }
    ∧ (read_table_next env r val).2.1.col = r.col
    ∧ (∃ k, (read_table_next env r val).2.1.pos = r.pos + k
        ∧ (∀ j, j < k → is_blank (bufAt r (r.pos + j)) = true)
        ∧ (read_table_next env r val).2.1
            = { r with pos := r.pos + k, last_error := T_OVERFLOW })
    ∧ (read_table_next env r val).2.1.pos ≠ r.line_len
    ∧ bufAt r (read_table_next env r val).2.1.pos ≠ 10
    ∧ (r.pos ≤ r.line_len → (read_table_next env r val).2.1.pos < r.line_len
        ∧ is_blank (bufAt r (read_table_next env r val).2.1.pos) = false) := by
  have hout := next_outcome env r val (Or.inl hv)
  have hd : val.isDouble = false := by
    cases val <;> first | rfl | (simp [Field.isInteger] at hv)
  rw [hd] at hout
  obtain ⟨h1, h2⟩ := outcome_overflow_reader hout ho
  have hp := outcome_overflow hout ho
  obtain ⟨k, hk1, hk2, _⟩ := pre_check_cursor r
  obtain ⟨_, p2, p3, p4⟩ := pre_check_pass_cursor r hp
  rw [h2]
  refine ⟨h1, hp, rfl, ?_, ⟨k, ?_, hk2, ?_⟩, p2, p3, p4⟩
  · show (read_table_pre_check r).2.col = r.col
    rw [hk1]
  · show (read_table_pre_check r).2.pos = r.pos + k
    rw [hk1]
  · rw [hk1]

/-- C29, witness: on `"7  70000 1\n"` after the first field, the 16-bit read
of `70000` ends with `T_OVERFLOW`, the cursor on the `7` of `70000` (offset 3)
and the column still 1; so does the 64-bit read of a number beyond 64 bits. -/
theorem C29_witness :
    ((read_table_next env0 (read_table_int32 (first_line "7  70000 1\n" 0 0 true) 0).2.1
        (Field.int16 0)).2.1.pos = 3
      ∧ (read_table_next env0 (read_table_int32 (first_line "7  70000 1\n" 0 0 true) 0).2.1
        (Field.int16 0)).2.1.col = 1
      ∧ (read_table_int32 (first_line "7  70000 1\n" 0 0 true) 0).2.1.col = 1
      ∧ (read_table_next env0 (read_table_int32 (first_line "7  70000 1\n" 0 0 true) 0).2.1
        (Field.int16 0)).2.1.col
          = (read_table_int32 (first_line "7  70000 1\n" 0 0 true) 0).2.1.col)
    ∧ (read_table_next env0 (first_line " 99999999999999999999 1\n" 0 0 false)
        (Field.int64 0)).2.1
      = { Prod.snd (read_table_pre_check (first_line " 99999999999999999999 1\n" 0 0 false)) with
          last_error := T_OVERFLOW } :=
  ⟨⟨by decide, by decide, by decide,
    (C29_overflow_position env0 (read_table_int32 (first_line "7  70000 1\n" 0 0 true) 0).2.1
      (Field.int16 0) rfl (by decide)).2.2.2.1⟩,
   (C29_overflow_position env0 (first_line " 99999999999999999999 1\n" 0 0 false)
      (Field.int64 0) rfl (by decide)).2.2.1⟩

/-- C30: from any state with none of the errors pending that block a string
read, in either delimiter mode: whenever skip returns success, the string read
from the same state returns success too and leaves the cursor at the same
position; the string read leaves the column alone, skip increments it and sets
the error to `T_OK`, and the two readers differ in nothing else. -/
theorem C30_skip_and_string (r : read_table) (sl : Nat × Nat)
    (herr : ¬ blocking r.last_error) (h : (read_table_skip r).1 = 0) :
    (read_table_string r sl).1 = 0
    ∧ (read_table_string r sl).2.1.pos = (read_table_skip r).2.pos
    ∧ (read_table_string r sl).2.1.col = r.col
    ∧ (read_table_skip r).2.col = r.col + 1
    ∧ (read_table_skip r).2.last_error = T_OK
    ∧ (read_table_skip r).2
        = { (read_table_string r sl).2.1 with col := r.col + 1, last_error := T_OK } := by
  unfold read_table_skip at h ⊢
  unfold read_table_string
  by_cases hd : r.delim ≠ 0
  · rw [if_pos hd] at h ⊢
    rw [if_pos hd, if_neg herr]
    by_cases hp : r.pos = r.line_len
    · rw [if_pos hp] at h
      exact absurd h Nat.one_ne_zero
    · rw [if_neg hp]
      simp only []
      split_ifs <;> (refine ⟨?_, ?_, ?_, ?_, ?_, ?_⟩ <;> first | rfl | trivial)
  · rw [if_neg hd] at h ⊢
    rw [if_neg hd]
    unfold read_table_pre_check
    rw [if_neg herr]
    simp only [] at h ⊢
    by_cases he : scan (fun c => !is_blank c) r r.pos = r.line_len
        ∨ bufAt { r with pos := scan (fun c => !is_blank c) r r.pos }
            (scan (fun c => !is_blank c) r r.pos) = 10
        ∨ is_comment { r with pos := scan (fun c => !is_blank c) r r.pos }
            (bufAt { r with pos := scan (fun c => !is_blank c) r r.pos }
              (scan (fun c => !is_blank c) r r.pos)) = true
    · rw [if_pos he] at h
      exact absurd h Nat.one_ne_zero
    · rw [if_neg he, if_neg he]
      have hd0 : r.delim = 0 := not_not.mp hd
      have hnd : ¬ (r.delim ≠ 0 ∧ bufAt { r with pos := scan (fun c => !is_blank c) r r.pos }
          (scan (fun c => !is_blank c) r r.pos) = r.delim) := fun hc => hc.1 hd0
      rw [if_neg hnd]
      simp only [ne_eq, not_true_eq_false, if_false]
      refine ⟨?_, ?_, ?_, ?_, ?_, ?_⟩ <;> first | rfl | trivial

/-- C30, witness: on `"ab cd\n"` in whitespace-run mode and on `"ab,cd\n"` with
the delimiter `,`, skip and the string read both pass the first field. -/
theorem C30_witness :
    ((read_table_string (first_line "ab cd\n" 0 0 true) (0, 0)).1 = 0
      ∧ (read_table_string (first_line "ab cd\n" 0 0 true) (0, 0)).2.1.pos = 2
      ∧ (read_table_skip (first_line "ab cd\n" 0 0 true)).2.pos = 2)
    ∧ ((read_table_string (first_line "ab,cd\n" 44 0 true) (0, 0)).1 = 0
      ∧ (read_table_string (first_line "ab,cd\n" 44 0 true) (0, 0)).2.1.pos = 3
      ∧ (read_table_skip (first_line "ab,cd\n" 44 0 true)).2.pos = 3) :=
  ⟨⟨(C30_skip_and_string (first_line "ab cd\n" 0 0 true) (0, 0) (by decide) (by decide)).1,
    by decide, by decide⟩,
   ⟨(C30_skip_and_string (first_line "ab,cd\n" 44 0 true) (0, 0) (by decide) (by decide)).1,
    by decide, by decide⟩⟩

/-- Claim C31: on every non-empty vector of (address, value) pairs whose values
are `int64_t`, `tx::vector_compress` gives a vector strictly increasing by
address, with the same set of addresses, in which every pair carries the sum of
the input values of its address in wrap-around 64-bit arithmetic, so the total
is preserved modulo `2 ^ 64`; and the merge loop gives this same vector on
whichever sorted arrangement of the input `std::sort` produces. -/
theorem C31_vector_compress (vec : List (Int × Int)) (hne : vec ≠ [])
    (hrange : ∀ p ∈ vec, INT64_MIN ≤ p.2 ∧ p.2 ≤ INT64_MAX) :
    List.Pairwise (fun a b : Int × Int => a.1 < b.1) (tx.vector_compress vec)
    ∧ (∀ a, a ∈ (tx.vector_compress vec).map Prod.fst ↔ a ∈ vec.map Prod.fst)
    ∧ (∀ p ∈ tx.vector_compress vec, p.2 = to_signed 64 (value_of p.1 vec))
    ∧ to_signed 64 ((tx.vector_compress vec).map Prod.snd).sum
        = to_signed 64 (vec.map Prod.snd).sum
    ∧ ∀ s : List (Int × Int), s.Perm vec →
        List.Pairwise (fun a b : Int × Int => a.1 ≤ b.1) s →
        (tx.compress_loop (s.length - 1) s 0 1).1.take
          ((tx.compress_loop (s.length - 1) s 0 1).2 + 1) = tx.vector_compress vec := by
  have h0 := merge_loop_facts vec (tx.sort vec) hne hrange (tx_sort_perm vec) (tx_sort_sorted vec)
  refine ⟨h0.1, h0.2.1, h0.2.2.1, h0.2.2.2, ?_⟩
  intro s hperm hs
  have h1 := merge_loop_facts vec s hne hrange hperm hs
  exact strict_vector_unique (fun a => to_signed 64 (value_of a vec)) _ _ h1.1 h0.1
    (fun a => (h1.2.1 a).trans (h0.2.1 a).symm) h1.2.2.1 h0.2.2.1

theorem C31_vector_compress_witness :
    tx.vector_compress [(3, 5), (1, 2), (3, 4), (2, 9223372036854775807), (2, 1), (1, 1)]
      = [(1, 3), (2, -9223372036854775808), (3, 9)]
    ∧ List.Pairwise (fun a b : Int × Int => a.1 < b.1)
        (tx.vector_compress [(3, 5), (1, 2), (3, 4), (2, 9223372036854775807), (2, 1), (1, 1)])
    ∧ to_signed 64 ((tx.vector_compress
        [(3, 5), (1, 2), (3, 4), (2, 9223372036854775807), (2, 1), (1, 1)]).map Prod.snd).sum
        = to_signed 64 (([(3, 5), (1, 2), (3, 4), (2, 9223372036854775807), (2, 1),
            ((1 : Int), (1 : Int))]).map Prod.snd).sum :=
  ⟨by decide,
   (C31_vector_compress [(3, 5), (1, 2), (3, 4), (2, 9223372036854775807), (2, 1), (1, 1)]
      (by decide) (by decide)).1,
   (C31_vector_compress [(3, 5), (1, 2), (3, 4), (2, 9223372036854775807), (2, 1), (1, 1)]
      (by decide) (by decide)).2.2.2.1⟩

/-- Claim C32: the loop over the edge iterator of a transaction visits exactly
`|inputs| * |outputs|` edges before `is_end` is true, the edge of every pair of
an input and an output in input-major order, each with the transaction id and
the two addresses of its pair; with no inputs or no outputs the iterator is at
its end from the start, and `operator++` on an iterator at its end changes
nothing. -/
theorem C32_iterator_enumerates (fo : FloatOps) (t : tx) (e0 : txedge)
    (h : t.txid < 2 ^ 32) (fuel : Nat) (hfuel : t.inputs.length * t.outputs.length ≤ fuel) :
    (tx.iterator.visit fo fuel (tx.get_iterator fo t e0)).1
      = t.inputs.flatMap (fun a => t.outputs.map (fun b =>
          edge_of fo t.txid (tx.get_iterator fo t e0).sum a b))
    ∧ (tx.iterator.visit fo fuel (tx.get_iterator fo t e0)).1.length
        = t.inputs.length * t.outputs.length
    ∧ (∀ a ∈ t.inputs, ∀ b ∈ t.outputs,
        (edge_of fo t.txid (tx.get_iterator fo t e0).sum a b).txid = t.txid
        ∧ (edge_of fo t.txid (tx.get_iterator fo t e0).sum a b).addr_in = a.1
        ∧ (edge_of fo t.txid (tx.get_iterator fo t e0).sum a b).addr_out = b.1)
    ∧ (tx.iterator.visit fo fuel (tx.get_iterator fo t e0)).2.is_end = true
    ∧ ((t.inputs = [] ∨ t.outputs = []) → (tx.get_iterator fo t e0).is_end = true)
    ∧ ∀ it : tx.iterator, it.is_end = true → it.incr fo = it := by
  have key : (tx.iterator.visit fo fuel (tx.get_iterator fo t e0)).1
      = t.inputs.flatMap (fun a => t.outputs.map (fun b =>
          edge_of fo t.txid (tx.get_iterator fo t e0).sum a b))
      ∧ (tx.iterator.visit fo fuel (tx.get_iterator fo t e0)).2.is_end = true := by
    by_cases he : t.inputs = [] ∨ t.outputs = []
    · rw [iterator_visit_end fo fuel _ (iterator_mk_empty fo t e0 he)]
      refine ⟨?_, iterator_mk_empty fo t e0 he⟩
      rcases he with he | he
      · rw [he]; rfl
      · rw [he]; simp
    · have h1 : 0 < t.inputs.length := by
        rcases hl : t.inputs with _ | ⟨x, xs⟩
        · exact absurd (Or.inl hl) he
        · simp
      have h2 : 0 < t.outputs.length := by
        rcases hl : t.outputs with _ | ⟨x, xs⟩
        · exact absurd (Or.inr hl) he
        · simp
      have hm : tx.get_iterator fo t e0
          = iterator_at fo (tx.get_iterator fo t e0).sum t.txid t.inputs t.outputs 0 0 :=
        iterator_mk_at fo t e0 h h1 h2
      have hv := iterator_visit_at fo (tx.get_iterator fo t e0).sum t.txid h t.inputs t.outputs
        ((t.inputs.length - 0 - 1) * t.outputs.length + (t.outputs.length - 0)) 0 0 h1 h2 rfl
        fuel (by
          have e1 : t.inputs.length = (t.inputs.length - 0 - 1) + 1 := by omega
          rw [e1, Nat.add_mul] at hfuel
          omega)
      rw [← hm] at hv
      refine ⟨?_, hv.2⟩
      rw [hv.1]
      obtain ⟨x, xs, hl⟩ := List.exists_cons_of_length_pos h1
      rw [hl]
      simp
  refine ⟨key.1, ?_, ?_, key.2, iterator_mk_empty fo t e0, ?_⟩
  · rw [key.1]
    exact length_flatMap_const _ _ _ (fun a => List.length_map _ _)
  · intro a _ b _
    exact ⟨rfl, rfl, rfl⟩
  · intro it hit
    unfold tx.iterator.incr
    rw [if_pos (by unfold tx.iterator.is_end at hit; simpa using hit)]

theorem C32_iterator_enumerates_witness :
    (tx_example.txid < 2 ^ 32 ∧ tx_example.inputs.length * tx_example.outputs.length ≤ 6)
    ∧ ((tx.iterator.visit fo_exact 6
          (tx.get_iterator fo_exact tx_example ⟨0, 0, 0, Dbl.fin 0⟩)).1.map
          (fun e => (e.txid, e.addr_in, e.addr_out))
        = [(4000000000, 1, 5), (4000000000, 1, 7), (4000000000, 1, 9),
           (4000000000, 3, 5), (4000000000, 3, 7), (4000000000, 3, 9)])
    ∧ (tx.iterator.visit fo_exact 6
          (tx.get_iterator fo_exact tx_example ⟨0, 0, 0, Dbl.fin 0⟩)).1.length = 2 * 3
    ∧ (tx.iterator.visit fo_exact 6
          (tx.get_iterator fo_exact tx_example ⟨0, 0, 0, Dbl.fin 0⟩)).2.is_end = true :=
  ⟨⟨by decide, by decide⟩,
   by
    rw [(C32_iterator_enumerates fo_exact tx_example ⟨0, 0, 0, Dbl.fin 0⟩
      (by decide) 6 (by decide)).1]
    rfl,
   (C32_iterator_enumerates fo_exact tx_example ⟨0, 0, 0, Dbl.fin 0⟩
      (by decide) 6 (by decide)).2.1,
   (C32_iterator_enumerates fo_exact tx_example ⟨0, 0, 0, Dbl.fin 0⟩
      (by decide) 6 (by decide)).2.2.2.1⟩

/-- Claim C33: on two record iterators that yield well-formed streams sorted by
non-decreasing transaction id, every one of `n` successive calls of
`tx::read_next` returns (with fuel above the number of records); the calls
return true once for each id that occurs in both streams, in increasing order,
each time holding the id with all input records and all output records of that
id merged per address, and return false from then on. -/
theorem C33_read_next_joins (t : tx) (ins outs : List txrecord) (fuel : Nat)
    (hin : Yields t.in_ ins) (hout : Yields t.out outs)
    (hsi : SortedById ins) (hso : SortedById outs)
    (hf : ins.length + outs.length + 2 ≤ fuel) :
    ∃ ids : List Nat, List.Pairwise (fun a b : Nat => a < b) ids
      ∧ (∀ j, j ∈ ids ↔ j ∈ ids_of ins ∧ j ∈ ids_of outs)
      ∧ ∀ n, tx.calls fuel n t = Ended.returned
          ((ids.map (fun id => some (id, tx.vector_compress (records_of id ins),
              tx.vector_compress (records_of id outs)))).take n
            ++ List.replicate (n - ids.length) none) :=
  calls_join ins.length ins outs t fuel (le_refl _) hin hout hsi hso hf

set_option maxRecDepth 100000 in
theorem C33_read_next_joins_witness :
    (Yields (tx.mk in_example out_example 0).in_
        [⟨1, 7, 100⟩, ⟨1, 8, 50⟩, ⟨3, 7, 5⟩, ⟨4, 9, 1⟩, ⟨4, 9, 2⟩]
      ∧ Yields (tx.mk in_example out_example 0).out
        [⟨0, 1, 50⟩, ⟨1, 2, 150⟩, ⟨2, 2, 1⟩, ⟨4, 3, 3⟩, ⟨5, 3, 3⟩])
    ∧ (∃ ids : List Nat, List.Pairwise (fun a b : Nat => a < b) ids
      ∧ (∀ j, j ∈ ids ↔ j ∈ ids_of [⟨1, 7, 100⟩, ⟨1, 8, 50⟩, ⟨3, 7, 5⟩, ⟨4, 9, 1⟩, ⟨4, 9, 2⟩]
          ∧ j ∈ ids_of [⟨0, 1, 50⟩, ⟨1, 2, 150⟩, ⟨2, 2, 1⟩, ⟨4, 3, 3⟩, ⟨5, 3, 3⟩])
      ∧ ∀ n, tx.calls 12 n (tx.mk in_example out_example 0) = Ended.returned
          ((ids.map (fun id => some (id,
              tx.vector_compress (records_of id
                [⟨1, 7, 100⟩, ⟨1, 8, 50⟩, ⟨3, 7, 5⟩, ⟨4, 9, 1⟩, ⟨4, 9, 2⟩]),
              tx.vector_compress (records_of id
                [⟨0, 1, 50⟩, ⟨1, 2, 150⟩, ⟨2, 2, 1⟩, ⟨4, 3, 3⟩, ⟨5, 3, 3⟩])))).take n
            ++ List.replicate (n - ids.length) none))
    ∧ tx.calls 12 5 (tx.mk in_example out_example 0)
        = Ended.returned [some (1, [(7, 100), (8, 50)], [(2, 150)]),
            some (4, [(9, 3)], [(3, 3)]), none, none, none] :=
  ⟨⟨by decide, by decide⟩,
   C33_read_next_joins (tx.mk in_example out_example 0)
     [⟨1, 7, 100⟩, ⟨1, 8, 50⟩, ⟨3, 7, 5⟩, ⟨4, 9, 1⟩, ⟨4, 9, 2⟩]
     [⟨0, 1, 50⟩, ⟨1, 2, 150⟩, ⟨2, 2, 1⟩, ⟨4, 3, 3⟩, ⟨5, 3, 3⟩] 12
     (by decide) (by decide) (by decide) (by decide) (by decide),
   by rfl⟩

end ReadTable
